import Mathlib

/-!
Verification development for the Thread Leader Network Data manager
(`network_data_leader_ftd.cpp`).  The flat TLV byte buffer is embedded as a
structured tree: a registry is a list of top-level TLVs, each Prefix/Service
TLV carrying a list of sub-TLVs, and HasRoute/BorderRouter sub-TLVs carrying
lists of fixed-size entries.  Byte sizes of all TLVs are computed explicitly
so that the `CanInsert` capacity checks of the source are mirrored exactly.
-/

namespace ThreadLeader

/-- Error codes used by the Leader (mirroring `ot::Error`): `ok` stands for
`kErrorNone`, the others for `kErrorParse`, `kErrorNoBufs`, `kErrorNoRoute`,
`kErrorNotFound`, `kErrorDrop`. -/
inductive Error where
  | ok
  | parse
  | noBufs
  | noRoute
  | notFound
  | drop
deriving DecidableEq, Repr

/-- Match mode for RLOC16 comparison (`Leader::MatchMode`). -/
inductive MatchMode where
  | rloc16
  | routerId
deriving DecidableEq, Repr

/-- Modelled from the spec: `RLOC16: a 16-bit mesh locator; upper 10 bits are
the Router ID` — `Mle::RouterIdFromRloc16` is not part of the sources, so the
router id is taken to be the upper 10 bits of the 16-bit RLOC. -/
def routerIdFromRloc16 (r : Nat) : Nat := (r % 65536) / 64

/-- Mirrors `Leader::RlocMatch`: exact equality in `kMatchModeRloc16`, equal
router ids in `kMatchModeRouterId` (the latter via `Mle::RouterIdMatch`,
modelled from the spec as equality of the upper 10 bits). -/
def rlocMatch (aFirst aSecond : Nat) (mode : MatchMode) : Bool :=
  match mode with
  | .rloc16 => aFirst == aSecond
  | .routerId => routerIdFromRloc16 aFirst == routerIdFromRloc16 aSecond

/-- A `HasRouteEntry`: 16-bit RLOC plus one byte of preference/flags. -/
structure HREntry where
  rloc : Nat
  flags : Nat
deriving DecidableEq, Repr

/-- A `BorderRouterEntry`: 16-bit RLOC plus 16 bits of preference/flags. -/
structure BREntry where
  rloc : Nat
  flags : Nat
deriving DecidableEq, Repr

/-- A sub-TLV appearing inside a Prefix TLV or a Service TLV.  Every TLV
carries a stable flag.  `otherSub` covers any sub-TLV type the Leader code
does not inspect. -/
inductive SubTlv where
  | hasRoute (stable : Bool) (entries : List HREntry)
  | borderRouter (stable : Bool) (entries : List BREntry)
  | context (stable : Bool) (compress : Bool) (cid : Nat) (ctxLen : Nat)
  | server (stable : Bool) (server16 : Nat) (sdata : List Nat)
  | otherSub (stable : Bool) (typ : Nat) (payload : List Nat)
deriving DecidableEq, Repr

namespace SubTlv

/-- Stable flag of a sub-TLV (`NetworkDataTlv::IsStable`). -/
def isStable : SubTlv → Bool
  | hasRoute st _ => st
  | borderRouter st _ => st
  | context st _ _ _ => st
  | server st _ _ => st
  | otherSub st _ _ => st

/-- Recognizer for HasRoute sub-TLVs with a given stable flag
(`FindSubTlv<HasRouteTlv>(aStable)` match condition). -/
def isHRWith (stable : Bool) : SubTlv → Bool
  | hasRoute st _ => st == stable
  | _ => false

/-- Recognizer for BorderRouter sub-TLVs with a given stable flag. -/
def isBRWith (stable : Bool) : SubTlv → Bool
  | borderRouter st _ => st == stable
  | _ => false

/-- Recognizer for BorderRouter sub-TLVs of any stable flag
(`FindSubTlv<BorderRouterTlv>()`). -/
def isBR : SubTlv → Bool
  | borderRouter _ _ => true
  | _ => false

/-- Recognizer for Context sub-TLVs (`FindSubTlv<ContextTlv>()`). -/
def isCtx : SubTlv → Bool
  | context _ _ _ _ => true
  | _ => false

/-- Recognizer for Server sub-TLVs. -/
def isServer : SubTlv → Bool
  | server _ _ _ => true
  | _ => false

/-- Serialized size in bytes of a sub-TLV: a 2-byte header plus the payload
(3 bytes per HasRoute entry, 4 per BorderRouter entry, 2 for a Context TLV
body, 2 bytes of `server16` plus the server data for a Server TLV). -/
def size : SubTlv → Nat
  | hasRoute _ es => 2 + 3 * es.length
  | borderRouter _ es => 2 + 4 * es.length
  | context _ _ _ _ => 4
  | server _ _ d => 4 + d.length
  | otherSub _ _ pl => 2 + pl.length

end SubTlv

/-- The body of a Prefix TLV: domain id, prefix length in bits, the prefix
bytes, the parent stable flag, and the list of sub-TLVs. -/
structure PfxD where
  stable : Bool
  domainId : Nat
  prefixLength : Nat
  prefixBytes : List Nat
  subs : List SubTlv
deriving DecidableEq, Repr

/-- The body of a Service TLV: service id, enterprise number, service data,
the parent stable flag, and the list of sub-TLVs. -/
structure SrvD where
  stable : Bool
  serviceId : Nat
  enterprise : Nat
  serviceData : List Nat
  subs : List SubTlv
deriving DecidableEq, Repr

/-- A top-level Network Data TLV: a Prefix TLV, a Service TLV, or any other
TLV type, which the Leader accepts without inspection. -/
inductive NetTlv where
  | pfx (p : PfxD)
  | srv (v : SrvD)
  | other (stable : Bool) (typ : Nat) (payload : List Nat)
deriving DecidableEq, Repr

/-- Serialized size of a Prefix TLV: 2-byte header, domain id and prefix
length bytes, `ceil(prefixLength/8)` prefix bytes, plus the sub-TLVs
(`PrefixTlv::CalculateSize` plus children). -/
def PfxD.size (p : PfxD) : Nat :=
  4 + (p.prefixLength + 7) / 8 + (p.subs.map SubTlv.size).sum

/-- Base serialized size of an empty Prefix TLV of the given prefix length
(`PrefixTlv::CalculateSize`). -/
def pfxBaseSize (prefixLength : Nat) : Nat := 4 + (prefixLength + 7) / 8

/-- Serialized size of a Service TLV: 2-byte header, flags/service-id byte,
4-byte enterprise number, service-data length byte, service data, plus the
sub-TLVs (per the spec's ServiceTlv layout). -/
def SrvD.size (v : SrvD) : Nat :=
  8 + v.serviceData.length + (v.subs.map SubTlv.size).sum

/-- Base serialized size of an empty Service TLV
(`ServiceTlv::CalculateSize`). -/
def srvBaseSize (serviceDataLength : Nat) : Nat := 8 + serviceDataLength

/-- Serialized size of a top-level TLV. -/
def NetTlv.size : NetTlv → Nat
  | .pfx p => p.size
  | .srv v => v.size
  | .other _ _ pl => 2 + pl.length

/-- Total serialized length of a TLV list (`NetworkData::GetLength`). -/
def sizeAll (tlvs : List NetTlv) : Nat := (tlvs.map NetTlv.size).sum

/-- Capacity of the Network Data buffer (`kMaxSize`). -/
def kMaxSize : Nat := 254

/-- Prefix key equality used by `FindPrefix`: same prefix length and same
prefix bytes. -/
def pfxKeyMatch (prefixLength : Nat) (prefixBytes : List Nat) : NetTlv → Bool
  | .pfx p => p.prefixLength == prefixLength && p.prefixBytes == prefixBytes
  | _ => false

/-- Mirrors `NetworkData::FindPrefix`: first Prefix TLV with the given prefix
length and bytes. -/
def findPfx (tlvs : List NetTlv) (prefixLength : Nat) (prefixBytes : List Nat) :
    Option PfxD :=
  match tlvs.find? (pfxKeyMatch prefixLength prefixBytes) with
  | some (.pfx p) => some p
  | _ => none

/-- Service key equality used by `FindService` with `kServiceExactMatch`:
same enterprise number and same service data. -/
def srvKeyMatch (enterprise : Nat) (serviceData : List Nat) : NetTlv → Bool
  | .srv v => v.enterprise == enterprise && v.serviceData == serviceData
  | _ => false

/-- Mirrors `NetworkData::FindService` (exact match): first Service TLV with
the given enterprise number and service data. -/
def findSrv (tlvs : List NetTlv) (enterprise : Nat) (serviceData : List Nat) :
    Option SrvD :=
  match tlvs.find? (srvKeyMatch enterprise serviceData) with
  | some (.srv v) => some v
  | _ => none

/-! ## Validator -/

/-- Accumulator of the four found flags of `Leader::ValidatePrefix`. -/
structure Found4 where
  stableHR : Bool
  tempHR : Bool
  stableBR : Bool
  tempBR : Bool
deriving DecidableEq, Repr

/-- Entry-list condition checked by `ValidatePrefix` on a HasRoute or
BorderRouter sub-TLV: `GetFirstEntry() == GetLastEntry()` (exactly one entry)
and that entry's RLOC equals the claimed RLOC16. -/
def singleEntryOk (rloc : Nat) (getRloc : α → Nat) : List α → Bool
  | [e] => getRloc e == rloc
  | _ => false

/-- The loop of `Leader::ValidatePrefix`: walk the sub-TLVs, tracking which
of the four HasRoute/BorderRouter kinds were already seen (the C++ branches
on `IsStable()`, here split into literal `true`/`false` patterns); `none`
encodes a `VerifyOrExit` failure (duplicate kind, entry count not exactly
one, or an entry RLOC other than `aRloc16`). -/
def validatePfxLoop (rloc : Nat) : List SubTlv → Found4 → Option Found4
  | [], f => some f
  | .borderRouter true es :: rest, f =>
    if f.stableBR then none
    else if singleEntryOk rloc BREntry.rloc es then
      validatePfxLoop rloc rest { f with stableBR := true }
    else none
  | .borderRouter false es :: rest, f =>
    if f.tempBR then none
    else if singleEntryOk rloc BREntry.rloc es then
      validatePfxLoop rloc rest { f with tempBR := true }
    else none
  | .hasRoute true es :: rest, f =>
    if f.stableHR then none
    else if singleEntryOk rloc HREntry.rloc es then
      validatePfxLoop rloc rest { f with stableHR := true }
    else none
  | .hasRoute false es :: rest, f =>
    if f.tempHR then none
    else if singleEntryOk rloc HREntry.rloc es then
      validatePfxLoop rloc rest { f with tempHR := true }
    else none
  | _ :: rest, f => validatePfxLoop rloc rest f

/-- Mirrors `Leader::ValidatePrefix`: the loop must complete, and at least one
of the four HasRoute/BorderRouter kinds must have been found; otherwise the
result is `kErrorParse`. -/
def validatePfx (p : PfxD) (rloc : Nat) : Error :=
  match validatePfxLoop rloc p.subs ⟨false, false, false, false⟩ with
  | none => .parse
  | some f =>
    if f.stableBR || f.tempBR || f.stableHR || f.tempHR then .ok else .parse

/-- The loop of `Leader::ValidateService`: at most one Server sub-TLV, which
must be valid and carry `server16 == aRloc16`. -/
def validateSrvLoop (rloc : Nat) : List SubTlv → Bool → Option Bool
  | [], found => some found
  | .server _ s16 _ :: rest, found =>
    if found then none
    else if s16 == rloc then validateSrvLoop rloc rest true
    else none
  | _ :: rest, found => validateSrvLoop rloc rest found

/-- Mirrors `Leader::ValidateService`: exactly one Server sub-TLV with
`server16 == aRloc16`; `kErrorParse` otherwise. -/
def validateSrv (v : SrvD) (rloc : Nat) : Error :=
  match validateSrvLoop rloc v.subs false with
  | none => .parse
  | some found => if found then .ok else .parse

/-- Structural validity of a Prefix TLV (`PrefixTlv::IsValid`): the prefix
length is at most 128 bits and the prefix bytes cover exactly the prefix
length. -/
def isValidPfx (p : PfxD) : Bool :=
  p.prefixLength ≤ 128 && p.prefixBytes.length == (p.prefixLength + 7) / 8

/-- Mirrors `Leader::Validate`: walk the top-level TLVs; for each Prefix TLV
check well-formedness, absence of a duplicate prefix among the already
validated segment, and `ValidatePrefix`; similarly for Service TLVs.  Other
TLV types are skipped.  `seen` is the already validated segment. -/
def validateLoop (rloc : Nat) : List NetTlv → List NetTlv → Error
  | [], _ => .ok
  | .pfx p :: rest, seen =>
    if !isValidPfx p then .parse
    else if (findPfx seen p.prefixLength p.prefixBytes).isSome then .parse
    else match validatePfx p rloc with
      | .ok => validateLoop rloc rest (seen ++ [.pfx p])
      | e => e
  | .srv v :: rest, seen =>
    if (findSrv seen v.enterprise v.serviceData).isSome then .parse
    else match validateSrv v rloc with
      | .ok => validateLoop rloc rest (seen ++ [.srv v])
      | e => e
  | t :: rest, seen => validateLoop rloc rest (seen ++ [t])

/-- Mirrors `Leader::Validate` on a whole submitted blob. -/
def validate (net : List NetTlv) (rloc : Nat) : Error := validateLoop rloc net []

/-! ## Claim C1: characterization of `ValidatePrefix` -/

/-- Entry condition of the claim for one sub-TLV: a HasRoute or BorderRouter
sub-TLV holds exactly one entry, whose RLOC equals the claimed RLOC16; other
sub-TLV types are unconstrained. -/
def subEntriesOk (rloc : Nat) : SubTlv → Prop
  | .hasRoute _ es => ∃ e, es = [e] ∧ e.rloc = rloc
  | .borderRouter _ es => ∃ e, es = [e] ∧ e.rloc = rloc
  | _ => True

/-- Recognizer for HasRoute or BorderRouter sub-TLVs of either stable flag. -/
def SubTlv.isHRorBR : SubTlv → Bool
  | .hasRoute _ _ => true
  | .borderRouter _ _ => true
  | _ => false

/-- The claim's acceptance condition for one Prefix TLV: at most one stable
HasRoute, one non-stable HasRoute, one stable BorderRouter, one non-stable
BorderRouter sub-TLV; each HasRoute/BorderRouter sub-TLV holds exactly one
entry whose RLOC equals the claimed RLOC16; and at least one of the four is
present. -/
def pfxClaimOk (p : PfxD) (rloc : Nat) : Prop :=
  p.subs.countP (SubTlv.isHRWith true) ≤ 1 ∧
  p.subs.countP (SubTlv.isHRWith false) ≤ 1 ∧
  p.subs.countP (SubTlv.isBRWith true) ≤ 1 ∧
  p.subs.countP (SubTlv.isBRWith false) ≤ 1 ∧
  (∀ s ∈ p.subs, subEntriesOk rloc s) ∧
  (∃ s ∈ p.subs, SubTlv.isHRorBR s)

theorem singleEntryOk_eq_true {α : Type} (rloc : Nat) (g : α → Nat) (es : List α) :
    singleEntryOk rloc g es = true ↔ ∃ e, es = [e] ∧ g e = rloc := by
  rcases es with _ | ⟨e, _ | ⟨e2, tl⟩⟩ <;> simp [singleEntryOk]

theorem validatePfxLoop_flags (rloc : Nat) : ∀ (l : List SubTlv) (f f' : Found4),
    validatePfxLoop rloc l f = some f' →
      f'.stableHR = (f.stableHR || l.any (SubTlv.isHRWith true)) ∧
      f'.tempHR = (f.tempHR || l.any (SubTlv.isHRWith false)) ∧
      f'.stableBR = (f.stableBR || l.any (SubTlv.isBRWith true)) ∧
      f'.tempBR = (f.tempBR || l.any (SubTlv.isBRWith false)) := by
  intro l
  induction l with
  | nil =>
    intro f f' h
    simp only [validatePfxLoop, Option.some.injEq] at h
    subst h
    simp
  | cons s rest ih =>
    intro f f' h
    cases s with
    | hasRoute st es =>
      cases st
      all_goals
        simp only [validatePfxLoop] at h
        split at h
        · exact absurd h (by simp)
        split at h
        · obtain ⟨g1, g2, g3, g4⟩ := ih _ _ h
          simp [SubTlv.isHRWith, SubTlv.isBRWith, g1, g2, g3, g4]
        · exact absurd h (by simp)
    | borderRouter st es =>
      cases st
      all_goals
        simp only [validatePfxLoop] at h
        split at h
        · exact absurd h (by simp)
        split at h
        · obtain ⟨g1, g2, g3, g4⟩ := ih _ _ h
          simp [SubTlv.isHRWith, SubTlv.isBRWith, g1, g2, g3, g4]
        · exact absurd h (by simp)
    | context st co ci cl =>
      simp only [validatePfxLoop] at h
      obtain ⟨g1, g2, g3, g4⟩ := ih _ _ h
      simp [SubTlv.isHRWith, SubTlv.isBRWith, g1, g2, g3, g4]
    | server st s16 d =>
      simp only [validatePfxLoop] at h
      obtain ⟨g1, g2, g3, g4⟩ := ih _ _ h
      simp [SubTlv.isHRWith, SubTlv.isBRWith, g1, g2, g3, g4]
    | otherSub st t pl =>
      simp only [validatePfxLoop] at h
      obtain ⟨g1, g2, g3, g4⟩ := ih _ _ h
      simp [SubTlv.isHRWith, SubTlv.isBRWith, g1, g2, g3, g4]

theorem validatePfxLoop_isSome (rloc : Nat) : ∀ (l : List SubTlv) (f : Found4),
    (validatePfxLoop rloc l f).isSome ↔
      ((∀ s ∈ l, subEntriesOk rloc s) ∧
       l.countP (SubTlv.isHRWith true) + (if f.stableHR then 1 else 0) ≤ 1 ∧
       l.countP (SubTlv.isHRWith false) + (if f.tempHR then 1 else 0) ≤ 1 ∧
       l.countP (SubTlv.isBRWith true) + (if f.stableBR then 1 else 0) ≤ 1 ∧
       l.countP (SubTlv.isBRWith false) + (if f.tempBR then 1 else 0) ≤ 1) := by
  intro l
  induction l with
  | nil =>
    intro f
    have hb : ∀ b : Bool, (if b = true then 1 else 0) ≤ 1 := by
      intro b; split <;> omega
    simp [validatePfxLoop, hb]
  | cons s rest ih =>
    intro f
    cases s with
    | hasRoute st es =>
      cases st
      all_goals
        simp only [validatePfxLoop]
        split
        · rename_i h1
          simp only [Option.isSome_none, Bool.false_eq_true, false_iff]
          rintro ⟨-, c1, c2, c3, c4⟩
          simp [List.countP_cons, SubTlv.isHRWith, SubTlv.isBRWith, h1]
            at c1 c2 c3 c4
          all_goals omega
        split
        · rename_i h1 h2
          rw [ih]
          obtain ⟨e, rfl, hrl⟩ := (singleEntryOk_eq_true _ _ _).mp h2
          simp only [List.mem_cons, forall_eq_or_imp, List.countP_cons,
            SubTlv.isHRWith, SubTlv.isBRWith, subEntriesOk]
          constructor
          · rintro ⟨ha, d1, d2, d3, d4⟩
            refine ⟨⟨⟨e, rfl, hrl⟩, ha⟩, ?_, ?_, ?_, ?_⟩ <;> simp_all
            all_goals omega
          · rintro ⟨⟨-, ha⟩, d1, d2, d3, d4⟩
            refine ⟨ha, ?_, ?_, ?_, ?_⟩ <;> simp_all
            all_goals omega
        · rename_i h1 h2
          simp only [Option.isSome_none, Bool.false_eq_true, false_iff]
          rintro ⟨hall, -⟩
          have hh := hall _ (List.mem_cons_self _ _)
          simp only [subEntriesOk] at hh
          exact h2 ((singleEntryOk_eq_true _ _ _).mpr hh)
    | borderRouter st es =>
      cases st
      all_goals
        simp only [validatePfxLoop]
        split
        · rename_i h1
          simp only [Option.isSome_none, Bool.false_eq_true, false_iff]
          rintro ⟨-, c1, c2, c3, c4⟩
          simp [List.countP_cons, SubTlv.isHRWith, SubTlv.isBRWith, h1]
            at c1 c2 c3 c4
          all_goals omega
        split
        · rename_i h1 h2
          rw [ih]
          obtain ⟨e, rfl, hrl⟩ := (singleEntryOk_eq_true _ _ _).mp h2
          simp only [List.mem_cons, forall_eq_or_imp, List.countP_cons,
            SubTlv.isHRWith, SubTlv.isBRWith, subEntriesOk]
          constructor
          · rintro ⟨ha, d1, d2, d3, d4⟩
            refine ⟨⟨⟨e, rfl, hrl⟩, ha⟩, ?_, ?_, ?_, ?_⟩ <;> simp_all
            all_goals omega
          · rintro ⟨⟨-, ha⟩, d1, d2, d3, d4⟩
            refine ⟨ha, ?_, ?_, ?_, ?_⟩ <;> simp_all
            all_goals omega
        · rename_i h1 h2
          simp only [Option.isSome_none, Bool.false_eq_true, false_iff]
          rintro ⟨hall, -⟩
          have hh := hall _ (List.mem_cons_self _ _)
          simp only [subEntriesOk] at hh
          exact h2 ((singleEntryOk_eq_true _ _ _).mpr hh)
    | context st co ci cl =>
      simp [validatePfxLoop, List.countP_cons, SubTlv.isHRWith, SubTlv.isBRWith,
        subEntriesOk, ih]
    | server st s16 d =>
      simp [validatePfxLoop, List.countP_cons, SubTlv.isHRWith, SubTlv.isBRWith,
        subEntriesOk, ih]
    | otherSub st t pl =>
      simp [validatePfxLoop, List.countP_cons, SubTlv.isHRWith, SubTlv.isBRWith,
        subEntriesOk, ih]

theorem isHRorBR_of_isHRWith {b : Bool} {s : SubTlv} (h : SubTlv.isHRWith b s = true) :
    SubTlv.isHRorBR s = true := by
  cases s <;> simp_all [SubTlv.isHRWith, SubTlv.isHRorBR]

theorem isHRorBR_of_isBRWith {b : Bool} {s : SubTlv} (h : SubTlv.isBRWith b s = true) :
    SubTlv.isHRorBR s = true := by
  cases s <;> simp_all [SubTlv.isBRWith, SubTlv.isHRorBR]

/-- C1. `Leader::ValidatePrefix` accepts a Prefix TLV exactly when it contains
at most one stable HasRoute, at most one non-stable HasRoute, at most one
stable BorderRouter and at most one non-stable BorderRouter sub-TLV, every
HasRoute/BorderRouter sub-TLV holds exactly one entry whose RLOC equals the
claimed RLOC16, and at least one of the four is present; on any violation it
returns the Parse error. -/
theorem C1_validatePfx_ok_iff (p : PfxD) (rloc : Nat) :
    (validatePfx p rloc = .ok ↔ pfxClaimOk p rloc) ∧
    (validatePfx p rloc = .ok ∨ validatePfx p rloc = .parse) := by
  constructor
  · constructor
    · intro h
      rcases hl : validatePfxLoop rloc p.subs ⟨false, false, false, false⟩ with _ | f'
      · simp only [validatePfx, hl] at h
        exact absurd h (by simp)
      · simp only [validatePfx, hl] at h
        have hsome := (validatePfxLoop_isSome rloc p.subs ⟨false, false, false, false⟩).mp
          (by rw [hl]; simp)
        obtain ⟨hf1, hf2, hf3, hf4⟩ := validatePfxLoop_flags rloc p.subs _ _ hl
        simp only [Bool.false_or] at hf1 hf2 hf3 hf4
        simp only [Bool.false_eq_true, if_false] at hsome
        have hor : (f'.stableBR || f'.tempBR || f'.stableHR || f'.tempHR) = true := by
          split at h
          · assumption
          · exact absurd h (by simp)
        obtain ⟨h5, h1, h2, h3, h4⟩ := hsome
        refine ⟨by omega, by omega, by omega, by omega, h5, ?_⟩
        rw [hf1, hf2, hf3, hf4] at hor
        simp only [Bool.or_eq_true, List.any_eq_true] at hor
        rcases hor with ((⟨s, hs, hp⟩ | ⟨s, hs, hp⟩) | ⟨s, hs, hp⟩) | ⟨s, hs, hp⟩
        · exact ⟨s, hs, isHRorBR_of_isBRWith hp⟩
        · exact ⟨s, hs, isHRorBR_of_isBRWith hp⟩
        · exact ⟨s, hs, isHRorBR_of_isHRWith hp⟩
        · exact ⟨s, hs, isHRorBR_of_isHRWith hp⟩
    · rintro ⟨h1, h2, h3, h4, h5, s, hs, hkind⟩
      have hS : (validatePfxLoop rloc p.subs ⟨false, false, false, false⟩).isSome := by
        rw [validatePfxLoop_isSome]
        simp only [Bool.false_eq_true, if_false]
        exact ⟨h5, by omega, by omega, by omega, by omega⟩
      rcases hl : validatePfxLoop rloc p.subs ⟨false, false, false, false⟩ with _ | f'
      · rw [hl] at hS; simp at hS
      · obtain ⟨hf1, hf2, hf3, hf4⟩ := validatePfxLoop_flags rloc p.subs _ _ hl
        simp only [Bool.false_or] at hf1 hf2 hf3 hf4
        have hor : (f'.stableBR || f'.tempBR || f'.stableHR || f'.tempHR) = true := by
          rw [hf1, hf2, hf3, hf4]
          simp only [Bool.or_eq_true, List.any_eq_true]
          cases s with
          | hasRoute st es =>
            cases st
            · exact Or.inr ⟨_, hs, by simp [SubTlv.isHRWith]⟩
            · exact Or.inl (Or.inr ⟨_, hs, by simp [SubTlv.isHRWith]⟩)
          | borderRouter st es =>
            cases st
            · exact Or.inl (Or.inl (Or.inr ⟨_, hs, by simp [SubTlv.isBRWith]⟩))
            · exact Or.inl (Or.inl (Or.inl ⟨_, hs, by simp [SubTlv.isBRWith]⟩))
          | context st co ci cl => simp [SubTlv.isHRorBR] at hkind
          | server st s16 d => simp [SubTlv.isHRorBR] at hkind
          | otherSub st t pl => simp [SubTlv.isHRorBR] at hkind
        simp only [validatePfx, hl]
        rw [if_pos hor]
  · rcases hl : validatePfxLoop rloc p.subs ⟨false, false, false, false⟩ with _ | f' <;>
      simp only [validatePfx, hl]
    · simp
    · split <;> simp

/-! ## Claim C10: the validator ignores other sub-TLV types -/

theorem validatePfxLoop_filter (rloc : Nat) : ∀ (l : List SubTlv) (f : Found4),
    validatePfxLoop rloc (l.filter SubTlv.isHRorBR) f = validatePfxLoop rloc l f := by
  intro l
  induction l with
  | nil => intro f; rfl
  | cons s rest ih =>
    intro f
    cases s with
    | hasRoute st es =>
      cases st <;> simp [SubTlv.isHRorBR, List.filter_cons, validatePfxLoop, ih]
    | borderRouter st es =>
      cases st <;> simp [SubTlv.isHRorBR, List.filter_cons, validatePfxLoop, ih]
    | context st co ci cl =>
      simp [SubTlv.isHRorBR, List.filter_cons, validatePfxLoop, ih]
    | server st s16 d =>
      simp [SubTlv.isHRorBR, List.filter_cons, validatePfxLoop, ih]
    | otherSub st t pl =>
      simp [SubTlv.isHRorBR, List.filter_cons, validatePfxLoop, ih]

theorem validateSrvLoop_filter (rloc : Nat) : ∀ (l : List SubTlv) (b : Bool),
    validateSrvLoop rloc (l.filter SubTlv.isServer) b = validateSrvLoop rloc l b := by
  intro l
  induction l with
  | nil => intro b; rfl
  | cons s rest ih =>
    intro b
    cases s <;> simp [SubTlv.isServer, List.filter_cons, validateSrvLoop, ih]

/-- C10. The validator inspects only HasRoute/BorderRouter sub-TLVs inside a
Prefix TLV and only Server sub-TLVs inside a Service TLV: deleting all other
sub-TLVs (for example a Context sub-TLV) does not change the validation
result, so a submission additionally carrying such sub-TLVs passes exactly
when the required conditions on the inspected sub-TLVs hold. -/
theorem C10_validate_ignores_other_subtlvs :
    (∀ (p : PfxD) (rloc : Nat),
       validatePfx { p with subs := p.subs.filter SubTlv.isHRorBR } rloc =
         validatePfx p rloc) ∧
    (∀ (v : SrvD) (rloc : Nat),
       validateSrv { v with subs := v.subs.filter SubTlv.isServer } rloc =
         validateSrv v rloc) := by
  constructor
  · intro p rloc
    unfold validatePfx
    rw [validatePfxLoop_filter]
  · intro v rloc
    unfold validateSrv
    rw [validateSrvLoop_filter]

/-! ## Changed flags and the Context ID allocator -/

/-- Mirrors `ChangedFlags`: records whether a change affected a stable TLV
and whether it affected a non-stable TLV (modelled from the spec: `the flags
accumulator records whether this change was stable and whether it was
non-stable`; the class body is declared in `network_data_leader.hpp`). -/
structure ChangedFlags where
  nonStableChanged : Bool
  stableChanged : Bool
deriving DecidableEq, Repr

/-- Mirrors `ChangedFlags::Update(aTlv)`: record a change, stable when the
changed TLV's stable flag is set. -/
def ChangedFlags.update (fl : ChangedFlags) (tlvStable : Bool) : ChangedFlags :=
  if tlvStable then { fl with stableChanged := true }
  else { fl with nonStableChanged := true }

/-- Mirrors `ChangedFlags::DidChange`. -/
def ChangedFlags.didChange (fl : ChangedFlags) : Bool :=
  fl.nonStableChanged || fl.stableChanged

/-- Freshly constructed `ChangedFlags`. -/
def flags0 : ChangedFlags := ⟨false, false⟩

/-- Sentinel slot value for an unallocated context id
(`ContextIds::kUnallocated = 0`, per the spec's tagged 32-bit encoding). -/
def kUnallocated : Nat := 0

/-- Sentinel slot value for an in-use context id (`ContextIds::kInUse = 1`). -/
def kInUse : Nat := 1

/-- Smallest allocatable context id (`ContextIds::kMinId`). -/
def kMinId : Nat := 1

/-- Largest allocatable context id (`ContextIds::kMaxId`). -/
def kMaxId : Nat := 15

/-- Pointwise update of the slot table `mRemoveTimes`. -/
def updSlot (id v : Nat) (sl : Nat → Nat) : Nat → Nat :=
  fun j => if j = id then v else sl j

/-- Modelled from the spec: `mark_in_use(id) — transition from any state to
InUse` (`ContextIds::MarkAsInUse` is declared in the header, not in the
sources). -/
def markAsInUse (id : Nat) (sl : Nat → Nat) : Nat → Nat := updSlot id kInUse sl

/-- Modelled from the spec: transition a slot to `Unallocated`
(`ContextIds::MarkAsUnallocated`). -/
def markAsUnallocated (id : Nat) (sl : Nat → Nat) : Nat → Nat :=
  updSlot id kUnallocated sl

/-- Mirrors `ContextIds::SetRemoveTime`: the stored 32-bit timestamp is
incremented past the two sentinel values (the C++ `while` loop takes `0` and
`1` to `2` within `uint32` arithmetic). -/
def setRemoveTimeVal (t : Nat) : Nat :=
  if t % 4294967296 = kUnallocated ∨ t % 4294967296 = kInUse then 2
  else t % 4294967296

/-- Mirrors `ContextIds::ScheduleToRemove`: a no-op on a clone or when the
slot is not `InUse`; otherwise store the adjusted deadline
`now + SecToMsec(reuseDelay)`. -/
def scheduleToRemove (sl : Nat → Nat) (id : Nat) (now reuseDelay : Nat)
    (isClone : Bool) : Nat → Nat :=
  if isClone then sl
  else if sl id = kInUse then
    updSlot id (setRemoveTimeVal (now + 1000 * reuseDelay)) sl
  else sl

/-! ## Claim C8: ScheduleToRemove / SetRemoveTime -/

theorem setRemoveTimeVal_ne_sentinels (t : Nat) :
    setRemoveTimeVal t ≠ kUnallocated ∧ setRemoveTimeVal t ≠ kInUse := by
  unfold setRemoveTimeVal kUnallocated kInUse
  split
  · omega
  · rename_i h
    push_neg at h
    omega

/-- C8. `ScheduleToRemove(id)` changes a slot only when that slot is currently
`InUse`; in that case (on a non-clone) it stores the adjusted deadline
`now + SecToMsec(reuseDelay)`, and the stored value never equals the
`Unallocated` (0) or `InUse` (1) sentinel because `SetRemoveTime` increments
past them, keeping the three slot states distinguishable.  Slots other than
`id` are never touched. -/
theorem C8_scheduleToRemove_spec (sl : Nat → Nat) (id now reuseDelay : Nat)
    (isClone : Bool) :
    (∀ j, j ≠ id → scheduleToRemove sl id now reuseDelay isClone j = sl j) ∧
    (scheduleToRemove sl id now reuseDelay isClone id ≠ sl id → sl id = kInUse) ∧
    (isClone = false → sl id = kInUse →
      scheduleToRemove sl id now reuseDelay isClone id =
        setRemoveTimeVal (now + 1000 * reuseDelay) ∧
      scheduleToRemove sl id now reuseDelay isClone id ≠ kUnallocated ∧
      scheduleToRemove sl id now reuseDelay isClone id ≠ kInUse) := by
  refine ⟨?_, ?_, ?_⟩
  · intro j hj
    unfold scheduleToRemove
    split
    · rfl
    · split
      · simp [updSlot, hj]
      · rfl
  · intro hne
    by_contra hnotInUse
    apply hne
    unfold scheduleToRemove
    split
    · rfl
    · simp [hnotInUse]
  · intro hc hu
    subst hc
    unfold scheduleToRemove
    rw [if_neg (by simp), if_pos hu]
    simp only [updSlot, if_pos rfl]
    exact ⟨rfl, (setRemoveTimeVal_ne_sentinels _).1, (setRemoveTimeVal_ne_sentinels _).2⟩

theorem C8_scheduleToRemove_spec_witness :
    scheduleToRemove (fun _ => 1) 5 0 300 false 5 ≠ kUnallocated ∧
    scheduleToRemove (fun _ => 1) 5 0 300 false 5 ≠ kInUse ∧
    scheduleToRemove (fun _ => 1) 5 0 300 false 4 = 1 := by
  have h := C8_scheduleToRemove_spec (fun _ => 1) 5 0 300 false
  exact ⟨((h.2.2) rfl rfl).2.1, ((h.2.2) rfl rfl).2.2, h.1 4 (by decide)⟩

/-! ## The RLOC removal sweep inside a Prefix TLV -/

/-- Mirrors `Leader::ContainsMatchingEntry(const PrefixTlv`, aStable,
`HasRouteEntry)`: look up the first HasRoute sub-TLV with the given stable
flag in the exclude prefix (if any) and search its entries for a
byte-identical entry. -/
def containsMatchingEntryHR : Option PfxD → Bool → HREntry → Bool
  | none, _, _ => false
  | some p, stable, e =>
    match p.subs.find? (SubTlv.isHRWith stable) with
    | some (.hasRoute _ es) => es.contains e
    | _ => false

/-- Mirrors `Leader::ContainsMatchingEntry(const PrefixTlv`, aStable,
`BorderRouterEntry)`. -/
def containsMatchingEntryBR : Option PfxD → Bool → BREntry → Bool
  | none, _, _ => false
  | some p, stable, e =>
    match p.subs.find? (SubTlv.isBRWith stable) with
    | some (.borderRouter _ es) => es.contains e
    | _ => false

theorem containsMatchingEntryHR_some (p : PfxD) (stable : Bool) (e : HREntry) :
    containsMatchingEntryHR (some p) stable e =
      (match p.subs.find? (SubTlv.isHRWith stable) with
       | some (.hasRoute _ es) => es.contains e
       | _ => false) := rfl

theorem containsMatchingEntryBR_some (p : PfxD) (stable : Bool) (e : BREntry) :
    containsMatchingEntryBR (some p) stable e =
      (match p.subs.find? (SubTlv.isBRWith stable) with
       | some (.borderRouter _ es) => es.contains e
       | _ => false) := rfl

/-- Mirrors the entry loop of `Leader::RemoveRlocInHasRoute`: drop each entry
whose RLOC matches, unless the exclude prefix contains a byte-identical entry
under the same stable flag; record every removal in the changed flags using
the sub-TLV's stable flag. -/
def removeRlocInHasRoute (rloc : Nat) (mode : MatchMode) (exP : Option PfxD)
    (stable : Bool) : List HREntry → ChangedFlags → List HREntry × ChangedFlags
  | [], fl => ([], fl)
  | e :: rest, fl =>
    if rlocMatch e.rloc rloc mode && !containsMatchingEntryHR exP stable e then
      removeRlocInHasRoute rloc mode exP stable rest (fl.update stable)
    else
      let pr := removeRlocInHasRoute rloc mode exP stable rest fl
      (e :: pr.1, pr.2)

/-- Mirrors the entry loop of `Leader::RemoveRlocInBorderRouter`. -/
def removeRlocInBorderRouter (rloc : Nat) (mode : MatchMode) (exP : Option PfxD)
    (stable : Bool) : List BREntry → ChangedFlags → List BREntry × ChangedFlags
  | [], fl => ([], fl)
  | e :: rest, fl =>
    if rlocMatch e.rloc rloc mode && !containsMatchingEntryBR exP stable e then
      removeRlocInBorderRouter rloc mode exP stable rest (fl.update stable)
    else
      let pr := removeRlocInBorderRouter rloc mode exP stable rest fl
      (e :: pr.1, pr.2)

/-- Mirrors the sub-TLV walk of `Leader::RemoveRlocInPrefix` (before the
Context fixup): sweep each HasRoute/BorderRouter sub-TLV's entries and remove
the sub-TLV once its length reaches zero; other sub-TLV types are kept. -/
def removeRlocSubs (rloc : Nat) (mode : MatchMode) (exP : Option PfxD) :
    List SubTlv → ChangedFlags → List SubTlv × ChangedFlags
  | [], fl => ([], fl)
  | .hasRoute st es :: rest, fl =>
    let pr := removeRlocInHasRoute rloc mode exP st es fl
    if pr.1.isEmpty then removeRlocSubs rloc mode exP rest pr.2
    else
      let pr2 := removeRlocSubs rloc mode exP rest pr.2
      (.hasRoute st pr.1 :: pr2.1, pr2.2)
  | .borderRouter st es :: rest, fl =>
    let pr := removeRlocInBorderRouter rloc mode exP st es fl
    if pr.1.isEmpty then removeRlocSubs rloc mode exP rest pr.2
    else
      let pr2 := removeRlocSubs rloc mode exP rest pr.2
      (.borderRouter st pr.1 :: pr2.1, pr2.2)
  | s :: rest, fl =>
    let pr2 := removeRlocSubs rloc mode exP rest fl
    (s :: pr2.1, pr2.2)

/-! ## Claim C3: entry removal characterization -/

/-- C3 counterexample.  The claim states that an entry is kept whenever the
exclude prefix contains a byte-identical entry in *a* sub-TLV with the same
stable flag.  The code, however, only consults the *first* HasRoute sub-TLV
with that stable flag (`FindSubTlv`), so with an exclude prefix holding two
stable HasRoute sub-TLVs where only the second contains the entry, the entry
is dropped: the claim's keep-condition holds yet the sweep empties the
registry sub-TLV. -/
theorem C3_counterexample :
    (removeRlocSubs 1 .rloc16
        (some ⟨false, 0, 8, [1],
          [SubTlv.hasRoute true [⟨2, 0⟩], SubTlv.hasRoute true [⟨1, 0⟩]]⟩)
        [SubTlv.hasRoute true [⟨1, 0⟩]] flags0).1 = [] ∧
    (∃ s ∈ [SubTlv.hasRoute true [⟨2, 0⟩], SubTlv.hasRoute true [⟨1, 0⟩]],
       ∃ es, s = SubTlv.hasRoute true es ∧ (⟨1, 0⟩ : HREntry) ∈ es) ∧
    rlocMatch 1 1 .rloc16 = true := by
  refine ⟨by decide, ⟨SubTlv.hasRoute true [⟨1, 0⟩], by decide, [⟨1, 0⟩], rfl, by decide⟩, by decide⟩

/-- Declarative form of the code's exclusion test for HasRoute entries: the
exclude prefix exists and its *first* HasRoute sub-TLV with the given stable
flag contains a byte-identical entry. -/
def firstHRContains (exP : Option PfxD) (stable : Bool) (e : HREntry) : Prop :=
  ∃ exp, exP = some exp ∧
    ∃ pre es post, exp.subs = pre ++ SubTlv.hasRoute stable es :: post ∧
      (∀ s ∈ pre, SubTlv.isHRWith stable s = false) ∧ e ∈ es

/-- Declarative form of the code's exclusion test for BorderRouter entries. -/
def firstBRContains (exP : Option PfxD) (stable : Bool) (e : BREntry) : Prop :=
  ∃ exp, exP = some exp ∧
    ∃ pre es post, exp.subs = pre ++ SubTlv.borderRouter stable es :: post ∧
      (∀ s ∈ pre, SubTlv.isBRWith stable s = false) ∧ e ∈ es

theorem containsMatchingEntryHR_iff (exP : Option PfxD) (stable : Bool)
    (e : HREntry) :
    containsMatchingEntryHR exP stable e = true ↔ firstHRContains exP stable e := by
  constructor
  · intro h
    rcases exP with _ | p
    · simp [containsMatchingEntryHR] at h
    · rw [containsMatchingEntryHR_some] at h
      rcases hf : List.find? (SubTlv.isHRWith stable) p.subs with _ | s
      · rw [hf] at h; simp at h
      · rw [hf] at h
        obtain ⟨hps, as, bs, hsplit, hpre⟩ := List.find?_eq_some.mp hf
        cases s with
        | hasRoute st' es =>
          have hst : st' = stable := by simpa [SubTlv.isHRWith] using hps
          subst hst
          refine ⟨p, rfl, as, es, bs, hsplit, ?_, by simpa using h⟩
          intro a ha
          have := hpre a ha
          simpa using this
        | borderRouter st' es => simp at h
        | context a b c d => simp at h
        | server a b c => simp at h
        | otherSub a b c => simp at h
  · rintro ⟨exp, rfl, pre, es, post, hsubs, hpre, he⟩
    rw [containsMatchingEntryHR_some]
    have hf : List.find? (SubTlv.isHRWith stable) exp.subs =
        some (SubTlv.hasRoute stable es) := by
      rw [List.find?_eq_some]
      refine ⟨by simp [SubTlv.isHRWith], pre, post, hsubs, ?_⟩
      intro a ha
      simp [hpre a ha]
    rw [hf]
    simpa using he

theorem containsMatchingEntryBR_iff (exP : Option PfxD) (stable : Bool)
    (e : BREntry) :
    containsMatchingEntryBR exP stable e = true ↔ firstBRContains exP stable e := by
  constructor
  · intro h
    rcases exP with _ | p
    · simp [containsMatchingEntryBR] at h
    · rw [containsMatchingEntryBR_some] at h
      rcases hf : List.find? (SubTlv.isBRWith stable) p.subs with _ | s
      · rw [hf] at h; simp at h
      · rw [hf] at h
        obtain ⟨hps, as, bs, hsplit, hpre⟩ := List.find?_eq_some.mp hf
        cases s with
        | borderRouter st' es =>
          have hst : st' = stable := by simpa [SubTlv.isBRWith] using hps
          subst hst
          refine ⟨p, rfl, as, es, bs, hsplit, ?_, by simpa using h⟩
          intro a ha
          have := hpre a ha
          simpa using this
        | hasRoute st' es => simp at h
        | context a b c d => simp at h
        | server a b c => simp at h
        | otherSub a b c => simp at h
  · rintro ⟨exp, rfl, pre, es, post, hsubs, hpre, he⟩
    rw [containsMatchingEntryBR_some]
    have hf : List.find? (SubTlv.isBRWith stable) exp.subs =
        some (SubTlv.borderRouter stable es) := by
      rw [List.find?_eq_some]
      refine ⟨by simp [SubTlv.isBRWith], pre, post, hsubs, ?_⟩
      intro a ha
      simp [hpre a ha]
    rw [hf]
    simpa using he

theorem removeRlocInHasRoute_fst (rloc : Nat) (mode : MatchMode)
    (exP : Option PfxD) (stable : Bool) : ∀ (es : List HREntry) (fl : ChangedFlags),
    (removeRlocInHasRoute rloc mode exP stable es fl).1 =
      es.filter (fun e =>
        !(rlocMatch e.rloc rloc mode && !containsMatchingEntryHR exP stable e)) := by
  intro es
  induction es with
  | nil => intro fl; rfl
  | cons e rest ih =>
    intro fl
    simp only [removeRlocInHasRoute, List.filter_cons]
    by_cases h : (rlocMatch e.rloc rloc mode &&
        !containsMatchingEntryHR exP stable e) = true
    · rw [if_pos h, ih]
      simp [h]
    · rw [if_neg h]
      simp only
      rw [ih]
      simp only [Bool.not_eq_true] at h
      simp [h]

theorem removeRlocInBorderRouter_fst (rloc : Nat) (mode : MatchMode)
    (exP : Option PfxD) (stable : Bool) : ∀ (es : List BREntry) (fl : ChangedFlags),
    (removeRlocInBorderRouter rloc mode exP stable es fl).1 =
      es.filter (fun e =>
        !(rlocMatch e.rloc rloc mode && !containsMatchingEntryBR exP stable e)) := by
  intro es
  induction es with
  | nil => intro fl; rfl
  | cons e rest ih =>
    intro fl
    simp only [removeRlocInBorderRouter, List.filter_cons]
    by_cases h : (rlocMatch e.rloc rloc mode &&
        !containsMatchingEntryBR exP stable e) = true
    · rw [if_pos h, ih]
      simp [h]
    · rw [if_neg h]
      simp only
      rw [ih]
      simp only [Bool.not_eq_true] at h
      simp [h]

theorem removeRlocSubs_fst (rloc : Nat) (mode : MatchMode) (exP : Option PfxD) :
    ∀ (subs : List SubTlv) (fl : ChangedFlags),
    (removeRlocSubs rloc mode exP subs fl).1 =
      subs.filterMap (fun s =>
        match s with
        | .hasRoute st es =>
          let es' := es.filter (fun e =>
            !(rlocMatch e.rloc rloc mode && !containsMatchingEntryHR exP st e))
          if es'.isEmpty then none else some (.hasRoute st es')
        | .borderRouter st es =>
          let es' := es.filter (fun e =>
            !(rlocMatch e.rloc rloc mode && !containsMatchingEntryBR exP st e))
          if es'.isEmpty then none else some (.borderRouter st es')
        | s => some s) := by
  intro subs
  induction subs with
  | nil => intro fl; rfl
  | cons s rest ih =>
    intro fl
    cases s with
    | hasRoute st es =>
      simp only [removeRlocSubs, List.filterMap_cons, removeRlocInHasRoute_fst]
      split
      · rw [ih]
      · rw [ih]
    | borderRouter st es =>
      simp only [removeRlocSubs, List.filterMap_cons, removeRlocInBorderRouter_fst]
      split
      · rw [ih]
      · rw [ih]
    | context st co ci cl => simp only [removeRlocSubs, List.filterMap_cons, ih]
    | server st s16 d => simp only [removeRlocSubs, List.filterMap_cons, ih]
    | otherSub st t pl => simp only [removeRlocSubs, List.filterMap_cons, ih]

/-- C3 amended.  Inside a Prefix TLV the sweep drops a HasRoute/BorderRouter
entry if and only if its RLOC matches under the match mode and the *first*
sub-TLV of the same type with the same stable flag in the exclude blob's
matching prefix does not contain a byte-identical entry (the code consults
only that first sub-TLV via `FindSubTlv`); a sub-TLV whose entry list becomes
empty is removed, and other sub-TLV types are untouched. -/
theorem C3_removeRloc_entry_characterization (rloc : Nat) (mode : MatchMode)
    (exP : Option PfxD) (subs : List SubTlv) (fl : ChangedFlags) :
    ((removeRlocSubs rloc mode exP subs fl).1 =
      subs.filterMap (fun s =>
        match s with
        | .hasRoute st es =>
          let es' := es.filter (fun e =>
            !(rlocMatch e.rloc rloc mode && !containsMatchingEntryHR exP st e))
          if es'.isEmpty then none else some (.hasRoute st es')
        | .borderRouter st es =>
          let es' := es.filter (fun e =>
            !(rlocMatch e.rloc rloc mode && !containsMatchingEntryBR exP st e))
          if es'.isEmpty then none else some (.borderRouter st es')
        | s => some s)) ∧
    (∀ (stable : Bool) (e : HREntry),
       containsMatchingEntryHR exP stable e = true ↔ firstHRContains exP stable e) ∧
    (∀ (stable : Bool) (e : BREntry),
       containsMatchingEntryBR exP stable e = true ↔ firstBRContains exP stable e) := by
  exact ⟨removeRlocSubs_fst rloc mode exP subs fl,
    fun st e => containsMatchingEntryHR_iff exP st e,
    fun st e => containsMatchingEntryBR_iff exP st e⟩

/-! ## UpdateTlv, the full prefix sweep, and the service sweep -/

/-- The stable-flag scan of `Leader::UpdateTlv`: walk the sub-TLVs and stop at
the first stable one (`SetStable` and early exit), otherwise `ClearStable`. -/
def stableScan : List SubTlv → Bool
  | [] => false
  | s :: rest => if s.isStable then true else stableScan rest

/-- Mirrors `Leader::UpdatePrefix` / `Leader::UpdateTlv` on a Prefix TLV:
remove the TLV when it has no sub-TLVs (`kTlvRemoved`, encoded as `none`),
otherwise recompute its stable flag from the sub-TLVs (`kTlvUpdated`). -/
def updateTlvP (p : PfxD) : Option PfxD :=
  if p.subs.isEmpty then none
  else some { p with stable := stableScan p.subs }

/-- Mirrors `Leader::UpdateService` / `Leader::UpdateTlv` on a Service TLV. -/
def updateTlvS (v : SrvD) : Option SrvD :=
  if v.subs.isEmpty then none
  else some { v with stable := stableScan v.subs }

/-- List view of an optional Prefix TLV (used after `UpdateTlv`, whose
`kTlvRemoved` outcome deletes the TLV from the registry). -/
def optListP : Option PfxD → List NetTlv
  | none => []
  | some p => [.pfx p]

/-- List view of an optional Service TLV. -/
def optListS : Option SrvD → List NetTlv
  | none => []
  | some v => [.srv v]

/-- Context id stored in a Context sub-TLV (`ContextTlv::GetContextId`). -/
def SubTlv.cidOf : SubTlv → Nat
  | .context _ _ ci _ => ci
  | _ => 0

/-- Set the compress flag of the first Context sub-TLV
(`ContextTlv::SetCompress` / `ClearCompress` on the `FindSubTlv` result). -/
def setFirstCtxCompress (b : Bool) : List SubTlv → List SubTlv
  | [] => []
  | .context st _ ci cl :: rest => .context st b ci cl :: rest
  | s :: rest => s :: setFirstCtxCompress b rest

/-- Set the stable flag of the first Context sub-TLV (`SetStable`). -/
def setFirstCtxStable : List SubTlv → List SubTlv
  | [] => []
  | .context _ co ci cl :: rest => .context true co ci cl :: rest
  | s :: rest => s :: setFirstCtxStable rest

/-- Mirrors `Leader::RemoveRlocInPrefix`: sweep the sub-TLVs, then fix up the
Context sub-TLV (if any): without a remaining BorderRouter sub-TLV clear its
compress flag and schedule its id for delayed removal, otherwise set compress
and re-mark the id in use. -/
def removeRlocInPrefix (p : PfxD) (rloc : Nat) (mode : MatchMode)
    (exP : Option PfxD) (sl : Nat → Nat) (fl : ChangedFlags)
    (now rd : Nat) (clone : Bool) : PfxD × (Nat → Nat) × ChangedFlags :=
  let pr := removeRlocSubs rloc mode exP p.subs fl
  let p' : PfxD := { p with subs := pr.1 }
  match p'.subs.find? SubTlv.isCtx with
  | none => (p', sl, pr.2)
  | some c =>
    if p'.subs.any SubTlv.isBR then
      ({ p' with subs := setFirstCtxCompress true p'.subs },
        markAsInUse c.cidOf sl, pr.2)
    else
      ({ p' with subs := setFirstCtxCompress false p'.subs },
        scheduleToRemove sl c.cidOf now rd clone, pr.2)

/-- Mirrors `Leader::ContainsMatchingServer`: iterate the exclude service's
Server sub-TLVs with the same stable flag and compare for byte equality. -/
def containsMatchingServer (exS : Option SrvD) (st : Bool) (s16 : Nat)
    (sd : List Nat) : Bool :=
  match exS with
  | none => false
  | some v =>
    v.subs.any (fun s =>
      match s with
      | .server st' a b => st' == st && a == s16 && b == sd
      | _ => false)

/-- Mirrors `Leader::RemoveRlocInService`: drop each Server sub-TLV whose
`server16` matches under the mode and which the exclude service does not
contain byte-identically; other sub-TLV types are kept. -/
def removeRlocInService (rloc : Nat) (mode : MatchMode) (exS : Option SrvD) :
    List SubTlv → ChangedFlags → List SubTlv × ChangedFlags
  | [], fl => ([], fl)
  | .server st s16 sd :: rest, fl =>
    if rlocMatch s16 rloc mode && !containsMatchingServer exS st s16 sd then
      removeRlocInService rloc mode exS rest (fl.update st)
    else
      let pr := removeRlocInService rloc mode exS rest fl
      (.server st s16 sd :: pr.1, pr.2)
  | s :: rest, fl =>
    let pr := removeRlocInService rloc mode exS rest fl
    (s :: pr.1, pr.2)

/-- Mirrors the top-level walk of `Leader::RemoveRloc`: per Prefix TLV run
`RemoveRlocInPrefix` against the exclude blob's matching prefix and then
`UpdatePrefix`; per Service TLV run `RemoveRlocInService` and `UpdateService`;
other TLVs are untouched (`kTlvRemoved` results are simply dropped, matching
the do-not-advance-the-iterator discipline). -/
def sweepTlvs (rloc : Nat) (mode : MatchMode) (ex : List NetTlv)
    (now rd : Nat) (clone : Bool) :
    List NetTlv → (Nat → Nat) → ChangedFlags →
      List NetTlv × (Nat → Nat) × ChangedFlags
  | [], sl, fl => ([], sl, fl)
  | .pfx p :: rest, sl, fl =>
    let exP := findPfx ex p.prefixLength p.prefixBytes
    let pr := removeRlocInPrefix p rloc mode exP sl fl now rd clone
    let tail := sweepTlvs rloc mode ex now rd clone rest pr.2.1 pr.2.2
    (optListP (updateTlvP pr.1) ++ tail.1, tail.2.1, tail.2.2)
  | .srv v :: rest, sl, fl =>
    let exS := findSrv ex v.enterprise v.serviceData
    let pr := removeRlocInService rloc mode exS v.subs fl
    let tail := sweepTlvs rloc mode ex now rd clone rest sl pr.2
    (optListS (updateTlvS { v with subs := pr.1 }) ++ tail.1, tail.2.1, tail.2.2)
  | t :: rest, sl, fl =>
    let tail := sweepTlvs rloc mode ex now rd clone rest sl fl
    (t :: tail.1, tail.2.1, tail.2.2)

/-! ## The Leader state -/

/-- A MeshCoP TLV inside Commissioning Data or a MGMT_COMMISSIONER_SET
request: type byte, extended-header marker, and value bytes. -/
structure McTlv where
  typ : Nat
  extended : Bool
  value : List Nat
deriving DecidableEq, Repr

/-- The Leader state: the registry TLV buffer, the two 8-bit version
counters, the context-id slot table (`mRemoveTimes`, ids 1..15), the reuse
delay, the clone marker, the waiting-for-netdata-sync flag, the leader role
and router table (external collaborators, held abstractly), the stored
Commissioning Data, and the current time in milliseconds. -/
structure Leader where
  tlvs : List NetTlv
  version : Nat
  stableVersion : Nat
  slots : Nat → Nat
  reuseDelay : Nat
  isClone : Bool
  waiting : Bool
  isLeader : Bool
  routerAllocated : Nat → Bool
  commData : Option (List McTlv)
  now : Nat

/-- Mirrors `Leader::IncrementVersions(bool aIncludeStable)`: a no-op on a
clone; otherwise bump `mVersion` (and `mStableVersion` when requested),
8-bit wrap-around. -/
def incrementVersionsB (includeStable : Bool) (s : Leader) : Leader :=
  if s.isClone then s
  else
    { s with
      stableVersion :=
        if includeStable then (s.stableVersion + 1) % 256 else s.stableVersion,
      version := (s.version + 1) % 256 }

/-- Mirrors `Leader::IncrementVersions(const ChangedFlags &)`: bump only when
something changed, including the stable version when a stable TLV changed. -/
def incrementVersionsF (fl : ChangedFlags) (s : Leader) : Leader :=
  if fl.didChange then incrementVersionsB fl.stableChanged s else s

/-- Mirrors `Leader::RemoveRloc` (exclude overload) on the state: run the
sweep over the registry, returning the new registry, slot table and
accumulated flags. -/
def removeRlocEx (r : Nat) (mode : MatchMode) (ex : List NetTlv) (s : Leader)
    (fl : ChangedFlags) : Leader × ChangedFlags :=
  let pr := sweepTlvs r mode ex s.now s.reuseDelay s.isClone s.tlvs s.slots fl
  ({ s with tlvs := pr.1, slots := pr.2.1 }, pr.2.2)

/-- Mirrors `Leader::RemoveBorderRouter`: sweep with an empty exclude
Network Data, then `IncrementVersions(flags)`. -/
def removeBorderRouter (r : Nat) (mode : MatchMode) (s : Leader) : Leader :=
  let pr := removeRlocEx r mode [] s flags0
  incrementVersionsF pr.2 pr.1

/-! ## The add engine -/

/-- Mirrors `ContextIds::GetUnallocatedId`'s scan loop over ids
`kMinId..kMaxId` (fuel-counted). -/
def getUnallocatedIdScan (sl : Nat → Nat) : Nat → Nat → Error × Nat
  | 0, _ => (.notFound, 0)
  | fuel + 1, i =>
    if sl i = kUnallocated then (.ok, i) else getUnallocatedIdScan sl fuel (i + 1)

/-- Mirrors `ContextIds::GetUnallocatedId`: a clone always receives `kMinId`;
otherwise linear scan for an `Unallocated` slot, `kErrorNotFound` when all 15
ids are taken. -/
def getUnallocatedId (sl : Nat → Nat) (isClone : Bool) : Error × Nat :=
  if isClone then (.ok, kMinId) else getUnallocatedIdScan sl 15 kMinId

/-- Append an entry to the first HasRoute sub-TLV with the given stable flag
(the `Insert(dstHasRoute->GetNext(), …)` step of `AddHasRoute`). -/
def appendHREntry (st : Bool) (e : HREntry) : List SubTlv → List SubTlv
  | [] => []
  | .hasRoute st' es :: rest =>
    if st' == st then .hasRoute st' (es ++ [e]) :: rest
    else .hasRoute st' es :: appendHREntry st e rest
  | s :: rest => s :: appendHREntry st e rest

/-- Append an entry to the first BorderRouter sub-TLV with the given stable
flag. -/
def appendBREntry (st : Bool) (e : BREntry) : List SubTlv → List SubTlv
  | [] => []
  | .borderRouter st' es :: rest =>
    if st' == st then .borderRouter st' (es ++ [e]) :: rest
    else .borderRouter st' es :: appendBREntry st e rest
  | s :: rest => s :: appendBREntry st e rest

/-- Entries of the first BorderRouter sub-TLV with the given stable flag. -/
def firstBREntries (st : Bool) (subs : List SubTlv) : List BREntry :=
  match subs.find? (SubTlv.isBRWith st) with
  | some (.borderRouter _ es) => es
  | _ => []

/-- Context id of the first Context sub-TLV (0 when none exists). -/
def firstCtxId (subs : List SubTlv) : Nat :=
  match subs.find? SubTlv.isCtx with
  | some c => c.cidOf
  | _ => 0

/-- Mirrors `Leader::AddHasRoute`: find or create (capacity permitting) the
HasRoute sub-TLV with the source's stable flag, then append the single source
entry unless already present.  `others` is the serialized size of the rest of
the registry, so `others + dst.size + n ≤ kMaxSize` is exactly
`CanInsert(n)`. -/
def addHasRoute (st : Bool) (srcEntries : List HREntry) (dst : PfxD)
    (others : Nat) (fl : ChangedFlags) : Error × PfxD × ChangedFlags :=
  let e := srcEntries.headD ⟨0, 0⟩
  match dst.subs.find? (SubTlv.isHRWith st) with
  | some (.hasRoute _ des) =>
    if des.contains e then (.ok, dst, fl)
    else if others + dst.size + 3 ≤ kMaxSize then
      (.ok, { dst with subs := appendHREntry st e dst.subs }, fl.update st)
    else (.noBufs, dst, fl)
  | _ =>
    if others + dst.size + (2 + 3) ≤ kMaxSize then
      let dst1 := { dst with subs := dst.subs ++ [.hasRoute st []] }
      if others + dst1.size + 3 ≤ kMaxSize then
        (.ok, { dst1 with subs := appendHREntry st e dst1.subs }, fl.update st)
      else (.noBufs, dst1, fl)
    else (.noBufs, dst, fl)

/-- Mirrors `Leader::AddBorderRouter`: reserve a context id first when the
destination prefix has no Context sub-TLV; find or create the BorderRouter
sub-TLV; create the Context sub-TLV if needed; propagate the source stable
flag to the context, set its compress flag and mark its id in use; finally
append the single source entry unless already present. -/
def addBorderRouter (st : Bool) (srcEntries : List BREntry) (dst : PfxD)
    (others : Nat) (sl : Nat → Nat) (fl : ChangedFlags) (isClone : Bool) :
    Error × PfxD × (Nat → Nat) × ChangedFlags :=
  let e := srcEntries.headD ⟨0, 0⟩
  let hadBR := (dst.subs.find? (SubTlv.isBRWith st)).isSome
  let hadCtx := (dst.subs.find? SubTlv.isCtx).isSome
  let cidPr : Error × Nat :=
    if hadCtx then (.ok, 0) else getUnallocatedId sl isClone
  match cidPr.1 with
  | .ok =>
    let contextId := cidPr.2
    -- create the BorderRouter sub-TLV when absent
    let createBR := !hadBR
    if createBR &&
        !(others + dst.size + (2 + 4 + (if hadCtx then 0 else 4)) ≤ kMaxSize) then
      (.noBufs, dst, sl, fl)
    else
      let dst1 :=
        if createBR then { dst with subs := dst.subs ++ [.borderRouter st []] }
        else dst
      -- create the Context sub-TLV when absent
      if !hadCtx && !(others + dst1.size + (4 + 4) ≤ kMaxSize) then
        (.noBufs, dst1, sl, fl)
      else
        let dst2 :=
          if hadCtx then dst1
          else { dst1 with
                 subs := dst1.subs ++ [.context false false contextId dst.prefixLength] }
        let dst3 :=
          if st then { dst2 with subs := setFirstCtxStable dst2.subs } else dst2
        let dst4 := { dst3 with subs := setFirstCtxCompress true dst3.subs }
        let sl' := markAsInUse (firstCtxId dst4.subs) sl
        if (firstBREntries st dst4.subs).contains e then (.ok, dst4, sl', fl)
        else if others + dst4.size + 4 ≤ kMaxSize then
          (.ok, { dst4 with subs := appendBREntry st e dst4.subs }, sl', fl.update st)
        else (.noBufs, dst4, sl', fl)
  | e' => (e', dst, sl, fl)

/-- The sub-TLV loop of `Leader::AddPrefix`: process each source HasRoute and
BorderRouter sub-TLV in order, stopping at the first error
(`SuccessOrExit`). -/
def addPfxSubs (dst : PfxD) (others : Nat) (sl : Nat → Nat) (fl : ChangedFlags)
    (isClone : Bool) :
    List SubTlv → Error × PfxD × (Nat → Nat) × ChangedFlags
  | [] => (.ok, dst, sl, fl)
  | .hasRoute st es :: rest =>
    match addHasRoute st es dst others fl with
    | (.ok, dst', fl') => addPfxSubs dst' others sl fl' isClone rest
    | (e, dst', fl') => (e, dst', sl, fl')
  | .borderRouter st es :: rest =>
    match addBorderRouter st es dst others sl fl isClone with
    | (.ok, dst', sl', fl') => addPfxSubs dst' others sl' fl' isClone rest
    | (e, dst', sl', fl') => (e, dst', sl', fl')
  | _ :: rest => addPfxSubs dst others sl fl isClone rest

/-- Split the registry around the first Prefix TLV with the given key
(`FindPrefix` plus its position). -/
def splitFirstPfx (prefixLength : Nat) (prefixBytes : List Nat) :
    List NetTlv → Option (List NetTlv × PfxD × List NetTlv)
  | [] => none
  | t :: rest =>
    if pfxKeyMatch prefixLength prefixBytes t then
      match t with
      | .pfx p => some ([], p, rest)
      | _ => none
    else
      match splitFirstPfx prefixLength prefixBytes rest with
      | some (l, p, r) => some (t :: l, p, r)
      | none => none

/-- Split the registry around the first Service TLV with the given key
(`FindService`, exact match, plus its position). -/
def splitFirstSrv (enterprise : Nat) (serviceData : List Nat) :
    List NetTlv → Option (List NetTlv × SrvD × List NetTlv)
  | [] => none
  | t :: rest =>
    if srvKeyMatch enterprise serviceData t then
      match t with
      | .srv v => some ([], v, rest)
      | _ => none
    else
      match splitFirstSrv enterprise serviceData rest with
      | some (l, v, r) => some (t :: l, v, r)
      | none => none

/-- Mirrors `Leader::AddPrefix`: find or append (capacity permitting) the
destination Prefix TLV, run the sub-TLV loop, and always finish with
`UpdatePrefix` on the destination (removing an empty husk). -/
def addPfx (src : PfxD) (tlvs : List NetTlv) (sl : Nat → Nat)
    (fl : ChangedFlags) (isClone : Bool) :
    Error × List NetTlv × (Nat → Nat) × ChangedFlags :=
  match splitFirstPfx src.prefixLength src.prefixBytes tlvs with
  | some (l, dst, r) =>
    let others := sizeAll l + sizeAll r
    let pr := addPfxSubs dst others sl fl isClone src.subs
    (pr.1, l ++ optListP (updateTlvP pr.2.1) ++ r, pr.2.2.1, pr.2.2.2)
  | none =>
    if sizeAll tlvs + pfxBaseSize src.prefixLength ≤ kMaxSize then
      let dst0 : PfxD :=
        ⟨false, src.domainId, src.prefixLength, src.prefixBytes, []⟩
      let pr := addPfxSubs dst0 (sizeAll tlvs) sl fl isClone src.subs
      (pr.1, tlvs ++ optListP (updateTlvP pr.2.1), pr.2.2.1, pr.2.2.2)
    else (.noBufs, tlvs, sl, fl)

/-- Mirrors `Leader::FindServiceById`: first Service TLV carrying the given
service id. -/
def findServiceById (tlvs : List NetTlv) (sid : Nat) : Option SrvD :=
  match tlvs.find? (fun t =>
      match t with
      | .srv v => v.serviceId == sid
      | _ => false) with
  | some (.srv v) => some v
  | _ => none

/-- Mirrors the scan loop of `Leader::AllocateServiceId` over service ids
`kMinServiceId..kMaxServiceId` (fuel-counted). -/
def allocServiceIdScan (tlvs : List NetTlv) : Nat → Nat → Error × Nat
  | 0, _ => (.notFound, 0)
  | fuel + 1, i =>
    if (findServiceById tlvs i).isSome then allocServiceIdScan tlvs fuel (i + 1)
    else (.ok, i)

/-- Mirrors `Leader::AllocateServiceId`: a clone always receives
`kMinServiceId`; otherwise linear scan of ids 0..15 for one not present in
the registry, ending in `kErrorNotFound` when all are in use. -/
def allocateServiceId (tlvs : List NetTlv) (isClone : Bool) : Error × Nat :=
  if isClone then (.ok, 0) else allocServiceIdScan tlvs 16 0

/-- Mirrors `Leader::AddServer`: skip when a byte-identical Server sub-TLV
already exists; otherwise append it, capacity permitting. -/
def addServer (st : Bool) (s16 : Nat) (sd : List Nat) (dst : SrvD)
    (others : Nat) (fl : ChangedFlags) : Error × SrvD × ChangedFlags :=
  if containsMatchingServer (some dst) st s16 sd then (.ok, dst, fl)
  else if others + dst.size + (4 + sd.length) ≤ kMaxSize then
    (.ok, { dst with subs := dst.subs ++ [.server st s16 sd] }, fl.update st)
  else (.noBufs, dst, fl)

/-- First Server sub-TLV of a source Service TLV
(`NetworkDataTlv::Find<ServerTlv>`). -/
def firstServer (subs : List SubTlv) : Option (Bool × Nat × List Nat) :=
  match subs.find? SubTlv.isServer with
  | some (.server st s16 sd) => some (st, s16, sd)
  | _ => none

/-- Mirrors `Leader::AddService`: find or create (allocating a fresh service
id and checking capacity) the destination Service TLV, add the source's
single Server sub-TLV, and finish with `UpdateService`.  A source service
without a Server sub-TLV trips `OT_ASSERT` in the C++; here the add step is
skipped (the registration path validates that a Server sub-TLV exists). -/
def addService (src : SrvD) (tlvs : List NetTlv) (fl : ChangedFlags)
    (isClone : Bool) : Error × List NetTlv × ChangedFlags :=
  match splitFirstSrv src.enterprise src.serviceData tlvs with
  | some (l, dst, r) =>
    let others := sizeAll l + sizeAll r
    match firstServer src.subs with
    | some (st, s16, sd) =>
      let pr := addServer st s16 sd dst others fl
      (pr.1, l ++ optListS (updateTlvS pr.2.1) ++ r, pr.2.2)
    | none => (.ok, l ++ optListS (updateTlvS dst) ++ r, fl)
  | none =>
    match allocateServiceId tlvs isClone with
    | (.ok, sid) =>
      if sizeAll tlvs + srvBaseSize src.serviceData.length ≤ kMaxSize then
        let dst0 : SrvD := ⟨false, sid, src.enterprise, src.serviceData, []⟩
        match firstServer src.subs with
        | some (st, s16, sd) =>
          let pr := addServer st s16 sd dst0 (sizeAll tlvs) fl
          (pr.1, tlvs ++ optListS (updateTlvS pr.2.1), pr.2.2)
        | none => (.ok, tlvs ++ optListS (updateTlvS dst0), fl)
      else (.noBufs, tlvs, fl)
    | (e, _) => (e, tlvs, fl)

/-- The add loop of `Leader::RegisterNetworkData`: process each top-level
Prefix/Service TLV of the submitted blob in order, stopping at the first
error (`SuccessOrExit`); other TLV types are skipped. -/
def addAll : List NetTlv → Leader → ChangedFlags → Error × Leader × ChangedFlags
  | [], s, fl => (.ok, s, fl)
  | .pfx p :: rest, s, fl =>
    let pr := addPfx p s.tlvs s.slots fl s.isClone
    match pr.1 with
    | .ok => addAll rest { s with tlvs := pr.2.1, slots := pr.2.2.1 } pr.2.2.2
    | e => (e, { s with tlvs := pr.2.1, slots := pr.2.2.1 }, pr.2.2.2)
  | .srv v :: rest, s, fl =>
    let pr := addService v s.tlvs fl s.isClone
    match pr.1 with
    | .ok => addAll rest { s with tlvs := pr.2.1 } pr.2.2
    | e => (e, { s with tlvs := pr.2.1 }, pr.2.2)
  | _ :: rest, s, fl => addAll rest s fl

/-- Mirrors `Leader::RegisterNetworkData`: require the submitter's router id
to be allocated (`kErrorNoRoute`), validate the blob (`kErrorParse`), sweep
the submitter's old entries excluding those still present in the submission,
add all submitted TLVs, and finish with `IncrementVersions(flags)` (also on
the error paths, where the flags are still empty for the two early
failures). -/
def registerNetworkData (r : Nat) (net : List NetTlv) (s : Leader) :
    Error × Leader :=
  if !(s.routerAllocated (routerIdFromRloc16 r)) then
    (.noRoute, incrementVersionsF flags0 s)
  else
    match validate net r with
    | .ok =>
      let pr := removeRlocEx r .rloc16 net s flags0
      let pr2 := addAll net pr.1 pr.2
      (pr2.1, incrementVersionsF pr2.2.2 pr2.2.1)
    | e => (e, incrementVersionsF flags0 s)

/-! ## Claim C6: early failure paths of RegisterNetworkData -/

theorem validatePfx_ok_or_parse (p : PfxD) (rloc : Nat) :
    validatePfx p rloc = .ok ∨ validatePfx p rloc = .parse := by
  rcases hl : validatePfxLoop rloc p.subs ⟨false, false, false, false⟩ with _ | f' <;>
    simp only [validatePfx, hl]
  · simp
  · split <;> simp

theorem validateSrv_ok_or_parse (v : SrvD) (rloc : Nat) :
    validateSrv v rloc = .ok ∨ validateSrv v rloc = .parse := by
  rcases hl : validateSrvLoop rloc v.subs false with _ | b <;>
    simp only [validateSrv, hl]
  · simp
  · split <;> simp

theorem validateLoop_ok_or_parse (rloc : Nat) :
    ∀ (l seen : List NetTlv),
      validateLoop rloc l seen = .ok ∨ validateLoop rloc l seen = .parse := by
  intro l
  induction l with
  | nil => intro seen; left; rfl
  | cons t rest ih =>
    intro seen
    cases t with
    | pfx p =>
      simp only [validateLoop]
      split
      · right; rfl
      · split
        · right; rfl
        · rcases validatePfx_ok_or_parse p rloc with h | h <;> rw [h]
          · exact ih (seen ++ [.pfx p])
          · right; rfl
    | srv v =>
      simp only [validateLoop]
      split
      · right; rfl
      · rcases validateSrv_ok_or_parse v rloc with h | h <;> rw [h]
        · exact ih (seen ++ [.srv v])
        · right; rfl
    | other st ty pl => exact ih (seen ++ [.other st ty pl])

theorem validate_ok_or_parse (net : List NetTlv) (rloc : Nat) :
    validate net rloc = .ok ∨ validate net rloc = .parse :=
  validateLoop_ok_or_parse rloc net []

theorem incrementVersionsF_flags0 (s : Leader) : incrementVersionsF flags0 s = s := rfl

/-- C6. When the submitter's router id is not allocated in the router table,
`RegisterNetworkData` fails with `NoRoute`; when the submission fails
validation it fails with `Parse`; in both cases the failure happens before
any mutation, so the returned state is the input state unchanged (registry
bytes, both version counters, and everything else). -/
theorem C6_register_early_failures (r : Nat) (net : List NetTlv) (s : Leader) :
    (s.routerAllocated (routerIdFromRloc16 r) = false →
       registerNetworkData r net s = (.noRoute, s)) ∧
    (s.routerAllocated (routerIdFromRloc16 r) = true → validate net r ≠ .ok →
       registerNetworkData r net s = (.parse, s)) := by
  constructor
  · intro h
    simp only [registerNetworkData, h]
    rfl
  · intro h hval
    have hp : validate net r = .parse := by
      rcases validate_ok_or_parse net r with h' | h'
      · exact absurd h' hval
      · exact h'
    simp only [registerNetworkData, h, hp]
    rfl

theorem C6_register_early_failures_witness :
    (registerNetworkData 0x400 []
        ⟨[], 0, 0, fun _ => 0, 300, false, false, true, fun _ => false, none, 0⟩ =
      (.noRoute,
        ⟨[], 0, 0, fun _ => 0, 300, false, false, true, fun _ => false, none, 0⟩)) ∧
    (registerNetworkData 0x400 [.pfx ⟨false, 0, 0, [], []⟩]
        ⟨[], 0, 0, fun _ => 0, 300, false, false, true, fun _ => true, none, 0⟩ =
      (.parse,
        ⟨[], 0, 0, fun _ => 0, 300, false, false, true, fun _ => true, none, 0⟩)) := by
  constructor
  · exact (C6_register_early_failures 0x400 []
      ⟨[], 0, 0, fun _ => 0, 300, false, false, true, fun _ => false, none, 0⟩).1 rfl
  · exact (C6_register_early_failures 0x400 [.pfx ⟨false, 0, 0, [], []⟩]
      ⟨[], 0, 0, fun _ => 0, 300, false, false, true, fun _ => true, none, 0⟩).2 rfl
      (by decide)

/-! ## Claim C7: service id allocation -/

/-- C7 counterexample.  With all sixteen service ids 0..15 already in use,
creating a new Service TLV fails with `kErrorNotFound` (the error returned by
`AllocateServiceId` and propagated by `SuccessOrExit` in `AddService`), not
with `NoBufs` as the claim states. -/
theorem C7_counterexample :
    (addService ⟨false, 0, 999, [9, 9], [SubTlv.server false 5 []]⟩
        ((List.range 16).map
          (fun i => NetTlv.srv ⟨false, i, 44970, [i], [SubTlv.server false 2 []]⟩))
        flags0 false).1 = Error.notFound ∧
    Error.notFound ≠ Error.noBufs := by
  constructor
  · decide
  · decide

theorem allocServiceIdScan_all_used (tlvs : List NetTlv) :
    ∀ (fuel i : Nat), (∀ k, i ≤ k → k < i + fuel → (findServiceById tlvs k).isSome) →
      allocServiceIdScan tlvs fuel i = (.notFound, 0) := by
  intro fuel
  induction fuel with
  | zero => intro i _; rfl
  | succ n ih =>
    intro i h
    have hi : (findServiceById tlvs i).isSome := h i (Nat.le_refl i) (by omega)
    simp only [allocServiceIdScan, hi, if_true]
    exact ih (i + 1) (fun k hk1 hk2 => h k (by omega) (by omega))

theorem allocServiceIdScan_first_free (tlvs : List NetTlv) :
    ∀ (fuel i j : Nat), i ≤ j → j < i + fuel →
      findServiceById tlvs j = none →
      (∀ k, i ≤ k → k < j → (findServiceById tlvs k).isSome) →
      allocServiceIdScan tlvs fuel i = (.ok, j) := by
  intro fuel
  induction fuel with
  | zero => intro i j h1 h2; omega
  | succ n ih =>
    intro i j h1 h2 hfree hused
    by_cases hij : i = j
    · subst hij
      simp only [allocServiceIdScan, hfree]
      simp
    · have hi : (findServiceById tlvs i).isSome := hused i (Nat.le_refl i) (by omega)
      simp only [allocServiceIdScan, hi, if_true]
      exact ih (i + 1) j (by omega) (by omega) hfree
        (fun k hk1 hk2 => hused k (by omega) hk2)

/-- C7 amended.  When `AddService` creates a new Service TLV (on a non-clone
leader), `AllocateServiceId` assigns the smallest service id in [0,15] not
carried by any registry service, and when all sixteen ids are in use the
operation fails with `NotFound` (`kErrorNotFound`), not `NoBufs`: the new
service is appended with exactly the allocated id, and the all-used case
propagates `NotFound` out of `AddService` leaving the registry unchanged. -/
theorem C7_service_id_allocation (tlvs : List NetTlv) (j : Nat) (src : SrvD)
    (fl : ChangedFlags) :
    (j ≤ 15 → findServiceById tlvs j = none →
      (∀ k, k < j → (findServiceById tlvs k).isSome) →
      allocateServiceId tlvs false = (.ok, j)) ∧
    ((∀ k, k ≤ 15 → (findServiceById tlvs k).isSome) →
      allocateServiceId tlvs false = (.notFound, 0)) ∧
    ((∀ k, k ≤ 15 → (findServiceById tlvs k).isSome) →
      splitFirstSrv src.enterprise src.serviceData tlvs = none →
      addService src tlvs fl false = (.notFound, tlvs, fl)) ∧
    (∀ (st : Bool) (s16 : Nat) (sd : List Nat),
      j ≤ 15 → findServiceById tlvs j = none →
      (∀ k, k < j → (findServiceById tlvs k).isSome) →
      splitFirstSrv src.enterprise src.serviceData tlvs = none →
      firstServer src.subs = some (st, s16, sd) →
      sizeAll tlvs + srvBaseSize src.serviceData.length ≤ kMaxSize →
      sizeAll tlvs + (8 + src.serviceData.length) + (4 + sd.length) ≤ kMaxSize →
      addService src tlvs fl false =
        (.ok,
         tlvs ++ [.srv ⟨st, j, src.enterprise, src.serviceData,
                        [.server st s16 sd]⟩],
         fl.update st)) := by
  refine ⟨?_, ?_, ?_, ?_⟩
  · intro hj hfree hused
    unfold allocateServiceId
    rw [if_neg (by simp)]
    exact allocServiceIdScan_first_free tlvs 16 0 j (Nat.zero_le j) (by omega) hfree
      (fun k _ hk => hused k hk)
  · intro hall
    unfold allocateServiceId
    rw [if_neg (by simp)]
    exact allocServiceIdScan_all_used tlvs 16 0 (fun k _ hk => hall k (by omega))
  · intro hall hsplit
    have halloc : allocateServiceId tlvs false = (.notFound, 0) := by
      unfold allocateServiceId
      rw [if_neg (by simp)]
      exact allocServiceIdScan_all_used tlvs 16 0 (fun k _ hk => hall k (by omega))
    simp only [addService, hsplit, halloc]
  · intro st s16 sd hj hfree hused hsplit hfs hcap1 hcap2
    have halloc : allocateServiceId tlvs false = (.ok, j) := by
      unfold allocateServiceId
      rw [if_neg (by simp)]
      exact allocServiceIdScan_first_free tlvs 16 0 j (Nat.zero_le j) (by omega) hfree
        (fun k _ hk => hused k hk)
    have hcontains : containsMatchingServer
        (some ⟨false, j, src.enterprise, src.serviceData, []⟩) st s16 sd = false := by
      simp [containsMatchingServer]
    simp only [addService, hsplit, halloc, hfs, addServer, hcontains,
      Bool.false_eq_true, if_false]
    rw [if_pos (by simpa [srvBaseSize] using hcap1)]
    rw [if_pos (by simp only [SrvD.size, List.map_nil, List.sum_nil, Nat.add_zero]; omega)]
    simp [updateTlvS, optListS, stableScan, SubTlv.isStable]

theorem C7_service_id_allocation_witness :
    addService ⟨false, 0, 999, [9], [SubTlv.server true 7 [1]]⟩ [] flags0 false =
      (.ok, [.srv ⟨true, 0, 999, [9], [SubTlv.server true 7 [1]]⟩],
        flags0.update true) := by
  have h := (C7_service_id_allocation [] 0 ⟨false, 0, 999, [9], [SubTlv.server true 7 [1]]⟩
    flags0).2.2.2 true 7 [1] (by decide) (by decide) (fun k hk => by omega)
    (by decide) (by decide) (by decide) (by decide)
  exact h

/-! ## Commissioning Data handler (MGMT_COMMISSIONER_SET) -/

/-- MeshCoP TLV type `JoinerUdpPort` (`MeshCoP::Tlv::kJoinerUdpPort`). -/
def kJoinerUdpPort : Nat := 18

/-- MeshCoP TLV type `SteeringData`. -/
def kSteeringData : Nat := 8

/-- MeshCoP TLV type `BorderAgentLocator`. -/
def kBorderAgentLocator : Nat := 9

/-- MeshCoP TLV type `CommissionerSessionId`. -/
def kCommissionerSessionId : Nat := 11

/-- Serialized size of a (non-extended) MeshCoP TLV (`Tlv::GetSize`). -/
def McTlv.size (t : McTlv) : Nat := 2 + t.value.length

/-- Total serialized length of a MeshCoP TLV sequence. -/
def mcSizeAll (l : List McTlv) : Nat := (l.map McTlv.size).sum

/-- The 16-bit commissioner session id stored in a CommissionerSessionId TLV
(`CommissionerSessionIdTlv::GetCommissionerSessionId`, network byte order). -/
def sessionIdOf (t : McTlv) : Nat :=
  t.value.headD 0 * 256 + (t.value.drop 1).headD 0

/-- Commissioner SET response state (`MeshCoP::StateTlv::State`). -/
inductive McState where
  | accept
  | reject
deriving DecidableEq, Repr

/-- The request-parsing loop of `HandleTmf<kUriCommissionerSet>`: reject on an
extended TLV or a BorderAgentLocator; record a JoinerUdpPort/SteeringData as
the required valid TLV; record the (last) CommissionerSessionId after its
validity check; skip unknown TLVs. -/
def scanSetLoop : List McTlv → Bool → Bool → Nat → Option (Bool × Bool × Nat)
  | [], hv, hs, sid => some (hv, hs, sid)
  | t :: rest, hv, hs, sid =>
    if t.extended then none
    else if t.typ = kJoinerUdpPort ∨ t.typ = kSteeringData then
      scanSetLoop rest true hs sid
    else if t.typ = kBorderAgentLocator then none
    else if t.typ = kCommissionerSessionId then
      if 2 ≤ t.value.length then scanSetLoop rest hv true (sessionIdOf t)
      else none
    else scanSetLoop rest hv hs sid

/-- The stored-Commissioning-Data loop of `HandleTmf<kUriCommissionerSet>`:
reject when a stored CommissionerSessionId differs from the provided one;
copy each stored BorderAgentLocator to the scratch buffer, rejecting when the
buffer would overflow `kMaxSize`. -/
def storedScanLoop (sid : Nat) : List McTlv → Nat → List McTlv →
    Option (List McTlv × Nat)
  | [], len, acc => some (acc, len)
  | t :: rest, len, acc =>
    if t.typ = kCommissionerSessionId then
      if sessionIdOf t = sid then storedScanLoop sid rest len acc else none
    else if t.typ = kBorderAgentLocator then
      if len + t.size ≤ kMaxSize then
        storedScanLoop sid rest (len + t.size) (acc ++ [t])
      else none
    else storedScanLoop sid rest len acc

/-- Modelled from the spec: `Install the resulting buffer as the new
Commissioning Data and bump both version counters`
(`SetCommissioningData` lives in the Leader base class, outside the
sources). -/
def setCommissioningData (d : List McTlv) (s : Leader) : Leader :=
  incrementVersionsB true { s with commData := some d }

/-- Mirrors `Leader::HandleTmf<kUriCommissionerSet>`: guarded by leader role
and the post-reset sync wait; parse the request (size bound, session id
required, at least one of JoinerUdpPort/SteeringData, no BorderAgentLocator);
compare the provided session id against every stored CommissionerSessionId;
append stored BorderAgentLocators; install and answer `Accept`, else answer
`Reject` (no response at all when not leader). -/
def handleCommissionerSet (req : List McTlv) (s : Leader) :
    Option McState × Leader :=
  if s.isLeader && !s.waiting then
    if mcSizeAll req ≤ kMaxSize then
      match scanSetLoop req false false 0 with
      | some (hv, hs, sid) =>
        if hs && hv then
          match s.commData with
          | some cd =>
            match storedScanLoop sid cd (mcSizeAll req) [] with
            | some (acc, _) => (some .accept, setCommissioningData (req ++ acc) s)
            | none => (some .reject, s)
          | none => (some .accept, setCommissioningData req s)
        else (some .reject, s)
      | none => (some .reject, s)
    else (some .reject, s)
  else (if s.isLeader then some .reject else none, s)

/-! ## Claim C9: commissioner session id mismatch -/

theorem storedScanLoop_mismatch_none (sid : Nat) :
    ∀ (cd : List McTlv) (len : Nat) (acc : List McTlv),
      (∃ t ∈ cd, t.typ = kCommissionerSessionId ∧ sessionIdOf t ≠ sid) →
      storedScanLoop sid cd len acc = none := by
  intro cd
  induction cd with
  | nil => intro len acc h; simp at h
  | cons t rest ih =>
    intro len acc h
    rcases h with ⟨u, hu, hut, hus⟩
    rcases List.mem_cons.mp hu with rfl | hurest
    · simp [storedScanLoop, hut, hus]
    · simp only [storedScanLoop]
      split
      · split
        · exact ih len acc ⟨u, hurest, hut, hus⟩
        · rfl
      · split
        · split
          · exact ih _ _ ⟨u, hurest, hut, hus⟩
          · rfl
        · exact ih len acc ⟨u, hurest, hut, hus⟩

/-- C9. When the stored Commissioning Data contains a CommissionerSessionId
TLV whose value differs from the session id carried by an otherwise
acceptable MGMT_COMMISSIONER_SET request, the handler responds with
`State = Reject` and leaves the state — in particular the stored
Commissioning Data — completely unchanged. -/
theorem C9_commissioner_session_mismatch (req : List McTlv) (s : Leader)
    (cd : List McTlv) (hv hs : Bool) (sid : Nat)
    (hL : s.isLeader = true) (hW : s.waiting = false)
    (hsize : mcSizeAll req ≤ kMaxSize)
    (hscan : scanSetLoop req false false 0 = some (hv, hs, sid))
    (hcd : s.commData = some cd)
    (hmm : ∃ t ∈ cd, t.typ = kCommissionerSessionId ∧ sessionIdOf t ≠ sid) :
    handleCommissionerSet req s = (some .reject, s) := by
  have hguard : (s.isLeader && !s.waiting) = true := by rw [hL, hW]; rfl
  simp only [handleCommissionerSet, hguard, if_pos hsize, hscan, hcd,
    storedScanLoop_mismatch_none sid cd (mcSizeAll req) [] hmm]
  simp [ite_self]

theorem C9_commissioner_session_mismatch_witness :
    handleCommissionerSet
        [⟨11, false, [0, 43]⟩, ⟨8, false, [255]⟩]
        ⟨[], 3, 4, fun _ => 0, 300, false, false, true, fun _ => true,
          some [⟨11, false, [0, 42]⟩], 0⟩ =
      (some .reject,
        ⟨[], 3, 4, fun _ => 0, 300, false, false, true, fun _ => true,
          some [⟨11, false, [0, 42]⟩], 0⟩) := by
  exact C9_commissioner_session_mismatch
    [⟨11, false, [0, 43]⟩, ⟨8, false, [255]⟩]
    ⟨[], 3, 4, fun _ => 0, 300, false, false, true, fun _ => true,
      some [⟨11, false, [0, 42]⟩], 0⟩
    [⟨11, false, [0, 42]⟩] true true 43 rfl rfl (by decide) (by decide) rfl
    ⟨⟨11, false, [0, 42]⟩, by decide, rfl, by decide⟩

/-! ## Remaining public operations: context removal timer and post-reset sync -/

/-- Compress flag of a Context sub-TLV (`ContextTlv::IsCompress`). -/
def SubTlv.ctxCompress : SubTlv → Bool
  | .context _ co _ _ => co
  | _ => false

/-- The context-stripping loop of `Leader::RemoveContext(PrefixTlv &, id)`:
remove every Context sub-TLV carrying the given id. -/
def removeCtxFromSubs (cid : Nat) : List SubTlv → List SubTlv
  | [] => []
  | .context st co ci cl :: rest =>
    if ci = cid then removeCtxFromSubs cid rest
    else .context st co ci cl :: removeCtxFromSubs cid rest
  | s :: rest => s :: removeCtxFromSubs cid rest

/-- The prefix walk of `Leader::RemoveContext(id)`: strip the context from
every Prefix TLV and apply `UpdatePrefix` (dropping emptied prefixes). -/
def removeContextTlvs (cid : Nat) : List NetTlv → List NetTlv
  | [] => []
  | .pfx p :: rest =>
    optListP (updateTlvP { p with subs := removeCtxFromSubs cid p.subs }) ++
      removeContextTlvs cid rest
  | t :: rest => t :: removeContextTlvs cid rest

/-- Mirrors `Leader::RemoveContext(uint8_t)`: strip the context id from every
prefix, then `IncrementVersions(/* aIncludeStable */ true)`. -/
def removeContextTop (cid : Nat) (s : Leader) : Leader :=
  incrementVersionsB true { s with tlvs := removeContextTlvs cid s.tlvs }

/-- Wrap-around `TimeMilli` comparison `now >= t` (32-bit signed distance). -/
def timeGE (a b : Nat) : Bool :=
  ((a % 4294967296 + 4294967296 - b % 4294967296) % 4294967296) < 2147483648

/-- The id loop of `ContextIds::HandleTimer`: for every pending slot whose
deadline has passed, mark it unallocated and run `Leader::RemoveContext`. -/
def ctxTimerLoop : List Nat → Leader → Leader
  | [], s => s
  | id :: rest, s =>
    if s.slots id = kUnallocated ∨ s.slots id = kInUse then ctxTimerLoop rest s
    else if timeGE s.now (s.slots id) then
      ctxTimerLoop rest (removeContextTop id { s with slots := markAsUnallocated id s.slots })
    else ctxTimerLoop rest s

/-- Mirrors `Leader::HandleTimer`: while waiting for the post-reset sync the
timer demotes the device (an external effect); otherwise it runs the context
id reclamation loop over ids 1..15. -/
def handleTimer (s : Leader) : Leader :=
  if s.waiting then s else ctxTimerLoop (List.range' 1 15) s

/-- Number of Server sub-TLVs in the registry (termination measure for the
restart-on-removal loop of `HandleNetworkDataRestoredAfterReset`). -/
def serverCount (tlvs : List NetTlv) : Nat :=
  (tlvs.map (fun t =>
    match t with
    | .srv v => v.subs.countP SubTlv.isServer
    | _ => 0)).sum

/-- First Server sub-TLV whose router id is not allocated
(`GetNextServer` iteration plus the `IsAllocated` test). -/
def findBadServer (routerAllocated : Nat → Bool) : List NetTlv → Option Nat
  | [] => none
  | .srv v :: rest =>
    match v.subs.find? (fun sub =>
        match sub with
        | .server _ s16 _ => !routerAllocated (routerIdFromRloc16 s16)
        | _ => false) with
    | some (.server _ s16 _) => some s16
    | _ => findBadServer routerAllocated rest
  | _ :: rest => findBadServer routerAllocated rest

/-- The restart-on-removal loop of `HandleNetworkDataRestoredAfterReset`:
while some server's router id is unallocated, `RemoveRloc` it in RouterId
mode and restart the iteration (fuel-counted by the server count). -/
def restoredLoop : Nat → Leader → ChangedFlags → Leader × ChangedFlags
  | 0, s, fl => (s, fl)
  | n + 1, s, fl =>
    match findBadServer s.routerAllocated s.tlvs with
    | none => (s, fl)
    | some r =>
      let pr := removeRlocEx r .routerId [] s fl
      restoredLoop n pr.1 pr.2

/-- The context synchronization walk of
`HandleNetworkDataRestoredAfterReset`: mark every prefix's context id in use
and schedule non-compress contexts for removal. -/
def ctxWalkSlots (now rd : Nat) (clone : Bool) :
    List NetTlv → (Nat → Nat) → (Nat → Nat)
  | [], sl => sl
  | .pfx p :: rest, sl =>
    match p.subs.find? SubTlv.isCtx with
    | some c =>
      let sl1 := markAsInUse c.cidOf sl
      let sl2 :=
        if c.ctxCompress then sl1 else scheduleToRemove sl1 c.cidOf now rd clone
      ctxWalkSlots now rd clone rest sl2
    | none => ctxWalkSlots now rd clone rest sl
  | _ :: rest, sl => ctxWalkSlots now rd clone rest sl

/-- Mirrors `Leader::HandleNetworkDataRestoredAfterReset`: clear the waiting
flag, remove all entries of unallocated router ids (restarting after each
removal), bump versions per the accumulated flags, then synchronize the
context id table with the registry. -/
def handleRestored (s : Leader) : Leader :=
  let s0 := { s with waiting := false }
  let pr := restoredLoop (serverCount s0.tlvs + 1) s0 flags0
  let s1 := incrementVersionsF pr.2 pr.1
  { s1 with slots := ctxWalkSlots s1.now s1.reuseDelay s1.isClone s1.tlvs s1.slots }

/-- The public operations of the Leader considered by the invariant claims. -/
inductive PublicOp where
  | registerOp (r : Nat) (net : List NetTlv)
  | removeBorderRouterOp (r : Nat) (mode : MatchMode)
  | timerOp
  | restoredOp
  | commSetOp (req : List McTlv)

/-- One public operation applied to the Leader state. -/
def step : PublicOp → Leader → Leader
  | .registerOp r net, s => (registerNetworkData r net s).2
  | .removeBorderRouterOp r mode, s => removeBorderRouter r mode s
  | .timerOp, s => handleTimer s
  | .restoredOp, s => handleRestored s
  | .commSetOp req, s => (handleCommissionerSet req s).2

/-! ## Claim C5: UpdateTlv and the no-empty-parent invariant -/

/-- A top-level TLV that is not an empty Prefix/Service husk. -/
def notEmptyTlv : NetTlv → Prop
  | .pfx p => p.subs ≠ []
  | .srv v => v.subs ≠ []
  | .other _ _ _ => True

/-- The invariant of the claim: no empty Prefix TLV or Service TLV exists in
the registry. -/
def noEmptyParent (tlvs : List NetTlv) : Prop := ∀ t ∈ tlvs, notEmptyTlv t

theorem stableScan_eq_any : ∀ l : List SubTlv, stableScan l = l.any SubTlv.isStable := by
  intro l
  induction l with
  | nil => rfl
  | cons s rest ih =>
    simp only [stableScan, List.any_cons, ih]
    by_cases h : s.isStable = true <;> simp [h]

theorem updateTlvP_some_ne (p : PfxD) (p' : PfxD) (h : updateTlvP p = some p') :
    p'.subs ≠ [] := by
  unfold updateTlvP at h
  split at h
  · simp at h
  · rename_i hne
    injection h with h
    subst h
    simpa [List.isEmpty_iff] using hne

theorem updateTlvS_some_ne (v : SrvD) (v' : SrvD) (h : updateTlvS v = some v') :
    v'.subs ≠ [] := by
  unfold updateTlvS at h
  split at h
  · simp at h
  · rename_i hne
    injection h with h
    subst h
    simpa [List.isEmpty_iff] using hne

theorem optListP_notEmpty (p : PfxD) (t : NetTlv)
    (h : t ∈ optListP (updateTlvP p)) : notEmptyTlv t := by
  rcases hq : updateTlvP p with _ | p'
  · rw [hq] at h; simp [optListP] at h
  · rw [hq] at h
    simp only [optListP, List.mem_singleton] at h
    subst h
    exact updateTlvP_some_ne p p' hq

theorem optListS_notEmpty (v : SrvD) (t : NetTlv)
    (h : t ∈ optListS (updateTlvS v)) : notEmptyTlv t := by
  rcases hq : updateTlvS v with _ | v'
  · rw [hq] at h; simp [optListS] at h
  · rw [hq] at h
    simp only [optListS, List.mem_singleton] at h
    subst h
    exact updateTlvS_some_ne v v' hq

theorem sweepTlvs_notEmpty (r : Nat) (mode : MatchMode) (ex : List NetTlv)
    (now rd : Nat) (clone : Bool) :
    ∀ (tlvs : List NetTlv) (sl : Nat → Nat) (fl : ChangedFlags),
    ∀ t ∈ (sweepTlvs r mode ex now rd clone tlvs sl fl).1, notEmptyTlv t := by
  intro tlvs
  induction tlvs with
  | nil => intro sl fl t ht; simp [sweepTlvs] at ht
  | cons x rest ih =>
    intro sl fl t ht
    cases x with
    | pfx p =>
      simp only [sweepTlvs] at ht
      rcases List.mem_append.mp ht with h1 | h2
      · exact optListP_notEmpty _ t h1
      · exact ih _ _ t h2
    | srv v =>
      simp only [sweepTlvs] at ht
      rcases List.mem_append.mp ht with h1 | h2
      · exact optListS_notEmpty _ t h1
      · exact ih _ _ t h2
    | other st ty pl =>
      simp only [sweepTlvs, List.mem_cons] at ht
      rcases ht with rfl | h2
      · trivial
      · exact ih _ _ t h2

theorem splitFirstPfx_some (prefixLength : Nat) (prefixBytes : List Nat) :
    ∀ (tlvs l : List NetTlv) (p : PfxD) (r : List NetTlv),
      splitFirstPfx prefixLength prefixBytes tlvs = some (l, p, r) →
      tlvs = l ++ .pfx p :: r ∧
      pfxKeyMatch prefixLength prefixBytes (.pfx p) = true ∧
      ∀ t ∈ l, pfxKeyMatch prefixLength prefixBytes t = false := by
  intro tlvs
  induction tlvs with
  | nil => intro l p r h; simp [splitFirstPfx] at h
  | cons x rest ih =>
    intro l p r h
    simp only [splitFirstPfx] at h
    split at h
    · rename_i hkey
      cases x with
      | pfx p0 =>
        simp only [Option.some.injEq, Prod.mk.injEq] at h
        obtain ⟨rfl, rfl, rfl⟩ := h
        exact ⟨rfl, hkey, by simp⟩
      | srv v => simp [pfxKeyMatch] at hkey
      | other a b c => simp [pfxKeyMatch] at hkey
    · rename_i hkey
      rcases hq : splitFirstPfx prefixLength prefixBytes rest with _ | ⟨l', p', r'⟩
      · rw [hq] at h; simp at h
      · rw [hq] at h
        simp only [Option.some.injEq, Prod.mk.injEq] at h
        obtain ⟨rfl, rfl, rfl⟩ := h
        obtain ⟨he, hk, hl⟩ := ih l' p' r' hq
        refine ⟨by rw [he]; rfl, hk, ?_⟩
        intro t ht
        rcases List.mem_cons.mp ht with rfl | ht'
        · simpa using hkey
        · exact hl t ht'

theorem splitFirstSrv_some (enterprise : Nat) (serviceData : List Nat) :
    ∀ (tlvs l : List NetTlv) (v : SrvD) (r : List NetTlv),
      splitFirstSrv enterprise serviceData tlvs = some (l, v, r) →
      tlvs = l ++ .srv v :: r ∧
      srvKeyMatch enterprise serviceData (.srv v) = true ∧
      ∀ t ∈ l, srvKeyMatch enterprise serviceData t = false := by
  intro tlvs
  induction tlvs with
  | nil => intro l v r h; simp [splitFirstSrv] at h
  | cons x rest ih =>
    intro l v r h
    simp only [splitFirstSrv] at h
    split at h
    · rename_i hkey
      cases x with
      | srv v0 =>
        simp only [Option.some.injEq, Prod.mk.injEq] at h
        obtain ⟨rfl, rfl, rfl⟩ := h
        exact ⟨rfl, hkey, by simp⟩
      | pfx p => simp [srvKeyMatch] at hkey
      | other a b c => simp [srvKeyMatch] at hkey
    · rename_i hkey
      rcases hq : splitFirstSrv enterprise serviceData rest with _ | ⟨l', v', r'⟩
      · rw [hq] at h; simp at h
      · rw [hq] at h
        simp only [Option.some.injEq, Prod.mk.injEq] at h
        obtain ⟨rfl, rfl, rfl⟩ := h
        obtain ⟨he, hk, hl⟩ := ih l' v' r' hq
        refine ⟨by rw [he]; rfl, hk, ?_⟩
        intro t ht
        rcases List.mem_cons.mp ht with rfl | ht'
        · simpa using hkey
        · exact hl t ht'

theorem splitFirstPfx_none (prefixLength : Nat) (prefixBytes : List Nat) :
    ∀ (tlvs : List NetTlv),
      splitFirstPfx prefixLength prefixBytes tlvs = none →
      ∀ t ∈ tlvs, pfxKeyMatch prefixLength prefixBytes t = false := by
  intro tlvs
  induction tlvs with
  | nil => intro _ t ht; simp at ht
  | cons x rest ih =>
    intro h t ht
    simp only [splitFirstPfx] at h
    split at h
    · rename_i hkey
      cases x with
      | pfx p0 => simp at h
      | srv v => simp [pfxKeyMatch] at hkey
      | other a b c => simp [pfxKeyMatch] at hkey
    · rename_i hkey
      rcases hq : splitFirstPfx prefixLength prefixBytes rest with _ | q
      · rcases List.mem_cons.mp ht with rfl | ht'
        · simpa using hkey
        · exact ih hq t ht'
      · rw [hq] at h; rcases q with ⟨l', p', r'⟩; simp at h

theorem splitFirstSrv_none (enterprise : Nat) (serviceData : List Nat) :
    ∀ (tlvs : List NetTlv),
      splitFirstSrv enterprise serviceData tlvs = none →
      ∀ t ∈ tlvs, srvKeyMatch enterprise serviceData t = false := by
  intro tlvs
  induction tlvs with
  | nil => intro _ t ht; simp at ht
  | cons x rest ih =>
    intro h t ht
    simp only [splitFirstSrv] at h
    split at h
    · rename_i hkey
      cases x with
      | srv v0 => simp at h
      | pfx p => simp [srvKeyMatch] at hkey
      | other a b c => simp [srvKeyMatch] at hkey
    · rename_i hkey
      rcases hq : splitFirstSrv enterprise serviceData rest with _ | q
      · rcases List.mem_cons.mp ht with rfl | ht'
        · simpa using hkey
        · exact ih hq t ht'
      · rw [hq] at h; rcases q with ⟨l', v', r'⟩; simp at h

theorem addPfx_notEmpty (src : PfxD) (tlvs : List NetTlv) (sl : Nat → Nat)
    (fl : ChangedFlags) (isClone : Bool) (hne : noEmptyParent tlvs) :
    noEmptyParent (addPfx src tlvs sl fl isClone).2.1 := by
  rcases hq : splitFirstPfx src.prefixLength src.prefixBytes tlvs with _ | ⟨l, dst, r⟩
  · simp only [addPfx, hq]
    split
    · intro t ht
      rcases List.mem_append.mp ht with h1 | h2
      · exact hne t h1
      · exact optListP_notEmpty _ t h2
    · exact hne
  · simp only [addPfx, hq]
    obtain ⟨he, -, -⟩ := splitFirstPfx_some src.prefixLength src.prefixBytes
      tlvs l dst r hq
    have hmem : ∀ t, t ∈ l ∨ t ∈ r → notEmptyTlv t := by
      intro t ht
      refine hne t ?_
      rw [he]
      rcases ht with h1 | h2
      · exact List.mem_append.mpr (Or.inl h1)
      · exact List.mem_append.mpr (Or.inr (List.mem_cons.mpr (Or.inr h2)))
    intro t ht
    rcases List.mem_append.mp ht with h12 | h3
    · rcases List.mem_append.mp h12 with h1 | h2
      · exact hmem t (Or.inl h1)
      · exact optListP_notEmpty _ t h2
    · exact hmem t (Or.inr h3)

theorem addService_notEmpty (src : SrvD) (tlvs : List NetTlv)
    (fl : ChangedFlags) (isClone : Bool) (hne : noEmptyParent tlvs) :
    noEmptyParent (addService src tlvs fl isClone).2.1 := by
  rcases hq : splitFirstSrv src.enterprise src.serviceData tlvs with _ | ⟨l, dst, r⟩
  · rcases halloc : allocateServiceId tlvs isClone with ⟨e, sid⟩
    rcases hfs : firstServer src.subs with _ | ⟨st, s16, sd⟩
    · cases e
      case ok =>
        simp only [addService, hq, halloc, hfs]
        split
        · intro t ht
          rcases List.mem_append.mp ht with h1 | h2
          · exact hne t h1
          · exact optListS_notEmpty _ t h2
        · exact hne
      all_goals simp only [addService, hq, halloc]
      all_goals exact hne
    · cases e
      case ok =>
        simp only [addService, hq, halloc, hfs]
        split
        · intro t ht
          rcases List.mem_append.mp ht with h1 | h2
          · exact hne t h1
          · exact optListS_notEmpty _ t h2
        · exact hne
      all_goals simp only [addService, hq, halloc]
      all_goals exact hne
  · obtain ⟨he, -, -⟩ := splitFirstSrv_some src.enterprise src.serviceData
      tlvs l dst r hq
    have hmem : ∀ t, t ∈ l ∨ t ∈ r → notEmptyTlv t := by
      intro t ht
      refine hne t ?_
      rw [he]
      rcases ht with h1 | h2
      · exact List.mem_append.mpr (Or.inl h1)
      · exact List.mem_append.mpr (Or.inr (List.mem_cons.mpr (Or.inr h2)))
    rcases hfs : firstServer src.subs with _ | ⟨st, s16, sd⟩ <;>
      simp only [addService, hq, hfs]
    · intro t ht
      rcases List.mem_append.mp ht with h12 | h3
      · rcases List.mem_append.mp h12 with h1 | h2
        · exact hmem t (Or.inl h1)
        · exact optListS_notEmpty _ t h2
      · exact hmem t (Or.inr h3)
    · intro t ht
      rcases List.mem_append.mp ht with h12 | h3
      · rcases List.mem_append.mp h12 with h1 | h2
        · exact hmem t (Or.inl h1)
        · exact optListS_notEmpty _ t h2
      · exact hmem t (Or.inr h3)

theorem addAll_notEmpty : ∀ (net : List NetTlv) (s : Leader) (fl : ChangedFlags),
    noEmptyParent s.tlvs → noEmptyParent (addAll net s fl).2.1.tlvs := by
  intro net
  induction net with
  | nil => intro s fl h; exact h
  | cons x rest ih =>
    intro s fl h
    cases x with
    | pfx p =>
      simp only [addAll]
      have h' := addPfx_notEmpty p s.tlvs s.slots fl s.isClone h
      rcases hq : (addPfx p s.tlvs s.slots fl s.isClone) with ⟨e, tl, sl', fl'⟩
      rw [hq] at h'
      cases e <;> simp only
      case ok => exact ih _ _ h'
      all_goals exact h'
    | srv v =>
      simp only [addAll]
      have h' := addService_notEmpty v s.tlvs fl s.isClone h
      rcases hq : (addService v s.tlvs fl s.isClone) with ⟨e, tl, fl'⟩
      rw [hq] at h'
      cases e <;> simp only
      case ok => exact ih _ _ h'
      all_goals exact h'
    | other a b c => exact ih _ _ h

theorem incrementVersionsB_tlvs (b : Bool) (s : Leader) :
    (incrementVersionsB b s).tlvs = s.tlvs := by
  unfold incrementVersionsB
  split <;> rfl

theorem incrementVersionsF_tlvs (fl : ChangedFlags) (s : Leader) :
    (incrementVersionsF fl s).tlvs = s.tlvs := by
  unfold incrementVersionsF
  split
  · exact incrementVersionsB_tlvs _ _
  · rfl

theorem removeContextTop_tlvs (cid : Nat) (s : Leader) :
    (removeContextTop cid s).tlvs = removeContextTlvs cid s.tlvs := by
  unfold removeContextTop
  rw [incrementVersionsB_tlvs]

theorem removeContextTlvs_notEmpty (cid : Nat) :
    ∀ (tlvs : List NetTlv), noEmptyParent tlvs →
      noEmptyParent (removeContextTlvs cid tlvs) := by
  intro tlvs
  induction tlvs with
  | nil => intro _ t ht; simp [removeContextTlvs] at ht
  | cons x rest ih =>
    intro h t ht
    have hrest : noEmptyParent rest := fun u hu => h u (List.mem_cons.mpr (Or.inr hu))
    cases x with
    | pfx p =>
      simp only [removeContextTlvs] at ht
      rcases List.mem_append.mp ht with h1 | h2
      · exact optListP_notEmpty _ t h1
      · exact ih hrest t h2
    | srv v =>
      simp only [removeContextTlvs, List.mem_cons] at ht
      rcases ht with rfl | h2
      · exact h _ (List.mem_cons.mpr (Or.inl rfl))
      · exact ih hrest t h2
    | other a b c =>
      simp only [removeContextTlvs, List.mem_cons] at ht
      rcases ht with rfl | h2
      · trivial
      · exact ih hrest t h2

theorem ctxTimerLoop_notEmpty : ∀ (ids : List Nat) (s : Leader),
    noEmptyParent s.tlvs → noEmptyParent (ctxTimerLoop ids s).tlvs := by
  intro ids
  induction ids with
  | nil => intro s h; exact h
  | cons id rest ih =>
    intro s h
    simp only [ctxTimerLoop]
    split
    · exact ih s h
    · split
      · refine ih _ ?_
        rw [removeContextTop_tlvs]
        exact removeContextTlvs_notEmpty id _ h
      · exact ih s h

theorem restoredLoop_notEmpty : ∀ (fuel : Nat) (s : Leader) (fl : ChangedFlags),
    noEmptyParent s.tlvs → noEmptyParent (restoredLoop fuel s fl).1.tlvs := by
  intro fuel
  induction fuel with
  | zero => intro s fl h; exact h
  | succ n ih =>
    intro s fl h
    simp only [restoredLoop]
    rcases findBadServer s.routerAllocated s.tlvs with _ | r
    · exact h
    · exact ih _ _ (sweepTlvs_notEmpty _ _ _ _ _ _ s.tlvs s.slots fl)

theorem handleCommissionerSet_tlvs (req : List McTlv) (s : Leader) :
    ((handleCommissionerSet req s).2).tlvs = s.tlvs := by
  unfold handleCommissionerSet
  repeat' split
  all_goals simp [setCommissioningData, incrementVersionsB_tlvs]

theorem register_notEmpty (r : Nat) (net : List NetTlv) (s : Leader)
    (h : noEmptyParent s.tlvs) :
    noEmptyParent ((registerNetworkData r net s).2).tlvs := by
  unfold registerNetworkData
  split
  · rw [incrementVersionsF_tlvs]; exact h
  · rcases hv : validate net r with _ | _ | _ | _ | _ | _
    case ok =>
      simp only
      rw [incrementVersionsF_tlvs]
      refine addAll_notEmpty net _ _ ?_
      exact sweepTlvs_notEmpty _ _ _ _ _ _ s.tlvs s.slots flags0
    all_goals simp only
    all_goals rw [incrementVersionsF_tlvs]
    all_goals exact h

/-- C5. `UpdateTlv` removes a Prefix/Service TLV exactly when it has no
sub-TLVs (reporting `kTlvRemoved`), and otherwise sets the parent's stable
flag to true exactly when some sub-TLV is stable.  Since every mutation runs
through it, no empty Prefix TLV or Service TLV exists after any public
operation. -/
theorem C5_updateTlv_spec_and_no_empty_parent :
    (∀ p : PfxD,
       (p.subs = [] → updateTlvP p = none) ∧
       (p.subs ≠ [] →
         updateTlvP p = some { p with stable := p.subs.any SubTlv.isStable })) ∧
    (∀ v : SrvD,
       (v.subs = [] → updateTlvS v = none) ∧
       (v.subs ≠ [] →
         updateTlvS v = some { v with stable := v.subs.any SubTlv.isStable })) ∧
    (∀ (op : PublicOp) (s : Leader),
       noEmptyParent s.tlvs → noEmptyParent (step op s).tlvs) := by
  refine ⟨?_, ?_, ?_⟩
  · intro p
    constructor
    · intro h
      unfold updateTlvP
      rw [if_pos (by simpa [List.isEmpty_iff] using h)]
    · intro h
      unfold updateTlvP
      rw [if_neg (by simpa [List.isEmpty_iff] using h), stableScan_eq_any]
  · intro v
    constructor
    · intro h
      unfold updateTlvS
      rw [if_pos (by simpa [List.isEmpty_iff] using h)]
    · intro h
      unfold updateTlvS
      rw [if_neg (by simpa [List.isEmpty_iff] using h), stableScan_eq_any]
  · intro op s h
    cases op with
    | registerOp r net => exact register_notEmpty r net s h
    | removeBorderRouterOp r mode =>
      show noEmptyParent (removeBorderRouter r mode s).tlvs
      unfold removeBorderRouter
      rw [incrementVersionsF_tlvs]
      exact sweepTlvs_notEmpty _ _ _ _ _ _ s.tlvs s.slots flags0
    | timerOp =>
      show noEmptyParent (handleTimer s).tlvs
      unfold handleTimer
      split
      · exact h
      · exact ctxTimerLoop_notEmpty _ s h
    | restoredOp =>
      show noEmptyParent (handleRestored s).tlvs
      unfold handleRestored
      simp only
      rw [incrementVersionsF_tlvs]
      exact restoredLoop_notEmpty _ _ _ h
    | commSetOp req =>
      show noEmptyParent ((handleCommissionerSet req s).2).tlvs
      rw [handleCommissionerSet_tlvs]
      exact h

theorem C5_updateTlv_spec_and_no_empty_parent_witness :
    updateTlvP ⟨true, 0, 8, [1], []⟩ = none ∧
    noEmptyParent
      ((step (.registerOp 1024 [.pfx ⟨true, 0, 8, [32],
          [SubTlv.hasRoute true [⟨1024, 0⟩]]⟩])
        ⟨[], 0, 0, fun _ => 0, 300, false, false, true, fun _ => true, none, 0⟩).tlvs) := by
  constructor
  · exact (C5_updateTlv_spec_and_no_empty_parent.1 ⟨true, 0, 8, [1], []⟩).1 rfl
  · exact C5_updateTlv_spec_and_no_empty_parent.2.2
      (.registerOp 1024 [.pfx ⟨true, 0, 8, [32], [SubTlv.hasRoute true [⟨1024, 0⟩]]⟩])
      ⟨[], 0, 0, fun _ => 0, 300, false, false, true, fun _ => true, none, 0⟩
      (by intro t ht; simp at ht)

/-! ## Claim C4: the Context invariant.  Structural views and their
preservation under the list transformations used by the Leader. -/

/-- Prefix TLVs of a registry, in order. -/
def prefixesOf : List NetTlv → List PfxD
  | [] => []
  | .pfx p :: rest => p :: prefixesOf rest
  | _ :: rest => prefixesOf rest

/-- The (compress flag, context id) data of the Context sub-TLVs of a sub-TLV
list, in order. -/
def ctxData (l : List SubTlv) : List (Bool × Nat) :=
  (l.filter SubTlv.isCtx).map (fun c => (c.ctxCompress, c.cidOf))

/-- Whether a Prefix TLV has a BorderRouter sub-TLV
(`FindSubTlv<BorderRouterTlv>() != nullptr`). -/
def hasBR (p : PfxD) : Bool := p.subs.any SubTlv.isBR

/-- Context ids carried by a Prefix TLV. -/
def pfxCtxIds (p : PfxD) : List Nat := (ctxData p.subs).map Prod.snd

/-- All context ids in the registry, in order. -/
def allCtxIds : List NetTlv → List Nat
  | [] => []
  | .pfx p :: rest => pfxCtxIds p ++ allCtxIds rest
  | _ :: rest => allCtxIds rest

/-- Per-prefix part of the context invariant: the prefix has a BorderRouter
sub-TLV iff it has a compress-flagged Context sub-TLV; at most one Context
sub-TLV exists; a compress-flagged context's id is marked `InUse` and no
context id is `Unallocated`. -/
def localInv (sl : Nat → Nat) (p : PfxD) : Prop :=
  (hasBR p = true ↔ ∃ pr ∈ ctxData p.subs, pr.1 = true) ∧
  (ctxData p.subs).length ≤ 1 ∧
  ∀ pr ∈ ctxData p.subs, (pr.1 = true → sl pr.2 = kInUse) ∧ sl pr.2 ≠ kUnallocated

/-- The full context invariant of a Leader state. -/
def Inv (s : Leader) : Prop :=
  (∀ p ∈ prefixesOf s.tlvs, localInv s.slots p) ∧ (allCtxIds s.tlvs).Nodup

/-- The claim's statement: a Prefix TLV has a BorderRouter sub-TLV iff it has
a Context sub-TLV whose compress flag is set and whose context id is marked
`InUse` in the allocator. -/
def ContextClaim (s : Leader) : Prop :=
  ∀ p ∈ prefixesOf s.tlvs,
    (hasBR p = true ↔
      ∃ c ∈ p.subs, SubTlv.isCtx c = true ∧ c.ctxCompress = true ∧
        s.slots c.cidOf = kInUse)

theorem mem_ctxData_iff (l : List SubTlv) (pr : Bool × Nat) :
    pr ∈ ctxData l ↔
      ∃ c ∈ l, SubTlv.isCtx c = true ∧ c.ctxCompress = pr.1 ∧ c.cidOf = pr.2 := by
  unfold ctxData
  simp only [List.mem_map, List.mem_filter]
  constructor
  · rintro ⟨c, ⟨hc, hctx⟩, rfl⟩
    exact ⟨c, hc, hctx, rfl, rfl⟩
  · rintro ⟨c, hc, hctx, h1, h2⟩
    exact ⟨c, ⟨hc, hctx⟩, by rw [h1, h2]⟩

theorem contextClaim_of_inv (s : Leader) (h : Inv s) : ContextClaim s := by
  intro p hp
  obtain ⟨hiff, -, hslots⟩ := h.1 p hp
  constructor
  · intro hbr
    obtain ⟨pr, hpr, hco⟩ := hiff.mp hbr
    obtain ⟨c, hc, hctx, h1, h2⟩ := (mem_ctxData_iff _ _).mp hpr
    exact ⟨c, hc, hctx, by rw [h1, hco], by rw [h2]; exact (hslots pr hpr).1 hco⟩
  · rintro ⟨c, hc, hctx, hco, -⟩
    refine hiff.mpr ⟨(c.ctxCompress, c.cidOf), ?_, hco⟩
    exact (mem_ctxData_iff _ _).mpr ⟨c, hc, hctx, rfl, rfl⟩

/-! Preservation of `ctxData` / BorderRouter presence by the list
transformations of the engine. -/

theorem ctxData_append (l1 l2 : List SubTlv) :
    ctxData (l1 ++ l2) = ctxData l1 ++ ctxData l2 := by
  simp [ctxData]

theorem ctxData_cons (s : SubTlv) (l : List SubTlv) :
    ctxData (s :: l) =
      (if SubTlv.isCtx s then [(s.ctxCompress, s.cidOf)] else []) ++ ctxData l := by
  simp only [ctxData, List.filter_cons]
  split <;> simp_all

theorem ctxData_removeRlocSubs (rloc : Nat) (mode : MatchMode)
    (exP : Option PfxD) : ∀ (subs : List SubTlv) (fl : ChangedFlags),
    ctxData (removeRlocSubs rloc mode exP subs fl).1 = ctxData subs := by
  intro subs
  induction subs with
  | nil => intro fl; rfl
  | cons s rest ih =>
    intro fl
    cases s with
    | hasRoute st es =>
      simp only [removeRlocSubs]
      split <;> simp [ctxData_cons, SubTlv.isCtx, ih]
    | borderRouter st es =>
      simp only [removeRlocSubs]
      split <;> simp [ctxData_cons, SubTlv.isCtx, ih]
    | context st co ci cl =>
      simp only [removeRlocSubs]
      simp [ctxData_cons, SubTlv.isCtx, SubTlv.ctxCompress, SubTlv.cidOf, ih]
    | server st s16 sd =>
      simp only [removeRlocSubs]
      simp [ctxData_cons, SubTlv.isCtx, ih]
    | otherSub st ty pl =>
      simp only [removeRlocSubs]
      simp [ctxData_cons, SubTlv.isCtx, ih]

theorem brAny_removeRlocSubs (rloc : Nat) (mode : MatchMode) (exP : Option PfxD) :
    ∀ (subs : List SubTlv) (fl : ChangedFlags),
    (removeRlocSubs rloc mode exP subs fl).1.any SubTlv.isBR = true →
      subs.any SubTlv.isBR = true := by
  intro subs
  induction subs with
  | nil => intro fl h; simpa [removeRlocSubs] using h
  | cons s rest ih =>
    intro fl h
    cases s with
    | hasRoute st es =>
      simp only [removeRlocSubs] at h
      split at h
      · simp [List.any_cons, SubTlv.isBR, ih _ h]
      · simp only [List.any_cons, SubTlv.isBR, Bool.false_or] at h ⊢
        exact ih _ h
    | borderRouter st es => simp [List.any_cons, SubTlv.isBR]
    | context st co ci cl =>
      simp only [removeRlocSubs] at h
      simp only [List.any_cons, SubTlv.isBR, Bool.false_or] at h ⊢
      exact ih _ h
    | server st s16 sd =>
      simp only [removeRlocSubs] at h
      simp only [List.any_cons, SubTlv.isBR, Bool.false_or] at h ⊢
      exact ih _ h
    | otherSub st ty pl =>
      simp only [removeRlocSubs] at h
      simp only [List.any_cons, SubTlv.isBR, Bool.false_or] at h ⊢
      exact ih _ h

theorem ctxData_setFirstCtxCompress (b : Bool) : ∀ (l : List SubTlv),
    ctxData (setFirstCtxCompress b l) =
      (match ctxData l with
       | [] => []
       | pr :: rest => (b, pr.2) :: rest) := by
  intro l
  induction l with
  | nil => rfl
  | cons s rest ih =>
    cases s with
    | context st co ci cl =>
      simp [setFirstCtxCompress, ctxData_cons, SubTlv.isCtx, SubTlv.ctxCompress,
        SubTlv.cidOf]
    | hasRoute st es =>
      simp [setFirstCtxCompress, ctxData_cons, SubTlv.isCtx, ih]
    | borderRouter st es =>
      simp [setFirstCtxCompress, ctxData_cons, SubTlv.isCtx, ih]
    | server st s16 sd =>
      simp [setFirstCtxCompress, ctxData_cons, SubTlv.isCtx, ih]
    | otherSub st ty pl =>
      simp [setFirstCtxCompress, ctxData_cons, SubTlv.isCtx, ih]

theorem brAny_setFirstCtxCompress (b : Bool) : ∀ (l : List SubTlv),
    (setFirstCtxCompress b l).any SubTlv.isBR = l.any SubTlv.isBR := by
  intro l
  induction l with
  | nil => rfl
  | cons s rest ih =>
    cases s <;> simp [setFirstCtxCompress, List.any_cons, SubTlv.isBR, ih]

theorem ctxData_setFirstCtxStable : ∀ (l : List SubTlv),
    ctxData (setFirstCtxStable l) = ctxData l := by
  intro l
  induction l with
  | nil => rfl
  | cons s rest ih =>
    cases s <;> simp [setFirstCtxStable, ctxData_cons, SubTlv.isCtx,
      SubTlv.ctxCompress, SubTlv.cidOf, ih]

theorem brAny_setFirstCtxStable : ∀ (l : List SubTlv),
    (setFirstCtxStable l).any SubTlv.isBR = l.any SubTlv.isBR := by
  intro l
  induction l with
  | nil => rfl
  | cons s rest ih =>
    cases s <;> simp [setFirstCtxStable, List.any_cons, SubTlv.isBR, ih]

theorem find?_isCtx_ctxData_head : ∀ (l : List SubTlv) (c : SubTlv),
    l.find? SubTlv.isCtx = some c →
    ∃ restD, ctxData l = (c.ctxCompress, c.cidOf) :: restD := by
  intro l
  induction l with
  | nil => intro c h; simp at h
  | cons s rest ih =>
    intro c h
    by_cases hs : SubTlv.isCtx s = true
    · rw [List.find?_cons_of_pos _ hs] at h
      injection h with h
      subst h
      exact ⟨ctxData rest, by simp [ctxData_cons, hs]⟩
    · rw [List.find?_cons_of_neg _ hs] at h
      obtain ⟨restD, hr⟩ := ih c h
      exact ⟨restD, by simp [ctxData_cons, hs, hr]⟩

theorem find?_isCtx_none_ctxData : ∀ (l : List SubTlv),
    l.find? SubTlv.isCtx = none → ctxData l = [] := by
  intro l h
  unfold ctxData
  rw [List.filter_eq_nil_iff.mpr]
  · rfl
  · intro a ha
    have := List.find?_eq_none.mp h a ha
    simpa using this

theorem scheduleToRemove_other (sl : Nat → Nat) (id now rd : Nat) (clone : Bool)
    (j : Nat) (hj : j ≠ id) : scheduleToRemove sl id now rd clone j = sl j := by
  unfold scheduleToRemove
  split
  · rfl
  · split
    · simp [updSlot, hj]
    · rfl

theorem scheduleToRemove_ne_zero (sl : Nat → Nat) (id now rd : Nat) (clone : Bool)
    (h : sl id ≠ kUnallocated) :
    scheduleToRemove sl id now rd clone id ≠ kUnallocated := by
  unfold scheduleToRemove
  split
  · exact h
  · split
    · simp only [updSlot, if_pos rfl]
      exact (setRemoveTimeVal_ne_sentinels _).1
    · exact h

theorem scheduleToRemove_pending (sl : Nat → Nat) (id now rd : Nat)
    (h : sl id ≠ kUnallocated) :
    scheduleToRemove sl id now rd false id ≠ kUnallocated ∧
    scheduleToRemove sl id now rd false id ≠ kInUse := by
  unfold scheduleToRemove
  rw [if_neg (by simp)]
  split
  · simp only [updSlot, if_pos rfl]
    exact ⟨(setRemoveTimeVal_ne_sentinels _).1, (setRemoveTimeVal_ne_sentinels _).2⟩
  · exact ⟨h, by assumption⟩

theorem markAsInUse_other (sl : Nat → Nat) (id j : Nat) (hj : j ≠ id) :
    markAsInUse id sl j = sl j := by
  simp [markAsInUse, updSlot, hj]

theorem markAsInUse_self (sl : Nat → Nat) (id : Nat) :
    markAsInUse id sl id = kInUse := by
  simp [markAsInUse, updSlot]

theorem removeRlocInPrefix_inv (p : PfxD) (rloc : Nat) (mode : MatchMode)
    (exP : Option PfxD) (sl : Nat → Nat) (fl : ChangedFlags) (now rd : Nat)
    (clone : Bool) (hloc : localInv sl p) :
    localInv (removeRlocInPrefix p rloc mode exP sl fl now rd clone).2.1
      (removeRlocInPrefix p rloc mode exP sl fl now rd clone).1 ∧
    pfxCtxIds (removeRlocInPrefix p rloc mode exP sl fl now rd clone).1 =
      pfxCtxIds p ∧
    (∀ j, j ∉ pfxCtxIds p →
      (removeRlocInPrefix p rloc mode exP sl fl now rd clone).2.1 j = sl j) := by
  obtain ⟨hiff, hlen, hslots⟩ := hloc
  have hctx : ctxData (removeRlocSubs rloc mode exP p.subs fl).1 = ctxData p.subs :=
    ctxData_removeRlocSubs rloc mode exP p.subs fl
  rcases hf : ((removeRlocSubs rloc mode exP p.subs fl).1).find? SubTlv.isCtx
    with _ | c
  · have hempty : ctxData p.subs = [] := by
      rw [← hctx]; exact find?_isCtx_none_ctxData _ hf
    have hnobr : (removeRlocSubs rloc mode exP p.subs fl).1.any SubTlv.isBR = false := by
      by_contra hb
      rw [Bool.not_eq_false] at hb
      have := hiff.mp (brAny_removeRlocSubs rloc mode exP p.subs fl hb)
      rw [hempty] at this
      simp at this
    simp only [removeRlocInPrefix, hf]
    refine ⟨⟨?_, ?_, ?_⟩, ?_, ?_⟩
    · show ((removeRlocSubs rloc mode exP p.subs fl).1.any SubTlv.isBR = true ↔ _)
      rw [hnobr, hctx, hempty]
      simp
    · rw [hctx, hempty]; simp
    · rw [hctx, hempty]; simp
    · simp [pfxCtxIds, hctx]
    · intro j hj
      trivial
  · obtain ⟨restD, hcd⟩ := find?_isCtx_ctxData_head _ c hf
    have hcd' : ctxData p.subs = (c.ctxCompress, c.cidOf) :: restD := by
      rw [← hctx, hcd]
    have hrest : restD = [] := by
      rw [hcd'] at hlen
      simpa using List.length_eq_zero.mp (by simpa using hlen)
    subst hrest
    have hmem0 : (c.ctxCompress, c.cidOf) ∈ ctxData p.subs := by
      rw [hcd']; exact List.mem_singleton.mpr rfl
    have hne0 : sl c.cidOf ≠ kUnallocated := (hslots _ hmem0).2
    simp only [removeRlocInPrefix, hf]
    split
    · rename_i hbr
      have hcd2 : ctxData (setFirstCtxCompress true
          (removeRlocSubs rloc mode exP p.subs fl).1) = [(true, c.cidOf)] := by
        rw [ctxData_setFirstCtxCompress, hcd]
      refine ⟨⟨?_, ?_, ?_⟩, ?_, ?_⟩
      · show ((setFirstCtxCompress true _).any SubTlv.isBR = true ↔ _)
        rw [brAny_setFirstCtxCompress, hbr, hcd2]
        simp
      · rw [hcd2]; simp
      · rw [hcd2]
        intro pr hpr
        rw [List.mem_singleton] at hpr
        subst hpr
        constructor
        · intro _
          show markAsInUse c.cidOf sl c.cidOf = kInUse
          exact markAsInUse_self sl c.cidOf
        · show markAsInUse c.cidOf sl c.cidOf ≠ kUnallocated
          rw [markAsInUse_self]
          simp [kInUse, kUnallocated]
      · simp [pfxCtxIds, hcd2, hcd']
      · intro j hj
        refine markAsInUse_other sl c.cidOf j ?_
        intro hjeq
        exact hj (by simp [pfxCtxIds, hcd', hjeq])
    · rename_i hbr
      rw [Bool.not_eq_true] at hbr
      have hcd2 : ctxData (setFirstCtxCompress false
          (removeRlocSubs rloc mode exP p.subs fl).1) = [(false, c.cidOf)] := by
        rw [ctxData_setFirstCtxCompress, hcd]
      refine ⟨⟨?_, ?_, ?_⟩, ?_, ?_⟩
      · show ((setFirstCtxCompress false _).any SubTlv.isBR = true ↔ _)
        rw [brAny_setFirstCtxCompress, hbr, hcd2]
        simp
      · rw [hcd2]; simp
      · rw [hcd2]
        intro pr hpr
        rw [List.mem_singleton] at hpr
        subst hpr
        constructor
        · intro h
          simp at h
        · show scheduleToRemove sl c.cidOf now rd clone c.cidOf ≠ kUnallocated
          exact scheduleToRemove_ne_zero sl c.cidOf now rd clone hne0
      · simp [pfxCtxIds, hcd2, hcd']
      · intro j hj
        refine scheduleToRemove_other sl c.cidOf now rd clone j ?_
        intro hjeq
        exact hj (by simp [pfxCtxIds, hcd', hjeq])

theorem localInv_of_subs_eq (sl : Nat → Nat) (p q : PfxD) (h : q.subs = p.subs) :
    localInv sl p ↔ localInv sl q := by
  simp [localInv, hasBR, h]

theorem localInv_slots_congr (sl sl' : Nat → Nat) (p : PfxD)
    (h : ∀ id ∈ pfxCtxIds p, sl' id = sl id) (hp : localInv sl p) :
    localInv sl' p := by
  obtain ⟨hiff, hlen, hslots⟩ := hp
  refine ⟨hiff, hlen, ?_⟩
  intro pr hpr
  have hid : pr.2 ∈ pfxCtxIds p := by
    simp only [pfxCtxIds, List.mem_map]
    exact ⟨pr, hpr, rfl⟩
  rw [h pr.2 hid]
  exact hslots pr hpr

theorem updateTlvP_subs (p q : PfxD) (h : updateTlvP p = some q) :
    q.subs = p.subs := by
  unfold updateTlvP at h
  split at h
  · simp at h
  · injection h with h
    subst h
    rfl

theorem updateTlvS_subs (v w : SrvD) (h : updateTlvS v = some w) :
    w.subs = v.subs := by
  unfold updateTlvS at h
  split at h
  · simp at h
  · injection h with h
    subst h
    rfl

theorem prefixesOf_append : ∀ (a b : List NetTlv),
    prefixesOf (a ++ b) = prefixesOf a ++ prefixesOf b := by
  intro a
  induction a with
  | nil => intro b; rfl
  | cons x rest ih =>
    intro b
    cases x <;> simp [prefixesOf, ih]

theorem allCtxIds_append : ∀ (a b : List NetTlv),
    allCtxIds (a ++ b) = allCtxIds a ++ allCtxIds b := by
  intro a
  induction a with
  | nil => intro b; rfl
  | cons x rest ih =>
    intro b
    cases x <;> simp [allCtxIds, ih]

theorem mem_allCtxIds_of_mem_prefixes : ∀ (tlvs : List NetTlv) (p : PfxD),
    p ∈ prefixesOf tlvs → ∀ id ∈ pfxCtxIds p, id ∈ allCtxIds tlvs := by
  intro tlvs
  induction tlvs with
  | nil => intro p hp; simp [prefixesOf] at hp
  | cons x rest ih =>
    intro p hp id hid
    cases x with
    | pfx q =>
      simp only [prefixesOf, List.mem_cons] at hp
      rcases hp with rfl | hp'
      · simp only [allCtxIds, List.mem_append]
        exact Or.inl hid
      · simp only [allCtxIds, List.mem_append]
        exact Or.inr (ih p hp' id hid)
    | srv v => exact ih p hp id hid
    | other a b c => exact ih p hp id hid

theorem sweepTlvs_inv (r : Nat) (mode : MatchMode) (ex : List NetTlv)
    (now rd : Nat) (clone : Bool) : ∀ (tlvs : List NetTlv) (sl : Nat → Nat)
    (fl : ChangedFlags),
    (∀ p ∈ prefixesOf tlvs, localInv sl p) →
    (allCtxIds tlvs).Nodup →
    (∀ p ∈ prefixesOf (sweepTlvs r mode ex now rd clone tlvs sl fl).1,
        localInv (sweepTlvs r mode ex now rd clone tlvs sl fl).2.1 p) ∧
    (allCtxIds (sweepTlvs r mode ex now rd clone tlvs sl fl).1).Nodup ∧
    (∀ j, j ∈ allCtxIds (sweepTlvs r mode ex now rd clone tlvs sl fl).1 →
        j ∈ allCtxIds tlvs) ∧
    (∀ j, j ∉ allCtxIds tlvs →
        (sweepTlvs r mode ex now rd clone tlvs sl fl).2.1 j = sl j) := by
  intro tlvs
  induction tlvs with
  | nil =>
    intro sl fl _ _
    exact ⟨by intro p hp; simp [sweepTlvs, prefixesOf] at hp, by simp [sweepTlvs, allCtxIds],
      by intro j hj; simpa [sweepTlvs] using hj, by intro j _; rfl⟩
  | cons x rest ih =>
    intro sl fl hall hnd
    cases x with
    | pfx p =>
      have hlocp : localInv sl p := hall p (by simp [prefixesOf])
      obtain ⟨hLp, hIdsEq, hFrame⟩ := removeRlocInPrefix_inv p r mode
        (findPfx ex p.prefixLength p.prefixBytes) sl fl now rd clone hlocp
      have hndapp := (List.nodup_append.mp (by simpa [allCtxIds] using hnd))
      obtain ⟨hndp, hndrest, hdisj⟩ := hndapp
      -- the tail prefixes keep their local invariants under the new slots
      have hallrest : ∀ q ∈ prefixesOf rest,
          localInv (removeRlocInPrefix p r mode
            (findPfx ex p.prefixLength p.prefixBytes) sl fl now rd clone).2.1 q := by
        intro q hq
        refine localInv_slots_congr sl _ q ?_ (hall q (by simp [prefixesOf, hq]))
        intro id hid
        refine hFrame id ?_
        intro hidp
        exact hdisj hidp (mem_allCtxIds_of_mem_prefixes rest q hq id hid)
      obtain ⟨ih1, ih2, ih3, ih4⟩ := ih
        (removeRlocInPrefix p r mode (findPfx ex p.prefixLength p.prefixBytes)
          sl fl now rd clone).2.1
        (removeRlocInPrefix p r mode (findPfx ex p.prefixLength p.prefixBytes)
          sl fl now rd clone).2.2 hallrest hndrest
      simp only [sweepTlvs]
      refine ⟨?_, ?_, ?_, ?_⟩
      · intro q hq
        rw [prefixesOf_append] at hq
        rcases List.mem_append.mp hq with h1 | h2
        · -- q comes from the updated head prefix
          rcases hu : updateTlvP (removeRlocInPrefix p r mode
              (findPfx ex p.prefixLength p.prefixBytes) sl fl now rd clone).1
            with _ | q'
          · rw [hu] at h1; simp [optListP, prefixesOf] at h1
          · rw [hu] at h1
            simp only [optListP, prefixesOf, List.mem_singleton] at h1
            subst h1
            have hsubs := updateTlvP_subs _ _ hu
            refine localInv_slots_congr _ _ q ?_
              ((localInv_of_subs_eq _ _ q hsubs).mp hLp)
            intro id hid
            refine ih4 id ?_
            intro hidrest
            have hidp : id ∈ pfxCtxIds p := by
              rw [← hIdsEq]
              simpa [pfxCtxIds, ctxData, hsubs] using hid
            exact hdisj hidp hidrest
        · exact ih1 q h2
      · rw [allCtxIds_append]
        rw [List.nodup_append]
        refine ⟨?_, ih2, ?_⟩
        · rcases hu : updateTlvP (removeRlocInPrefix p r mode
              (findPfx ex p.prefixLength p.prefixBytes) sl fl now rd clone).1
            with _ | q'
          · simp [optListP, allCtxIds]
          · have hsubs := updateTlvP_subs _ _ hu
            have : allCtxIds (optListP (some q')) = pfxCtxIds p := by
              simp only [optListP, allCtxIds]
              rw [← hIdsEq]
              simp [pfxCtxIds, ctxData, hsubs]
            rw [this]
            exact hndp
        · intro a ha hb
          have hap : a ∈ pfxCtxIds p := by
            rcases hu : updateTlvP (removeRlocInPrefix p r mode
                (findPfx ex p.prefixLength p.prefixBytes) sl fl now rd clone).1
              with _ | q'
            · rw [hu] at ha; simp [optListP, allCtxIds] at ha
            · rw [hu] at ha
              have hsubs := updateTlvP_subs _ _ hu
              rw [← hIdsEq]
              simpa [optListP, allCtxIds, pfxCtxIds, ctxData, hsubs] using ha
          exact hdisj hap (ih3 a hb)
      · intro j hj
        rw [allCtxIds_append] at hj
        simp only [allCtxIds, List.mem_append]
        rcases List.mem_append.mp hj with h1 | h2
        · left
          rcases hu : updateTlvP (removeRlocInPrefix p r mode
              (findPfx ex p.prefixLength p.prefixBytes) sl fl now rd clone).1
            with _ | q'
          · rw [hu] at h1; simp [optListP, allCtxIds] at h1
          · rw [hu] at h1
            have hsubs := updateTlvP_subs _ _ hu
            rw [← hIdsEq]
            simpa [optListP, allCtxIds, pfxCtxIds, ctxData, hsubs] using h1
        · exact Or.inr (ih3 j h2)
      · intro j hj
        simp only [allCtxIds, List.mem_append] at hj
        push_neg at hj
        rw [ih4 j hj.2]
        exact hFrame j hj.1
    | srv v =>
      simp only [sweepTlvs]
      obtain ⟨ih1, ih2, ih3, ih4⟩ := ih sl
        (removeRlocInService r mode (findSrv ex v.enterprise v.serviceData)
          v.subs fl).2
        (fun q hq => hall q (by simp [prefixesOf, hq])) (by simpa [allCtxIds] using hnd)
      have hpre : ∀ (o : Option SrvD) (rest' : List NetTlv),
          prefixesOf (optListS o ++ rest') = prefixesOf rest' := by
        intro o rest'
        rcases o with _ | w <;> simp [optListS, prefixesOf]
      have hids : ∀ (o : Option SrvD) (rest' : List NetTlv),
          allCtxIds (optListS o ++ rest') = allCtxIds rest' := by
        intro o rest'
        rcases o with _ | w <;> simp [optListS, allCtxIds]
      refine ⟨?_, ?_, ?_, ?_⟩
      · intro q hq
        rw [hpre] at hq
        exact ih1 q hq
      · rw [hids]
        exact ih2
      · intro j hj
        rw [hids] at hj
        simpa [allCtxIds] using ih3 j hj
      · intro j hj
        exact ih4 j (by simpa [allCtxIds] using hj)
    | other a b c =>
      simp only [sweepTlvs]
      obtain ⟨ih1, ih2, ih3, ih4⟩ := ih sl fl
        (fun q hq => hall q (by simp [prefixesOf, hq])) (by simpa [allCtxIds] using hnd)
      refine ⟨?_, ?_, ?_, ?_⟩
      · intro q hq
        exact ih1 q (by simpa [prefixesOf] using hq)
      · simpa [allCtxIds] using ih2
      · intro j hj
        simp only [allCtxIds] at hj ⊢
        exact ih3 j hj
      · intro j hj
        exact ih4 j (by simpa [allCtxIds] using hj)

theorem ctxData_appendHREntry (st : Bool) (e : HREntry) : ∀ (l : List SubTlv),
    ctxData (appendHREntry st e l) = ctxData l := by
  intro l
  induction l with
  | nil => rfl
  | cons s rest ih =>
    cases s with
    | hasRoute st' es =>
      simp only [appendHREntry]
      split <;> simp [ctxData_cons, SubTlv.isCtx, ih]
    | borderRouter st' es => simp [appendHREntry, ctxData_cons, SubTlv.isCtx, ih]
    | context a b c d =>
      simp [appendHREntry, ctxData_cons, SubTlv.isCtx, SubTlv.ctxCompress,
        SubTlv.cidOf, ih]
    | server a b c => simp [appendHREntry, ctxData_cons, SubTlv.isCtx, ih]
    | otherSub a b c => simp [appendHREntry, ctxData_cons, SubTlv.isCtx, ih]

theorem brAny_appendHREntry (st : Bool) (e : HREntry) : ∀ (l : List SubTlv),
    (appendHREntry st e l).any SubTlv.isBR = l.any SubTlv.isBR := by
  intro l
  induction l with
  | nil => rfl
  | cons s rest ih =>
    cases s with
    | hasRoute st' es =>
      simp only [appendHREntry]
      split <;> simp [List.any_cons, SubTlv.isBR, ih]
    | borderRouter st' es => simp [appendHREntry, List.any_cons, SubTlv.isBR, ih]
    | context a b c d => simp [appendHREntry, List.any_cons, SubTlv.isBR, ih]
    | server a b c => simp [appendHREntry, List.any_cons, SubTlv.isBR, ih]
    | otherSub a b c => simp [appendHREntry, List.any_cons, SubTlv.isBR, ih]

theorem ctxData_appendBREntry (st : Bool) (e : BREntry) : ∀ (l : List SubTlv),
    ctxData (appendBREntry st e l) = ctxData l := by
  intro l
  induction l with
  | nil => rfl
  | cons s rest ih =>
    cases s with
    | borderRouter st' es =>
      simp only [appendBREntry]
      split <;> simp [ctxData_cons, SubTlv.isCtx, ih]
    | hasRoute st' es => simp [appendBREntry, ctxData_cons, SubTlv.isCtx, ih]
    | context a b c d =>
      simp [appendBREntry, ctxData_cons, SubTlv.isCtx, SubTlv.ctxCompress,
        SubTlv.cidOf, ih]
    | server a b c => simp [appendBREntry, ctxData_cons, SubTlv.isCtx, ih]
    | otherSub a b c => simp [appendBREntry, ctxData_cons, SubTlv.isCtx, ih]

theorem brAny_appendBREntry (st : Bool) (e : BREntry) : ∀ (l : List SubTlv),
    (appendBREntry st e l).any SubTlv.isBR = l.any SubTlv.isBR := by
  intro l
  induction l with
  | nil => rfl
  | cons s rest ih =>
    cases s with
    | borderRouter st' es =>
      simp only [appendBREntry]
      split <;> simp [List.any_cons, SubTlv.isBR, ih]
    | hasRoute st' es => simp [appendBREntry, List.any_cons, SubTlv.isBR, ih]
    | context a b c d => simp [appendBREntry, List.any_cons, SubTlv.isBR, ih]
    | server a b c => simp [appendBREntry, List.any_cons, SubTlv.isBR, ih]
    | otherSub a b c => simp [appendBREntry, List.any_cons, SubTlv.isBR, ih]

theorem localInv_congr (sl : Nat → Nat) (p q : PfxD)
    (h1 : ctxData q.subs = ctxData p.subs) (h2 : hasBR q = hasBR p) :
    localInv sl p ↔ localInv sl q := by
  simp [localInv, h1, h2]

theorem firstCtxId_eq_ctxData_head : ∀ (l : List SubTlv) (b : Bool) (i : Nat)
    (rest : List (Bool × Nat)), ctxData l = (b, i) :: rest → firstCtxId l = i := by
  intro l
  induction l with
  | nil => intro b i rest h; simp [ctxData] at h
  | cons s tl ih =>
    intro b i rest h
    by_cases hs : SubTlv.isCtx s = true
    · rw [ctxData_cons] at h
      rw [if_pos hs] at h
      simp only [List.cons_append, List.nil_append, List.cons.injEq] at h
      obtain ⟨h1, -⟩ := h
      unfold firstCtxId
      rw [List.find?_cons_of_pos _ hs]
      simpa using congrArg Prod.snd h1
    · rw [ctxData_cons] at h
      rw [if_neg hs] at h
      simp only [List.nil_append] at h
      unfold firstCtxId
      rw [List.find?_cons_of_neg _ hs]
      exact ih b i rest h

theorem find?_isCtx_isSome_iff (l : List SubTlv) :
    (l.find? SubTlv.isCtx).isSome = true ↔ ctxData l ≠ [] := by
  rw [List.find?_isSome]
  unfold ctxData
  constructor
  · rintro ⟨c, hc, hctx⟩ h
    have : c ∈ l.filter SubTlv.isCtx := List.mem_filter.mpr ⟨hc, hctx⟩
    rw [List.eq_nil_of_map_eq_nil h] at this
    simp at this
  · intro h
    rcases hq : l.filter SubTlv.isCtx with _ | ⟨c, cs⟩
    · rw [hq] at h; simp at h
    · have : c ∈ l.filter SubTlv.isCtx := by rw [hq]; simp
      obtain ⟨hcl, hctx⟩ := List.mem_filter.mp this
      exact ⟨c, hcl, hctx⟩

theorem isBRWith_isBR {st : Bool} {c : SubTlv} (h : SubTlv.isBRWith st c = true) :
    SubTlv.isBR c = true := by
  cases c <;> simp_all [SubTlv.isBRWith, SubTlv.isBR]

theorem find?_isBRWith_isSome_any {st : Bool} {l : List SubTlv}
    (h : (l.find? (SubTlv.isBRWith st)).isSome = true) :
    l.any SubTlv.isBR = true := by
  rw [List.find?_isSome] at h
  obtain ⟨c, hc, hbr⟩ := h
  exact List.any_eq_true.mpr ⟨c, hc, isBRWith_isBR hbr⟩

theorem getUnallocatedIdScan_zero (sl : Nat → Nat) : ∀ (fuel i cid : Nat),
    getUnallocatedIdScan sl fuel i = (.ok, cid) → sl cid = kUnallocated := by
  intro fuel
  induction fuel with
  | zero => intro i cid h; simp [getUnallocatedIdScan] at h
  | succ n ih =>
    intro i cid h
    simp only [getUnallocatedIdScan] at h
    split at h
    · simp only [Prod.mk.injEq] at h
      obtain ⟨-, rfl⟩ := h
      assumption
    · exact ih (i + 1) cid h

theorem getUnallocatedId_zero (sl : Nat → Nat) (cid : Nat)
    (h : getUnallocatedId sl false = (.ok, cid)) : sl cid = kUnallocated := by
  unfold getUnallocatedId at h
  rw [if_neg (by simp)] at h
  exact getUnallocatedIdScan_zero sl 15 kMinId cid h

theorem addHasRoute_frame (st : Bool) (es : List HREntry) (dst : PfxD)
    (others : Nat) (fl : ChangedFlags) :
    ctxData (addHasRoute st es dst others fl).2.1.subs = ctxData dst.subs ∧
    hasBR (addHasRoute st es dst others fl).2.1 = hasBR dst := by
  unfold addHasRoute
  split
  · -- a HasRoute sub-TLV with this stable flag exists
    simp only []
    split
    · exact ⟨rfl, rfl⟩
    · split
      · constructor
        · show ctxData (appendHREntry st (es.headD ⟨0, 0⟩) dst.subs) = ctxData dst.subs
          exact ctxData_appendHREntry st _ dst.subs
        · show (appendHREntry st (es.headD ⟨0, 0⟩) dst.subs).any SubTlv.isBR =
            dst.subs.any SubTlv.isBR
          exact brAny_appendHREntry st _ dst.subs
      · exact ⟨rfl, rfl⟩
  · -- no such sub-TLV: one may be created and receive the entry
    simp only []
    split
    · split
      · constructor
        · show ctxData (appendHREntry st (es.headD ⟨0, 0⟩)
              (dst.subs ++ [SubTlv.hasRoute st []])) = ctxData dst.subs
          rw [ctxData_appendHREntry, ctxData_append]
          simp [ctxData, SubTlv.isCtx]
        · show (appendHREntry st (es.headD ⟨0, 0⟩)
              (dst.subs ++ [SubTlv.hasRoute st []])).any SubTlv.isBR =
            dst.subs.any SubTlv.isBR
          rw [brAny_appendHREntry]
          simp [List.any_append, SubTlv.isBR]
      · constructor
        · show ctxData (dst.subs ++ [SubTlv.hasRoute st []]) = ctxData dst.subs
          rw [ctxData_append]
          simp [ctxData, SubTlv.isCtx]
        · show (dst.subs ++ [SubTlv.hasRoute st []]).any SubTlv.isBR =
            dst.subs.any SubTlv.isBR
          simp [List.any_append, SubTlv.isBR]
    · exact ⟨rfl, rfl⟩

theorem size_append_br (dst : PfxD) (st : Bool) :
    PfxD.size { dst with subs := dst.subs ++ [.borderRouter st []] } =
      dst.size + 2 := by
  simp only [PfxD.size, List.map_append, List.map_cons, List.map_nil,
    List.sum_append, List.sum_cons, List.sum_nil, SubTlv.size, List.length_nil]
  omega

theorem addBorderRouter_shape (st : Bool) (es : List BREntry) (dst : PfxD)
    (others : Nat) (sl : Nat → Nat) (fl : ChangedFlags) :
    (∃ err, addBorderRouter st es dst others sl fl false = (err, dst, sl, fl)) ∨
    (∃ err d' fl' i0 rest,
      addBorderRouter st es dst others sl fl false =
        (err, d', markAsInUse i0 sl, fl') ∧
      ctxData d'.subs = (true, i0) :: rest ∧
      hasBR d' = true ∧
      ((∃ b0, ctxData dst.subs = (b0, i0) :: rest) ∨
        (rest = [] ∧ ctxData dst.subs = [] ∧ sl i0 = kUnallocated))) := by
  have entry : ∀ (d3 : PfxD) (e : BREntry) (i0 : Nat) (rest : List (Bool × Nat)),
      ctxData (setFirstCtxCompress true d3.subs) = (true, i0) :: rest →
      (setFirstCtxCompress true d3.subs).any SubTlv.isBR = true →
      ((∃ b0, ctxData dst.subs = (b0, i0) :: rest) ∨
        (rest = [] ∧ ctxData dst.subs = [] ∧ sl i0 = kUnallocated)) →
      (∃ err,
        (if (firstBREntries st (setFirstCtxCompress true d3.subs)).contains e then
          ((.ok, { d3 with subs := setFirstCtxCompress true d3.subs },
            markAsInUse (firstCtxId (setFirstCtxCompress true d3.subs)) sl, fl) :
            Error × PfxD × (Nat → Nat) × ChangedFlags)
        else if others + PfxD.size { d3 with subs := setFirstCtxCompress true d3.subs } +
            4 ≤ kMaxSize then
          (.ok, { d3 with subs := appendBREntry st e (setFirstCtxCompress true d3.subs) },
            markAsInUse (firstCtxId (setFirstCtxCompress true d3.subs)) sl, fl.update st)
        else (.noBufs, { d3 with subs := setFirstCtxCompress true d3.subs },
          markAsInUse (firstCtxId (setFirstCtxCompress true d3.subs)) sl, fl)) =
          (err, dst, sl, fl)) ∨
      (∃ err d' fl' i0' rest',
        (if (firstBREntries st (setFirstCtxCompress true d3.subs)).contains e then
          ((.ok, { d3 with subs := setFirstCtxCompress true d3.subs },
            markAsInUse (firstCtxId (setFirstCtxCompress true d3.subs)) sl, fl) :
            Error × PfxD × (Nat → Nat) × ChangedFlags)
        else if others + PfxD.size { d3 with subs := setFirstCtxCompress true d3.subs } +
            4 ≤ kMaxSize then
          (.ok, { d3 with subs := appendBREntry st e (setFirstCtxCompress true d3.subs) },
            markAsInUse (firstCtxId (setFirstCtxCompress true d3.subs)) sl, fl.update st)
        else (.noBufs, { d3 with subs := setFirstCtxCompress true d3.subs },
          markAsInUse (firstCtxId (setFirstCtxCompress true d3.subs)) sl, fl)) =
          (err, d', markAsInUse i0' sl, fl') ∧
        ctxData d'.subs = (true, i0') :: rest' ∧
        hasBR d' = true ∧
        ((∃ b0, ctxData dst.subs = (b0, i0') :: rest') ∨
          (rest' = [] ∧ ctxData dst.subs = [] ∧ sl i0' = kUnallocated))) := by
    intro d3 e i0 rest hctx hbr hsrc
    have hfid : firstCtxId (setFirstCtxCompress true d3.subs) = i0 :=
      firstCtxId_eq_ctxData_head _ true i0 rest hctx
    rw [hfid]
    right
    by_cases h1 : (firstBREntries st (setFirstCtxCompress true d3.subs)).contains e = true
    · rw [if_pos h1]
      exact ⟨.ok, { d3 with subs := setFirstCtxCompress true d3.subs },
        fl, i0, rest, rfl, hctx, hbr, hsrc⟩
    · rw [if_neg h1]
      by_cases h2 : others + PfxD.size { d3 with subs := setFirstCtxCompress true d3.subs } +
          4 ≤ kMaxSize
      · rw [if_pos h2]
        refine ⟨.ok, { d3 with subs := appendBREntry st e (setFirstCtxCompress true d3.subs) },
          fl.update st, i0, rest, rfl, ?_, ?_, hsrc⟩
        · show ctxData (appendBREntry st e (setFirstCtxCompress true d3.subs)) =
            (true, i0) :: rest
          rw [ctxData_appendBREntry]
          exact hctx
        · show (appendBREntry st e (setFirstCtxCompress true d3.subs)).any SubTlv.isBR = true
          rw [brAny_appendBREntry]
          exact hbr
      · rw [if_neg h2]
        exact ⟨.noBufs, { d3 with subs := setFirstCtxCompress true d3.subs },
          fl, i0, rest, rfl, hctx, hbr, hsrc⟩
  by_cases hC : (dst.subs.find? SubTlv.isCtx).isSome = true
  · obtain ⟨c, hfc⟩ := Option.isSome_iff_exists.mp hC
    obtain ⟨restD, hcd⟩ := find?_isCtx_ctxData_head _ c hfc
    by_cases hB : (dst.subs.find? (SubTlv.isBRWith st)).isSome = true
    · -- both a Context and a same-stable BorderRouter sub-TLV already exist
      obtain ⟨cb, hfb⟩ := Option.isSome_iff_exists.mp hB
      have hbr1 : dst.subs.any SubTlv.isBR = true := find?_isBRWith_isSome_any hB
      simp only [addBorderRouter, hfc, hfb, Option.isSome_some, Bool.not_true,
        Bool.false_and, Bool.true_and, Bool.false_eq_true, if_false, if_true]
      refine entry _ _ c.cidOf restD ?_ ?_ (Or.inl ⟨c.ctxCompress, hcd⟩)
      · split
        · simp only [ctxData_setFirstCtxCompress, ctxData_setFirstCtxStable, hcd]
        · simp only [ctxData_setFirstCtxCompress, hcd]
      · split
        · simp only [brAny_setFirstCtxCompress, brAny_setFirstCtxStable, hbr1]
        · simp only [brAny_setFirstCtxCompress, hbr1]
    · -- a Context exists but no BorderRouter sub-TLV with this stable flag
      have hfbn : dst.subs.find? (SubTlv.isBRWith st) = none :=
        Option.not_isSome_iff_eq_none.mp hB
      have hcdBR : ctxData (dst.subs ++ [SubTlv.borderRouter st []]) =
          (c.ctxCompress, c.cidOf) :: restD := by
        rw [ctxData_append, hcd]
        simp [ctxData, SubTlv.isCtx]
      simp only [addBorderRouter, hfc, hfbn, Option.isSome_some,
        Option.isSome_none, Bool.not_true, Bool.not_false, Bool.false_and,
        Bool.true_and, Bool.false_eq_true, if_false, if_true]
      by_cases hq1 : others + dst.size + (2 + 4 + 0) ≤ kMaxSize
      · have hgb1 : (!decide (others + dst.size + (2 + 4 + 0) ≤ kMaxSize)) = false := by
          simp [hq1]
        simp only [hgb1, Bool.false_eq_true, if_false, if_true]
        refine entry _ _ c.cidOf restD ?_ ?_ (Or.inl ⟨c.ctxCompress, hcd⟩)
        · split
          · simp only [ctxData_setFirstCtxCompress, ctxData_setFirstCtxStable, hcdBR]
          · simp only [ctxData_setFirstCtxCompress, hcdBR]
        · split
          · simp only [brAny_setFirstCtxCompress, brAny_setFirstCtxStable]
            simp [List.any_append, SubTlv.isBR]
          · simp only [brAny_setFirstCtxCompress]
            simp [List.any_append, SubTlv.isBR]
      · have hgb1 : (!decide (others + dst.size + (2 + 4 + 0) ≤ kMaxSize)) = true := by
          simp [hq1]
        simp only [hgb1, Bool.false_eq_true, if_false, if_true]
        exact Or.inl ⟨.noBufs, rfl⟩
  · have hfcn : dst.subs.find? SubTlv.isCtx = none :=
      Option.not_isSome_iff_eq_none.mp hC
    have hcdnil : ctxData dst.subs = [] := find?_isCtx_none_ctxData _ hfcn
    rcases hg : getUnallocatedId sl false with ⟨e1, cid⟩
    cases e1 with
    | ok =>
      have hcid0 : sl cid = kUnallocated := getUnallocatedId_zero sl cid hg
      by_cases hB : (dst.subs.find? (SubTlv.isBRWith st)).isSome = true
      · -- a BorderRouter exists but no Context: only the Context is created
        obtain ⟨cb, hfb⟩ := Option.isSome_iff_exists.mp hB
        have hbr1 : dst.subs.any SubTlv.isBR = true := find?_isBRWith_isSome_any hB
        have hcd2 : ctxData (dst.subs ++
            [SubTlv.context false false cid dst.prefixLength]) = [(false, cid)] := by
          rw [ctxData_append, hcdnil]
          simp [ctxData, SubTlv.isCtx, SubTlv.ctxCompress, SubTlv.cidOf]
        simp only [addBorderRouter, hfcn, hfb, Option.isSome_some,
          Option.isSome_none, Bool.not_true, Bool.not_false, Bool.false_and,
          Bool.true_and, hg, Bool.false_eq_true, if_false, if_true]
        by_cases hq2 : others + dst.size + (4 + 4) ≤ kMaxSize
        · have hgb2 : (!decide (others + dst.size + (4 + 4) ≤ kMaxSize)) = false := by
            simp [hq2]
          simp only [hgb2, Bool.false_eq_true, if_false, if_true]
          refine entry _ _ cid [] ?_ ?_ (Or.inr ⟨rfl, hcdnil, hcid0⟩)
          · split
            · simp only [ctxData_setFirstCtxCompress, ctxData_setFirstCtxStable, hcd2]
            · simp only [ctxData_setFirstCtxCompress, hcd2]
          · split
            · simp only [brAny_setFirstCtxCompress, brAny_setFirstCtxStable]
              simp [List.any_append, SubTlv.isBR, hbr1]
            · simp only [brAny_setFirstCtxCompress]
              simp [List.any_append, SubTlv.isBR, hbr1]
        · have hgb2 : (!decide (others + dst.size + (4 + 4) ≤ kMaxSize)) = true := by
            simp [hq2]
          simp only [hgb2, Bool.false_eq_true, if_false, if_true]
          exact Or.inl ⟨.noBufs, rfl⟩
      · -- neither a BorderRouter nor a Context: both are created
        have hfbn : dst.subs.find? (SubTlv.isBRWith st) = none :=
          Option.not_isSome_iff_eq_none.mp hB
        have hcd2 : ctxData ((dst.subs ++ [SubTlv.borderRouter st []]) ++
            [SubTlv.context false false cid dst.prefixLength]) = [(false, cid)] := by
          rw [ctxData_append, ctxData_append, hcdnil]
          simp [ctxData, SubTlv.isCtx, SubTlv.ctxCompress, SubTlv.cidOf]
        simp only [addBorderRouter, hfcn, hfbn, Option.isSome_some,
          Option.isSome_none, Bool.not_true, Bool.not_false, Bool.false_and,
          Bool.true_and, hg, Bool.false_eq_true, if_false, if_true]
        by_cases hq1 : others + dst.size + (2 + 4 + 4) ≤ kMaxSize
        · have hgb1 : (!decide (others + dst.size + (2 + 4 + 4) ≤ kMaxSize)) = false := by
            simp [hq1]
          simp only [hgb1, Bool.false_eq_true, if_false, if_true, size_append_br]
          have hq2 : others + (dst.size + 2) + (4 + 4) ≤ kMaxSize := by
            simp only [kMaxSize] at hq1 ⊢
            omega
          have hgb2 : (!decide (others + (dst.size + 2) + (4 + 4) ≤ kMaxSize)) = false := by
            simp [hq2]
          simp only [hgb2, Bool.false_eq_true, if_false, if_true]
          refine entry _ _ cid [] ?_ ?_ (Or.inr ⟨rfl, hcdnil, hcid0⟩)
          · split
            · simp only [ctxData_setFirstCtxCompress, ctxData_setFirstCtxStable, hcd2]
            · simp only [ctxData_setFirstCtxCompress, hcd2]
          · split
            · simp only [brAny_setFirstCtxCompress, brAny_setFirstCtxStable]
              simp [List.any_append, SubTlv.isBR]
            · simp only [brAny_setFirstCtxCompress]
              simp [List.any_append, SubTlv.isBR]
        · have hgb1 : (!decide (others + dst.size + (2 + 4 + 4) ≤ kMaxSize)) = true := by
            simp [hq1]
          simp only [hgb1, Bool.false_eq_true, if_false, if_true]
          exact Or.inl ⟨.noBufs, rfl⟩
    | parse => exact Or.inl ⟨.parse, by simp [addBorderRouter, hfcn, hg]⟩
    | noBufs => exact Or.inl ⟨.noBufs, by simp [addBorderRouter, hfcn, hg]⟩
    | noRoute => exact Or.inl ⟨.noRoute, by simp [addBorderRouter, hfcn, hg]⟩
    | notFound => exact Or.inl ⟨.notFound, by simp [addBorderRouter, hfcn, hg]⟩
    | drop => exact Or.inl ⟨.drop, by simp [addBorderRouter, hfcn, hg]⟩

theorem addBorderRouter_inv (st : Bool) (es : List BREntry) (dst : PfxD)
    (others : Nat) (sl : Nat → Nat) (fl : ChangedFlags)
    (hloc : localInv sl dst) :
    localInv (addBorderRouter st es dst others sl fl false).2.2.1
      (addBorderRouter st es dst others sl fl false).2.1 ∧
    (pfxCtxIds (addBorderRouter st es dst others sl fl false).2.1 = pfxCtxIds dst ∨
      (pfxCtxIds dst = [] ∧
        ∃ cid, pfxCtxIds (addBorderRouter st es dst others sl fl false).2.1 = [cid] ∧
          sl cid = kUnallocated)) ∧
    (∀ j, j ∉ pfxCtxIds (addBorderRouter st es dst others sl fl false).2.1 →
      (addBorderRouter st es dst others sl fl false).2.2.1 j = sl j) := by
  obtain ⟨hiff, hlen, hslots⟩ := hloc
  rcases addBorderRouter_shape st es dst others sl fl with ⟨err, heq⟩ |
    ⟨err, d', fl', i0, rest, heq, hctx, hbr, hsrc⟩
  · rw [heq]
    exact ⟨⟨hiff, hlen, hslots⟩, Or.inl rfl, fun j _ => rfl⟩
  · have hrest : rest = [] := by
      rcases hsrc with ⟨b0, hb0⟩ | ⟨hr, -, -⟩
      · rw [hb0] at hlen
        simpa using List.length_eq_zero.mp (by simpa using hlen)
      · exact hr
    subst hrest
    simp only [heq]
    refine ⟨⟨?_, ?_, ?_⟩, ?_, ?_⟩
    · rw [hbr, hctx]
      simp
    · rw [hctx]
      simp
    · rw [hctx]
      intro pr hpr
      rw [List.mem_singleton] at hpr
      subst hpr
      constructor
      · intro _
        show markAsInUse i0 sl i0 = kInUse
        exact markAsInUse_self sl i0
      · show markAsInUse i0 sl i0 ≠ kUnallocated
        rw [markAsInUse_self]
        simp [kInUse, kUnallocated]
    · rcases hsrc with ⟨b0, hb0⟩ | ⟨-, hnil, hzero⟩
      · left
        simp [pfxCtxIds, hctx, hb0]
      · right
        exact ⟨by simp [pfxCtxIds, hnil], i0, by simp [pfxCtxIds, hctx], hzero⟩
    · intro j hj
      refine markAsInUse_other sl i0 j ?_
      intro hjeq
      exact hj (by simp [pfxCtxIds, hctx, hjeq])

theorem localInv_id_ne_zero (sl : Nat → Nat) (p : PfxD) (hp : localInv sl p)
    (j : Nat) (hj : j ∈ pfxCtxIds p) : sl j ≠ kUnallocated := by
  obtain ⟨-, -, hslots⟩ := hp
  simp only [pfxCtxIds, List.mem_map] at hj
  obtain ⟨pr, hpr, rfl⟩ := hj
  exact (hslots pr hpr).2

theorem mem_allCtxIds_exists : ∀ (tlvs : List NetTlv) (j : Nat),
    j ∈ allCtxIds tlvs → ∃ p ∈ prefixesOf tlvs, j ∈ pfxCtxIds p := by
  intro tlvs
  induction tlvs with
  | nil => intro j hj; simp [allCtxIds] at hj
  | cons x rest ih =>
    intro j hj
    cases x with
    | pfx q =>
      simp only [allCtxIds, List.mem_append] at hj
      rcases hj with h1 | h2
      · exact ⟨q, by simp [prefixesOf], h1⟩
      · obtain ⟨p, hp, hjp⟩ := ih j h2
        exact ⟨p, by simp [prefixesOf, hp], hjp⟩
    | srv v =>
      obtain ⟨p, hp, hjp⟩ := ih j hj
      exact ⟨p, by simp [prefixesOf, hp], hjp⟩
    | other a b c =>
      obtain ⟨p, hp, hjp⟩ := ih j hj
      exact ⟨p, by simp [prefixesOf, hp], hjp⟩

theorem addPfxSubs_inv : ∀ (src : List SubTlv) (dst : PfxD) (others : Nat)
    (sl : Nat → Nat) (fl : ChangedFlags), localInv sl dst →
    localInv (addPfxSubs dst others sl fl false src).2.2.1
      (addPfxSubs dst others sl fl false src).2.1 ∧
    (pfxCtxIds (addPfxSubs dst others sl fl false src).2.1 = pfxCtxIds dst ∨
      (pfxCtxIds dst = [] ∧ ∃ cid,
        pfxCtxIds (addPfxSubs dst others sl fl false src).2.1 = [cid] ∧
        sl cid = kUnallocated)) ∧
    (∀ j, j ∉ pfxCtxIds (addPfxSubs dst others sl fl false src).2.1 →
      (addPfxSubs dst others sl fl false src).2.2.1 j = sl j) := by
  intro src
  induction src with
  | nil =>
    intro dst others sl fl hloc
    exact ⟨hloc, Or.inl rfl, fun j _ => rfl⟩
  | cons sub rest ih =>
    intro dst others sl fl hloc
    cases sub with
    | hasRoute st es =>
      rcases hhr : addHasRoute st es dst others fl with ⟨e1, dst1, fl1⟩
      have hframe := addHasRoute_frame st es dst others fl
      rw [hhr] at hframe
      have hloc1 : localInv sl dst1 :=
        (localInv_congr sl dst dst1 hframe.1 hframe.2).mp hloc
      have hids1 : pfxCtxIds dst1 = pfxCtxIds dst := by
        simp [pfxCtxIds, hframe.1]
      simp only [addPfxSubs, hhr]
      cases e1 with
      | ok =>
        obtain ⟨ih1, ih2, ih3⟩ := ih dst1 others sl fl1 hloc1
        refine ⟨ih1, ?_, ih3⟩
        rw [hids1] at ih2
        exact ih2
      | parse => exact ⟨hloc1, Or.inl hids1, fun j _ => rfl⟩
      | noBufs => exact ⟨hloc1, Or.inl hids1, fun j _ => rfl⟩
      | noRoute => exact ⟨hloc1, Or.inl hids1, fun j _ => rfl⟩
      | notFound => exact ⟨hloc1, Or.inl hids1, fun j _ => rfl⟩
      | drop => exact ⟨hloc1, Or.inl hids1, fun j _ => rfl⟩
    | borderRouter st es =>
      rcases hbr : addBorderRouter st es dst others sl fl false with ⟨e1, dst1, sl1, fl1⟩
      have hinv := addBorderRouter_inv st es dst others sl fl hloc
      simp only [hbr] at hinv
      obtain ⟨hloc1, hids1, hfr1⟩ := hinv
      simp only [addPfxSubs, hbr]
      cases e1 with
      | ok =>
        obtain ⟨ih1, ih2, ih3⟩ := ih dst1 others sl1 fl1 hloc1
        refine ⟨ih1, ?_, ?_⟩
        · rcases ih2 with ihA | ⟨ihB, cid2, ihC, ihD⟩
          · rw [ihA]
            exact hids1
          · rcases hids1 with hA | ⟨hB, cid1, hC, hD⟩
            · right
              refine ⟨by rw [← hA]; exact ihB, cid2, ihC, ?_⟩
              rw [← hfr1 cid2 (by simp [ihB])]
              exact ihD
            · rw [hC] at ihB
              simp at ihB
        · intro j hj
          have hj1 : j ∉ pfxCtxIds dst1 := by
            rcases ih2 with ihA | ⟨ihB, cid2, ihC, ihD⟩
            · rw [← ihA]
              exact hj
            · rw [ihB]
              simp
          exact (ih3 j hj).trans (hfr1 j hj1)
      | parse => exact ⟨hloc1, hids1, hfr1⟩
      | noBufs => exact ⟨hloc1, hids1, hfr1⟩
      | noRoute => exact ⟨hloc1, hids1, hfr1⟩
      | notFound => exact ⟨hloc1, hids1, hfr1⟩
      | drop => exact ⟨hloc1, hids1, hfr1⟩
    | context a b c d => exact ih dst others sl fl hloc
    | server a b c => exact ih dst others sl fl hloc
    | otherSub a b c => exact ih dst others sl fl hloc

theorem prefixesOf_optListS (o : Option SrvD) : prefixesOf (optListS o) = [] := by
  rcases o with _ | v <;> simp [optListS, prefixesOf]

theorem allCtxIds_optListS (o : Option SrvD) : allCtxIds (optListS o) = [] := by
  rcases o with _ | v <;> simp [optListS, allCtxIds]

theorem addService_frame (src : SrvD) (tlvs : List NetTlv) (fl : ChangedFlags)
    (isClone : Bool) :
    prefixesOf (addService src tlvs fl isClone).2.1 = prefixesOf tlvs ∧
    allCtxIds (addService src tlvs fl isClone).2.1 = allCtxIds tlvs := by
  rcases hq : splitFirstSrv src.enterprise src.serviceData tlvs with _ | ⟨l, dst, r⟩
  · rcases halloc : allocateServiceId tlvs isClone with ⟨e, sid⟩
    simp only [addService, hq, halloc]
    cases e with
    | ok =>
      rcases hfs : firstServer src.subs with _ | ⟨st, s16, sd⟩
      · simp only [hfs]
        constructor
        · split
          · simp [prefixesOf_append, prefixesOf_optListS]
          · rfl
        · split
          · simp [allCtxIds_append, allCtxIds_optListS]
          · rfl
      · simp only [hfs]
        constructor
        · split
          · simp [prefixesOf_append, prefixesOf_optListS]
          · rfl
        · split
          · simp [allCtxIds_append, allCtxIds_optListS]
          · rfl
    | parse => exact ⟨rfl, rfl⟩
    | noBufs => exact ⟨rfl, rfl⟩
    | noRoute => exact ⟨rfl, rfl⟩
    | notFound => exact ⟨rfl, rfl⟩
    | drop => exact ⟨rfl, rfl⟩
  · obtain ⟨hdec, -, -⟩ := splitFirstSrv_some _ _ tlvs l dst r hq
    subst hdec
    simp only [addService, hq]
    rcases hfs : firstServer src.subs with _ | ⟨st, s16, sd⟩
    · simp only [hfs]
      constructor
      · simp [prefixesOf_append, prefixesOf_optListS, prefixesOf]
      · simp [allCtxIds_append, allCtxIds_optListS, allCtxIds]
    · simp only [hfs]
      constructor
      · simp [prefixesOf_append, prefixesOf_optListS, prefixesOf]
      · simp [allCtxIds_append, allCtxIds_optListS, allCtxIds]

theorem prefixesOf_optListP (o : Option PfxD) :
    prefixesOf (optListP o) = (match o with | some q => [q] | none => []) := by
  rcases o with _ | q <;> simp [optListP, prefixesOf]

theorem allCtxIds_optListP (o : Option PfxD) :
    allCtxIds (optListP o) = (match o with | some q => pfxCtxIds q | none => []) := by
  rcases o with _ | q <;> simp [optListP, allCtxIds]

theorem addPfx_inv (src : PfxD) (tlvs : List NetTlv) (sl : Nat → Nat)
    (fl : ChangedFlags)
    (hall : ∀ p ∈ prefixesOf tlvs, localInv sl p)
    (hnd : (allCtxIds tlvs).Nodup) :
    (∀ p ∈ prefixesOf (addPfx src tlvs sl fl false).2.1,
      localInv (addPfx src tlvs sl fl false).2.2.1 p) ∧
    (allCtxIds (addPfx src tlvs sl fl false).2.1).Nodup := by
  rcases hq : splitFirstPfx src.prefixLength src.prefixBytes tlvs with _ | ⟨l, dst, r⟩
  · -- no matching Prefix TLV: a fresh one may be appended at the end
    simp only [addPfx, hq]
    split
    · have hloc0 : localInv sl
          ⟨false, src.domainId, src.prefixLength, src.prefixBytes, []⟩ := by
        refine ⟨⟨?_, ?_⟩, by simp [ctxData], ?_⟩
        · intro hbr
          simp [hasBR] at hbr
        · rintro ⟨pr, hpr, -⟩
          simp [ctxData] at hpr
        · intro pr hpr
          simp [ctxData] at hpr
      obtain ⟨hL1, hIds, hFr⟩ := addPfxSubs_inv src.subs _ (sizeAll tlvs) sl fl hloc0
      constructor
      · intro p hp
        rw [prefixesOf_append] at hp
        rcases List.mem_append.mp hp with h1 | h2
        · refine localInv_slots_congr sl _ p ?_ (hall p h1)
          intro id hid
          refine hFr id ?_
          intro hidF
          rcases hIds with hA | ⟨hB, cid, hC, hD⟩
          · rw [hA] at hidF
            simp [pfxCtxIds, ctxData] at hidF
          · rw [hC] at hidF
            rw [List.mem_singleton] at hidF
            subst hidF
            exact localInv_id_ne_zero sl p (hall p h1) id hid hD
        · rw [prefixesOf_optListP] at h2
          rcases hu : updateTlvP
              (addPfxSubs ⟨false, src.domainId, src.prefixLength, src.prefixBytes, []⟩
                (sizeAll tlvs) sl fl false src.subs).2.1 with _ | q
          · rw [hu] at h2
            simp at h2
          · rw [hu] at h2
            simp at h2
            subst h2
            exact (localInv_of_subs_eq _ _ p (updateTlvP_subs _ _ hu)).mp hL1
      · rw [allCtxIds_append, allCtxIds_optListP]
        rcases hu : updateTlvP
            (addPfxSubs ⟨false, src.domainId, src.prefixLength, src.prefixBytes, []⟩
              (sizeAll tlvs) sl fl false src.subs).2.1 with _ | q
        · simpa using hnd
        · show (allCtxIds tlvs ++ pfxCtxIds q).Nodup
          have hqids : pfxCtxIds q = pfxCtxIds
              (addPfxSubs ⟨false, src.domainId, src.prefixLength, src.prefixBytes, []⟩
                (sizeAll tlvs) sl fl false src.subs).2.1 := by
            simp [pfxCtxIds, ctxData, updateTlvP_subs _ _ hu]
          rcases hIds with hA | ⟨hB, cid, hC, hD⟩
          · rw [hqids, hA]
            simpa [pfxCtxIds, ctxData] using hnd
          · rw [hqids, hC]
            rw [List.nodup_append]
            refine ⟨hnd, by simp, ?_⟩
            intro a ha hamem
            rw [List.mem_singleton] at hamem
            obtain ⟨p, hp, hap⟩ := mem_allCtxIds_exists tlvs a ha
            refine localInv_id_ne_zero sl p (hall p hp) a hap ?_
            rw [hamem]
            exact hD
    · exact ⟨hall, hnd⟩
  · -- the source prefix merges into an existing Prefix TLV
    obtain ⟨hdec, -, -⟩ := splitFirstPfx_some _ _ tlvs l dst r hq
    subst hdec
    have h0 := hnd
    rw [allCtxIds_append] at h0
    have hnd2 : (allCtxIds l ++ (pfxCtxIds dst ++ allCtxIds r)).Nodup := by
      simpa [allCtxIds] using h0
    rw [List.nodup_append] at hnd2
    obtain ⟨hndL, hndMR, hdisjL⟩ := hnd2
    rw [List.nodup_append] at hndMR
    obtain ⟨hndM, hndR, hdisjMR⟩ := hndMR
    have hlocdst : localInv sl dst := by
      refine hall dst ?_
      rw [prefixesOf_append]
      exact List.mem_append.mpr (Or.inr (List.mem_cons.mpr (Or.inl rfl)))
    obtain ⟨hL1, hIds, hFr⟩ :=
      addPfxSubs_inv src.subs dst (sizeAll l + sizeAll r) sl fl hlocdst
    simp only [addPfx, hq]
    have hother : ∀ p, p ∈ prefixesOf l ∨ p ∈ prefixesOf r →
        localInv (addPfxSubs dst (sizeAll l + sizeAll r) sl fl false src.subs).2.2.1
          p := by
      intro p hp
      have hlocp : localInv sl p := by
        refine hall p ?_
        rw [prefixesOf_append]
        rcases hp with h | h
        · exact List.mem_append.mpr (Or.inl h)
        · exact List.mem_append.mpr (Or.inr (List.mem_cons.mpr (Or.inr h)))
      refine localInv_slots_congr sl _ p ?_ hlocp
      intro id hid
      refine hFr id ?_
      intro hidF
      have hidM : id ∈ pfxCtxIds dst ∨ sl id = kUnallocated := by
        rcases hIds with hA | ⟨hB, cid, hC, hD⟩
        · rw [hA] at hidF
          exact Or.inl hidF
        · rw [hC] at hidF
          rw [List.mem_singleton] at hidF
          subst hidF
          exact Or.inr hD
      rcases hidM with hidM | hid0
      · rcases hp with h | h
        · exact hdisjL (mem_allCtxIds_of_mem_prefixes l p h id hid)
            (List.mem_append.mpr (Or.inl hidM))
        · exact hdisjMR hidM (mem_allCtxIds_of_mem_prefixes r p h id hid)
      · exact localInv_id_ne_zero sl p hlocp id hid hid0
    constructor
    · intro p hp
      rw [prefixesOf_append, prefixesOf_append] at hp
      rcases List.mem_append.mp hp with h12 | h3
      · rcases List.mem_append.mp h12 with h1 | h2
        · exact hother p (Or.inl h1)
        · rw [prefixesOf_optListP] at h2
          rcases hu : updateTlvP
              (addPfxSubs dst (sizeAll l + sizeAll r) sl fl false src.subs).2.1
            with _ | q
          · rw [hu] at h2
            simp at h2
          · rw [hu] at h2
            simp at h2
            subst h2
            exact (localInv_of_subs_eq _ _ p (updateTlvP_subs _ _ hu)).mp hL1
      · exact hother p (Or.inr h3)
    · rw [allCtxIds_append, allCtxIds_append, allCtxIds_optListP, List.append_assoc]
      rcases hu : updateTlvP
          (addPfxSubs dst (sizeAll l + sizeAll r) sl fl false src.subs).2.1
        with _ | q
      · show (allCtxIds l ++ ([] ++ allCtxIds r)).Nodup
        rw [List.nodup_append]
        refine ⟨hndL, ?_, ?_⟩
        · rw [List.nodup_append]
          exact ⟨by simp, hndR, by simp⟩
        · intro a ha hmem
          rw [List.mem_append] at hmem
          rcases hmem with h | h
          · simp at h
          · exact hdisjL ha (List.mem_append.mpr (Or.inr h))
      · show (allCtxIds l ++ (pfxCtxIds q ++ allCtxIds r)).Nodup
        have hqids : pfxCtxIds q = pfxCtxIds
            (addPfxSubs dst (sizeAll l + sizeAll r) sl fl false src.subs).2.1 := by
          simp [pfxCtxIds, ctxData, updateTlvP_subs _ _ hu]
        rcases hIds with hA | ⟨hB, cid, hC, hD⟩
        · rw [List.nodup_append]
          refine ⟨hndL, ?_, ?_⟩
          · rw [List.nodup_append]
            refine ⟨?_, hndR, ?_⟩
            · rw [hqids, hA]
              exact hndM
            · intro a ha
              rw [hqids, hA] at ha
              exact hdisjMR ha
          · intro a ha hmem
            rw [List.mem_append] at hmem
            rcases hmem with h | h
            · rw [hqids, hA] at h
              exact hdisjL ha (List.mem_append.mpr (Or.inl h))
            · exact hdisjL ha (List.mem_append.mpr (Or.inr h))
        · rw [List.nodup_append]
          refine ⟨hndL, ?_, ?_⟩
          · rw [List.nodup_append]
            refine ⟨by rw [hqids, hC]; simp, hndR, ?_⟩
            intro a ha
            rw [hqids, hC] at ha
            rw [List.mem_singleton] at ha
            intro hmem
            obtain ⟨p, hp, hap⟩ := mem_allCtxIds_exists r a hmem
            have hlocp : localInv sl p := by
              refine hall p ?_
              rw [prefixesOf_append]
              exact List.mem_append.mpr (Or.inr (List.mem_cons.mpr (Or.inr hp)))
            refine localInv_id_ne_zero sl p hlocp a hap ?_
            rw [ha]
            exact hD
          · intro a ha hmem
            rw [List.mem_append] at hmem
            rcases hmem with h | h
            · rw [hqids, hC] at h
              rw [List.mem_singleton] at h
              obtain ⟨p, hp, hap⟩ := mem_allCtxIds_exists l a ha
              have hlocp : localInv sl p := by
                refine hall p ?_
                rw [prefixesOf_append]
                exact List.mem_append.mpr (Or.inl hp)
              refine localInv_id_ne_zero sl p hlocp a hap ?_
              rw [h]
              exact hD
            · exact hdisjL ha (List.mem_append.mpr (Or.inr h))

theorem addAll_inv : ∀ (net : List NetTlv) (s : Leader) (fl : ChangedFlags),
    s.isClone = false →
    (∀ p ∈ prefixesOf s.tlvs, localInv s.slots p) →
    (allCtxIds s.tlvs).Nodup →
    (∀ p ∈ prefixesOf (addAll net s fl).2.1.tlvs,
      localInv (addAll net s fl).2.1.slots p) ∧
    (allCtxIds (addAll net s fl).2.1.tlvs).Nodup := by
  intro net
  induction net with
  | nil =>
    intro s fl hc hall hnd
    exact ⟨hall, hnd⟩
  | cons t rest ih =>
    intro s fl hc hall hnd
    cases t with
    | pfx p =>
      have hinv := addPfx_inv p s.tlvs s.slots fl hall hnd
      rcases hap : addPfx p s.tlvs s.slots fl false with ⟨e1, tl1, sl1, fl1⟩
      simp only [hap] at hinv
      have hap2 : addPfx p s.tlvs s.slots fl s.isClone = (e1, tl1, sl1, fl1) := by
        rw [hc]
        exact hap
      simp only [addAll, hap2]
      cases e1 with
      | ok => exact ih { s with tlvs := tl1, slots := sl1 } fl1 hc hinv.1 hinv.2
      | parse => exact hinv
      | noBufs => exact hinv
      | noRoute => exact hinv
      | notFound => exact hinv
      | drop => exact hinv
    | srv v =>
      have hfr := addService_frame v s.tlvs fl s.isClone
      rcases has1 : addService v s.tlvs fl s.isClone with ⟨e1, tl1, fl1⟩
      simp only [has1] at hfr
      simp only [addAll, has1]
      have hall1 : ∀ p ∈ prefixesOf tl1, localInv s.slots p := by
        rw [hfr.1]
        exact hall
      have hnd1 : (allCtxIds tl1).Nodup := by
        rw [hfr.2]
        exact hnd
      cases e1 with
      | ok => exact ih { s with tlvs := tl1 } fl1 hc hall1 hnd1
      | parse => exact ⟨hall1, hnd1⟩
      | noBufs => exact ⟨hall1, hnd1⟩
      | noRoute => exact ⟨hall1, hnd1⟩
      | notFound => exact ⟨hall1, hnd1⟩
      | drop => exact ⟨hall1, hnd1⟩
    | other a b c => exact ih s fl hc hall hnd

theorem markAsUnallocated_other (sl : Nat → Nat) (id j : Nat) (hj : j ≠ id) :
    markAsUnallocated id sl j = sl j := by
  simp [markAsUnallocated, updSlot, hj]

theorem ctxData_removeCtxFromSubs (cid : Nat) : ∀ (l : List SubTlv),
    ctxData (removeCtxFromSubs cid l) =
      (ctxData l).filter (fun pr => !(pr.2 == cid)) := by
  intro l
  induction l with
  | nil => rfl
  | cons s rest ih =>
    cases s with
    | context st co ci cl =>
      simp only [removeCtxFromSubs]
      split
      · rename_i hci
        subst hci
        simp [ctxData_cons, SubTlv.isCtx, SubTlv.ctxCompress, SubTlv.cidOf,
          List.filter_cons, ih]
      · rename_i hci
        simp [ctxData_cons, SubTlv.isCtx, SubTlv.ctxCompress, SubTlv.cidOf,
          List.filter_cons, hci, ih]
    | hasRoute st es => simp [removeCtxFromSubs, ctxData_cons, SubTlv.isCtx, ih]
    | borderRouter st es => simp [removeCtxFromSubs, ctxData_cons, SubTlv.isCtx, ih]
    | server a b c => simp [removeCtxFromSubs, ctxData_cons, SubTlv.isCtx, ih]
    | otherSub a b c => simp [removeCtxFromSubs, ctxData_cons, SubTlv.isCtx, ih]

theorem brAny_removeCtxFromSubs (cid : Nat) : ∀ (l : List SubTlv),
    (removeCtxFromSubs cid l).any SubTlv.isBR = l.any SubTlv.isBR := by
  intro l
  induction l with
  | nil => rfl
  | cons s rest ih =>
    cases s with
    | context st co ci cl =>
      simp only [removeCtxFromSubs]
      split
      · simp [List.any_cons, SubTlv.isBR, ih]
      · simp [List.any_cons, SubTlv.isBR, ih]
    | hasRoute st es => simp [removeCtxFromSubs, List.any_cons, SubTlv.isBR, ih]
    | borderRouter st es => simp [removeCtxFromSubs, List.any_cons, SubTlv.isBR, ih]
    | server a b c => simp [removeCtxFromSubs, List.any_cons, SubTlv.isBR, ih]
    | otherSub a b c => simp [removeCtxFromSubs, List.any_cons, SubTlv.isBR, ih]

theorem removeCtx_localInv (cid : Nat) (sl : Nat → Nat) (p : PfxD)
    (hp : localInv sl p) (hcid : sl cid ≠ kInUse) :
    localInv (markAsUnallocated cid sl)
      { p with subs := removeCtxFromSubs cid p.subs } := by
  obtain ⟨hiff, hlen, hslots⟩ := hp
  have hbrEq : hasBR { p with subs := removeCtxFromSubs cid p.subs } = hasBR p := by
    show (removeCtxFromSubs cid p.subs).any SubTlv.isBR = p.subs.any SubTlv.isBR
    exact brAny_removeCtxFromSubs cid p.subs
  have hmem : ∀ pr ∈ ctxData (removeCtxFromSubs cid p.subs),
      pr ∈ ctxData p.subs ∧ pr.2 ≠ cid := by
    intro pr hpr
    rw [ctxData_removeCtxFromSubs, List.mem_filter] at hpr
    refine ⟨hpr.1, ?_⟩
    simpa using hpr.2
  refine ⟨⟨?_, ?_⟩, ?_, ?_⟩
  · intro hbr
    rw [hbrEq] at hbr
    obtain ⟨pr, hpr, hco⟩ := hiff.mp hbr
    refine ⟨pr, ?_, hco⟩
    show pr ∈ ctxData (removeCtxFromSubs cid p.subs)
    rw [ctxData_removeCtxFromSubs, List.mem_filter]
    refine ⟨hpr, ?_⟩
    have hInUse : sl pr.2 = kInUse := (hslots pr hpr).1 hco
    have hne : pr.2 ≠ cid := by
      intro h
      rw [h] at hInUse
      exact hcid hInUse
    simp [hne]
  · rintro ⟨pr, hpr, hco⟩
    obtain ⟨hpr0, -⟩ := hmem pr hpr
    rw [hbrEq]
    exact hiff.mpr ⟨pr, hpr0, hco⟩
  · show (ctxData (removeCtxFromSubs cid p.subs)).length ≤ 1
    rw [ctxData_removeCtxFromSubs]
    exact le_trans (List.length_filter_le _ _) hlen
  · intro pr hpr
    obtain ⟨hpr0, hne⟩ := hmem pr hpr
    rw [markAsUnallocated_other sl cid pr.2 hne]
    exact hslots pr hpr0

theorem removeContextTlvs_inv (cid : Nat) (sl : Nat → Nat) (hcid : sl cid ≠ kInUse) :
    ∀ (tlvs : List NetTlv),
    (∀ p ∈ prefixesOf tlvs, localInv sl p) →
    (∀ p ∈ prefixesOf (removeContextTlvs cid tlvs),
      localInv (markAsUnallocated cid sl) p) ∧
    (allCtxIds (removeContextTlvs cid tlvs)).Sublist (allCtxIds tlvs) := by
  intro tlvs
  induction tlvs with
  | nil =>
    intro _
    exact ⟨by intro p hp; simp [removeContextTlvs, prefixesOf] at hp,
      by simp [removeContextTlvs]⟩
  | cons t rest ih =>
    intro hall
    cases t with
    | pfx p =>
      obtain ⟨ih1, ih2⟩ := ih (fun q hq => hall q (by simp [prefixesOf, hq]))
      have hlocp := hall p (by simp [prefixesOf])
      simp only [removeContextTlvs]
      constructor
      · intro q hq
        rw [prefixesOf_append] at hq
        rcases List.mem_append.mp hq with h1 | h2
        · rw [prefixesOf_optListP] at h1
          rcases hu : updateTlvP { p with subs := removeCtxFromSubs cid p.subs }
            with _ | q2
          · rw [hu] at h1
            simp at h1
          · rw [hu] at h1
            simp at h1
            subst h1
            exact (localInv_of_subs_eq _ _ q (updateTlvP_subs _ _ hu)).mp
              (removeCtx_localInv cid sl p hlocp hcid)
        · exact ih1 q h2
      · rw [allCtxIds_append]
        have hsub1 : (allCtxIds (optListP (updateTlvP
            { p with subs := removeCtxFromSubs cid p.subs }))).Sublist
            (pfxCtxIds p) := by
          rw [allCtxIds_optListP]
          rcases hu : updateTlvP { p with subs := removeCtxFromSubs cid p.subs }
            with _ | q2
          · simp
          · show (pfxCtxIds q2).Sublist (pfxCtxIds p)
            have hq2 : pfxCtxIds q2 =
                pfxCtxIds { p with subs := removeCtxFromSubs cid p.subs } := by
              simp [pfxCtxIds, ctxData, updateTlvP_subs _ _ hu]
            rw [hq2]
            show ((ctxData (removeCtxFromSubs cid p.subs)).map Prod.snd).Sublist
              ((ctxData p.subs).map Prod.snd)
            rw [ctxData_removeCtxFromSubs]
            exact List.Sublist.map Prod.snd (List.filter_sublist _)
        have hEq : allCtxIds (NetTlv.pfx p :: rest) =
            pfxCtxIds p ++ allCtxIds rest := rfl
        rw [hEq]
        exact List.Sublist.append hsub1 ih2
    | srv v =>
      obtain ⟨ih1, ih2⟩ := ih (fun q hq => hall q (by simp [prefixesOf, hq]))
      simp only [removeContextTlvs]
      exact ⟨fun q hq => ih1 q hq, ih2⟩
    | other a b c =>
      obtain ⟨ih1, ih2⟩ := ih (fun q hq => hall q (by simp [prefixesOf, hq]))
      simp only [removeContextTlvs]
      exact ⟨fun q hq => ih1 q hq, ih2⟩

theorem incrementVersionsB_slots (b : Bool) (s : Leader) :
    (incrementVersionsB b s).slots = s.slots := by
  unfold incrementVersionsB
  split <;> rfl

theorem incrementVersionsF_slots (fl : ChangedFlags) (s : Leader) :
    (incrementVersionsF fl s).slots = s.slots := by
  unfold incrementVersionsF
  split
  · exact incrementVersionsB_slots _ _
  · rfl

theorem removeContextTop_slots (cid : Nat) (s : Leader) :
    (removeContextTop cid s).slots = s.slots := by
  unfold removeContextTop
  rw [incrementVersionsB_slots]

theorem ctxTimerLoop_inv : ∀ (ids : List Nat) (s : Leader),
    (∀ p ∈ prefixesOf s.tlvs, localInv s.slots p) →
    (allCtxIds s.tlvs).Nodup →
    (∀ p ∈ prefixesOf (ctxTimerLoop ids s).tlvs,
      localInv (ctxTimerLoop ids s).slots p) ∧
    (allCtxIds (ctxTimerLoop ids s).tlvs).Nodup := by
  intro ids
  induction ids with
  | nil =>
    intro s hall hnd
    exact ⟨hall, hnd⟩
  | cons id rest ih =>
    intro s hall hnd
    simp only [ctxTimerLoop]
    split
    · exact ih s hall hnd
    · rename_i hguard
      push_neg at hguard
      split
      · refine ih (removeContextTop id { s with slots := markAsUnallocated id s.slots })
          ?_ ?_
        · rw [removeContextTop_tlvs, removeContextTop_slots]
          exact (removeContextTlvs_inv id s.slots hguard.2 s.tlvs hall).1
        · rw [removeContextTop_tlvs]
          exact List.Nodup.sublist
            (removeContextTlvs_inv id s.slots hguard.2 s.tlvs hall).2 hnd
      · exact ih s hall hnd

theorem ctxWalkSlots_frame (now rd : Nat) (clone : Bool) :
    ∀ (tlvs : List NetTlv) (sl : Nat → Nat) (j : Nat),
    j ∉ allCtxIds tlvs → ctxWalkSlots now rd clone tlvs sl j = sl j := by
  intro tlvs
  induction tlvs with
  | nil =>
    intro sl j _
    rfl
  | cons t rest ih =>
    intro sl j hj
    cases t with
    | pfx p =>
      simp only [allCtxIds, List.mem_append] at hj
      push_neg at hj
      simp only [ctxWalkSlots]
      rcases hf : p.subs.find? SubTlv.isCtx with _ | c
      · exact ih sl j hj.2
      · obtain ⟨restD, hcd⟩ := find?_isCtx_ctxData_head _ c hf
        have hjc : j ≠ c.cidOf := by
          intro h
          refine hj.1 ?_
          rw [h]
          simp [pfxCtxIds, hcd]
        simp only []
        rw [ih _ j hj.2]
        split
        · exact markAsInUse_other sl c.cidOf j hjc
        · exact (scheduleToRemove_other _ _ _ _ _ j hjc).trans
            (markAsInUse_other sl c.cidOf j hjc)
    | srv v => exact ih sl j (by simpa [allCtxIds] using hj)
    | other a b c => exact ih sl j (by simpa [allCtxIds] using hj)

theorem ctxWalkSlots_localInv (now rd : Nat) :
    ∀ (tlvs : List NetTlv) (sl : Nat → Nat),
    (allCtxIds tlvs).Nodup →
    (∀ p ∈ prefixesOf tlvs, localInv sl p) →
    ∀ p ∈ prefixesOf tlvs, localInv (ctxWalkSlots now rd false tlvs sl) p := by
  intro tlvs
  induction tlvs with
  | nil =>
    intro sl _ _ p hp
    simp [prefixesOf] at hp
  | cons t rest ih =>
    intro sl hnd hall p hp
    cases t with
    | pfx q =>
      obtain ⟨hndA, hndB, hdisj⟩ :=
        List.nodup_append.mp (by simpa [allCtxIds] using hnd)
      have hp' : p = q ∨ p ∈ prefixesOf rest := by
        simpa [prefixesOf] using hp
      simp only [ctxWalkSlots]
      rcases hf : q.subs.find? SubTlv.isCtx with _ | c
      · simp only []
        rcases hp' with rfl | hp2
        · have hcdnil : ctxData p.subs = [] := find?_isCtx_none_ctxData _ hf
          refine localInv_slots_congr sl _ p ?_ (hall p (by simp [prefixesOf]))
          intro id hid
          rw [pfxCtxIds, hcdnil] at hid
          simp at hid
        · exact ih sl hndB (fun r hr => hall r (by simp [prefixesOf, hr])) p hp2
      · simp only []
        obtain ⟨restD, hcd⟩ := find?_isCtx_ctxData_head _ c hf
        rcases hp' with rfl | hp2
        · -- the prefix under the walk head
          obtain ⟨hiff, hlen, hslots⟩ := hall p (by simp [prefixesOf])
          have hrest : restD = [] := by
            rw [hcd] at hlen
            simpa using List.length_eq_zero.mp (by simpa using hlen)
          subst hrest
          have hcidMem : c.cidOf ∉ allCtxIds rest := by
            intro hmem
            exact hdisj (by simp [pfxCtxIds, hcd]) hmem
          refine ⟨hiff, hlen, ?_⟩
          intro pr hpr
          rw [hcd] at hpr
          rw [List.mem_singleton] at hpr
          have hpr1 : pr.1 = c.ctxCompress := by rw [hpr]
          have hpr2 : pr.2 = c.cidOf := by rw [hpr]
          rw [hpr1, hpr2]
          rw [ctxWalkSlots_frame now rd false rest _ c.cidOf hcidMem]
          cases hco : c.ctxCompress with
          | false =>
            simp only [Bool.false_eq_true, if_false]
            constructor
            · intro h
              exact absurd h (by simp)
            · exact scheduleToRemove_ne_zero _ _ now rd false
                (by rw [markAsInUse_self]; simp [kInUse, kUnallocated])
          | true =>
            simp only [if_true]
            constructor
            · intro _
              exact markAsInUse_self sl c.cidOf
            · rw [markAsInUse_self]
              simp [kInUse, kUnallocated]
        · -- a later prefix: its ids are untouched by this step
          have hSL2 : ∀ j, j ≠ c.cidOf →
              (if c.ctxCompress = true then markAsInUse c.cidOf sl
               else scheduleToRemove (markAsInUse c.cidOf sl) c.cidOf now rd false) j =
                sl j := by
            intro j hj
            split
            · exact markAsInUse_other sl c.cidOf j hj
            · exact (scheduleToRemove_other _ _ _ _ _ j hj).trans
                (markAsInUse_other sl c.cidOf j hj)
          refine ih _ hndB ?_ p hp2
          intro r hr
          refine localInv_slots_congr sl _ r ?_ (hall r (by simp [prefixesOf, hr]))
          intro id hid
          refine hSL2 id ?_
          intro heq
          subst heq
          exact hdisj (by simp [pfxCtxIds, hcd])
            (mem_allCtxIds_of_mem_prefixes rest r hr _ hid)
    | srv v =>
      exact ih sl (by simpa [allCtxIds] using hnd)
        (fun r hr => hall r (by simp [prefixesOf, hr])) p (by simpa [prefixesOf] using hp)
    | other a b c =>
      exact ih sl (by simpa [allCtxIds] using hnd)
        (fun r hr => hall r (by simp [prefixesOf, hr])) p (by simpa [prefixesOf] using hp)

theorem restoredLoop_inv : ∀ (n : Nat) (s : Leader) (fl : ChangedFlags),
    (∀ p ∈ prefixesOf s.tlvs, localInv s.slots p) →
    (allCtxIds s.tlvs).Nodup →
    (∀ p ∈ prefixesOf (restoredLoop n s fl).1.tlvs,
      localInv (restoredLoop n s fl).1.slots p) ∧
    (allCtxIds (restoredLoop n s fl).1.tlvs).Nodup := by
  intro n
  induction n with
  | zero =>
    intro s fl hall hnd
    exact ⟨hall, hnd⟩
  | succ m ih =>
    intro s fl hall hnd
    simp only [restoredLoop]
    rcases hfb : findBadServer s.routerAllocated s.tlvs with _ | r
    · exact ⟨hall, hnd⟩
    · simp only []
      rcases hsw : sweepTlvs r .routerId [] s.now s.reuseDelay s.isClone s.tlvs
          s.slots fl with ⟨tl1, sl1, fl1⟩
      have hinv := sweepTlvs_inv r .routerId [] s.now s.reuseDelay s.isClone s.tlvs
        s.slots fl hall hnd
      simp only [hsw] at hinv
      have hrr : removeRlocEx r .routerId [] s fl =
          ({ s with tlvs := tl1, slots := sl1 }, fl1) := by
        simp only [removeRlocEx, hsw]
      rw [hrr]
      exact ih { s with tlvs := tl1, slots := sl1 } fl1 hinv.1 hinv.2.1

theorem restoredLoop_isClone : ∀ (n : Nat) (s : Leader) (fl : ChangedFlags),
    (restoredLoop n s fl).1.isClone = s.isClone := by
  intro n
  induction n with
  | zero =>
    intro s fl
    rfl
  | succ m ih =>
    intro s fl
    simp only [restoredLoop]
    rcases hfb : findBadServer s.routerAllocated s.tlvs with _ | r
    · rfl
    · simp only []
      exact (ih _ _).trans rfl

theorem incrementVersionsB_isClone (b : Bool) (s : Leader) :
    (incrementVersionsB b s).isClone = s.isClone := by
  unfold incrementVersionsB
  split <;> rfl

theorem incrementVersionsF_isClone (fl : ChangedFlags) (s : Leader) :
    (incrementVersionsF fl s).isClone = s.isClone := by
  unfold incrementVersionsF
  split
  · exact incrementVersionsB_isClone _ _
  · rfl

theorem handleRestored_inv (s : Leader) (hc : s.isClone = false)
    (hall : ∀ p ∈ prefixesOf s.tlvs, localInv s.slots p)
    (hnd : (allCtxIds s.tlvs).Nodup) :
    (∀ p ∈ prefixesOf (handleRestored s).tlvs,
      localInv (handleRestored s).slots p) ∧
    (allCtxIds (handleRestored s).tlvs).Nodup := by
  unfold handleRestored
  simp only []
  rcases hrl : restoredLoop (serverCount s.tlvs + 1) { s with waiting := false }
      flags0 with ⟨s1, fl1⟩
  have hinv := restoredLoop_inv (serverCount s.tlvs + 1) { s with waiting := false }
    flags0 hall hnd
  simp only [hrl] at hinv
  have hclone1 : s1.isClone = false := by
    have h2 := restoredLoop_isClone (serverCount s.tlvs + 1)
      { s with waiting := false } flags0
    rw [hrl] at h2
    exact h2.trans hc
  simp only []
  constructor
  · intro p hp
    rw [incrementVersionsF_tlvs] at hp
    have := ctxWalkSlots_localInv (incrementVersionsF fl1 s1).now
      (incrementVersionsF fl1 s1).reuseDelay s1.tlvs s1.slots hinv.2 hinv.1 p hp
    rw [incrementVersionsF_tlvs, incrementVersionsF_slots, incrementVersionsF_isClone,
      hclone1]
    exact this
  · rw [incrementVersionsF_tlvs]
    exact hinv.2

theorem handleCommissionerSet_slots (req : List McTlv) (s : Leader) :
    ((handleCommissionerSet req s).2).slots = s.slots := by
  unfold handleCommissionerSet
  repeat' split
  all_goals simp [setCommissioningData, incrementVersionsB_slots]

theorem register_inv (r : Nat) (net : List NetTlv) (s : Leader)
    (hc : s.isClone = false)
    (hall : ∀ p ∈ prefixesOf s.tlvs, localInv s.slots p)
    (hnd : (allCtxIds s.tlvs).Nodup) :
    (∀ p ∈ prefixesOf (registerNetworkData r net s).2.tlvs,
      localInv (registerNetworkData r net s).2.slots p) ∧
    (allCtxIds (registerNetworkData r net s).2.tlvs).Nodup := by
  unfold registerNetworkData
  split
  · exact ⟨hall, hnd⟩
  · split
    · -- the validated path: sweep, add, bump versions
      rcases hsw : sweepTlvs r .rloc16 net s.now s.reuseDelay s.isClone s.tlvs
          s.slots flags0 with ⟨tl1, sl1, fl1⟩
      have hinv1 := sweepTlvs_inv r .rloc16 net s.now s.reuseDelay s.isClone s.tlvs
        s.slots flags0 hall hnd
      simp only [hsw] at hinv1
      rcases hadd : addAll net { s with tlvs := tl1, slots := sl1 } fl1
        with ⟨e2, s2, fl2⟩
      have hinv2 := addAll_inv net { s with tlvs := tl1, slots := sl1 } fl1 hc
        hinv1.1 hinv1.2.1
      simp only [hadd] at hinv2
      simp only [removeRlocEx, hsw, hadd]
      rw [incrementVersionsF_tlvs, incrementVersionsF_slots]
      exact hinv2
    · exact ⟨hall, hnd⟩

/-- C4. After every public operation on a non-clone Leader whose state satisfies
the context invariant, every Prefix TLV in the registry has a BorderRouter
sub-TLV if and only if it has a Context sub-TLV whose compress flag is set and
whose context id is marked `InUse` in the allocator (and the full invariant is
re-established); moreover, when the removal sweep leaves a prefix with a Context
sub-TLV but no BorderRouter sub-TLV, `RemoveRlocInPrefix` clears the compress
flag and schedules the context id for delayed removal: its slot is neither
`Unallocated` nor `InUse` afterwards. -/
theorem C4_context_invariant :
    (∀ (op : PublicOp) (s : Leader), s.isClone = false → Inv s →
      ContextClaim (step op s) ∧ Inv (step op s)) ∧
    (∀ (p : PfxD) (rloc : Nat) (mode : MatchMode) (exP : Option PfxD)
        (sl : Nat → Nat) (fl : ChangedFlags) (now rd : Nat) (c : SubTlv),
      localInv sl p →
      ((removeRlocSubs rloc mode exP p.subs fl).1).find? SubTlv.isCtx = some c →
      (removeRlocSubs rloc mode exP p.subs fl).1.any SubTlv.isBR = false →
      ctxData (removeRlocInPrefix p rloc mode exP sl fl now rd false).1.subs =
        [(false, c.cidOf)] ∧
      (removeRlocInPrefix p rloc mode exP sl fl now rd false).2.1 c.cidOf ≠
        kUnallocated ∧
      (removeRlocInPrefix p rloc mode exP sl fl now rd false).2.1 c.cidOf ≠
        kInUse) := by
  constructor
  · intro op s hc hinv
    obtain ⟨hall, hnd⟩ := hinv
    have key : Inv (step op s) := by
      cases op with
      | registerOp r net =>
        exact register_inv r net s hc hall hnd
      | removeBorderRouterOp r mode =>
        show Inv (removeBorderRouter r mode s)
        rcases hsw : sweepTlvs r mode [] s.now s.reuseDelay s.isClone s.tlvs s.slots
            flags0 with ⟨tl1, sl1, fl1⟩
        have hinv1 := sweepTlvs_inv r mode [] s.now s.reuseDelay s.isClone s.tlvs
          s.slots flags0 hall hnd
        simp only [hsw] at hinv1
        unfold Inv removeBorderRouter
        simp only [removeRlocEx, hsw]
        rw [incrementVersionsF_tlvs, incrementVersionsF_slots]
        exact ⟨hinv1.1, hinv1.2.1⟩
      | timerOp =>
        show Inv (handleTimer s)
        unfold handleTimer
        split
        · exact ⟨hall, hnd⟩
        · exact ctxTimerLoop_inv (List.range' 1 15) s hall hnd
      | restoredOp =>
        exact handleRestored_inv s hc hall hnd
      | commSetOp req =>
        show Inv (handleCommissionerSet req s).2
        constructor
        · rw [handleCommissionerSet_tlvs, handleCommissionerSet_slots]
          exact hall
        · rw [handleCommissionerSet_tlvs]
          exact hnd
    exact ⟨contextClaim_of_inv _ key, key⟩
  · intro p rloc mode exP sl fl now rd c hloc hf hbr
    obtain ⟨hiff, hlen, hslots⟩ := hloc
    have hctx := ctxData_removeRlocSubs rloc mode exP p.subs fl
    obtain ⟨restD, hcd⟩ := find?_isCtx_ctxData_head _ c hf
    have hcd' : ctxData p.subs = (c.ctxCompress, c.cidOf) :: restD := by
      rw [← hctx, hcd]
    have hrest : restD = [] := by
      rw [hcd'] at hlen
      simpa using List.length_eq_zero.mp (by simpa using hlen)
    subst hrest
    have hne0 : sl c.cidOf ≠ kUnallocated := by
      refine (hslots (c.ctxCompress, c.cidOf) ?_).2
      rw [hcd']
      exact List.mem_singleton.mpr rfl
    simp only [removeRlocInPrefix, hf, hbr, Bool.false_eq_true, if_false]
    refine ⟨?_, ?_, ?_⟩
    · show ctxData
          (setFirstCtxCompress false (removeRlocSubs rloc mode exP p.subs fl).1) =
        [(false, c.cidOf)]
      simp only [ctxData_setFirstCtxCompress, hcd]
    · exact (scheduleToRemove_pending sl c.cidOf now rd hne0).1
    · exact (scheduleToRemove_pending sl c.cidOf now rd hne0).2

theorem C4_context_invariant_witness :
    (ContextClaim (step .timerOp
        ⟨[], 0, 0, fun _ => 0, 300, false, false, true, fun _ => true, none, 0⟩) ∧
      Inv (step .timerOp
        ⟨[], 0, 0, fun _ => 0, 300, false, false, true, fun _ => true, none, 0⟩)) ∧
    (ctxData (removeRlocInPrefix
          ⟨false, 0, 8, [32],
            [SubTlv.borderRouter true [⟨1024, 0⟩], SubTlv.context true true 1 8]⟩
          1024 .rloc16 none (fun _ => 1) flags0 0 300 false).1.subs =
        [(false, (SubTlv.context true true 1 8).cidOf)] ∧
      (removeRlocInPrefix
          ⟨false, 0, 8, [32],
            [SubTlv.borderRouter true [⟨1024, 0⟩], SubTlv.context true true 1 8]⟩
          1024 .rloc16 none (fun _ => 1) flags0 0 300 false).2.1
          (SubTlv.context true true 1 8).cidOf ≠ kUnallocated ∧
      (removeRlocInPrefix
          ⟨false, 0, 8, [32],
            [SubTlv.borderRouter true [⟨1024, 0⟩], SubTlv.context true true 1 8]⟩
          1024 .rloc16 none (fun _ => 1) flags0 0 300 false).2.1
          (SubTlv.context true true 1 8).cidOf ≠ kInUse) :=
  ⟨C4_context_invariant.1 .timerOp
      ⟨[], 0, 0, fun _ => 0, 300, false, false, true, fun _ => true, none, 0⟩ rfl
      ⟨by intro p hp; simp [prefixesOf] at hp, by simp [allCtxIds]⟩,
    C4_context_invariant.2
      ⟨false, 0, 8, [32],
        [SubTlv.borderRouter true [⟨1024, 0⟩], SubTlv.context true true 1 8]⟩
      1024 .rloc16 none (fun _ => 1) flags0 0 300 (SubTlv.context true true 1 8)
      (by unfold localInv; decide) (by decide) (by decide)⟩


/-! ## Claim C2: idempotence of RegisterNetworkData

The development splits into: generic list facts; facts extracted from a
successful `Validate`; identity of a second sweep over a registry whose
surviving entries are all certified against the submitted blob; the
postcondition of the first run (every registry entry certified, every
submitted sub-TLV absorbed into the registry); and the identity of the
second add pass. -/

theorem find?_append_some {α : Type} (p : α → Bool) (l1 l2 : List α) (x : α)
    (h : l1.find? p = some x) : (l1 ++ l2).find? p = some x := by
  rw [List.find?_append, h]; rfl

theorem find?_append_none {α : Type} (p : α → Bool) (l1 l2 : List α)
    (h : l1.find? p = none) : (l1 ++ l2).find? p = l2.find? p := by
  rw [List.find?_append, h]; rfl

theorem find?_of_countP_le_one {α : Type} (pred : α → Bool) :
    ∀ (l : List α) (x : α), x ∈ l → pred x = true → l.countP pred ≤ 1 →
      l.find? pred = some x := by
  intro l
  induction l with
  | nil => intro x hx _ _; simp at hx
  | cons a rest ih =>
    intro x hx hp hc
    by_cases ha : pred a = true
    · rw [List.find?_cons_of_pos _ ha]
      rcases List.mem_cons.mp hx with rfl | hx'
      · rfl
      · exfalso
        have h1 : 0 < rest.countP pred := List.countP_pos_iff.mpr ⟨x, hx', hp⟩
        rw [List.countP_cons_of_pos _ _ ha] at hc
        omega
    · rw [List.find?_cons_of_neg _ ha]
      rcases List.mem_cons.mp hx with rfl | hx'
      · exact absurd hp ha
      · rw [List.countP_cons_of_neg _ _ ha] at hc
        exact ih x hx' hp hc

theorem isEmpty_false_of_ne {α : Type} {l : List α} (h : l ≠ []) :
    l.isEmpty = false := by
  cases l with
  | nil => exact absurd rfl h
  | cons a t => rfl

/-- Shape of a successful `FindSubTlv<HasRouteTlv>(aStable)`. -/
theorem find?_isHRWith_shape {st : Bool} {l : List SubTlv} {s : SubTlv}
    (h : l.find? (SubTlv.isHRWith st) = some s) :
    ∃ es, s = SubTlv.hasRoute st es := by
  have hp := List.find?_some h
  cases s with
  | hasRoute st' es =>
    simp only [SubTlv.isHRWith, beq_iff_eq] at hp
    exact ⟨es, by rw [hp]⟩
  | borderRouter st' es => exact absurd hp (by simp [SubTlv.isHRWith])
  | context a b c d => exact absurd hp (by simp [SubTlv.isHRWith])
  | server a b c => exact absurd hp (by simp [SubTlv.isHRWith])
  | otherSub a b c => exact absurd hp (by simp [SubTlv.isHRWith])

/-- Shape of a successful `FindSubTlv<BorderRouterTlv>(aStable)`. -/
theorem find?_isBRWith_shape {st : Bool} {l : List SubTlv} {s : SubTlv}
    (h : l.find? (SubTlv.isBRWith st) = some s) :
    ∃ es, s = SubTlv.borderRouter st es := by
  have hp := List.find?_some h
  cases s with
  | borderRouter st' es =>
    simp only [SubTlv.isBRWith, beq_iff_eq] at hp
    exact ⟨es, by rw [hp]⟩
  | hasRoute st' es => exact absurd hp (by simp [SubTlv.isBRWith])
  | context a b c d => exact absurd hp (by simp [SubTlv.isBRWith])
  | server a b c => exact absurd hp (by simp [SubTlv.isBRWith])
  | otherSub a b c => exact absurd hp (by simp [SubTlv.isBRWith])

/-- Shape of a successful `FindSubTlv<ContextTlv>()`. -/
theorem find?_isCtx_shape {l : List SubTlv} {s : SubTlv}
    (h : l.find? SubTlv.isCtx = some s) :
    ∃ cst cco ci cl, s = SubTlv.context cst cco ci cl := by
  have hp := List.find?_some h
  cases s with
  | context a b c d => exact ⟨a, b, c, d, rfl⟩
  | hasRoute st' es => exact absurd hp (by simp [SubTlv.isCtx])
  | borderRouter st' es => exact absurd hp (by simp [SubTlv.isCtx])
  | server a b c => exact absurd hp (by simp [SubTlv.isCtx])
  | otherSub a b c => exact absurd hp (by simp [SubTlv.isCtx])

/-- Shape of a successful `Find<ServerTlv>()`. -/
theorem find?_isServer_shape {l : List SubTlv} {s : SubTlv}
    (h : l.find? SubTlv.isServer = some s) :
    ∃ st s16 sd, s = SubTlv.server st s16 sd := by
  have hp := List.find?_some h
  cases s with
  | server a b c => exact ⟨a, b, c, rfl⟩
  | hasRoute st' es => exact absurd hp (by simp [SubTlv.isServer])
  | borderRouter st' es => exact absurd hp (by simp [SubTlv.isServer])
  | context a b c d => exact absurd hp (by simp [SubTlv.isServer])
  | otherSub a b c => exact absurd hp (by simp [SubTlv.isServer])

/-- The Service TLVs of the registry, in order (companion of `prefixesOf`). -/
def servicesOf : List NetTlv → List SrvD
  | [] => []
  | .srv v :: rest => v :: servicesOf rest
  | _ :: rest => servicesOf rest

theorem mem_prefixesOf_of_mem : ∀ {tlvs : List NetTlv} {p : PfxD},
    NetTlv.pfx p ∈ tlvs → p ∈ prefixesOf tlvs := by
  intro tlvs
  induction tlvs with
  | nil => intro p h; simp at h
  | cons t rest ih =>
    intro p h
    rcases List.mem_cons.mp h with rfl | h'
    · simp [prefixesOf]
    · cases t with
      | pfx q => exact List.mem_cons_of_mem _ (ih h')
      | srv v => exact ih h'
      | other a b c => exact ih h'

theorem mem_servicesOf_of_mem : ∀ {tlvs : List NetTlv} {v : SrvD},
    NetTlv.srv v ∈ tlvs → v ∈ servicesOf tlvs := by
  intro tlvs
  induction tlvs with
  | nil => intro v h; simp at h
  | cons t rest ih =>
    intro v h
    rcases List.mem_cons.mp h with rfl | h'
    · simp [servicesOf]
    · cases t with
      | pfx q => exact ih h'
      | srv w => exact List.mem_cons_of_mem _ (ih h')
      | other a b c => exact ih h'

/-! ### Certification predicates

A registry is *certified* against a blob `net` submitted by `r` when every
HasRoute/BorderRouter entry whose RLOC matches `r` (and every Server sub-TLV
whose `server16` matches `r`) is byte-identically contained in the matching
TLV of `net`, looked up exactly the way the sweep's exclude check does
(`FindPrefix`/`FindService` plus first same-stable sub-TLV).  A second sweep
of a certified registry removes nothing. -/

/-- Every matching HasRoute/BorderRouter entry of the prefix survives the
exclude check against `net`. -/
def certP (net : List NetTlv) (r : Nat) (p : PfxD) : Prop :=
  (∀ st es, SubTlv.hasRoute st es ∈ p.subs → ∀ e ∈ es,
    rlocMatch e.rloc r .rloc16 = true →
    containsMatchingEntryHR (findPfx net p.prefixLength p.prefixBytes) st e = true) ∧
  (∀ st es, SubTlv.borderRouter st es ∈ p.subs → ∀ e ∈ es,
    rlocMatch e.rloc r .rloc16 = true →
    containsMatchingEntryBR (findPfx net p.prefixLength p.prefixBytes) st e = true)

/-- Every matching Server sub-TLV of the service survives the exclude check
against `net`. -/
def certS (net : List NetTlv) (r : Nat) (v : SrvD) : Prop :=
  ∀ st s16 sd, SubTlv.server st s16 sd ∈ v.subs →
    rlocMatch s16 r .rloc16 = true →
    containsMatchingServer (findSrv net v.enterprise v.serviceData) st s16 sd = true

/-- No HasRoute/BorderRouter sub-TLV of the prefix has an empty entry list. -/
def neSubs (p : PfxD) : Prop :=
  (∀ st es, SubTlv.hasRoute st es ∈ p.subs → es ≠ []) ∧
  (∀ st es, SubTlv.borderRouter st es ∈ p.subs → es ≠ [])

/-- The slot-free part of `localInv`: BorderRouter presence iff a
compress-flagged Context sub-TLV, and at most one Context sub-TLV. -/
def ctxOk (p : PfxD) : Prop :=
  (hasBR p = true ↔ ∃ pr ∈ ctxData p.subs, pr.1 = true) ∧
  (ctxData p.subs).length ≤ 1

/-- Per-prefix postcondition of a successful registration: certified entries,
no empty sub-TLVs, normalized parent stable flag, and a nonempty sub-TLV
list. -/
def cleanP (net : List NetTlv) (r : Nat) (p : PfxD) : Prop :=
  certP net r p ∧ neSubs p ∧ p.stable = stableScan p.subs ∧ p.subs ≠ []

/-- Per-service postcondition of a successful registration. -/
def cleanS (net : List NetTlv) (r : Nat) (v : SrvD) : Prop :=
  certS net r v ∧ v.stable = stableScan v.subs ∧ v.subs ≠ []

/-- Whole-registry postcondition of a successful registration. -/
def Clean (net : List NetTlv) (r : Nat) (tlvs : List NetTlv) : Prop :=
  (∀ p ∈ prefixesOf tlvs, cleanP net r p) ∧
  (∀ v ∈ servicesOf tlvs, cleanS net r v)

theorem localInv_ctxOk {sl : Nat → Nat} {p : PfxD} (h : localInv sl p) :
    ctxOk p := ⟨h.1, h.2.1⟩

/-! ### Key-match lemmas -/

theorem pfxKeyMatch_self (p : PfxD) :
    pfxKeyMatch p.prefixLength p.prefixBytes (.pfx p) = true := by
  simp [pfxKeyMatch]

theorem srvKeyMatch_self (v : SrvD) :
    srvKeyMatch v.enterprise v.serviceData (.srv v) = true := by
  simp [srvKeyMatch]

theorem pfxKeyMatch_symm {p q : PfxD}
    (h : pfxKeyMatch p.prefixLength p.prefixBytes (.pfx q) = false) :
    pfxKeyMatch q.prefixLength q.prefixBytes (.pfx p) = false := by
  simp only [pfxKeyMatch, Bool.and_eq_false_iff, beq_eq_false_iff_ne, ne_eq] at h ⊢
  rcases h with h | h
  · exact Or.inl fun he => h he.symm
  · exact Or.inr fun he => h he.symm

theorem srvKeyMatch_symm {v w : SrvD}
    (h : srvKeyMatch v.enterprise v.serviceData (.srv w) = false) :
    srvKeyMatch w.enterprise w.serviceData (.srv v) = false := by
  simp only [srvKeyMatch, Bool.and_eq_false_iff, beq_eq_false_iff_ne, ne_eq] at h ⊢
  rcases h with h | h
  · exact Or.inl fun he => h he.symm
  · exact Or.inr fun he => h he.symm

theorem findPfx_cons_neg {len : Nat} {bytes : List Nat} {t : NetTlv}
    (rest : List NetTlv) (h : pfxKeyMatch len bytes t = false) :
    findPfx (t :: rest) len bytes = findPfx rest len bytes := by
  unfold findPfx
  rw [List.find?_cons_of_neg _ (by simp [h])]

theorem findPfx_cons_self (p : PfxD) (rest : List NetTlv) :
    findPfx (.pfx p :: rest) p.prefixLength p.prefixBytes = some p := by
  unfold findPfx
  rw [List.find?_cons_of_pos _ (pfxKeyMatch_self p)]

theorem findSrv_cons_neg {ent : Nat} {sd : List Nat} {t : NetTlv}
    (rest : List NetTlv) (h : srvKeyMatch ent sd t = false) :
    findSrv (t :: rest) ent sd = findSrv rest ent sd := by
  unfold findSrv
  rw [List.find?_cons_of_neg _ (by simp [h])]

theorem findSrv_cons_self (v : SrvD) (rest : List NetTlv) :
    findSrv (.srv v :: rest) v.enterprise v.serviceData = some v := by
  unfold findSrv
  rw [List.find?_cons_of_pos _ (srvKeyMatch_self v)]

theorem findPfx_cons_srv (w : SrvD) (rest : List NetTlv) (len : Nat)
    (bytes : List Nat) :
    findPfx (.srv w :: rest) len bytes = findPfx rest len bytes :=
  findPfx_cons_neg rest rfl

theorem findPfx_cons_other (a : Bool) (b : Nat) (c : List Nat)
    (rest : List NetTlv) (len : Nat) (bytes : List Nat) :
    findPfx (.other a b c :: rest) len bytes = findPfx rest len bytes :=
  findPfx_cons_neg rest rfl

theorem findSrv_cons_pfx (q : PfxD) (rest : List NetTlv) (ent : Nat)
    (sd : List Nat) :
    findSrv (.pfx q :: rest) ent sd = findSrv rest ent sd :=
  findSrv_cons_neg rest rfl

theorem findSrv_cons_other (a : Bool) (b : Nat) (c : List Nat)
    (rest : List NetTlv) (ent : Nat) (sd : List Nat) :
    findSrv (.other a b c :: rest) ent sd = findSrv rest ent sd :=
  findSrv_cons_neg rest rfl

/-- A `FindPrefix` miss means no TLV of the list matches the key. -/
theorem findPfx_isSome_false {seen : List NetTlv} {len : Nat} {bytes : List Nat}
    (h : (findPfx seen len bytes).isSome = false) :
    ∀ t ∈ seen, pfxKeyMatch len bytes t = false := by
  intro t ht
  unfold findPfx at h
  rcases hf : seen.find? (pfxKeyMatch len bytes) with _ | s
  · have := List.find?_eq_none.mp hf t ht
    simpa using this
  · have hp := List.find?_some hf
    cases s with
    | pfx p => rw [hf] at h; simp at h
    | srv v => simp [pfxKeyMatch] at hp
    | other a b c => simp [pfxKeyMatch] at hp

theorem findSrv_isSome_false {seen : List NetTlv} {ent : Nat} {sd : List Nat}
    (h : (findSrv seen ent sd).isSome = false) :
    ∀ t ∈ seen, srvKeyMatch ent sd t = false := by
  intro t ht
  unfold findSrv at h
  rcases hf : seen.find? (srvKeyMatch ent sd) with _ | s
  · have := List.find?_eq_none.mp hf t ht
    simpa using this
  · have hp := List.find?_some hf
    cases s with
    | srv v => rw [hf] at h; simp at h
    | pfx p => simp [srvKeyMatch] at hp
    | other a b c => simp [srvKeyMatch] at hp

theorem findPfx_mem_prefixesOf {tlvs : List NetTlv} {len : Nat}
    {bytes : List Nat} {p : PfxD} (h : findPfx tlvs len bytes = some p) :
    p ∈ prefixesOf tlvs := by
  unfold findPfx at h
  rcases hf : tlvs.find? (pfxKeyMatch len bytes) with _ | s
  · rw [hf] at h; exact absurd h (by simp)
  · rw [hf] at h
    have hm := List.mem_of_find?_eq_some hf
    have hp := List.find?_some hf
    cases s with
    | pfx q =>
      have : q = p := by simpa using h
      subst this
      exact mem_prefixesOf_of_mem hm
    | srv v => simp [pfxKeyMatch] at hp
    | other a b c => simp [pfxKeyMatch] at hp

theorem findSrv_mem_servicesOf {tlvs : List NetTlv} {ent : Nat}
    {sd : List Nat} {v : SrvD} (h : findSrv tlvs ent sd = some v) :
    v ∈ servicesOf tlvs := by
  unfold findSrv at h
  rcases hf : tlvs.find? (srvKeyMatch ent sd) with _ | s
  · rw [hf] at h; exact absurd h (by simp)
  · rw [hf] at h
    have hm := List.mem_of_find?_eq_some hf
    have hp := List.find?_some hf
    cases s with
    | srv w =>
      have : w = v := by simpa using h
      subst this
      exact mem_servicesOf_of_mem hm
    | pfx q => simp [srvKeyMatch] at hp
    | other a b c => simp [srvKeyMatch] at hp

/-- The key of a found prefix matches the lookup key. -/
theorem findPfx_some_key {tlvs : List NetTlv} {len : Nat} {bytes : List Nat}
    {p : PfxD} (h : findPfx tlvs len bytes = some p) :
    p.prefixLength = len ∧ p.prefixBytes = bytes := by
  unfold findPfx at h
  rcases hf : tlvs.find? (pfxKeyMatch len bytes) with _ | s
  · rw [hf] at h; exact absurd h (by simp)
  · rw [hf] at h
    have hp := List.find?_some hf
    cases s with
    | pfx q =>
      have : q = p := by simpa using h
      subst this
      simpa [pfxKeyMatch] using hp
    | srv v => simp [pfxKeyMatch] at hp
    | other a b c => simp [pfxKeyMatch] at hp

theorem findSrv_some_key {tlvs : List NetTlv} {ent : Nat} {sd : List Nat}
    {v : SrvD} (h : findSrv tlvs ent sd = some v) :
    v.enterprise = ent ∧ v.serviceData = sd := by
  unfold findSrv at h
  rcases hf : tlvs.find? (srvKeyMatch ent sd) with _ | s
  · rw [hf] at h; exact absurd h (by simp)
  · rw [hf] at h
    have hp := List.find?_some hf
    cases s with
    | srv w =>
      have : w = v := by simpa using h
      subst this
      simpa [srvKeyMatch] using hp
    | pfx q => simp [srvKeyMatch] at hp
    | other a b c => simp [srvKeyMatch] at hp

/-! ### Relation between `findPfx`/`findSrv` and `splitFirstPfx`/`splitFirstSrv` -/

theorem findPfx_splitFirstPfx {len : Nat} {bytes : List Nat} :
    ∀ {tlvs : List NetTlv} {p : PfxD}, findPfx tlvs len bytes = some p →
    ∃ l r, splitFirstPfx len bytes tlvs = some (l, p, r) := by
  intro tlvs
  induction tlvs with
  | nil => intro p h; simp [findPfx, List.find?] at h
  | cons t rest ih =>
    intro p h
    by_cases hm : pfxKeyMatch len bytes t = true
    · cases t with
      | pfx q =>
        have hq : q = p := by
          unfold findPfx at h
          rw [List.find?_cons_of_pos _ hm] at h
          simpa using h
        subst hq
        exact ⟨[], rest, by simp [splitFirstPfx, hm]⟩
      | srv v => simp [pfxKeyMatch] at hm
      | other a b c => simp [pfxKeyMatch] at hm
    · have hm' : pfxKeyMatch len bytes t = false := by
        simpa using hm
      rw [findPfx_cons_neg rest hm'] at h
      obtain ⟨l, r, hs⟩ := ih h
      refine ⟨t :: l, r, ?_⟩
      simp only [splitFirstPfx, hm', Bool.false_eq_true, if_false, hs]

theorem findSrv_splitFirstSrv {ent : Nat} {sd : List Nat} :
    ∀ {tlvs : List NetTlv} {v : SrvD}, findSrv tlvs ent sd = some v →
    ∃ l r, splitFirstSrv ent sd tlvs = some (l, v, r) := by
  intro tlvs
  induction tlvs with
  | nil => intro v h; simp [findSrv, List.find?] at h
  | cons t rest ih =>
    intro v h
    by_cases hm : srvKeyMatch ent sd t = true
    · cases t with
      | srv w =>
        have hw : w = v := by
          unfold findSrv at h
          rw [List.find?_cons_of_pos _ hm] at h
          simpa using h
        subst hw
        exact ⟨[], rest, by simp [splitFirstSrv, hm]⟩
      | pfx q => simp [srvKeyMatch] at hm
      | other a b c => simp [srvKeyMatch] at hm
    · have hm' : srvKeyMatch ent sd t = false := by
        simpa using hm
      rw [findSrv_cons_neg rest hm'] at h
      obtain ⟨l, r, hs⟩ := ih h
      refine ⟨t :: l, r, ?_⟩
      simp only [splitFirstSrv, hm', Bool.false_eq_true, if_false, hs]

theorem findPfx_none_splitFirstPfx {len : Nat} {bytes : List Nat} :
    ∀ {tlvs : List NetTlv}, findPfx tlvs len bytes = none →
    splitFirstPfx len bytes tlvs = none := by
  intro tlvs
  induction tlvs with
  | nil => intro h; rfl
  | cons t rest ih =>
    intro h
    by_cases hm : pfxKeyMatch len bytes t = true
    · cases t with
      | pfx q =>
        unfold findPfx at h
        rw [List.find?_cons_of_pos _ hm] at h
        simp at h
      | srv v => simp [pfxKeyMatch] at hm
      | other a b c => simp [pfxKeyMatch] at hm
    · have hm' : pfxKeyMatch len bytes t = false := by simpa using hm
      rw [findPfx_cons_neg rest hm'] at h
      simp only [splitFirstPfx, hm', Bool.false_eq_true, if_false, ih h]

theorem findSrv_none_splitFirstSrv {ent : Nat} {sd : List Nat} :
    ∀ {tlvs : List NetTlv}, findSrv tlvs ent sd = none →
    splitFirstSrv ent sd tlvs = none := by
  intro tlvs
  induction tlvs with
  | nil => intro h; rfl
  | cons t rest ih =>
    intro h
    by_cases hm : srvKeyMatch ent sd t = true
    · cases t with
      | srv w =>
        unfold findSrv at h
        rw [List.find?_cons_of_pos _ hm] at h
        simp at h
      | pfx q => simp [srvKeyMatch] at hm
      | other a b c => simp [srvKeyMatch] at hm
    · have hm' : srvKeyMatch ent sd t = false := by simpa using hm
      rw [findSrv_cons_neg rest hm'] at h
      simp only [splitFirstSrv, hm', Bool.false_eq_true, if_false, ih h]

/-! ### Facts extracted from a successful Validate -/

theorem validatePfx_ok_subs {p : PfxD} {r : Nat} (h : validatePfx p r = .ok) :
    (∀ s ∈ p.subs, subEntriesOk r s) ∧
    (∀ st : Bool, p.subs.countP (SubTlv.isHRWith st) ≤ 1) ∧
    (∀ st : Bool, p.subs.countP (SubTlv.isBRWith st) ≤ 1) := by
  unfold validatePfx at h
  rcases hl : validatePfxLoop r p.subs ⟨false, false, false, false⟩ with _ | f
  · rw [hl] at h; simp at h
  · have hs : (validatePfxLoop r p.subs ⟨false, false, false, false⟩).isSome = true := by
      rw [hl]; rfl
    rw [validatePfxLoop_isSome] at hs
    obtain ⟨ha, c1, c2, c3, c4⟩ := hs
    simp only [if_false] at c1 c2 c3 c4
    refine ⟨ha, fun st => ?_, fun st => ?_⟩ <;> cases st <;> omega

/-- For a validated source prefix, each HasRoute sub-TLV is the unique (hence
first) HasRoute sub-TLV with its stable flag, and holds exactly one entry
with the claimed RLOC. -/
theorem validatePfx_first_hr {p : PfxD} {r : Nat} {st : Bool} {es : List HREntry}
    (h : validatePfx p r = .ok) (hm : SubTlv.hasRoute st es ∈ p.subs) :
    p.subs.find? (SubTlv.isHRWith st) = some (.hasRoute st es) ∧
    ∃ e, es = [e] ∧ e.rloc = r := by
  obtain ⟨ha, cHR, _⟩ := validatePfx_ok_subs h
  have hpred : SubTlv.isHRWith st (SubTlv.hasRoute st es) = true := by
    simp [SubTlv.isHRWith]
  refine ⟨find?_of_countP_le_one _ _ _ hm hpred (cHR st), ?_⟩
  simpa [subEntriesOk] using ha _ hm

theorem validatePfx_first_br {p : PfxD} {r : Nat} {st : Bool} {es : List BREntry}
    (h : validatePfx p r = .ok) (hm : SubTlv.borderRouter st es ∈ p.subs) :
    p.subs.find? (SubTlv.isBRWith st) = some (.borderRouter st es) ∧
    ∃ e, es = [e] ∧ e.rloc = r := by
  obtain ⟨ha, _, cBR⟩ := validatePfx_ok_subs h
  have hpred : SubTlv.isBRWith st (SubTlv.borderRouter st es) = true := by
    simp [SubTlv.isBRWith]
  refine ⟨find?_of_countP_le_one _ _ _ hm hpred (cBR st), ?_⟩
  simpa [subEntriesOk] using ha _ hm

/-- Key disjointness between two TLVs of a validated blob: the key of the
first never matches the second. -/
def keyDisj : NetTlv → NetTlv → Prop
  | .pfx p, t => pfxKeyMatch p.prefixLength p.prefixBytes t = false
  | .srv v, t => srvKeyMatch v.enterprise v.serviceData t = false
  | .other _ _ _, _ => True

/-- Everything a successful `Validate` run guarantees about the blob: each
Prefix TLV is the unique (hence first-found) one with its key, is
well-formed, and passes `ValidatePrefix`; likewise for Service TLVs; and all
keys are pairwise distinct. -/
theorem validateLoop_ok_facts (r : Nat) : ∀ (l seen : List NetTlv),
    validateLoop r l seen = .ok →
    (∀ p, NetTlv.pfx p ∈ l →
      (∀ t ∈ seen, pfxKeyMatch p.prefixLength p.prefixBytes t = false) ∧
      findPfx l p.prefixLength p.prefixBytes = some p ∧
      validatePfx p r = .ok ∧ isValidPfx p = true) ∧
    (∀ v, NetTlv.srv v ∈ l →
      (∀ t ∈ seen, srvKeyMatch v.enterprise v.serviceData t = false) ∧
      findSrv l v.enterprise v.serviceData = some v ∧
      validateSrv v r = .ok) ∧
    List.Pairwise keyDisj l := by
  intro l
  induction l with
  | nil =>
    intro seen _
    refine ⟨?_, ?_, List.Pairwise.nil⟩ <;> intro x hx <;> simp at hx
  | cons t rest ih =>
    intro seen h
    cases t with
    | pfx q =>
      simp only [validateLoop] at h
      have h1 : isValidPfx q = true := by
        by_contra hq
        rw [if_pos (by simp [Bool.not_eq_true] at hq; simp [hq])] at h
        exact absurd h (by simp)
      rw [if_neg (by simp [h1])] at h
      have h2 : (findPfx seen q.prefixLength q.prefixBytes).isSome = false := by
        cases hq : (findPfx seen q.prefixLength q.prefixBytes).isSome with
        | false => rfl
        | true => rw [if_pos hq] at h; exact absurd h (by simp)
      rw [if_neg (by simp [h2])] at h
      have hv : validatePfx q r = .ok := by
        rcases validatePfx_ok_or_parse q r with hv | hv
        · exact hv
        · rw [hv] at h; exact absurd h (by simp)
      rw [hv] at h
      obtain ⟨ihP, ihS, ihPW⟩ := ih (seen ++ [.pfx q]) h
      refine ⟨?_, ?_, ?_⟩
      · intro p hp
        rcases List.mem_cons.mp hp with heq | hp'
        · injection heq with heq
          subst heq
          exact ⟨findPfx_isSome_false h2, findPfx_cons_self p rest, hv, h1⟩
        · obtain ⟨hseen, hfind, hv', hval⟩ := ihP p hp'
          have hq : pfxKeyMatch p.prefixLength p.prefixBytes (.pfx q) = false :=
            hseen (.pfx q) (by simp)
          refine ⟨fun t ht => hseen t (List.mem_append_left _ ht), ?_, hv', hval⟩
          rw [findPfx_cons_neg rest hq]
          exact hfind
      · intro v hv2
        rcases List.mem_cons.mp hv2 with heq | hv2'
        · exact absurd heq (by simp)
        · obtain ⟨hseen, hfind, hv'⟩ := ihS v hv2'
          refine ⟨fun t ht => hseen t (List.mem_append_left _ ht), ?_, hv'⟩
          rw [findSrv_cons_pfx q rest]
          exact hfind
      · refine List.Pairwise.cons ?_ ihPW
        intro b hb
        cases b with
        | pfx p' => exact pfxKeyMatch_symm ((ihP p' hb).1 (.pfx q) (by simp))
        | srv v' => exact rfl
        | other a b c => exact rfl
    | srv w =>
      simp only [validateLoop] at h
      have h2 : (findSrv seen w.enterprise w.serviceData).isSome = false := by
        cases hq : (findSrv seen w.enterprise w.serviceData).isSome with
        | false => rfl
        | true => rw [if_pos hq] at h; exact absurd h (by simp)
      rw [if_neg (by simp [h2])] at h
      have hv : validateSrv w r = .ok := by
        rcases validateSrv_ok_or_parse w r with hv | hv
        · exact hv
        · rw [hv] at h; exact absurd h (by simp)
      rw [hv] at h
      obtain ⟨ihP, ihS, ihPW⟩ := ih (seen ++ [.srv w]) h
      refine ⟨?_, ?_, ?_⟩
      · intro p hp
        rcases List.mem_cons.mp hp with heq | hp'
        · exact absurd heq (by simp)
        · obtain ⟨hseen, hfind, hv', hval⟩ := ihP p hp'
          refine ⟨fun t ht => hseen t (List.mem_append_left _ ht), ?_, hv', hval⟩
          rw [findPfx_cons_srv w rest]
          exact hfind
      · intro v hv2
        rcases List.mem_cons.mp hv2 with heq | hv2'
        · injection heq with heq
          subst heq
          exact ⟨findSrv_isSome_false h2, findSrv_cons_self v rest, hv⟩
        · obtain ⟨hseen, hfind, hv'⟩ := ihS v hv2'
          have hq : srvKeyMatch v.enterprise v.serviceData (.srv w) = false :=
            hseen (.srv w) (by simp)
          refine ⟨fun t ht => hseen t (List.mem_append_left _ ht), ?_, hv'⟩
          rw [findSrv_cons_neg rest hq]
          exact hfind
      · refine List.Pairwise.cons ?_ ihPW
        intro b hb
        cases b with
        | pfx p' => exact rfl
        | srv v' => exact srvKeyMatch_symm ((ihS v' hb).1 (.srv w) (by simp))
        | other a b c => exact rfl
    | other a b c =>
      simp only [validateLoop] at h
      obtain ⟨ihP, ihS, ihPW⟩ := ih (seen ++ [.other a b c]) h
      refine ⟨?_, ?_, ?_⟩
      · intro p hp
        rcases List.mem_cons.mp hp with heq | hp'
        · exact absurd heq (by simp)
        · obtain ⟨hseen, hfind, hv', hval⟩ := ihP p hp'
          refine ⟨fun t ht => hseen t (List.mem_append_left _ ht), ?_, hv', hval⟩
          rw [findPfx_cons_other a b c rest]
          exact hfind
      · intro v hv2
        rcases List.mem_cons.mp hv2 with heq | hv2'
        · exact absurd heq (by simp)
        · obtain ⟨hseen, hfind, hv'⟩ := ihS v hv2'
          refine ⟨fun t ht => hseen t (List.mem_append_left _ ht), ?_, hv'⟩
          rw [findSrv_cons_other a b c rest]
          exact hfind
      · exact List.Pairwise.cons (fun b _ => trivial) ihPW

theorem firstServer_mem {subs : List SubTlv} {st : Bool} {s16 : Nat}
    {sd : List Nat} (h : firstServer subs = some (st, s16, sd)) :
    SubTlv.server st s16 sd ∈ subs := by
  unfold firstServer at h
  rcases hf : subs.find? SubTlv.isServer with _ | s
  · rw [hf] at h; exact absurd h (by simp)
  · obtain ⟨st', a, b, rfl⟩ := find?_isServer_shape hf
    rw [hf] at h
    simp only [Option.some.injEq, Prod.mk.injEq] at h
    obtain ⟨rfl, rfl, rfl⟩ := h
    exact List.mem_of_find?_eq_some hf

theorem containsMatchingServer_of_mem {v : SrvD} {st : Bool} {s16 : Nat}
    {sd : List Nat} (h : SubTlv.server st s16 sd ∈ v.subs) :
    containsMatchingServer (some v) st s16 sd = true := by
  unfold containsMatchingServer
  rw [List.any_eq_true]
  exact ⟨_, h, by simp⟩

/-! ### Identity of a sweep over a certified registry -/

theorem removeRlocInHasRoute_id (rloc : Nat) (mode : MatchMode)
    (exP : Option PfxD) (st : Bool) :
    ∀ (es : List HREntry) (fl : ChangedFlags),
    (∀ e ∈ es, rlocMatch e.rloc rloc mode = true →
      containsMatchingEntryHR exP st e = true) →
    removeRlocInHasRoute rloc mode exP st es fl = (es, fl) := by
  intro es
  induction es with
  | nil => intro fl _; rfl
  | cons e rest ih =>
    intro fl h
    have hcond : (rlocMatch e.rloc rloc mode &&
        !containsMatchingEntryHR exP st e) = false := by
      by_cases hm : rlocMatch e.rloc rloc mode = true
      · have hc := h e (List.mem_cons_self e rest) hm
        simp [hm, hc]
      · have hm' : rlocMatch e.rloc rloc mode = false := by simpa using hm
        simp [hm']
    simp only [removeRlocInHasRoute, hcond, Bool.false_eq_true, if_false]
    rw [ih fl (fun e' he hm => h e' (List.mem_cons_of_mem _ he) hm)]

theorem removeRlocInBorderRouter_id (rloc : Nat) (mode : MatchMode)
    (exP : Option PfxD) (st : Bool) :
    ∀ (es : List BREntry) (fl : ChangedFlags),
    (∀ e ∈ es, rlocMatch e.rloc rloc mode = true →
      containsMatchingEntryBR exP st e = true) →
    removeRlocInBorderRouter rloc mode exP st es fl = (es, fl) := by
  intro es
  induction es with
  | nil => intro fl _; rfl
  | cons e rest ih =>
    intro fl h
    have hcond : (rlocMatch e.rloc rloc mode &&
        !containsMatchingEntryBR exP st e) = false := by
      by_cases hm : rlocMatch e.rloc rloc mode = true
      · have hc := h e (List.mem_cons_self e rest) hm
        simp [hm, hc]
      · have hm' : rlocMatch e.rloc rloc mode = false := by simpa using hm
        simp [hm']
    simp only [removeRlocInBorderRouter, hcond, Bool.false_eq_true, if_false]
    rw [ih fl (fun e' he hm => h e' (List.mem_cons_of_mem _ he) hm)]

theorem removeRlocInService_id (rloc : Nat) (mode : MatchMode)
    (exS : Option SrvD) :
    ∀ (subs : List SubTlv) (fl : ChangedFlags),
    (∀ st s16 sd, SubTlv.server st s16 sd ∈ subs →
      rlocMatch s16 rloc mode = true →
      containsMatchingServer exS st s16 sd = true) →
    removeRlocInService rloc mode exS subs fl = (subs, fl) := by
  intro subs
  induction subs with
  | nil => intro fl _; rfl
  | cons s rest ih =>
    intro fl h
    have ihr := ih fl
      (fun st' a b hmem hm => h st' a b (List.mem_cons_of_mem _ hmem) hm)
    cases s with
    | server st s16 sd =>
      have hcond : (rlocMatch s16 rloc mode &&
          !containsMatchingServer exS st s16 sd) = false := by
        by_cases hm : rlocMatch s16 rloc mode = true
        · simp [hm, h st s16 sd (List.mem_cons_self _ _) hm]
        · have hm' : rlocMatch s16 rloc mode = false := by simpa using hm
          simp [hm']
      simp only [removeRlocInService, hcond, Bool.false_eq_true, if_false]
      rw [ihr]
    | hasRoute st es =>
      simp only [removeRlocInService]
      rw [ihr]
    | borderRouter st es =>
      simp only [removeRlocInService]
      rw [ihr]
    | context a b c d =>
      simp only [removeRlocInService]
      rw [ihr]
    | otherSub a b c =>
      simp only [removeRlocInService]
      rw [ihr]

theorem removeRlocSubs_id (rloc : Nat) (mode : MatchMode) (exP : Option PfxD) :
    ∀ (subs : List SubTlv) (fl : ChangedFlags),
    (∀ st es, SubTlv.hasRoute st es ∈ subs → es ≠ [] ∧
      ∀ e ∈ es, rlocMatch e.rloc rloc mode = true →
        containsMatchingEntryHR exP st e = true) →
    (∀ st es, SubTlv.borderRouter st es ∈ subs → es ≠ [] ∧
      ∀ e ∈ es, rlocMatch e.rloc rloc mode = true →
        containsMatchingEntryBR exP st e = true) →
    removeRlocSubs rloc mode exP subs fl = (subs, fl) := by
  intro subs
  induction subs with
  | nil => intro fl _ _; rfl
  | cons s rest ih =>
    intro fl hHR hBR
    have ihr := ih fl (fun st es hm => hHR st es (List.mem_cons_of_mem _ hm))
      (fun st es hm => hBR st es (List.mem_cons_of_mem _ hm))
    cases s with
    | hasRoute st es =>
      obtain ⟨hne, hcert⟩ := hHR st es (List.mem_cons_self _ _)
      have hid := removeRlocInHasRoute_id rloc mode exP st es fl hcert
      simp only [removeRlocSubs, hid, isEmpty_false_of_ne hne,
        Bool.false_eq_true, if_false, ihr]
    | borderRouter st es =>
      obtain ⟨hne, hcert⟩ := hBR st es (List.mem_cons_self _ _)
      have hid := removeRlocInBorderRouter_id rloc mode exP st es fl hcert
      simp only [removeRlocSubs, hid, isEmpty_false_of_ne hne,
        Bool.false_eq_true, if_false, ihr]
    | context a b c d => simp only [removeRlocSubs, ihr]
    | server a b c => simp only [removeRlocSubs, ihr]
    | otherSub a b c => simp only [removeRlocSubs, ihr]

theorem setFirstCtxCompress_id (b : Bool) :
    ∀ (l : List SubTlv) (cst : Bool) (ci cl : Nat),
    l.find? SubTlv.isCtx = some (.context cst b ci cl) →
    setFirstCtxCompress b l = l := by
  intro l
  induction l with
  | nil => intro cst ci cl h; simp at h
  | cons s rest ih =>
    intro cst ci cl h
    cases s with
    | context a b' c d =>
      rw [List.find?_cons_of_pos _ (by simp [SubTlv.isCtx])] at h
      injection h with h
      injection h with h1 h2 h3 h4
      subst h2
      simp [setFirstCtxCompress]
    | hasRoute st es =>
      rw [List.find?_cons_of_neg _ (by simp [SubTlv.isCtx])] at h
      simp [setFirstCtxCompress, ih _ _ _ h]
    | borderRouter st es =>
      rw [List.find?_cons_of_neg _ (by simp [SubTlv.isCtx])] at h
      simp [setFirstCtxCompress, ih _ _ _ h]
    | server a b' c =>
      rw [List.find?_cons_of_neg _ (by simp [SubTlv.isCtx])] at h
      simp [setFirstCtxCompress, ih _ _ _ h]
    | otherSub a b' c =>
      rw [List.find?_cons_of_neg _ (by simp [SubTlv.isCtx])] at h
      simp [setFirstCtxCompress, ih _ _ _ h]

theorem setFirstCtxStable_id :
    ∀ (l : List SubTlv) (co : Bool) (ci cl : Nat),
    l.find? SubTlv.isCtx = some (.context true co ci cl) →
    setFirstCtxStable l = l := by
  intro l
  induction l with
  | nil => intro co ci cl h; simp at h
  | cons s rest ih =>
    intro co ci cl h
    cases s with
    | context a b' c d =>
      rw [List.find?_cons_of_pos _ (by simp [SubTlv.isCtx])] at h
      injection h with h
      injection h with h1 h2 h3 h4
      subst h1
      simp [setFirstCtxStable]
    | hasRoute st es =>
      rw [List.find?_cons_of_neg _ (by simp [SubTlv.isCtx])] at h
      simp [setFirstCtxStable, ih _ _ _ h]
    | borderRouter st es =>
      rw [List.find?_cons_of_neg _ (by simp [SubTlv.isCtx])] at h
      simp [setFirstCtxStable, ih _ _ _ h]
    | server a b' c =>
      rw [List.find?_cons_of_neg _ (by simp [SubTlv.isCtx])] at h
      simp [setFirstCtxStable, ih _ _ _ h]
    | otherSub a b' c =>
      rw [List.find?_cons_of_neg _ (by simp [SubTlv.isCtx])] at h
      simp [setFirstCtxStable, ih _ _ _ h]

/-- A sweep of one prefix whose sub-TLV sweep removed nothing, and whose
Context state already agrees with its BorderRouter state, returns the prefix
and the flags unchanged (the slot table may still be re-marked). -/
theorem removeRlocInPrefix_id (p : PfxD) (rloc : Nat) (mode : MatchMode)
    (exP : Option PfxD) (sl : Nat → Nat) (fl : ChangedFlags) (now rd : Nat)
    (clone : Bool)
    (hsubs : removeRlocSubs rloc mode exP p.subs fl = (p.subs, fl))
    (hctx : ctxOk p) :
    (removeRlocInPrefix p rloc mode exP sl fl now rd clone).1 = p ∧
    (removeRlocInPrefix p rloc mode exP sl fl now rd clone).2.2 = fl := by
  unfold removeRlocInPrefix
  simp only [hsubs]
  split
  · exact ⟨rfl, rfl⟩
  · rename_i c hf
    obtain ⟨cst, cco, ci, cl, rfl⟩ := find?_isCtx_shape hf
    obtain ⟨restD, hcd⟩ := find?_isCtx_ctxData_head _ _ hf
    have hrest : restD = [] := by
      have := hctx.2
      rw [hcd] at this
      simpa using this
    subst hrest
    by_cases hbr : p.subs.any SubTlv.isBR = true
    · have hcc : cco = true := by
        obtain ⟨pr, hpr, hpt⟩ := hctx.1.mp hbr
        rw [hcd] at hpr
        have : pr = ((SubTlv.context cst cco ci cl).ctxCompress,
            (SubTlv.context cst cco ci cl).cidOf) := by simpa using hpr
        rw [this] at hpt
        exact hpt
      subst hcc
      rw [if_pos hbr, setFirstCtxCompress_id true p.subs cst ci cl hf]
      exact ⟨rfl, rfl⟩
    · have hcc : cco = false := by
        by_contra hne
        have hcc' : cco = true := by
          cases cco
          · exact absurd rfl hne
          · rfl
        subst hcc'
        exact hbr (hctx.1.mpr ⟨((SubTlv.context cst true ci cl).ctxCompress,
          (SubTlv.context cst true ci cl).cidOf), by rw [hcd]; simp, rfl⟩)
      subst hcc
      rw [if_neg hbr, setFirstCtxCompress_id false p.subs cst ci cl hf]
      exact ⟨rfl, rfl⟩

theorem updateTlvP_id {p : PfxD} (hnorm : p.stable = stableScan p.subs)
    (hne : p.subs ≠ []) : updateTlvP p = some p := by
  unfold updateTlvP
  rw [if_neg (by simp [isEmpty_false_of_ne hne])]
  rw [← hnorm]

theorem updateTlvS_id {v : SrvD} (hnorm : v.stable = stableScan v.subs)
    (hne : v.subs ≠ []) : updateTlvS v = some v := by
  unfold updateTlvS
  rw [if_neg (by simp [isEmpty_false_of_ne hne])]
  rw [← hnorm]

/-- A sweep over a registry all of whose prefixes and services are certified
against the exclude blob, normalized and nonempty leaves the TLV buffer and
the changed flags untouched. -/
theorem sweepTlvs_id (r : Nat) (net : List NetTlv) (now rd : Nat)
    (clone : Bool) :
    ∀ (tlvs : List NetTlv) (sl : Nat → Nat) (fl : ChangedFlags),
    (∀ p ∈ prefixesOf tlvs, certP net r p ∧ neSubs p ∧ ctxOk p ∧
      p.stable = stableScan p.subs ∧ p.subs ≠ []) →
    (∀ v ∈ servicesOf tlvs, certS net r v ∧ v.stable = stableScan v.subs ∧
      v.subs ≠ []) →
    (sweepTlvs r .rloc16 net now rd clone tlvs sl fl).1 = tlvs ∧
    (sweepTlvs r .rloc16 net now rd clone tlvs sl fl).2.2 = fl := by
  intro tlvs
  induction tlvs with
  | nil => intro sl fl _ _; exact ⟨rfl, rfl⟩
  | cons t rest ih =>
    intro sl fl hP hS
    cases t with
    | pfx p =>
      obtain ⟨hcert, hne, hctx, hnorm, hnon⟩ := hP p (by simp [prefixesOf])
      have hsubs : removeRlocSubs r .rloc16
          (findPfx net p.prefixLength p.prefixBytes) p.subs fl = (p.subs, fl) := by
        apply removeRlocSubs_id
        · intro st es hm
          exact ⟨hne.1 st es hm, fun e he hrm => hcert.1 st es hm e he hrm⟩
        · intro st es hm
          exact ⟨hne.2 st es hm, fun e he hrm => hcert.2 st es hm e he hrm⟩
      have hid := removeRlocInPrefix_id p r .rloc16
        (findPfx net p.prefixLength p.prefixBytes) sl fl now rd clone hsubs hctx
      rcases hpr : removeRlocInPrefix p r .rloc16
          (findPfx net p.prefixLength p.prefixBytes) sl fl now rd clone with
        ⟨p1, sl1, fl1⟩
      rw [hpr] at hid
      obtain ⟨hp1, hfl1⟩ := hid
      simp only at hp1 hfl1
      obtain ⟨ht1, ht2⟩ := ih sl1 fl1
        (fun q hq => hP q (by
          simp only [prefixesOf]
          exact List.mem_cons_of_mem _ hq))
        (fun v hv => hS v hv)
      rw [hfl1] at ht1 ht2
      simp [sweepTlvs, hpr, hp1, updateTlvP_id hnorm hnon, optListP, ht1, ht2,
        hfl1]
    | srv v =>
      obtain ⟨hcert, hnorm, hnon⟩ := hS v (by simp [servicesOf])
      have hsubs : removeRlocInService r .rloc16
          (findSrv net v.enterprise v.serviceData) v.subs fl = (v.subs, fl) :=
        removeRlocInService_id r .rloc16 _ v.subs fl
          (fun st s16 sd hmem hm => hcert st s16 sd hmem hm)
      obtain ⟨ht1, ht2⟩ := ih sl fl
        (fun q hq => hP q hq)
        (fun w hw => hS w (by
          simp only [servicesOf]
          exact List.mem_cons_of_mem _ hw))
      simp only [sweepTlvs, hsubs, ht1, ht2]
      rw [show ({ v with subs := v.subs } : SrvD) = v from rfl,
        updateTlvS_id hnorm hnon]
      simp [optListS]
    | other a b c =>
      obtain ⟨ht1, ht2⟩ := ih sl fl (fun q hq => hP q hq) (fun w hw => hS w hw)
      simp [sweepTlvs, ht1, ht2]

/-! ### The sweep's output is certified against the exclude blob -/

theorem ne_nil_of_isEmpty_false {α : Type} {l : List α}
    (h : l.isEmpty = false) : l ≠ [] := by
  cases l with
  | nil => simp at h
  | cons a t => exact List.cons_ne_nil a t

theorem removeRlocInHasRoute_cert (rloc : Nat) (mode : MatchMode)
    (exP : Option PfxD) (st : Bool) :
    ∀ (es : List HREntry) (fl : ChangedFlags) (e : HREntry),
    e ∈ (removeRlocInHasRoute rloc mode exP st es fl).1 →
    rlocMatch e.rloc rloc mode = true →
    containsMatchingEntryHR exP st e = true := by
  intro es
  induction es with
  | nil => intro fl e he _; simp [removeRlocInHasRoute] at he
  | cons a rest ih =>
    intro fl e he hm
    simp only [removeRlocInHasRoute] at he
    by_cases hc : (rlocMatch a.rloc rloc mode &&
        !containsMatchingEntryHR exP st a) = true
    · rw [if_pos hc] at he
      exact ih _ e he hm
    · rw [if_neg hc] at he
      rcases List.mem_cons.mp he with rfl | he'
      · cases hcm : containsMatchingEntryHR exP st e with
        | true => rfl
        | false => exact absurd (by simp [hm, hcm]) hc
      · exact ih _ e he' hm

theorem removeRlocInBorderRouter_cert (rloc : Nat) (mode : MatchMode)
    (exP : Option PfxD) (st : Bool) :
    ∀ (es : List BREntry) (fl : ChangedFlags) (e : BREntry),
    e ∈ (removeRlocInBorderRouter rloc mode exP st es fl).1 →
    rlocMatch e.rloc rloc mode = true →
    containsMatchingEntryBR exP st e = true := by
  intro es
  induction es with
  | nil => intro fl e he _; simp [removeRlocInBorderRouter] at he
  | cons a rest ih =>
    intro fl e he hm
    simp only [removeRlocInBorderRouter] at he
    by_cases hc : (rlocMatch a.rloc rloc mode &&
        !containsMatchingEntryBR exP st a) = true
    · rw [if_pos hc] at he
      exact ih _ e he hm
    · rw [if_neg hc] at he
      rcases List.mem_cons.mp he with rfl | he'
      · cases hcm : containsMatchingEntryBR exP st e with
        | true => rfl
        | false => exact absurd (by simp [hm, hcm]) hc
      · exact ih _ e he' hm

theorem removeRlocInService_cert (rloc : Nat) (mode : MatchMode)
    (exS : Option SrvD) :
    ∀ (subs : List SubTlv) (fl : ChangedFlags) (st : Bool) (s16 : Nat)
      (sd : List Nat),
    SubTlv.server st s16 sd ∈ (removeRlocInService rloc mode exS subs fl).1 →
    rlocMatch s16 rloc mode = true →
    containsMatchingServer exS st s16 sd = true := by
  intro subs
  induction subs with
  | nil => intro fl st s16 sd he _; simp [removeRlocInService] at he
  | cons s rest ih =>
    intro fl st s16 sd he hm
    cases s with
    | server a b c =>
      simp only [removeRlocInService] at he
      by_cases hc : (rlocMatch b rloc mode &&
          !containsMatchingServer exS a b c) = true
      · rw [if_pos hc] at he
        exact ih _ st s16 sd he hm
      · rw [if_neg hc] at he
        rcases List.mem_cons.mp he with heq | he'
        · injection heq with h1 h2 h3
          subst h1; subst h2; subst h3
          cases hcm : containsMatchingServer exS st s16 sd with
          | true => rfl
          | false => exact absurd (by simp [hm, hcm]) hc
        · exact ih _ st s16 sd he' hm
    | hasRoute a b =>
      simp only [removeRlocInService] at he
      rcases List.mem_cons.mp he with heq | he'
      · exact absurd heq (by simp)
      · exact ih _ st s16 sd he' hm
    | borderRouter a b =>
      simp only [removeRlocInService] at he
      rcases List.mem_cons.mp he with heq | he'
      · exact absurd heq (by simp)
      · exact ih _ st s16 sd he' hm
    | context a b c d =>
      simp only [removeRlocInService] at he
      rcases List.mem_cons.mp he with heq | he'
      · exact absurd heq (by simp)
      · exact ih _ st s16 sd he' hm
    | otherSub a b c =>
      simp only [removeRlocInService] at he
      rcases List.mem_cons.mp he with heq | he'
      · exact absurd heq (by simp)
      · exact ih _ st s16 sd he' hm

/-- Every HasRoute/BorderRouter sub-TLV surviving the sub-TLV sweep is
nonempty and certified against the exclude prefix. -/
theorem removeRlocSubs_post (rloc : Nat) (mode : MatchMode) (exP : Option PfxD) :
    ∀ (subs : List SubTlv) (fl : ChangedFlags),
    (∀ st es, SubTlv.hasRoute st es ∈ (removeRlocSubs rloc mode exP subs fl).1 →
      es ≠ [] ∧ ∀ e ∈ es, rlocMatch e.rloc rloc mode = true →
        containsMatchingEntryHR exP st e = true) ∧
    (∀ st es,
      SubTlv.borderRouter st es ∈ (removeRlocSubs rloc mode exP subs fl).1 →
      es ≠ [] ∧ ∀ e ∈ es, rlocMatch e.rloc rloc mode = true →
        containsMatchingEntryBR exP st e = true) := by
  intro subs
  induction subs with
  | nil =>
    intro fl
    constructor <;> intro st es hm <;> simp [removeRlocSubs] at hm
  | cons s rest ih =>
    intro fl
    cases s with
    | hasRoute st0 es0 =>
      simp only [removeRlocSubs]
      by_cases he : (removeRlocInHasRoute rloc mode exP st0 es0 fl).1.isEmpty = true
      · rw [if_pos he]
        exact ih _
      · rw [if_neg he]
        constructor
        · intro st es hm
          rcases List.mem_cons.mp hm with heq | hm'
          · injection heq with h1 h2
            subst h1; subst h2
            refine ⟨ne_nil_of_isEmpty_false (by simpa using he), ?_⟩
            intro e hee hrm
            exact removeRlocInHasRoute_cert rloc mode exP st es0 fl e hee hrm
          · exact (ih _).1 st es hm'
        · intro st es hm
          rcases List.mem_cons.mp hm with heq | hm'
          · exact absurd heq (by simp)
          · exact (ih _).2 st es hm'
    | borderRouter st0 es0 =>
      simp only [removeRlocSubs]
      by_cases he : (removeRlocInBorderRouter rloc mode exP st0 es0 fl).1.isEmpty = true
      · rw [if_pos he]
        exact ih _
      · rw [if_neg he]
        constructor
        · intro st es hm
          rcases List.mem_cons.mp hm with heq | hm'
          · exact absurd heq (by simp)
          · exact (ih _).1 st es hm'
        · intro st es hm
          rcases List.mem_cons.mp hm with heq | hm'
          · injection heq with h1 h2
            subst h1; subst h2
            refine ⟨ne_nil_of_isEmpty_false (by simpa using he), ?_⟩
            intro e hee hrm
            exact removeRlocInBorderRouter_cert rloc mode exP st es0 fl e hee hrm
          · exact (ih _).2 st es hm'
    | context a b c d =>
      simp only [removeRlocSubs]
      constructor
      · intro st es hm
        rcases List.mem_cons.mp hm with heq | hm'
        · exact absurd heq (by simp)
        · exact (ih _).1 st es hm'
      · intro st es hm
        rcases List.mem_cons.mp hm with heq | hm'
        · exact absurd heq (by simp)
        · exact (ih _).2 st es hm'
    | server a b c =>
      simp only [removeRlocSubs]
      constructor
      · intro st es hm
        rcases List.mem_cons.mp hm with heq | hm'
        · exact absurd heq (by simp)
        · exact (ih _).1 st es hm'
      · intro st es hm
        rcases List.mem_cons.mp hm with heq | hm'
        · exact absurd heq (by simp)
        · exact (ih _).2 st es hm'
    | otherSub a b c =>
      simp only [removeRlocSubs]
      constructor
      · intro st es hm
        rcases List.mem_cons.mp hm with heq | hm'
        · exact absurd heq (by simp)
        · exact (ih _).1 st es hm'
      · intro st es hm
        rcases List.mem_cons.mp hm with heq | hm'
        · exact absurd heq (by simp)
        · exact (ih _).2 st es hm'

theorem mem_hr_setFirstCtxCompress {st : Bool} {es : List HREntry} (b : Bool) :
    ∀ {l : List SubTlv}, SubTlv.hasRoute st es ∈ setFirstCtxCompress b l →
      SubTlv.hasRoute st es ∈ l := by
  intro l
  induction l with
  | nil => intro h; simpa [setFirstCtxCompress] using h
  | cons s rest ih =>
    intro h
    cases s with
    | context a b' c d =>
      simp only [setFirstCtxCompress] at h
      rcases List.mem_cons.mp h with heq | h'
      · exact absurd heq (by simp)
      · exact List.mem_cons_of_mem _ h'
    | hasRoute a b' =>
      simp only [setFirstCtxCompress] at h
      rcases List.mem_cons.mp h with heq | h'
      · rw [heq]; exact List.mem_cons_self _ _
      · exact List.mem_cons_of_mem _ (ih h')
    | borderRouter a b' =>
      simp only [setFirstCtxCompress] at h
      rcases List.mem_cons.mp h with heq | h'
      · exact absurd heq (by simp)
      · exact List.mem_cons_of_mem _ (ih h')
    | server a b' c =>
      simp only [setFirstCtxCompress] at h
      rcases List.mem_cons.mp h with heq | h'
      · exact absurd heq (by simp)
      · exact List.mem_cons_of_mem _ (ih h')
    | otherSub a b' c =>
      simp only [setFirstCtxCompress] at h
      rcases List.mem_cons.mp h with heq | h'
      · exact absurd heq (by simp)
      · exact List.mem_cons_of_mem _ (ih h')

theorem mem_br_setFirstCtxCompress {st : Bool} {es : List BREntry} (b : Bool) :
    ∀ {l : List SubTlv}, SubTlv.borderRouter st es ∈ setFirstCtxCompress b l →
      SubTlv.borderRouter st es ∈ l := by
  intro l
  induction l with
  | nil => intro h; simpa [setFirstCtxCompress] using h
  | cons s rest ih =>
    intro h
    cases s with
    | context a b' c d =>
      simp only [setFirstCtxCompress] at h
      rcases List.mem_cons.mp h with heq | h'
      · exact absurd heq (by simp)
      · exact List.mem_cons_of_mem _ h'
    | borderRouter a b' =>
      simp only [setFirstCtxCompress] at h
      rcases List.mem_cons.mp h with heq | h'
      · rw [heq]; exact List.mem_cons_self _ _
      · exact List.mem_cons_of_mem _ (ih h')
    | hasRoute a b' =>
      simp only [setFirstCtxCompress] at h
      rcases List.mem_cons.mp h with heq | h'
      · exact absurd heq (by simp)
      · exact List.mem_cons_of_mem _ (ih h')
    | server a b' c =>
      simp only [setFirstCtxCompress] at h
      rcases List.mem_cons.mp h with heq | h'
      · exact absurd heq (by simp)
      · exact List.mem_cons_of_mem _ (ih h')
    | otherSub a b' c =>
      simp only [setFirstCtxCompress] at h
      rcases List.mem_cons.mp h with heq | h'
      · exact absurd heq (by simp)
      · exact List.mem_cons_of_mem _ (ih h')

theorem removeRlocInPrefix_key (p : PfxD) (rloc : Nat) (mode : MatchMode)
    (exP : Option PfxD) (sl : Nat → Nat) (fl : ChangedFlags) (now rd : Nat)
    (clone : Bool) :
    (removeRlocInPrefix p rloc mode exP sl fl now rd clone).1.prefixLength =
      p.prefixLength ∧
    (removeRlocInPrefix p rloc mode exP sl fl now rd clone).1.prefixBytes =
      p.prefixBytes := by
  unfold removeRlocInPrefix
  simp only []
  split
  · exact ⟨rfl, rfl⟩
  · split
    · exact ⟨rfl, rfl⟩
    · exact ⟨rfl, rfl⟩

theorem removeRlocInPrefix_subs (p : PfxD) (rloc : Nat) (mode : MatchMode)
    (exP : Option PfxD) (sl : Nat → Nat) (fl : ChangedFlags) (now rd : Nat)
    (clone : Bool) :
    (removeRlocInPrefix p rloc mode exP sl fl now rd clone).1.subs =
      (removeRlocSubs rloc mode exP p.subs fl).1 ∨
    ∃ b, (removeRlocInPrefix p rloc mode exP sl fl now rd clone).1.subs =
      setFirstCtxCompress b (removeRlocSubs rloc mode exP p.subs fl).1 := by
  unfold removeRlocInPrefix
  simp only []
  split
  · exact Or.inl rfl
  · split
    · exact Or.inr ⟨true, rfl⟩
    · exact Or.inr ⟨false, rfl⟩

/-- The prefix produced by `RemoveRlocInPrefix` only carries nonempty,
exclude-certified HasRoute/BorderRouter sub-TLVs. -/
theorem removeRlocInPrefix_certified (p : PfxD) (rloc : Nat) (mode : MatchMode)
    (exP : Option PfxD) (sl : Nat → Nat) (fl : ChangedFlags) (now rd : Nat)
    (clone : Bool) :
    (∀ st es, SubTlv.hasRoute st es ∈
        (removeRlocInPrefix p rloc mode exP sl fl now rd clone).1.subs →
      es ≠ [] ∧ ∀ e ∈ es, rlocMatch e.rloc rloc mode = true →
        containsMatchingEntryHR exP st e = true) ∧
    (∀ st es, SubTlv.borderRouter st es ∈
        (removeRlocInPrefix p rloc mode exP sl fl now rd clone).1.subs →
      es ≠ [] ∧ ∀ e ∈ es, rlocMatch e.rloc rloc mode = true →
        containsMatchingEntryBR exP st e = true) := by
  rcases removeRlocInPrefix_subs p rloc mode exP sl fl now rd clone with
    hs | ⟨b, hs⟩
  · constructor
    · intro st es hm
      rw [hs] at hm
      exact (removeRlocSubs_post rloc mode exP p.subs fl).1 st es hm
    · intro st es hm
      rw [hs] at hm
      exact (removeRlocSubs_post rloc mode exP p.subs fl).2 st es hm
  · constructor
    · intro st es hm
      rw [hs] at hm
      exact (removeRlocSubs_post rloc mode exP p.subs fl).1 st es
        (mem_hr_setFirstCtxCompress b hm)
    · intro st es hm
      rw [hs] at hm
      exact (removeRlocSubs_post rloc mode exP p.subs fl).2 st es
        (mem_br_setFirstCtxCompress b hm)

theorem updateTlvP_norm {p q : PfxD} (h : updateTlvP p = some q) :
    q.stable = stableScan q.subs ∧ q.subs ≠ [] ∧ q.subs = p.subs ∧
    q.prefixLength = p.prefixLength ∧ q.prefixBytes = p.prefixBytes := by
  unfold updateTlvP at h
  by_cases he : p.subs.isEmpty = true
  · rw [if_pos he] at h
    exact absurd h (by simp)
  · rw [if_neg he] at h
    injection h with h
    subst h
    refine ⟨rfl, ?_, rfl, rfl, rfl⟩
    intro hnil
    exact he (by rw [show p.subs = [] from hnil]; rfl)

theorem updateTlvS_norm {v w : SrvD} (h : updateTlvS v = some w) :
    w.stable = stableScan w.subs ∧ w.subs ≠ [] ∧ w.subs = v.subs ∧
    w.enterprise = v.enterprise ∧ w.serviceData = v.serviceData := by
  unfold updateTlvS at h
  by_cases he : v.subs.isEmpty = true
  · rw [if_pos he] at h
    exact absurd h (by simp)
  · rw [if_neg he] at h
    injection h with h
    subst h
    refine ⟨rfl, ?_, rfl, rfl, rfl⟩
    intro hnil
    exact he (by rw [show v.subs = [] from hnil]; rfl)

theorem servicesOf_append : ∀ (a b : List NetTlv),
    servicesOf (a ++ b) = servicesOf a ++ servicesOf b := by
  intro a b
  induction a with
  | nil => rfl
  | cons t rest ih =>
    cases t with
    | pfx p => simpa [servicesOf] using ih
    | srv v => simpa [servicesOf] using ih
    | other x y z => simpa [servicesOf] using ih

/-- The sweep leaves behind only certified, normalized, nonempty prefixes and
services: its output is `Clean` for the exclude blob, unconditionally. -/
theorem sweepTlvs_clean (r : Nat) (net : List NetTlv) (now rd : Nat)
    (clone : Bool) :
    ∀ (tlvs : List NetTlv) (sl : Nat → Nat) (fl : ChangedFlags),
    Clean net r (sweepTlvs r .rloc16 net now rd clone tlvs sl fl).1 := by
  intro tlvs
  induction tlvs with
  | nil =>
    intro sl fl
    constructor <;> intro x hx <;> simp [sweepTlvs, prefixesOf, servicesOf] at hx
  | cons t rest ih =>
    intro sl fl
    cases t with
    | pfx p =>
      simp only [sweepTlvs]
      rcases hu : updateTlvP (removeRlocInPrefix p r .rloc16
          (findPfx net p.prefixLength p.prefixBytes) sl fl now rd clone).1 with
        _ | q2
      · simpa [optListP] using ih _ _
      · obtain ⟨hn1, hn2, hn3, hn4, hn5⟩ := updateTlvP_norm hu
        obtain ⟨hk1, hk2⟩ := removeRlocInPrefix_key p r .rloc16
          (findPfx net p.prefixLength p.prefixBytes) sl fl now rd clone
        obtain ⟨hcHR, hcBR⟩ := removeRlocInPrefix_certified p r .rloc16
          (findPfx net p.prefixLength p.prefixBytes) sl fl now rd clone
        obtain ⟨ihP, ihS⟩ := ih (removeRlocInPrefix p r .rloc16
            (findPfx net p.prefixLength p.prefixBytes) sl fl now rd clone).2.1
          (removeRlocInPrefix p r .rloc16
            (findPfx net p.prefixLength p.prefixBytes) sl fl now rd clone).2.2
        constructor
        · intro x hx
          simp only [optListP, prefixesOf] at hx
          rcases List.mem_cons.mp hx with rfl | hx'
          · refine ⟨⟨?_, ?_⟩, ⟨?_, ?_⟩, hn1, hn2⟩
            · intro st es hm e hee hrm
              rw [hn4, hk1, hn5, hk2]
              rw [hn3] at hm
              exact ((hcHR st es hm).2 e hee hrm)
            · intro st es hm e hee hrm
              rw [hn4, hk1, hn5, hk2]
              rw [hn3] at hm
              exact ((hcBR st es hm).2 e hee hrm)
            · intro st es hm
              rw [hn3] at hm
              exact (hcHR st es hm).1
            · intro st es hm
              rw [hn3] at hm
              exact (hcBR st es hm).1
          · exact ihP x hx'
        · intro x hx
          simp only [optListP] at hx
          exact ihS x hx
    | srv v =>
      simp only [sweepTlvs]
      rcases hu : updateTlvS { v with
          subs := (removeRlocInService r .rloc16
            (findSrv net v.enterprise v.serviceData) v.subs fl).1 } with _ | w2
      · simpa [optListS] using ih _ _
      · obtain ⟨hn1, hn2, hn3, hn4, hn5⟩ := updateTlvS_norm hu
        obtain ⟨ihP, ihS⟩ := ih sl (removeRlocInService r .rloc16
          (findSrv net v.enterprise v.serviceData) v.subs fl).2
        constructor
        · intro x hx
          simp only [optListS] at hx
          exact ihP x hx
        · intro x hx
          simp only [optListS, servicesOf] at hx
          rcases List.mem_cons.mp hx with rfl | hx'
          · refine ⟨?_, hn1, hn2⟩
            intro st s16 sd hm hrm
            rw [hn4, hn5]
            rw [hn3] at hm
            exact removeRlocInService_cert r .rloc16 _ v.subs fl st s16 sd hm hrm
          · exact ihS x hx'
    | other a b c =>
      simp only [sweepTlvs]
      obtain ⟨ihP, ihS⟩ := ih sl fl
      constructor
      · intro x hx
        exact ihP x hx
      · intro x hx
        exact ihS x hx

/-! ### Tracking sub-TLV lookups through the add-engine primitives -/

theorem find?_append_single_neg {α : Type} (p : α → Bool) (l : List α) (x : α)
    (h : p x = false) : (l ++ [x]).find? p = l.find? p := by
  rcases hf : l.find? p with _ | y
  · rw [find?_append_none p l [x] hf]
    rw [List.find?_cons_of_neg _ (by simp [h])]
    rfl
  · rw [find?_append_some p l [x] y hf]

theorem find?_append_single_pos {α : Type} (p : α → Bool) (l : List α) (x : α)
    (hl : l.find? p = none) (h : p x = true) : (l ++ [x]).find? p = some x := by
  rw [find?_append_none p l [x] hl, List.find?_cons_of_pos _ h]

theorem find?_hr_appendHREntry_same (st : Bool) (e : HREntry) :
    ∀ (l : List SubTlv) (st0 : Bool) (des : List HREntry),
    l.find? (SubTlv.isHRWith st) = some (.hasRoute st0 des) →
    (appendHREntry st e l).find? (SubTlv.isHRWith st) =
      some (.hasRoute st0 (des ++ [e])) := by
  intro l
  induction l with
  | nil => intro st0 des h; simp at h
  | cons s rest ih =>
    intro st0 des h
    cases s with
    | hasRoute a b =>
      by_cases ha : (a == st) = true
      · rw [List.find?_cons_of_pos _ (by simpa [SubTlv.isHRWith] using ha)] at h
        injection h with h
        injection h with h1 h2
        subst h1; subst h2
        simp only [appendHREntry, ha, if_true]
        rw [List.find?_cons_of_pos _ (by simpa [SubTlv.isHRWith] using ha)]
      · rw [List.find?_cons_of_neg _ (by simpa [SubTlv.isHRWith] using ha)] at h
        simp only [appendHREntry, ha, Bool.false_eq_true, if_false]
        rw [List.find?_cons_of_neg _ (by simpa [SubTlv.isHRWith] using ha)]
        exact ih st0 des h
    | borderRouter a b =>
      rw [List.find?_cons_of_neg _ (by simp [SubTlv.isHRWith])] at h
      simp only [appendHREntry]
      rw [List.find?_cons_of_neg _ (by simp [SubTlv.isHRWith])]
      exact ih st0 des h
    | context a b c d =>
      rw [List.find?_cons_of_neg _ (by simp [SubTlv.isHRWith])] at h
      simp only [appendHREntry]
      rw [List.find?_cons_of_neg _ (by simp [SubTlv.isHRWith])]
      exact ih st0 des h
    | server a b c =>
      rw [List.find?_cons_of_neg _ (by simp [SubTlv.isHRWith])] at h
      simp only [appendHREntry]
      rw [List.find?_cons_of_neg _ (by simp [SubTlv.isHRWith])]
      exact ih st0 des h
    | otherSub a b c =>
      rw [List.find?_cons_of_neg _ (by simp [SubTlv.isHRWith])] at h
      simp only [appendHREntry]
      rw [List.find?_cons_of_neg _ (by simp [SubTlv.isHRWith])]
      exact ih st0 des h

theorem find?_hr_appendHREntry_other {st st2 : Bool} (hne : st2 ≠ st)
    (e : HREntry) : ∀ (l : List SubTlv),
    (appendHREntry st e l).find? (SubTlv.isHRWith st2) =
      l.find? (SubTlv.isHRWith st2) := by
  intro l
  induction l with
  | nil => rfl
  | cons s rest ih =>
    cases s with
    | hasRoute a b =>
      by_cases ha : (a == st) = true
      · have ha2 : (a == st2) = false := by
          have : a = st := by simpa using ha
          subst this
          simpa using fun hh => hne hh.symm
        simp only [appendHREntry, ha, if_true]
        rw [List.find?_cons_of_neg _ (by simp [SubTlv.isHRWith, ha2]),
          List.find?_cons_of_neg _ (by simp [SubTlv.isHRWith, ha2])]
      · simp only [appendHREntry, ha, Bool.false_eq_true, if_false]
        by_cases ha2 : (a == st2) = true
        · rw [List.find?_cons_of_pos _ (by simpa [SubTlv.isHRWith] using ha2),
            List.find?_cons_of_pos _ (by simpa [SubTlv.isHRWith] using ha2)]
        · rw [List.find?_cons_of_neg _ (by simpa [SubTlv.isHRWith] using ha2),
            List.find?_cons_of_neg _ (by simpa [SubTlv.isHRWith] using ha2), ih]
    | borderRouter a b =>
      simp only [appendHREntry]
      rw [List.find?_cons_of_neg _ (by simp [SubTlv.isHRWith]),
        List.find?_cons_of_neg _ (by simp [SubTlv.isHRWith]), ih]
    | context a b c d =>
      simp only [appendHREntry]
      rw [List.find?_cons_of_neg _ (by simp [SubTlv.isHRWith]),
        List.find?_cons_of_neg _ (by simp [SubTlv.isHRWith]), ih]
    | server a b c =>
      simp only [appendHREntry]
      rw [List.find?_cons_of_neg _ (by simp [SubTlv.isHRWith]),
        List.find?_cons_of_neg _ (by simp [SubTlv.isHRWith]), ih]
    | otherSub a b c =>
      simp only [appendHREntry]
      rw [List.find?_cons_of_neg _ (by simp [SubTlv.isHRWith]),
        List.find?_cons_of_neg _ (by simp [SubTlv.isHRWith]), ih]

theorem find?_br_appendHREntry (st : Bool) (e : HREntry) (st2 : Bool) :
    ∀ (l : List SubTlv),
    (appendHREntry st e l).find? (SubTlv.isBRWith st2) =
      l.find? (SubTlv.isBRWith st2) := by
  intro l
  induction l with
  | nil => rfl
  | cons s rest ih =>
    cases s with
    | hasRoute a b =>
      by_cases ha : (a == st) = true
      · simp only [appendHREntry, ha, if_true]
        rw [List.find?_cons_of_neg _ (by simp [SubTlv.isBRWith]),
          List.find?_cons_of_neg _ (by simp [SubTlv.isBRWith])]
      · simp only [appendHREntry, ha, Bool.false_eq_true, if_false]
        rw [List.find?_cons_of_neg _ (by simp [SubTlv.isBRWith]),
          List.find?_cons_of_neg _ (by simp [SubTlv.isBRWith]), ih]
    | borderRouter a b =>
      simp only [appendHREntry]
      by_cases ha2 : (a == st2) = true
      · rw [List.find?_cons_of_pos _ (by simpa [SubTlv.isBRWith] using ha2),
          List.find?_cons_of_pos _ (by simpa [SubTlv.isBRWith] using ha2)]
      · rw [List.find?_cons_of_neg _ (by simpa [SubTlv.isBRWith] using ha2),
          List.find?_cons_of_neg _ (by simpa [SubTlv.isBRWith] using ha2), ih]
    | context a b c d =>
      simp only [appendHREntry]
      rw [List.find?_cons_of_neg _ (by simp [SubTlv.isBRWith]),
        List.find?_cons_of_neg _ (by simp [SubTlv.isBRWith]), ih]
    | server a b c =>
      simp only [appendHREntry]
      rw [List.find?_cons_of_neg _ (by simp [SubTlv.isBRWith]),
        List.find?_cons_of_neg _ (by simp [SubTlv.isBRWith]), ih]
    | otherSub a b c =>
      simp only [appendHREntry]
      rw [List.find?_cons_of_neg _ (by simp [SubTlv.isBRWith]),
        List.find?_cons_of_neg _ (by simp [SubTlv.isBRWith]), ih]

theorem find?_ctx_appendHREntry (st : Bool) (e : HREntry) :
    ∀ (l : List SubTlv),
    (appendHREntry st e l).find? SubTlv.isCtx = l.find? SubTlv.isCtx := by
  intro l
  induction l with
  | nil => rfl
  | cons s rest ih =>
    cases s with
    | hasRoute a b =>
      by_cases ha : (a == st) = true
      · simp only [appendHREntry, ha, if_true]
        rw [List.find?_cons_of_neg _ (by simp [SubTlv.isCtx]),
          List.find?_cons_of_neg _ (by simp [SubTlv.isCtx])]
      · simp only [appendHREntry, ha, Bool.false_eq_true, if_false]
        rw [List.find?_cons_of_neg _ (by simp [SubTlv.isCtx]),
          List.find?_cons_of_neg _ (by simp [SubTlv.isCtx]), ih]
    | borderRouter a b =>
      simp only [appendHREntry]
      rw [List.find?_cons_of_neg _ (by simp [SubTlv.isCtx]),
        List.find?_cons_of_neg _ (by simp [SubTlv.isCtx]), ih]
    | context a b c d =>
      simp only [appendHREntry]
      rw [List.find?_cons_of_pos _ (by simp [SubTlv.isCtx]),
        List.find?_cons_of_pos _ (by simp [SubTlv.isCtx])]
    | server a b c =>
      simp only [appendHREntry]
      rw [List.find?_cons_of_neg _ (by simp [SubTlv.isCtx]),
        List.find?_cons_of_neg _ (by simp [SubTlv.isCtx]), ih]
    | otherSub a b c =>
      simp only [appendHREntry]
      rw [List.find?_cons_of_neg _ (by simp [SubTlv.isCtx]),
        List.find?_cons_of_neg _ (by simp [SubTlv.isCtx]), ih]

theorem find?_br_appendBREntry_same (st : Bool) (e : BREntry) :
    ∀ (l : List SubTlv) (st0 : Bool) (des : List BREntry),
    l.find? (SubTlv.isBRWith st) = some (.borderRouter st0 des) →
    (appendBREntry st e l).find? (SubTlv.isBRWith st) =
      some (.borderRouter st0 (des ++ [e])) := by
  intro l
  induction l with
  | nil => intro st0 des h; simp at h
  | cons s rest ih =>
    intro st0 des h
    cases s with
    | borderRouter a b =>
      by_cases ha : (a == st) = true
      · rw [List.find?_cons_of_pos _ (by simpa [SubTlv.isBRWith] using ha)] at h
        injection h with h
        injection h with h1 h2
        subst h1; subst h2
        simp only [appendBREntry, ha, if_true]
        rw [List.find?_cons_of_pos _ (by simpa [SubTlv.isBRWith] using ha)]
      · rw [List.find?_cons_of_neg _ (by simpa [SubTlv.isBRWith] using ha)] at h
        simp only [appendBREntry, ha, Bool.false_eq_true, if_false]
        rw [List.find?_cons_of_neg _ (by simpa [SubTlv.isBRWith] using ha)]
        exact ih st0 des h
    | hasRoute a b =>
      rw [List.find?_cons_of_neg _ (by simp [SubTlv.isBRWith])] at h
      simp only [appendBREntry]
      rw [List.find?_cons_of_neg _ (by simp [SubTlv.isBRWith])]
      exact ih st0 des h
    | context a b c d =>
      rw [List.find?_cons_of_neg _ (by simp [SubTlv.isBRWith])] at h
      simp only [appendBREntry]
      rw [List.find?_cons_of_neg _ (by simp [SubTlv.isBRWith])]
      exact ih st0 des h
    | server a b c =>
      rw [List.find?_cons_of_neg _ (by simp [SubTlv.isBRWith])] at h
      simp only [appendBREntry]
      rw [List.find?_cons_of_neg _ (by simp [SubTlv.isBRWith])]
      exact ih st0 des h
    | otherSub a b c =>
      rw [List.find?_cons_of_neg _ (by simp [SubTlv.isBRWith])] at h
      simp only [appendBREntry]
      rw [List.find?_cons_of_neg _ (by simp [SubTlv.isBRWith])]
      exact ih st0 des h

theorem find?_br_appendBREntry_other {st st2 : Bool} (hne : st2 ≠ st)
    (e : BREntry) : ∀ (l : List SubTlv),
    (appendBREntry st e l).find? (SubTlv.isBRWith st2) =
      l.find? (SubTlv.isBRWith st2) := by
  intro l
  induction l with
  | nil => rfl
  | cons s rest ih =>
    cases s with
    | borderRouter a b =>
      by_cases ha : (a == st) = true
      · have ha2 : (a == st2) = false := by
          have : a = st := by simpa using ha
          subst this
          simpa using fun hh => hne hh.symm
        simp only [appendBREntry, ha, if_true]
        rw [List.find?_cons_of_neg _ (by simp [SubTlv.isBRWith, ha2]),
          List.find?_cons_of_neg _ (by simp [SubTlv.isBRWith, ha2])]
      · simp only [appendBREntry, ha, Bool.false_eq_true, if_false]
        by_cases ha2 : (a == st2) = true
        · rw [List.find?_cons_of_pos _ (by simpa [SubTlv.isBRWith] using ha2),
            List.find?_cons_of_pos _ (by simpa [SubTlv.isBRWith] using ha2)]
        · rw [List.find?_cons_of_neg _ (by simpa [SubTlv.isBRWith] using ha2),
            List.find?_cons_of_neg _ (by simpa [SubTlv.isBRWith] using ha2), ih]
    | hasRoute a b =>
      simp only [appendBREntry]
      rw [List.find?_cons_of_neg _ (by simp [SubTlv.isBRWith]),
        List.find?_cons_of_neg _ (by simp [SubTlv.isBRWith]), ih]
    | context a b c d =>
      simp only [appendBREntry]
      rw [List.find?_cons_of_neg _ (by simp [SubTlv.isBRWith]),
        List.find?_cons_of_neg _ (by simp [SubTlv.isBRWith]), ih]
    | server a b c =>
      simp only [appendBREntry]
      rw [List.find?_cons_of_neg _ (by simp [SubTlv.isBRWith]),
        List.find?_cons_of_neg _ (by simp [SubTlv.isBRWith]), ih]
    | otherSub a b c =>
      simp only [appendBREntry]
      rw [List.find?_cons_of_neg _ (by simp [SubTlv.isBRWith]),
        List.find?_cons_of_neg _ (by simp [SubTlv.isBRWith]), ih]

theorem find?_hr_appendBREntry (st : Bool) (e : BREntry) (st2 : Bool) :
    ∀ (l : List SubTlv),
    (appendBREntry st e l).find? (SubTlv.isHRWith st2) =
      l.find? (SubTlv.isHRWith st2) := by
  intro l
  induction l with
  | nil => rfl
  | cons s rest ih =>
    cases s with
    | borderRouter a b =>
      by_cases ha : (a == st) = true
      · simp only [appendBREntry, ha, if_true]
        rw [List.find?_cons_of_neg _ (by simp [SubTlv.isHRWith]),
          List.find?_cons_of_neg _ (by simp [SubTlv.isHRWith])]
      · simp only [appendBREntry, ha, Bool.false_eq_true, if_false]
        rw [List.find?_cons_of_neg _ (by simp [SubTlv.isHRWith]),
          List.find?_cons_of_neg _ (by simp [SubTlv.isHRWith]), ih]
    | hasRoute a b =>
      simp only [appendBREntry]
      by_cases ha2 : (a == st2) = true
      · rw [List.find?_cons_of_pos _ (by simpa [SubTlv.isHRWith] using ha2),
          List.find?_cons_of_pos _ (by simpa [SubTlv.isHRWith] using ha2)]
      · rw [List.find?_cons_of_neg _ (by simpa [SubTlv.isHRWith] using ha2),
          List.find?_cons_of_neg _ (by simpa [SubTlv.isHRWith] using ha2), ih]
    | context a b c d =>
      simp only [appendBREntry]
      rw [List.find?_cons_of_neg _ (by simp [SubTlv.isHRWith]),
        List.find?_cons_of_neg _ (by simp [SubTlv.isHRWith]), ih]
    | server a b c =>
      simp only [appendBREntry]
      rw [List.find?_cons_of_neg _ (by simp [SubTlv.isHRWith]),
        List.find?_cons_of_neg _ (by simp [SubTlv.isHRWith]), ih]
    | otherSub a b c =>
      simp only [appendBREntry]
      rw [List.find?_cons_of_neg _ (by simp [SubTlv.isHRWith]),
        List.find?_cons_of_neg _ (by simp [SubTlv.isHRWith]), ih]

theorem find?_ctx_appendBREntry (st : Bool) (e : BREntry) :
    ∀ (l : List SubTlv),
    (appendBREntry st e l).find? SubTlv.isCtx = l.find? SubTlv.isCtx := by
  intro l
  induction l with
  | nil => rfl
  | cons s rest ih =>
    cases s with
    | borderRouter a b =>
      by_cases ha : (a == st) = true
      · simp only [appendBREntry, ha, if_true]
        rw [List.find?_cons_of_neg _ (by simp [SubTlv.isCtx]),
          List.find?_cons_of_neg _ (by simp [SubTlv.isCtx])]
      · simp only [appendBREntry, ha, Bool.false_eq_true, if_false]
        rw [List.find?_cons_of_neg _ (by simp [SubTlv.isCtx]),
          List.find?_cons_of_neg _ (by simp [SubTlv.isCtx]), ih]
    | hasRoute a b =>
      simp only [appendBREntry]
      rw [List.find?_cons_of_neg _ (by simp [SubTlv.isCtx]),
        List.find?_cons_of_neg _ (by simp [SubTlv.isCtx]), ih]
    | context a b c d =>
      simp only [appendBREntry]
      rw [List.find?_cons_of_pos _ (by simp [SubTlv.isCtx]),
        List.find?_cons_of_pos _ (by simp [SubTlv.isCtx])]
    | server a b c =>
      simp only [appendBREntry]
      rw [List.find?_cons_of_neg _ (by simp [SubTlv.isCtx]),
        List.find?_cons_of_neg _ (by simp [SubTlv.isCtx]), ih]
    | otherSub a b c =>
      simp only [appendBREntry]
      rw [List.find?_cons_of_neg _ (by simp [SubTlv.isCtx]),
        List.find?_cons_of_neg _ (by simp [SubTlv.isCtx]), ih]

theorem find?_hr_setFirstCtxCompress (b : Bool) (st2 : Bool) :
    ∀ (l : List SubTlv),
    (setFirstCtxCompress b l).find? (SubTlv.isHRWith st2) =
      l.find? (SubTlv.isHRWith st2) := by
  intro l
  induction l with
  | nil => rfl
  | cons s rest ih =>
    cases s with
    | context a b' c d =>
      simp only [setFirstCtxCompress]
      rw [List.find?_cons_of_neg _ (by simp [SubTlv.isHRWith]),
        List.find?_cons_of_neg _ (by simp [SubTlv.isHRWith])]
    | hasRoute a b' =>
      simp only [setFirstCtxCompress]
      by_cases ha2 : (a == st2) = true
      · rw [List.find?_cons_of_pos _ (by simpa [SubTlv.isHRWith] using ha2),
          List.find?_cons_of_pos _ (by simpa [SubTlv.isHRWith] using ha2)]
      · rw [List.find?_cons_of_neg _ (by simpa [SubTlv.isHRWith] using ha2),
          List.find?_cons_of_neg _ (by simpa [SubTlv.isHRWith] using ha2), ih]
    | borderRouter a b' =>
      simp only [setFirstCtxCompress]
      rw [List.find?_cons_of_neg _ (by simp [SubTlv.isHRWith]),
        List.find?_cons_of_neg _ (by simp [SubTlv.isHRWith]), ih]
    | server a b' c =>
      simp only [setFirstCtxCompress]
      rw [List.find?_cons_of_neg _ (by simp [SubTlv.isHRWith]),
        List.find?_cons_of_neg _ (by simp [SubTlv.isHRWith]), ih]
    | otherSub a b' c =>
      simp only [setFirstCtxCompress]
      rw [List.find?_cons_of_neg _ (by simp [SubTlv.isHRWith]),
        List.find?_cons_of_neg _ (by simp [SubTlv.isHRWith]), ih]

theorem find?_br_setFirstCtxCompress (b : Bool) (st2 : Bool) :
    ∀ (l : List SubTlv),
    (setFirstCtxCompress b l).find? (SubTlv.isBRWith st2) =
      l.find? (SubTlv.isBRWith st2) := by
  intro l
  induction l with
  | nil => rfl
  | cons s rest ih =>
    cases s with
    | context a b' c d =>
      simp only [setFirstCtxCompress]
      rw [List.find?_cons_of_neg _ (by simp [SubTlv.isBRWith]),
        List.find?_cons_of_neg _ (by simp [SubTlv.isBRWith])]
    | borderRouter a b' =>
      simp only [setFirstCtxCompress]
      by_cases ha2 : (a == st2) = true
      · rw [List.find?_cons_of_pos _ (by simpa [SubTlv.isBRWith] using ha2),
          List.find?_cons_of_pos _ (by simpa [SubTlv.isBRWith] using ha2)]
      · rw [List.find?_cons_of_neg _ (by simpa [SubTlv.isBRWith] using ha2),
          List.find?_cons_of_neg _ (by simpa [SubTlv.isBRWith] using ha2), ih]
    | hasRoute a b' =>
      simp only [setFirstCtxCompress]
      rw [List.find?_cons_of_neg _ (by simp [SubTlv.isBRWith]),
        List.find?_cons_of_neg _ (by simp [SubTlv.isBRWith]), ih]
    | server a b' c =>
      simp only [setFirstCtxCompress]
      rw [List.find?_cons_of_neg _ (by simp [SubTlv.isBRWith]),
        List.find?_cons_of_neg _ (by simp [SubTlv.isBRWith]), ih]
    | otherSub a b' c =>
      simp only [setFirstCtxCompress]
      rw [List.find?_cons_of_neg _ (by simp [SubTlv.isBRWith]),
        List.find?_cons_of_neg _ (by simp [SubTlv.isBRWith]), ih]

theorem find?_ctx_setFirstCtxCompress_some (b : Bool) :
    ∀ (l : List SubTlv) (cst cco : Bool) (ci cl : Nat),
    l.find? SubTlv.isCtx = some (.context cst cco ci cl) →
    (setFirstCtxCompress b l).find? SubTlv.isCtx =
      some (.context cst b ci cl) := by
  intro l
  induction l with
  | nil => intro cst cco ci cl h; simp at h
  | cons s rest ih =>
    intro cst cco ci cl h
    cases s with
    | context a b' c d =>
      rw [List.find?_cons_of_pos _ (by simp [SubTlv.isCtx])] at h
      injection h with h
      injection h with h1 h2 h3 h4
      subst h1; subst h3; subst h4
      simp only [setFirstCtxCompress]
      rw [List.find?_cons_of_pos _ (by simp [SubTlv.isCtx])]
    | hasRoute a b' =>
      rw [List.find?_cons_of_neg _ (by simp [SubTlv.isCtx])] at h
      simp only [setFirstCtxCompress]
      rw [List.find?_cons_of_neg _ (by simp [SubTlv.isCtx])]
      exact ih cst cco ci cl h
    | borderRouter a b' =>
      rw [List.find?_cons_of_neg _ (by simp [SubTlv.isCtx])] at h
      simp only [setFirstCtxCompress]
      rw [List.find?_cons_of_neg _ (by simp [SubTlv.isCtx])]
      exact ih cst cco ci cl h
    | server a b' c =>
      rw [List.find?_cons_of_neg _ (by simp [SubTlv.isCtx])] at h
      simp only [setFirstCtxCompress]
      rw [List.find?_cons_of_neg _ (by simp [SubTlv.isCtx])]
      exact ih cst cco ci cl h
    | otherSub a b' c =>
      rw [List.find?_cons_of_neg _ (by simp [SubTlv.isCtx])] at h
      simp only [setFirstCtxCompress]
      rw [List.find?_cons_of_neg _ (by simp [SubTlv.isCtx])]
      exact ih cst cco ci cl h

theorem find?_hr_setFirstCtxStable (st2 : Bool) :
    ∀ (l : List SubTlv),
    (setFirstCtxStable l).find? (SubTlv.isHRWith st2) =
      l.find? (SubTlv.isHRWith st2) := by
  intro l
  induction l with
  | nil => rfl
  | cons s rest ih =>
    cases s with
    | context a b' c d =>
      simp only [setFirstCtxStable]
      rw [List.find?_cons_of_neg _ (by simp [SubTlv.isHRWith]),
        List.find?_cons_of_neg _ (by simp [SubTlv.isHRWith])]
    | hasRoute a b' =>
      simp only [setFirstCtxStable]
      by_cases ha2 : (a == st2) = true
      · rw [List.find?_cons_of_pos _ (by simpa [SubTlv.isHRWith] using ha2),
          List.find?_cons_of_pos _ (by simpa [SubTlv.isHRWith] using ha2)]
      · rw [List.find?_cons_of_neg _ (by simpa [SubTlv.isHRWith] using ha2),
          List.find?_cons_of_neg _ (by simpa [SubTlv.isHRWith] using ha2), ih]
    | borderRouter a b' =>
      simp only [setFirstCtxStable]
      rw [List.find?_cons_of_neg _ (by simp [SubTlv.isHRWith]),
        List.find?_cons_of_neg _ (by simp [SubTlv.isHRWith]), ih]
    | server a b' c =>
      simp only [setFirstCtxStable]
      rw [List.find?_cons_of_neg _ (by simp [SubTlv.isHRWith]),
        List.find?_cons_of_neg _ (by simp [SubTlv.isHRWith]), ih]
    | otherSub a b' c =>
      simp only [setFirstCtxStable]
      rw [List.find?_cons_of_neg _ (by simp [SubTlv.isHRWith]),
        List.find?_cons_of_neg _ (by simp [SubTlv.isHRWith]), ih]

theorem find?_br_setFirstCtxStable (st2 : Bool) :
    ∀ (l : List SubTlv),
    (setFirstCtxStable l).find? (SubTlv.isBRWith st2) =
      l.find? (SubTlv.isBRWith st2) := by
  intro l
  induction l with
  | nil => rfl
  | cons s rest ih =>
    cases s with
    | context a b' c d =>
      simp only [setFirstCtxStable]
      rw [List.find?_cons_of_neg _ (by simp [SubTlv.isBRWith]),
        List.find?_cons_of_neg _ (by simp [SubTlv.isBRWith])]
    | borderRouter a b' =>
      simp only [setFirstCtxStable]
      by_cases ha2 : (a == st2) = true
      · rw [List.find?_cons_of_pos _ (by simpa [SubTlv.isBRWith] using ha2),
          List.find?_cons_of_pos _ (by simpa [SubTlv.isBRWith] using ha2)]
      · rw [List.find?_cons_of_neg _ (by simpa [SubTlv.isBRWith] using ha2),
          List.find?_cons_of_neg _ (by simpa [SubTlv.isBRWith] using ha2), ih]
    | hasRoute a b' =>
      simp only [setFirstCtxStable]
      rw [List.find?_cons_of_neg _ (by simp [SubTlv.isBRWith]),
        List.find?_cons_of_neg _ (by simp [SubTlv.isBRWith]), ih]
    | server a b' c =>
      simp only [setFirstCtxStable]
      rw [List.find?_cons_of_neg _ (by simp [SubTlv.isBRWith]),
        List.find?_cons_of_neg _ (by simp [SubTlv.isBRWith]), ih]
    | otherSub a b' c =>
      simp only [setFirstCtxStable]
      rw [List.find?_cons_of_neg _ (by simp [SubTlv.isBRWith]),
        List.find?_cons_of_neg _ (by simp [SubTlv.isBRWith]), ih]

theorem find?_ctx_setFirstCtxStable_some :
    ∀ (l : List SubTlv) (cst cco : Bool) (ci cl : Nat),
    l.find? SubTlv.isCtx = some (.context cst cco ci cl) →
    (setFirstCtxStable l).find? SubTlv.isCtx =
      some (.context true cco ci cl) := by
  intro l
  induction l with
  | nil => intro cst cco ci cl h; simp at h
  | cons s rest ih =>
    intro cst cco ci cl h
    cases s with
    | context a b' c d =>
      rw [List.find?_cons_of_pos _ (by simp [SubTlv.isCtx])] at h
      injection h with h
      injection h with h1 h2 h3 h4
      subst h2; subst h3; subst h4
      simp only [setFirstCtxStable]
      rw [List.find?_cons_of_pos _ (by simp [SubTlv.isCtx])]
    | hasRoute a b' =>
      rw [List.find?_cons_of_neg _ (by simp [SubTlv.isCtx])] at h
      simp only [setFirstCtxStable]
      rw [List.find?_cons_of_neg _ (by simp [SubTlv.isCtx])]
      exact ih cst cco ci cl h
    | borderRouter a b' =>
      rw [List.find?_cons_of_neg _ (by simp [SubTlv.isCtx])] at h
      simp only [setFirstCtxStable]
      rw [List.find?_cons_of_neg _ (by simp [SubTlv.isCtx])]
      exact ih cst cco ci cl h
    | server a b' c =>
      rw [List.find?_cons_of_neg _ (by simp [SubTlv.isCtx])] at h
      simp only [setFirstCtxStable]
      rw [List.find?_cons_of_neg _ (by simp [SubTlv.isCtx])]
      exact ih cst cco ci cl h
    | otherSub a b' c =>
      rw [List.find?_cons_of_neg _ (by simp [SubTlv.isCtx])] at h
      simp only [setFirstCtxStable]
      rw [List.find?_cons_of_neg _ (by simp [SubTlv.isCtx])]
      exact ih cst cco ci cl h

theorem appendHREntry_create (st : Bool) (e : HREntry) :
    ∀ (l : List SubTlv), l.find? (SubTlv.isHRWith st) = none →
    appendHREntry st e (l ++ [.hasRoute st []]) = l ++ [.hasRoute st [e]] := by
  intro l
  induction l with
  | nil =>
    intro _
    simp [appendHREntry]
  | cons s rest ih =>
    intro h
    cases s with
    | hasRoute a b =>
      rw [List.find?_cons] at h
      have ha : (a == st) = false := by
        by_contra hq
        have : SubTlv.isHRWith st (SubTlv.hasRoute a b) = true := by
          simpa [SubTlv.isHRWith] using hq
        rw [this] at h
        simp at h
      have h' : rest.find? (SubTlv.isHRWith st) = none := by
        rwa [show SubTlv.isHRWith st (SubTlv.hasRoute a b) = false by
          simpa [SubTlv.isHRWith] using ha] at h
      simp only [List.cons_append, appendHREntry, ha, Bool.false_eq_true,
        if_false]
      exact congrArg (fun xs => SubTlv.hasRoute a b :: xs) (ih h')
    | borderRouter a b =>
      rw [List.find?_cons_of_neg _ (by simp [SubTlv.isHRWith])] at h
      simp only [List.cons_append, appendHREntry]
      exact congrArg (fun xs => SubTlv.borderRouter a b :: xs) (ih h)
    | context a b c d =>
      rw [List.find?_cons_of_neg _ (by simp [SubTlv.isHRWith])] at h
      simp only [List.cons_append, appendHREntry]
      exact congrArg (fun xs => SubTlv.context a b c d :: xs) (ih h)
    | server a b c =>
      rw [List.find?_cons_of_neg _ (by simp [SubTlv.isHRWith])] at h
      simp only [List.cons_append, appendHREntry]
      exact congrArg (fun xs => SubTlv.server a b c :: xs) (ih h)
    | otherSub a b c =>
      rw [List.find?_cons_of_neg _ (by simp [SubTlv.isHRWith])] at h
      simp only [List.cons_append, appendHREntry]
      exact congrArg (fun xs => SubTlv.otherSub a b c :: xs) (ih h)

theorem appendBREntry_create (st : Bool) (e : BREntry) :
    ∀ (l : List SubTlv), l.find? (SubTlv.isBRWith st) = none →
    appendBREntry st e (l ++ [.borderRouter st []]) =
      l ++ [.borderRouter st [e]] := by
  intro l
  induction l with
  | nil =>
    intro _
    simp [appendBREntry]
  | cons s rest ih =>
    intro h
    cases s with
    | borderRouter a b =>
      rw [List.find?_cons] at h
      have ha : (a == st) = false := by
        by_contra hq
        have : SubTlv.isBRWith st (SubTlv.borderRouter a b) = true := by
          simpa [SubTlv.isBRWith] using hq
        rw [this] at h
        simp at h
      have h' : rest.find? (SubTlv.isBRWith st) = none := by
        rwa [show SubTlv.isBRWith st (SubTlv.borderRouter a b) = false by
          simpa [SubTlv.isBRWith] using ha] at h
      simp only [List.cons_append, appendBREntry, ha, Bool.false_eq_true,
        if_false]
      exact congrArg (fun xs => SubTlv.borderRouter a b :: xs) (ih h')
    | hasRoute a b =>
      rw [List.find?_cons_of_neg _ (by simp [SubTlv.isBRWith])] at h
      simp only [List.cons_append, appendBREntry]
      exact congrArg (fun xs => SubTlv.hasRoute a b :: xs) (ih h)
    | context a b c d =>
      rw [List.find?_cons_of_neg _ (by simp [SubTlv.isBRWith])] at h
      simp only [List.cons_append, appendBREntry]
      exact congrArg (fun xs => SubTlv.context a b c d :: xs) (ih h)
    | server a b c =>
      rw [List.find?_cons_of_neg _ (by simp [SubTlv.isBRWith])] at h
      simp only [List.cons_append, appendBREntry]
      exact congrArg (fun xs => SubTlv.server a b c :: xs) (ih h)
    | otherSub a b c =>
      rw [List.find?_cons_of_neg _ (by simp [SubTlv.isBRWith])] at h
      simp only [List.cons_append, appendBREntry]
      exact congrArg (fun xs => SubTlv.otherSub a b c :: xs) (ih h)

/-! ### Membership through the add-engine primitives -/

theorem mem_appendHREntry {st2 : Bool} {es2 : List HREntry} (st : Bool)
    (e : HREntry) : ∀ {l : List SubTlv},
    SubTlv.hasRoute st2 es2 ∈ appendHREntry st e l →
    SubTlv.hasRoute st2 es2 ∈ l ∨
      ∃ es0, SubTlv.hasRoute st2 es0 ∈ l ∧ es2 = es0 ++ [e] ∧ st2 = st := by
  intro l
  induction l with
  | nil => intro h; simp [appendHREntry] at h
  | cons s rest ih =>
    intro h
    cases s with
    | hasRoute a b =>
      by_cases ha : (a == st) = true
      · simp only [appendHREntry, ha, if_true] at h
        rcases List.mem_cons.mp h with heq | h'
        · injection heq with h1 h2
          exact Or.inr ⟨b, by rw [h1]; exact List.mem_cons_self _ _, h2,
            h1.trans (by simpa using ha)⟩
        · exact Or.inl (List.mem_cons_of_mem _ h')
      · simp only [appendHREntry, ha, Bool.false_eq_true, if_false] at h
        rcases List.mem_cons.mp h with heq | h'
        · exact Or.inl (by rw [heq]; exact List.mem_cons_self _ _)
        · rcases ih h' with h2 | ⟨es0, hm0, he0⟩
          · exact Or.inl (List.mem_cons_of_mem _ h2)
          · exact Or.inr ⟨es0, List.mem_cons_of_mem _ hm0, he0⟩
    | borderRouter a b =>
      simp only [appendHREntry] at h
      rcases List.mem_cons.mp h with heq | h'
      · exact absurd heq (by simp)
      · rcases ih h' with h2 | ⟨es0, hm0, he0⟩
        · exact Or.inl (List.mem_cons_of_mem _ h2)
        · exact Or.inr ⟨es0, List.mem_cons_of_mem _ hm0, he0⟩
    | context a b c d =>
      simp only [appendHREntry] at h
      rcases List.mem_cons.mp h with heq | h'
      · exact absurd heq (by simp)
      · rcases ih h' with h2 | ⟨es0, hm0, he0⟩
        · exact Or.inl (List.mem_cons_of_mem _ h2)
        · exact Or.inr ⟨es0, List.mem_cons_of_mem _ hm0, he0⟩
    | server a b c =>
      simp only [appendHREntry] at h
      rcases List.mem_cons.mp h with heq | h'
      · exact absurd heq (by simp)
      · rcases ih h' with h2 | ⟨es0, hm0, he0⟩
        · exact Or.inl (List.mem_cons_of_mem _ h2)
        · exact Or.inr ⟨es0, List.mem_cons_of_mem _ hm0, he0⟩
    | otherSub a b c =>
      simp only [appendHREntry] at h
      rcases List.mem_cons.mp h with heq | h'
      · exact absurd heq (by simp)
      · rcases ih h' with h2 | ⟨es0, hm0, he0⟩
        · exact Or.inl (List.mem_cons_of_mem _ h2)
        · exact Or.inr ⟨es0, List.mem_cons_of_mem _ hm0, he0⟩

theorem mem_br_appendHREntry {st2 : Bool} {es2 : List BREntry} (st : Bool)
    (e : HREntry) : ∀ {l : List SubTlv},
    SubTlv.borderRouter st2 es2 ∈ appendHREntry st e l →
    SubTlv.borderRouter st2 es2 ∈ l := by
  intro l
  induction l with
  | nil => intro h; simpa [appendHREntry] using h
  | cons s rest ih =>
    intro h
    cases s with
    | hasRoute a b =>
      by_cases ha : (a == st) = true
      · simp only [appendHREntry, ha, if_true] at h
        rcases List.mem_cons.mp h with heq | h'
        · exact absurd heq (by simp)
        · exact List.mem_cons_of_mem _ h'
      · simp only [appendHREntry, ha, Bool.false_eq_true, if_false] at h
        rcases List.mem_cons.mp h with heq | h'
        · exact absurd heq (by simp)
        · exact List.mem_cons_of_mem _ (ih h')
    | borderRouter a b =>
      simp only [appendHREntry] at h
      rcases List.mem_cons.mp h with heq | h'
      · rw [heq]; exact List.mem_cons_self _ _
      · exact List.mem_cons_of_mem _ (ih h')
    | context a b c d =>
      simp only [appendHREntry] at h
      rcases List.mem_cons.mp h with heq | h'
      · exact absurd heq (by simp)
      · exact List.mem_cons_of_mem _ (ih h')
    | server a b c =>
      simp only [appendHREntry] at h
      rcases List.mem_cons.mp h with heq | h'
      · exact absurd heq (by simp)
      · exact List.mem_cons_of_mem _ (ih h')
    | otherSub a b c =>
      simp only [appendHREntry] at h
      rcases List.mem_cons.mp h with heq | h'
      · exact absurd heq (by simp)
      · exact List.mem_cons_of_mem _ (ih h')

theorem mem_appendBREntry {st2 : Bool} {es2 : List BREntry} (st : Bool)
    (e : BREntry) : ∀ {l : List SubTlv},
    SubTlv.borderRouter st2 es2 ∈ appendBREntry st e l →
    SubTlv.borderRouter st2 es2 ∈ l ∨
      ∃ es0, SubTlv.borderRouter st2 es0 ∈ l ∧ es2 = es0 ++ [e] ∧ st2 = st := by
  intro l
  induction l with
  | nil => intro h; simp [appendBREntry] at h
  | cons s rest ih =>
    intro h
    cases s with
    | borderRouter a b =>
      by_cases ha : (a == st) = true
      · simp only [appendBREntry, ha, if_true] at h
        rcases List.mem_cons.mp h with heq | h'
        · injection heq with h1 h2
          exact Or.inr ⟨b, by rw [h1]; exact List.mem_cons_self _ _, h2,
            h1.trans (by simpa using ha)⟩
        · exact Or.inl (List.mem_cons_of_mem _ h')
      · simp only [appendBREntry, ha, Bool.false_eq_true, if_false] at h
        rcases List.mem_cons.mp h with heq | h'
        · exact Or.inl (by rw [heq]; exact List.mem_cons_self _ _)
        · rcases ih h' with h2 | ⟨es0, hm0, he0⟩
          · exact Or.inl (List.mem_cons_of_mem _ h2)
          · exact Or.inr ⟨es0, List.mem_cons_of_mem _ hm0, he0⟩
    | hasRoute a b =>
      simp only [appendBREntry] at h
      rcases List.mem_cons.mp h with heq | h'
      · exact absurd heq (by simp)
      · rcases ih h' with h2 | ⟨es0, hm0, he0⟩
        · exact Or.inl (List.mem_cons_of_mem _ h2)
        · exact Or.inr ⟨es0, List.mem_cons_of_mem _ hm0, he0⟩
    | context a b c d =>
      simp only [appendBREntry] at h
      rcases List.mem_cons.mp h with heq | h'
      · exact absurd heq (by simp)
      · rcases ih h' with h2 | ⟨es0, hm0, he0⟩
        · exact Or.inl (List.mem_cons_of_mem _ h2)
        · exact Or.inr ⟨es0, List.mem_cons_of_mem _ hm0, he0⟩
    | server a b c =>
      simp only [appendBREntry] at h
      rcases List.mem_cons.mp h with heq | h'
      · exact absurd heq (by simp)
      · rcases ih h' with h2 | ⟨es0, hm0, he0⟩
        · exact Or.inl (List.mem_cons_of_mem _ h2)
        · exact Or.inr ⟨es0, List.mem_cons_of_mem _ hm0, he0⟩
    | otherSub a b c =>
      simp only [appendBREntry] at h
      rcases List.mem_cons.mp h with heq | h'
      · exact absurd heq (by simp)
      · rcases ih h' with h2 | ⟨es0, hm0, he0⟩
        · exact Or.inl (List.mem_cons_of_mem _ h2)
        · exact Or.inr ⟨es0, List.mem_cons_of_mem _ hm0, he0⟩

theorem mem_hr_appendBREntry {st2 : Bool} {es2 : List HREntry} (st : Bool)
    (e : BREntry) : ∀ {l : List SubTlv},
    SubTlv.hasRoute st2 es2 ∈ appendBREntry st e l →
    SubTlv.hasRoute st2 es2 ∈ l := by
  intro l
  induction l with
  | nil => intro h; simpa [appendBREntry] using h
  | cons s rest ih =>
    intro h
    cases s with
    | borderRouter a b =>
      by_cases ha : (a == st) = true
      · simp only [appendBREntry, ha, if_true] at h
        rcases List.mem_cons.mp h with heq | h'
        · exact absurd heq (by simp)
        · exact List.mem_cons_of_mem _ h'
      · simp only [appendBREntry, ha, Bool.false_eq_true, if_false] at h
        rcases List.mem_cons.mp h with heq | h'
        · exact absurd heq (by simp)
        · exact List.mem_cons_of_mem _ (ih h')
    | hasRoute a b =>
      simp only [appendBREntry] at h
      rcases List.mem_cons.mp h with heq | h'
      · rw [heq]; exact List.mem_cons_self _ _
      · exact List.mem_cons_of_mem _ (ih h')
    | context a b c d =>
      simp only [appendBREntry] at h
      rcases List.mem_cons.mp h with heq | h'
      · exact absurd heq (by simp)
      · exact List.mem_cons_of_mem _ (ih h')
    | server a b c =>
      simp only [appendBREntry] at h
      rcases List.mem_cons.mp h with heq | h'
      · exact absurd heq (by simp)
      · exact List.mem_cons_of_mem _ (ih h')
    | otherSub a b c =>
      simp only [appendBREntry] at h
      rcases List.mem_cons.mp h with heq | h'
      · exact absurd heq (by simp)
      · exact List.mem_cons_of_mem _ (ih h')

theorem mem_hr_setFirstCtxStable {st : Bool} {es : List HREntry} :
    ∀ {l : List SubTlv}, SubTlv.hasRoute st es ∈ setFirstCtxStable l →
      SubTlv.hasRoute st es ∈ l := by
  intro l
  induction l with
  | nil => intro h; simpa [setFirstCtxStable] using h
  | cons s rest ih =>
    intro h
    cases s with
    | context a b' c d =>
      simp only [setFirstCtxStable] at h
      rcases List.mem_cons.mp h with heq | h'
      · exact absurd heq (by simp)
      · exact List.mem_cons_of_mem _ h'
    | hasRoute a b' =>
      simp only [setFirstCtxStable] at h
      rcases List.mem_cons.mp h with heq | h'
      · rw [heq]; exact List.mem_cons_self _ _
      · exact List.mem_cons_of_mem _ (ih h')
    | borderRouter a b' =>
      simp only [setFirstCtxStable] at h
      rcases List.mem_cons.mp h with heq | h'
      · exact absurd heq (by simp)
      · exact List.mem_cons_of_mem _ (ih h')
    | server a b' c =>
      simp only [setFirstCtxStable] at h
      rcases List.mem_cons.mp h with heq | h'
      · exact absurd heq (by simp)
      · exact List.mem_cons_of_mem _ (ih h')
    | otherSub a b' c =>
      simp only [setFirstCtxStable] at h
      rcases List.mem_cons.mp h with heq | h'
      · exact absurd heq (by simp)
      · exact List.mem_cons_of_mem _ (ih h')

theorem mem_br_setFirstCtxStable {st : Bool} {es : List BREntry} :
    ∀ {l : List SubTlv}, SubTlv.borderRouter st es ∈ setFirstCtxStable l →
      SubTlv.borderRouter st es ∈ l := by
  intro l
  induction l with
  | nil => intro h; simpa [setFirstCtxStable] using h
  | cons s rest ih =>
    intro h
    cases s with
    | context a b' c d =>
      simp only [setFirstCtxStable] at h
      rcases List.mem_cons.mp h with heq | h'
      · exact absurd heq (by simp)
      · exact List.mem_cons_of_mem _ h'
    | borderRouter a b' =>
      simp only [setFirstCtxStable] at h
      rcases List.mem_cons.mp h with heq | h'
      · rw [heq]; exact List.mem_cons_self _ _
      · exact List.mem_cons_of_mem _ (ih h')
    | hasRoute a b' =>
      simp only [setFirstCtxStable] at h
      rcases List.mem_cons.mp h with heq | h'
      · exact absurd heq (by simp)
      · exact List.mem_cons_of_mem _ (ih h')
    | server a b' c =>
      simp only [setFirstCtxStable] at h
      rcases List.mem_cons.mp h with heq | h'
      · exact absurd heq (by simp)
      · exact List.mem_cons_of_mem _ (ih h')
    | otherSub a b' c =>
      simp only [setFirstCtxStable] at h
      rcases List.mem_cons.mp h with heq | h'
      · exact absurd heq (by simp)
      · exact List.mem_cons_of_mem _ (ih h')

/-! ### Absorption: a second add of the same sub-TLV is a no-op -/

/-- A source sub-TLV is *absorbed* into a destination prefix: the entry the
add engine would append (the first source entry) is already present in the
destination's first same-stable sub-TLV; for a BorderRouter sub-TLV the
destination additionally has a Context sub-TLV with its compress flag set
(and its stable flag set when the source sub-TLV is stable), so a second
`AddBorderRouter` leaves the TLV data unchanged. -/
def absorbedSub (dst : PfxD) : SubTlv → Prop
  | .hasRoute st es =>
    ∃ st0 des, dst.subs.find? (SubTlv.isHRWith st) = some (.hasRoute st0 des) ∧
      es.headD ⟨0, 0⟩ ∈ des
  | .borderRouter st es =>
    (∃ st0 des, dst.subs.find? (SubTlv.isBRWith st) =
        some (.borderRouter st0 des) ∧ es.headD ⟨0, 0⟩ ∈ des) ∧
    (∃ cst cco ci cl, dst.subs.find? SubTlv.isCtx =
        some (.context cst cco ci cl) ∧ cco = true ∧ (st = true → cst = true))
  | _ => True

/-- A successful `AddHasRoute` absorbs its sub-TLV and preserves all
previously absorbed ones. -/
theorem addHasRoute_post (st : Bool) (es : List HREntry) (dst : PfxD)
    (others : Nat) (fl : ChangedFlags)
    (hok : (addHasRoute st es dst others fl).1 = .ok) :
    absorbedSub (addHasRoute st es dst others fl).2.1 (.hasRoute st es) ∧
    (∀ sub0, absorbedSub dst sub0 →
      absorbedSub (addHasRoute st es dst others fl).2.1 sub0) := by
  rcases hf : dst.subs.find? (SubTlv.isHRWith st) with _ | s
  · -- no HasRoute sub-TLV with this stable flag: it is created and filled
    simp only [addHasRoute, hf] at hok ⊢
    by_cases hq1 : others + dst.size + (2 + 3) ≤ kMaxSize
    · rw [if_pos hq1] at hok ⊢
      by_cases hq2 : others + PfxD.size { dst with
          subs := dst.subs ++ [SubTlv.hasRoute st []] } + 3 ≤ kMaxSize
      · rw [if_pos hq2] at hok ⊢
        have hcr := appendHREntry_create st (es.headD ⟨0, 0⟩) dst.subs hf
        constructor
        · refine ⟨st, [es.headD ⟨0, 0⟩], ?_, by simp⟩
          show (appendHREntry st (es.headD ⟨0, 0⟩)
              (dst.subs ++ [SubTlv.hasRoute st []])).find? (SubTlv.isHRWith st) =
            some (SubTlv.hasRoute st [es.headD ⟨0, 0⟩])
          rw [hcr]
          exact find?_append_single_pos _ _ _ hf (by simp [SubTlv.isHRWith])
        · intro sub0 habs
          cases sub0 with
          | hasRoute st2 es2 =>
            obtain ⟨st0, des, hf0, hm0⟩ := habs
            by_cases hst : st2 = st
            · subst hst
              rw [hf] at hf0
              exact absurd hf0 (by simp)
            · refine ⟨st0, des, ?_, hm0⟩
              show (appendHREntry st (es.headD ⟨0, 0⟩)
                  (dst.subs ++ [SubTlv.hasRoute st []])).find?
                  (SubTlv.isHRWith st2) = some (SubTlv.hasRoute st0 des)
              rw [hcr, find?_append_single_neg _ _ _
                (by simpa [SubTlv.isHRWith] using fun hh => hst hh.symm)]
              exact hf0
          | borderRouter st2 es2 =>
            obtain ⟨⟨st0, des, hf0, hm0⟩, cst, cco, ci, cl, hc0, hcc, hcs⟩ := habs
            refine ⟨⟨st0, des, ?_, hm0⟩, cst, cco, ci, cl, ?_, hcc, hcs⟩
            · show (appendHREntry st (es.headD ⟨0, 0⟩)
                  (dst.subs ++ [SubTlv.hasRoute st []])).find?
                  (SubTlv.isBRWith st2) = some (SubTlv.borderRouter st0 des)
              rw [hcr, find?_append_single_neg _ _ _ (by simp [SubTlv.isBRWith])]
              exact hf0
            · show (appendHREntry st (es.headD ⟨0, 0⟩)
                  (dst.subs ++ [SubTlv.hasRoute st []])).find? SubTlv.isCtx =
                some (SubTlv.context cst cco ci cl)
              rw [hcr, find?_append_single_neg _ _ _ (by simp [SubTlv.isCtx])]
              exact hc0
          | context a b c d => trivial
          | server a b c => trivial
          | otherSub a b c => trivial
      · rw [if_neg hq2] at hok
        exact absurd hok (by simp)
    · rw [if_neg hq1] at hok
      exact absurd hok (by simp)
  · -- a HasRoute sub-TLV with this stable flag exists
    obtain ⟨des, rfl⟩ := find?_isHRWith_shape hf
    simp only [addHasRoute, hf] at hok ⊢
    by_cases hc : des.contains (es.headD ⟨0, 0⟩) = true
    · rw [if_pos hc] at hok ⊢
      exact ⟨⟨st, des, hf, List.elem_iff.mp hc⟩, fun sub0 habs => habs⟩
    · rw [if_neg hc] at hok ⊢
      by_cases hq1 : others + dst.size + 3 ≤ kMaxSize
      · rw [if_pos hq1] at hok ⊢
        have happ := find?_hr_appendHREntry_same st (es.headD ⟨0, 0⟩)
          dst.subs st des hf
        constructor
        · exact ⟨st, des ++ [es.headD ⟨0, 0⟩], happ, by simp⟩
        · intro sub0 habs
          cases sub0 with
          | hasRoute st2 es2 =>
            obtain ⟨st0, des0, hf0, hm0⟩ := habs
            by_cases hst : st2 = st
            · subst hst
              rw [hf] at hf0
              injection hf0 with hf0
              injection hf0 with hf1 hf2
              rw [← hf2] at hm0
              exact ⟨st2, des ++ [es.headD ⟨0, 0⟩], happ,
                List.mem_append_left _ hm0⟩
            · refine ⟨st0, des0, ?_, hm0⟩
              rw [find?_hr_appendHREntry_other hst (es.headD ⟨0, 0⟩) dst.subs]
              exact hf0
          | borderRouter st2 es2 =>
            obtain ⟨⟨st0, des0, hf0, hm0⟩, cst, cco, ci, cl, hc0, hcc, hcs⟩ := habs
            refine ⟨⟨st0, des0, ?_, hm0⟩, cst, cco, ci, cl, ?_, hcc, hcs⟩
            · rw [find?_br_appendHREntry st (es.headD ⟨0, 0⟩) st2 dst.subs]
              exact hf0
            · rw [find?_ctx_appendHREntry st (es.headD ⟨0, 0⟩) dst.subs]
              exact hc0
          | context a b c d => trivial
          | server a b c => trivial
          | otherSub a b c => trivial
      · rw [if_neg hq1] at hok
        exact absurd hok (by simp)

/-- A successful `AddBorderRouter` absorbs its sub-TLV and preserves all
previously absorbed ones. -/
theorem addBorderRouter_post (st : Bool) (es : List BREntry) (dst : PfxD)
    (others : Nat) (sl : Nat → Nat) (fl : ChangedFlags) (clone : Bool)
    (hok : (addBorderRouter st es dst others sl fl clone).1 = .ok) :
    absorbedSub (addBorderRouter st es dst others sl fl clone).2.1
      (.borderRouter st es) ∧
    (∀ sub0, absorbedSub dst sub0 →
      absorbedSub (addBorderRouter st es dst others sl fl clone).2.1 sub0) := by
  have entry : ∀ (d3 : PfxD) (res : Error × PfxD × (Nat → Nat) × ChangedFlags),
      (∀ st2, d3.subs.find? (SubTlv.isHRWith st2) =
        dst.subs.find? (SubTlv.isHRWith st2)) →
      (∀ st2, st2 ≠ st → d3.subs.find? (SubTlv.isBRWith st2) =
        dst.subs.find? (SubTlv.isBRWith st2)) →
      (∃ desB, d3.subs.find? (SubTlv.isBRWith st) =
          some (SubTlv.borderRouter st desB) ∧
        ∀ st0 des0, dst.subs.find? (SubTlv.isBRWith st) =
          some (SubTlv.borderRouter st0 des0) → des0 = desB) →
      (∃ cst3 cco3 ci3 cl3, d3.subs.find? SubTlv.isCtx =
          some (SubTlv.context cst3 cco3 ci3 cl3) ∧
        (st = true → cst3 = true) ∧
        ∀ cst0 cco0 ci0 cl0, dst.subs.find? SubTlv.isCtx =
          some (SubTlv.context cst0 cco0 ci0 cl0) → cst0 = true → cst3 = true) →
      res = (if (firstBREntries st (setFirstCtxCompress true d3.subs)).contains
            (es.headD ⟨0, 0⟩) then
          ((.ok, { d3 with subs := setFirstCtxCompress true d3.subs },
            markAsInUse (firstCtxId (setFirstCtxCompress true d3.subs)) sl, fl) :
            Error × PfxD × (Nat → Nat) × ChangedFlags)
        else if others + PfxD.size { d3 with
            subs := setFirstCtxCompress true d3.subs } + 4 ≤ kMaxSize then
          (.ok,
            { d3 with subs :=
                appendBREntry st (es.headD ⟨0, 0⟩) (setFirstCtxCompress true d3.subs) },
            markAsInUse (firstCtxId (setFirstCtxCompress true d3.subs)) sl,
            fl.update st)
        else (.noBufs, { d3 with subs := setFirstCtxCompress true d3.subs },
          markAsInUse (firstCtxId (setFirstCtxCompress true d3.subs)) sl, fl)) →
      res.1 = .ok →
      absorbedSub res.2.1 (.borderRouter st es) ∧
      (∀ sub0, absorbedSub dst sub0 → absorbedSub res.2.1 sub0) := by
    intro d3 res hH hB2 hBst hCx hres hrok
    obtain ⟨desB, hfB, hBuniq⟩ := hBst
    obtain ⟨cst3, cco3, ci3, cl3, hfC, hstC, hCmon⟩ := hCx
    have f4H : ∀ st2, (setFirstCtxCompress true d3.subs).find?
        (SubTlv.isHRWith st2) = dst.subs.find? (SubTlv.isHRWith st2) := by
      intro st2
      rw [find?_hr_setFirstCtxCompress true st2 d3.subs]
      exact hH st2
    have f4B2 : ∀ st2, st2 ≠ st → (setFirstCtxCompress true d3.subs).find?
        (SubTlv.isBRWith st2) = dst.subs.find? (SubTlv.isBRWith st2) := by
      intro st2 hne
      rw [find?_br_setFirstCtxCompress true st2 d3.subs]
      exact hB2 st2 hne
    have f4B : (setFirstCtxCompress true d3.subs).find? (SubTlv.isBRWith st) =
        some (SubTlv.borderRouter st desB) := by
      rw [find?_br_setFirstCtxCompress true st d3.subs]
      exact hfB
    have f4C : (setFirstCtxCompress true d3.subs).find? SubTlv.isCtx =
        some (SubTlv.context cst3 true ci3 cl3) :=
      find?_ctx_setFirstCtxCompress_some true d3.subs cst3 cco3 ci3 cl3 hfC
    have hfbe : firstBREntries st (setFirstCtxCompress true d3.subs) = desB := by
      unfold firstBREntries
      rw [f4B]
    by_cases h1 : (firstBREntries st (setFirstCtxCompress true d3.subs)).contains
        (es.headD ⟨0, 0⟩) = true
    · rw [if_pos h1] at hres
      subst hres
      rw [hfbe] at h1
      constructor
      · exact ⟨⟨st, desB, f4B, List.elem_iff.mp h1⟩,
          cst3, true, ci3, cl3, f4C, rfl, hstC⟩
      · intro sub0 habs
        cases sub0 with
        | hasRoute st2 es2 =>
          obtain ⟨st0, des0, hf0, hm0⟩ := habs
          refine ⟨st0, des0, ?_, hm0⟩
          show (setFirstCtxCompress true d3.subs).find? (SubTlv.isHRWith st2) =
            some (SubTlv.hasRoute st0 des0)
          rw [f4H st2]
          exact hf0
        | borderRouter st2 es2 =>
          obtain ⟨⟨st0, des0, hf0, hm0⟩, cst4, cco4, ci4, cl4, hc0, hcc0, hcs0⟩ :=
            habs
          constructor
          · by_cases hq : st2 = st
            · refine ⟨st, desB, ?_, ?_⟩
              · show (setFirstCtxCompress true d3.subs).find?
                  (SubTlv.isBRWith st2) = some (SubTlv.borderRouter st desB)
                rw [hq]
                exact f4B
              · rw [hq] at hf0
                rw [hBuniq st0 des0 hf0] at hm0
                exact hm0
            · refine ⟨st0, des0, ?_, hm0⟩
              show (setFirstCtxCompress true d3.subs).find?
                (SubTlv.isBRWith st2) = some (SubTlv.borderRouter st0 des0)
              rw [f4B2 st2 hq]
              exact hf0
          · refine ⟨cst3, true, ci3, cl3, f4C, rfl, ?_⟩
            intro hst2
            exact hCmon cst4 cco4 ci4 cl4 hc0 (hcs0 hst2)
        | context a b c d => trivial
        | server a b c => trivial
        | otherSub a b c => trivial
    · rw [if_neg h1] at hres
      by_cases h2 : others + PfxD.size { d3 with
          subs := setFirstCtxCompress true d3.subs } + 4 ≤ kMaxSize
      · rw [if_pos h2] at hres
        subst hres
        have fAppB : (appendBREntry st (es.headD ⟨0, 0⟩)
            (setFirstCtxCompress true d3.subs)).find? (SubTlv.isBRWith st) =
            some (SubTlv.borderRouter st (desB ++ [es.headD ⟨0, 0⟩])) :=
          find?_br_appendBREntry_same st _ _ st desB f4B
        have fAppC : (appendBREntry st (es.headD ⟨0, 0⟩)
            (setFirstCtxCompress true d3.subs)).find? SubTlv.isCtx =
            some (SubTlv.context cst3 true ci3 cl3) := by
          rw [find?_ctx_appendBREntry]
          exact f4C
        constructor
        · exact ⟨⟨st, desB ++ [es.headD ⟨0, 0⟩], fAppB, by simp⟩,
            cst3, true, ci3, cl3, fAppC, rfl, hstC⟩
        · intro sub0 habs
          cases sub0 with
          | hasRoute st2 es2 =>
            obtain ⟨st0, des0, hf0, hm0⟩ := habs
            refine ⟨st0, des0, ?_, hm0⟩
            show (appendBREntry st (es.headD ⟨0, 0⟩)
                (setFirstCtxCompress true d3.subs)).find? (SubTlv.isHRWith st2) =
              some (SubTlv.hasRoute st0 des0)
            rw [find?_hr_appendBREntry, f4H st2]
            exact hf0
          | borderRouter st2 es2 =>
            obtain ⟨⟨st0, des0, hf0, hm0⟩, cst4, cco4, ci4, cl4, hc0, hcc0, hcs0⟩ :=
              habs
            constructor
            · by_cases hq : st2 = st
              · refine ⟨st, desB ++ [es.headD ⟨0, 0⟩], ?_, ?_⟩
                · show (appendBREntry st (es.headD ⟨0, 0⟩)
                    (setFirstCtxCompress true d3.subs)).find?
                    (SubTlv.isBRWith st2) =
                    some (SubTlv.borderRouter st (desB ++ [es.headD ⟨0, 0⟩]))
                  rw [hq]
                  exact fAppB
                · rw [hq] at hf0
                  rw [hBuniq st0 des0 hf0] at hm0
                  exact List.mem_append_left _ hm0
              · refine ⟨st0, des0, ?_, hm0⟩
                show (appendBREntry st (es.headD ⟨0, 0⟩)
                    (setFirstCtxCompress true d3.subs)).find?
                    (SubTlv.isBRWith st2) = some (SubTlv.borderRouter st0 des0)
                rw [find?_br_appendBREntry_other hq, f4B2 st2 hq]
                exact hf0
            · refine ⟨cst3, true, ci3, cl3, fAppC, rfl, ?_⟩
              intro hst2
              exact hCmon cst4 cco4 ci4 cl4 hc0 (hcs0 hst2)
          | context a b c d => trivial
          | server a b c => trivial
          | otherSub a b c => trivial
      · rw [if_neg h2] at hres
        subst hres
        exact absurd hrok (by simp)
  by_cases hC : (dst.subs.find? SubTlv.isCtx).isSome = true
  · obtain ⟨c, hfc⟩ := Option.isSome_iff_exists.mp hC
    obtain ⟨cst0, cco0, ci0, cl0, rfl⟩ := find?_isCtx_shape hfc
    by_cases hB : (dst.subs.find? (SubTlv.isBRWith st)).isSome = true
    · -- both a Context and a same-stable BorderRouter sub-TLV already exist
      obtain ⟨cb, hfb⟩ := Option.isSome_iff_exists.mp hB
      obtain ⟨desB0, rfl⟩ := find?_isBRWith_shape hfb
      simp only [addBorderRouter, hfc, hfb, Option.isSome_some, Bool.not_true,
        Bool.false_and, Bool.true_and, Bool.false_eq_true, if_false, if_true]
        at hok ⊢
      refine entry _ _ ?_ ?_ ?_ ?_ rfl hok
      · intro st2
        split
        · exact find?_hr_setFirstCtxStable st2 dst.subs
        · rfl
      · intro st2 _
        split
        · exact find?_br_setFirstCtxStable st2 dst.subs
        · rfl
      · refine ⟨desB0, ?_, ?_⟩
        · split
          · show (setFirstCtxStable dst.subs).find? (SubTlv.isBRWith st) =
              some (SubTlv.borderRouter st desB0)
            rw [find?_br_setFirstCtxStable st dst.subs]
            exact hfb
          · exact hfb
        · intro st0 des0 h0
          rw [hfb] at h0
          injection h0 with h0
          injection h0 with h1 h2
          exact h2.symm
      · by_cases hst : st = true
        · rw [if_pos hst]
          refine ⟨true, cco0, ci0, cl0, ?_, fun _ => rfl, fun _ _ _ _ _ _ => rfl⟩
          show (setFirstCtxStable dst.subs).find? SubTlv.isCtx =
            some (SubTlv.context true cco0 ci0 cl0)
          exact find?_ctx_setFirstCtxStable_some dst.subs cst0 cco0 ci0 cl0 hfc
        · rw [if_neg hst]
          refine ⟨cst0, cco0, ci0, cl0, hfc, fun h => absurd h hst, ?_⟩
          intro a b c' d' h0 hq
          rw [hfc] at h0
          injection h0 with h0
          injection h0 with h1 h2 h3 h4
          rw [h1]
          exact hq
    · -- a Context exists but no same-stable BorderRouter: one is created
      have hfbn : dst.subs.find? (SubTlv.isBRWith st) = none :=
        Option.not_isSome_iff_eq_none.mp hB
      simp only [addBorderRouter, hfc, hfbn, Option.isSome_some,
        Option.isSome_none, Bool.not_true, Bool.not_false, Bool.false_and,
        Bool.true_and, Bool.false_eq_true, if_false, if_true] at hok ⊢
      by_cases hq1 : others + dst.size + (2 + 4 + 0) ≤ kMaxSize
      · have hgb1 : (!decide (others + dst.size + (2 + 4 + 0) ≤ kMaxSize)) =
            false := by simp [hq1]
        simp only [hgb1, Bool.false_eq_true, if_false, if_true] at hok ⊢
        refine entry _ _ ?_ ?_ ?_ ?_ rfl hok
        · intro st2
          split
          · show (setFirstCtxStable (dst.subs ++ [SubTlv.borderRouter st []])).find?
                (SubTlv.isHRWith st2) = dst.subs.find? (SubTlv.isHRWith st2)
            rw [find?_hr_setFirstCtxStable,
              find?_append_single_neg _ _ _ (by simp [SubTlv.isHRWith])]
          · show (dst.subs ++ [SubTlv.borderRouter st []]).find?
                (SubTlv.isHRWith st2) = dst.subs.find? (SubTlv.isHRWith st2)
            exact find?_append_single_neg _ _ _ (by simp [SubTlv.isHRWith])
        · intro st2 hne
          have hp : SubTlv.isBRWith st2 (SubTlv.borderRouter st []) = false := by
            simp only [SubTlv.isBRWith, beq_eq_false_iff_ne, ne_eq]
            exact fun hh => hne hh.symm
          split
          · show (setFirstCtxStable (dst.subs ++ [SubTlv.borderRouter st []])).find?
                (SubTlv.isBRWith st2) = dst.subs.find? (SubTlv.isBRWith st2)
            rw [find?_br_setFirstCtxStable, find?_append_single_neg _ _ _ hp]
          · show (dst.subs ++ [SubTlv.borderRouter st []]).find?
                (SubTlv.isBRWith st2) = dst.subs.find? (SubTlv.isBRWith st2)
            exact find?_append_single_neg _ _ _ hp
        · refine ⟨[], ?_, ?_⟩
          · split
            · show (setFirstCtxStable (dst.subs ++ [SubTlv.borderRouter st []])).find?
                  (SubTlv.isBRWith st) = some (SubTlv.borderRouter st [])
              rw [find?_br_setFirstCtxStable]
              exact find?_append_single_pos _ _ _ hfbn (by simp [SubTlv.isBRWith])
            · show (dst.subs ++ [SubTlv.borderRouter st []]).find?
                  (SubTlv.isBRWith st) = some (SubTlv.borderRouter st [])
              exact find?_append_single_pos _ _ _ hfbn (by simp [SubTlv.isBRWith])
          · intro st0 des0 h0
            rw [hfbn] at h0
            exact absurd h0 (by simp)
        · have hctx1 : (dst.subs ++ [SubTlv.borderRouter st []]).find?
              SubTlv.isCtx = some (SubTlv.context cst0 cco0 ci0 cl0) := by
            rw [find?_append_single_neg _ _ _ (by simp [SubTlv.isCtx])]
            exact hfc
          by_cases hst : st = true
          · rw [if_pos hst]
            refine ⟨true, cco0, ci0, cl0, ?_, fun _ => rfl, fun _ _ _ _ _ _ => rfl⟩
            show (setFirstCtxStable (dst.subs ++ [SubTlv.borderRouter st []])).find?
                SubTlv.isCtx = some (SubTlv.context true cco0 ci0 cl0)
            exact find?_ctx_setFirstCtxStable_some _ cst0 cco0 ci0 cl0 hctx1
          · rw [if_neg hst]
            refine ⟨cst0, cco0, ci0, cl0, hctx1, fun h => absurd h hst, ?_⟩
            intro a b c' d' h0 hq
            rw [hfc] at h0
            injection h0 with h0
            injection h0 with h1 h2 h3 h4
            rw [h1]
            exact hq
      · have hgb1 : (!decide (others + dst.size + (2 + 4 + 0) ≤ kMaxSize)) =
            true := by simp [hq1]
        simp only [hgb1, Bool.false_eq_true, if_false, if_true] at hok
        exact absurd hok (by simp)
  · have hfcn : dst.subs.find? SubTlv.isCtx = none :=
      Option.not_isSome_iff_eq_none.mp hC
    rcases hg : getUnallocatedId sl clone with ⟨e1, cid⟩
    cases e1 with
    | ok =>
      by_cases hB : (dst.subs.find? (SubTlv.isBRWith st)).isSome = true
      · -- a same-stable BorderRouter exists but no Context: one is created
        obtain ⟨cb, hfb⟩ := Option.isSome_iff_exists.mp hB
        obtain ⟨desB0, rfl⟩ := find?_isBRWith_shape hfb
        simp only [addBorderRouter, hfcn, hfb, Option.isSome_some,
          Option.isSome_none, Bool.not_true, Bool.not_false, Bool.false_and,
          Bool.true_and, hg, Bool.false_eq_true, if_false, if_true] at hok ⊢
        by_cases hq2 : others + dst.size + (4 + 4) ≤ kMaxSize
        · have hgb2 : (!decide (others + dst.size + (4 + 4) ≤ kMaxSize)) =
              false := by simp [hq2]
          simp only [hgb2, Bool.false_eq_true, if_false, if_true] at hok ⊢
          refine entry _ _ ?_ ?_ ?_ ?_ rfl hok
          · intro st2
            split
            · show (setFirstCtxStable (dst.subs ++
                  [SubTlv.context false false cid dst.prefixLength])).find?
                  (SubTlv.isHRWith st2) = dst.subs.find? (SubTlv.isHRWith st2)
              rw [find?_hr_setFirstCtxStable,
                find?_append_single_neg _ _ _ (by simp [SubTlv.isHRWith])]
            · show (dst.subs ++
                  [SubTlv.context false false cid dst.prefixLength]).find?
                  (SubTlv.isHRWith st2) = dst.subs.find? (SubTlv.isHRWith st2)
              exact find?_append_single_neg _ _ _ (by simp [SubTlv.isHRWith])
          · intro st2 _
            split
            · show (setFirstCtxStable (dst.subs ++
                  [SubTlv.context false false cid dst.prefixLength])).find?
                  (SubTlv.isBRWith st2) = dst.subs.find? (SubTlv.isBRWith st2)
              rw [find?_br_setFirstCtxStable,
                find?_append_single_neg _ _ _ (by simp [SubTlv.isBRWith])]
            · show (dst.subs ++
                  [SubTlv.context false false cid dst.prefixLength]).find?
                  (SubTlv.isBRWith st2) = dst.subs.find? (SubTlv.isBRWith st2)
              exact find?_append_single_neg _ _ _ (by simp [SubTlv.isBRWith])
          · refine ⟨desB0, ?_, ?_⟩
            · split
              · show (setFirstCtxStable (dst.subs ++
                    [SubTlv.context false false cid dst.prefixLength])).find?
                    (SubTlv.isBRWith st) = some (SubTlv.borderRouter st desB0)
                rw [find?_br_setFirstCtxStable,
                  find?_append_single_neg _ _ _ (by simp [SubTlv.isBRWith])]
                exact hfb
              · show (dst.subs ++
                    [SubTlv.context false false cid dst.prefixLength]).find?
                    (SubTlv.isBRWith st) = some (SubTlv.borderRouter st desB0)
                rw [find?_append_single_neg _ _ _ (by simp [SubTlv.isBRWith])]
                exact hfb
            · intro st0 des0 h0
              rw [hfb] at h0
              injection h0 with h0
              injection h0 with h1 h2
              exact h2.symm
          · have hctx1 : (dst.subs ++
                [SubTlv.context false false cid dst.prefixLength]).find?
                SubTlv.isCtx =
                some (SubTlv.context false false cid dst.prefixLength) :=
              find?_append_single_pos _ _ _ hfcn (by simp [SubTlv.isCtx])
            by_cases hst : st = true
            · rw [if_pos hst]
              refine ⟨true, false, cid, dst.prefixLength, ?_, fun _ => rfl, ?_⟩
              · show (setFirstCtxStable (dst.subs ++
                    [SubTlv.context false false cid dst.prefixLength])).find?
                    SubTlv.isCtx =
                    some (SubTlv.context true false cid dst.prefixLength)
                exact find?_ctx_setFirstCtxStable_some _ false false cid
                  dst.prefixLength hctx1
              · exact fun _ _ _ _ _ _ => rfl
            · rw [if_neg hst]
              refine ⟨false, false, cid, dst.prefixLength, hctx1,
                fun h => absurd h hst, ?_⟩
              intro a b c' d' h0 hq
              rw [hfcn] at h0
              exact absurd h0 (by simp)
        · have hgb2 : (!decide (others + dst.size + (4 + 4) ≤ kMaxSize)) =
              true := by simp [hq2]
          simp only [hgb2, Bool.false_eq_true, if_false, if_true] at hok
          exact absurd hok (by simp)
      · -- neither a same-stable BorderRouter nor a Context: both are created
        have hfbn : dst.subs.find? (SubTlv.isBRWith st) = none :=
          Option.not_isSome_iff_eq_none.mp hB
        simp only [addBorderRouter, hfcn, hfbn, Option.isSome_some,
          Option.isSome_none, Bool.not_true, Bool.not_false, Bool.false_and,
          Bool.true_and, hg, Bool.false_eq_true, if_false, if_true] at hok ⊢
        by_cases hq1 : others + dst.size + (2 + 4 + 4) ≤ kMaxSize
        · have hgb1 : (!decide (others + dst.size + (2 + 4 + 4) ≤ kMaxSize)) =
              false := by simp [hq1]
          simp only [hgb1, Bool.false_eq_true, if_false, if_true, size_append_br]
            at hok ⊢
          have hq2 : others + (dst.size + 2) + (4 + 4) ≤ kMaxSize := by
            simp only [kMaxSize] at hq1 ⊢
            omega
          have hgb2 : (!decide (others + (dst.size + 2) + (4 + 4) ≤ kMaxSize)) =
              false := by simp [hq2]
          simp only [hgb2, Bool.false_eq_true, if_false, if_true] at hok ⊢
          have hbr1 : (dst.subs ++ [SubTlv.borderRouter st []]).find?
              (SubTlv.isBRWith st) = some (SubTlv.borderRouter st []) :=
            find?_append_single_pos _ _ _ hfbn (by simp [SubTlv.isBRWith])
          have hctx0 : (dst.subs ++ [SubTlv.borderRouter st []]).find?
              SubTlv.isCtx = none := by
            rw [find?_append_single_neg _ _ _ (by simp [SubTlv.isCtx])]
            exact hfcn
          have hctx1 : ((dst.subs ++ [SubTlv.borderRouter st []]) ++
              [SubTlv.context false false cid dst.prefixLength]).find?
              SubTlv.isCtx =
              some (SubTlv.context false false cid dst.prefixLength) :=
            find?_append_single_pos _ _ _ hctx0 (by simp [SubTlv.isCtx])
          refine entry _ _ ?_ ?_ ?_ ?_ rfl hok
          · intro st2
            split
            · show (setFirstCtxStable ((dst.subs ++ [SubTlv.borderRouter st []]) ++
                  [SubTlv.context false false cid dst.prefixLength])).find?
                  (SubTlv.isHRWith st2) = dst.subs.find? (SubTlv.isHRWith st2)
              rw [find?_hr_setFirstCtxStable,
                find?_append_single_neg _ _ _ (by simp [SubTlv.isHRWith]),
                find?_append_single_neg _ _ _ (by simp [SubTlv.isHRWith])]
            · show ((dst.subs ++ [SubTlv.borderRouter st []]) ++
                  [SubTlv.context false false cid dst.prefixLength]).find?
                  (SubTlv.isHRWith st2) = dst.subs.find? (SubTlv.isHRWith st2)
              rw [find?_append_single_neg _ _ _ (by simp [SubTlv.isHRWith]),
                find?_append_single_neg _ _ _ (by simp [SubTlv.isHRWith])]
          · intro st2 hne
            have hp : SubTlv.isBRWith st2 (SubTlv.borderRouter st []) = false := by
              simp only [SubTlv.isBRWith, beq_eq_false_iff_ne, ne_eq]
              exact fun hh => hne hh.symm
            split
            · show (setFirstCtxStable ((dst.subs ++ [SubTlv.borderRouter st []]) ++
                  [SubTlv.context false false cid dst.prefixLength])).find?
                  (SubTlv.isBRWith st2) = dst.subs.find? (SubTlv.isBRWith st2)
              rw [find?_br_setFirstCtxStable,
                find?_append_single_neg _ _ _ (by simp [SubTlv.isBRWith]),
                find?_append_single_neg _ _ _ hp]
            · show ((dst.subs ++ [SubTlv.borderRouter st []]) ++
                  [SubTlv.context false false cid dst.prefixLength]).find?
                  (SubTlv.isBRWith st2) = dst.subs.find? (SubTlv.isBRWith st2)
              rw [find?_append_single_neg _ _ _ (by simp [SubTlv.isBRWith]),
                find?_append_single_neg _ _ _ hp]
          · refine ⟨[], ?_, ?_⟩
            · split
              · show (setFirstCtxStable ((dst.subs ++ [SubTlv.borderRouter st []]) ++
                    [SubTlv.context false false cid dst.prefixLength])).find?
                    (SubTlv.isBRWith st) = some (SubTlv.borderRouter st [])
                rw [find?_br_setFirstCtxStable,
                  find?_append_single_neg _ _ _ (by simp [SubTlv.isBRWith])]
                exact hbr1
              · show ((dst.subs ++ [SubTlv.borderRouter st []]) ++
                    [SubTlv.context false false cid dst.prefixLength]).find?
                    (SubTlv.isBRWith st) = some (SubTlv.borderRouter st [])
                rw [find?_append_single_neg _ _ _ (by simp [SubTlv.isBRWith])]
                exact hbr1
            · intro st0 des0 h0
              rw [hfbn] at h0
              exact absurd h0 (by simp)
          · by_cases hst : st = true
            · rw [if_pos hst]
              refine ⟨true, false, cid, dst.prefixLength, ?_, fun _ => rfl, ?_⟩
              · show (setFirstCtxStable ((dst.subs ++ [SubTlv.borderRouter st []]) ++
                    [SubTlv.context false false cid dst.prefixLength])).find?
                    SubTlv.isCtx =
                    some (SubTlv.context true false cid dst.prefixLength)
                exact find?_ctx_setFirstCtxStable_some _ false false cid
                  dst.prefixLength hctx1
              · exact fun _ _ _ _ _ _ => rfl
            · rw [if_neg hst]
              refine ⟨false, false, cid, dst.prefixLength, hctx1,
                fun h => absurd h hst, ?_⟩
              intro a b c' d' h0 hq
              rw [hfcn] at h0
              exact absurd h0 (by simp)
        · have hgb1 : (!decide (others + dst.size + (2 + 4 + 4) ≤ kMaxSize)) =
              true := by simp [hq1]
          simp only [hgb1, Bool.false_eq_true, if_false, if_true] at hok
          exact absurd hok (by simp)
    | parse => simp [addBorderRouter, hfcn, hg] at hok
    | noBufs => simp [addBorderRouter, hfcn, hg] at hok
    | noRoute => simp [addBorderRouter, hfcn, hg] at hok
    | notFound => simp [addBorderRouter, hfcn, hg] at hok
    | drop => simp [addBorderRouter, hfcn, hg] at hok

/-! ### Pulling appended sub-TLVs through the Context fix-ups -/

theorem setFirstCtxStable_append_nonctx {x : SubTlv} (hx : SubTlv.isCtx x = false) :
    ∀ (l : List SubTlv),
    setFirstCtxStable (l ++ [x]) = setFirstCtxStable l ++ [x] := by
  intro l
  induction l with
  | nil =>
    cases x with
    | context a b c d => simp [SubTlv.isCtx] at hx
    | hasRoute a b => rfl
    | borderRouter a b => rfl
    | server a b c => rfl
    | otherSub a b c => rfl
  | cons s rest ih =>
    cases s with
    | context a b c d => rfl
    | hasRoute a b =>
      simp only [List.cons_append, setFirstCtxStable]
      exact congrArg (fun xs => SubTlv.hasRoute a b :: xs) ih
    | borderRouter a b =>
      simp only [List.cons_append, setFirstCtxStable]
      exact congrArg (fun xs => SubTlv.borderRouter a b :: xs) ih
    | server a b c =>
      simp only [List.cons_append, setFirstCtxStable]
      exact congrArg (fun xs => SubTlv.server a b c :: xs) ih
    | otherSub a b c =>
      simp only [List.cons_append, setFirstCtxStable]
      exact congrArg (fun xs => SubTlv.otherSub a b c :: xs) ih

theorem setFirstCtxCompress_append_nonctx (bb : Bool) {x : SubTlv}
    (hx : SubTlv.isCtx x = false) : ∀ (l : List SubTlv),
    setFirstCtxCompress bb (l ++ [x]) = setFirstCtxCompress bb l ++ [x] := by
  intro l
  induction l with
  | nil =>
    cases x with
    | context a b c d => simp [SubTlv.isCtx] at hx
    | hasRoute a b => rfl
    | borderRouter a b => rfl
    | server a b c => rfl
    | otherSub a b c => rfl
  | cons s rest ih =>
    cases s with
    | context a b c d => rfl
    | hasRoute a b =>
      simp only [List.cons_append, setFirstCtxCompress]
      exact congrArg (fun xs => SubTlv.hasRoute a b :: xs) ih
    | borderRouter a b =>
      simp only [List.cons_append, setFirstCtxCompress]
      exact congrArg (fun xs => SubTlv.borderRouter a b :: xs) ih
    | server a b c =>
      simp only [List.cons_append, setFirstCtxCompress]
      exact congrArg (fun xs => SubTlv.server a b c :: xs) ih
    | otherSub a b c =>
      simp only [List.cons_append, setFirstCtxCompress]
      exact congrArg (fun xs => SubTlv.otherSub a b c :: xs) ih

theorem setFirstCtxStable_append_ctx (a b' : Bool) (c d : Nat) :
    ∀ (l : List SubTlv), l.find? SubTlv.isCtx = none →
    setFirstCtxStable (l ++ [.context a b' c d]) =
      l ++ [.context true b' c d] := by
  intro l
  induction l with
  | nil => intro _; rfl
  | cons s rest ih =>
    intro h
    cases s with
    | context a2 b2 c2 d2 =>
      rw [List.find?_cons_of_pos _ (by simp [SubTlv.isCtx])] at h
      exact absurd h (by simp)
    | hasRoute a2 b2 =>
      rw [List.find?_cons_of_neg _ (by simp [SubTlv.isCtx])] at h
      simp only [List.cons_append, setFirstCtxStable]
      exact congrArg (fun xs => SubTlv.hasRoute a2 b2 :: xs) (ih h)
    | borderRouter a2 b2 =>
      rw [List.find?_cons_of_neg _ (by simp [SubTlv.isCtx])] at h
      simp only [List.cons_append, setFirstCtxStable]
      exact congrArg (fun xs => SubTlv.borderRouter a2 b2 :: xs) (ih h)
    | server a2 b2 c2 =>
      rw [List.find?_cons_of_neg _ (by simp [SubTlv.isCtx])] at h
      simp only [List.cons_append, setFirstCtxStable]
      exact congrArg (fun xs => SubTlv.server a2 b2 c2 :: xs) (ih h)
    | otherSub a2 b2 c2 =>
      rw [List.find?_cons_of_neg _ (by simp [SubTlv.isCtx])] at h
      simp only [List.cons_append, setFirstCtxStable]
      exact congrArg (fun xs => SubTlv.otherSub a2 b2 c2 :: xs) (ih h)

theorem setFirstCtxCompress_append_ctx (bb : Bool) (a b' : Bool) (c d : Nat) :
    ∀ (l : List SubTlv), l.find? SubTlv.isCtx = none →
    setFirstCtxCompress bb (l ++ [.context a b' c d]) =
      l ++ [.context a bb c d] := by
  intro l
  induction l with
  | nil => intro _; rfl
  | cons s rest ih =>
    intro h
    cases s with
    | context a2 b2 c2 d2 =>
      rw [List.find?_cons_of_pos _ (by simp [SubTlv.isCtx])] at h
      exact absurd h (by simp)
    | hasRoute a2 b2 =>
      rw [List.find?_cons_of_neg _ (by simp [SubTlv.isCtx])] at h
      simp only [List.cons_append, setFirstCtxCompress]
      exact congrArg (fun xs => SubTlv.hasRoute a2 b2 :: xs) (ih h)
    | borderRouter a2 b2 =>
      rw [List.find?_cons_of_neg _ (by simp [SubTlv.isCtx])] at h
      simp only [List.cons_append, setFirstCtxCompress]
      exact congrArg (fun xs => SubTlv.borderRouter a2 b2 :: xs) (ih h)
    | server a2 b2 c2 =>
      rw [List.find?_cons_of_neg _ (by simp [SubTlv.isCtx])] at h
      simp only [List.cons_append, setFirstCtxCompress]
      exact congrArg (fun xs => SubTlv.server a2 b2 c2 :: xs) (ih h)
    | otherSub a2 b2 c2 =>
      rw [List.find?_cons_of_neg _ (by simp [SubTlv.isCtx])] at h
      simp only [List.cons_append, setFirstCtxCompress]
      exact congrArg (fun xs => SubTlv.otherSub a2 b2 c2 :: xs) (ih h)

/-- `appendBREntry` fills a freshly created BorderRouter sub-TLV sitting
before an arbitrary tail. -/
theorem appendBREntry_mid (st : Bool) (e : BREntry) (l2 : List SubTlv) :
    ∀ (l : List SubTlv), l.find? (SubTlv.isBRWith st) = none →
    appendBREntry st e (l ++ [.borderRouter st []] ++ l2) =
      l ++ [.borderRouter st [e]] ++ l2 := by
  intro l
  induction l with
  | nil =>
    intro _
    simp [appendBREntry]
  | cons s rest ih =>
    intro h
    cases s with
    | borderRouter a b =>
      rw [List.find?_cons] at h
      have ha : (a == st) = false := by
        by_contra hq
        have : SubTlv.isBRWith st (SubTlv.borderRouter a b) = true := by
          simpa [SubTlv.isBRWith] using hq
        rw [this] at h
        simp at h
      have h' : rest.find? (SubTlv.isBRWith st) = none := by
        rwa [show SubTlv.isBRWith st (SubTlv.borderRouter a b) = false by
          simpa [SubTlv.isBRWith] using ha] at h
      simp only [List.cons_append, appendBREntry, ha, Bool.false_eq_true,
        if_false]
      exact congrArg (fun xs => SubTlv.borderRouter a b :: xs) (ih h')
    | hasRoute a b =>
      rw [List.find?_cons_of_neg _ (by simp [SubTlv.isBRWith])] at h
      simp only [List.cons_append, appendBREntry]
      exact congrArg (fun xs => SubTlv.hasRoute a b :: xs) (ih h)
    | context a b c d =>
      rw [List.find?_cons_of_neg _ (by simp [SubTlv.isBRWith])] at h
      simp only [List.cons_append, appendBREntry]
      exact congrArg (fun xs => SubTlv.context a b c d :: xs) (ih h)
    | server a b c =>
      rw [List.find?_cons_of_neg _ (by simp [SubTlv.isBRWith])] at h
      simp only [List.cons_append, appendBREntry]
      exact congrArg (fun xs => SubTlv.server a b c :: xs) (ih h)
    | otherSub a b c =>
      rw [List.find?_cons_of_neg _ (by simp [SubTlv.isBRWith])] at h
      simp only [List.cons_append, appendBREntry]
      exact congrArg (fun xs => SubTlv.otherSub a b c :: xs) (ih h)

/-- Wrap-up: a prefix whose sub-TLV members are covered by the old members
plus the one certified appended entry is itself certified and free of empty
sub-TLVs. -/
theorem certP_of_covers (net0 : List NetTlv) (r : Nat) (st : Bool)
    (eD : BREntry) (dst : PfxD) {q : PfxD}
    (hkL : q.prefixLength = dst.prefixLength)
    (hkB : q.prefixBytes = dst.prefixBytes)
    (hMHR : ∀ st2 es2, SubTlv.hasRoute st2 es2 ∈ q.subs →
      SubTlv.hasRoute st2 es2 ∈ dst.subs)
    (hMBR : ∀ st2 es2, SubTlv.borderRouter st2 es2 ∈ q.subs →
      SubTlv.borderRouter st2 es2 ∈ dst.subs ∨
      (st2 = st ∧ (es2 = [eD] ∨
        ∃ es0, SubTlv.borderRouter st es0 ∈ dst.subs ∧ es2 = es0 ++ [eD])))
    (hcert : certP net0 r dst) (hne : neSubs dst)
    (hE : containsMatchingEntryBR
      (findPfx net0 dst.prefixLength dst.prefixBytes) st eD = true) :
    certP net0 r q ∧ neSubs q := by
  refine ⟨⟨?_, ?_⟩, ?_, ?_⟩
  · intro st2 es2 hm e' he' hrm
    rw [hkL, hkB]
    exact hcert.1 st2 es2 (hMHR st2 es2 hm) e' he' hrm
  · intro st2 es2 hm e' he' hrm
    rw [hkL, hkB]
    rcases hMBR st2 es2 hm with hold | ⟨rfl, hnew⟩
    · exact hcert.2 st2 es2 hold e' he' hrm
    · rcases hnew with rfl | ⟨es0, hm0, rfl⟩
      · rw [List.mem_singleton.mp he']
        exact hE
      · rcases List.mem_append.mp he' with h' | h'
        · exact hcert.2 st2 es0 hm0 e' h' hrm
        · rw [List.mem_singleton.mp h']
          exact hE
  · intro st2 es2 hm
    exact hne.1 st2 es2 (hMHR st2 es2 hm)
  · intro st2 es2 hm
    rcases hMBR st2 es2 hm with hold | ⟨rfl, hnew⟩
    · exact hne.2 st2 es2 hold
    · rcases hnew with rfl | ⟨es0, hm0, rfl⟩
      · simp
      · simp

/-- Wrap-up for `AddHasRoute` (same coverage argument, HasRoute side). -/
theorem certP_of_coversHR (net0 : List NetTlv) (r : Nat) (st : Bool)
    (eD : HREntry) (dst : PfxD) {q : PfxD}
    (hkL : q.prefixLength = dst.prefixLength)
    (hkB : q.prefixBytes = dst.prefixBytes)
    (hMHR : ∀ st2 es2, SubTlv.hasRoute st2 es2 ∈ q.subs →
      SubTlv.hasRoute st2 es2 ∈ dst.subs ∨
      (st2 = st ∧ (es2 = [eD] ∨
        ∃ es0, SubTlv.hasRoute st es0 ∈ dst.subs ∧ es2 = es0 ++ [eD])))
    (hMBR : ∀ st2 es2, SubTlv.borderRouter st2 es2 ∈ q.subs →
      SubTlv.borderRouter st2 es2 ∈ dst.subs)
    (hcert : certP net0 r dst) (hne : neSubs dst)
    (hE : containsMatchingEntryHR
      (findPfx net0 dst.prefixLength dst.prefixBytes) st eD = true) :
    certP net0 r q ∧ neSubs q := by
  refine ⟨⟨?_, ?_⟩, ?_, ?_⟩
  · intro st2 es2 hm e' he' hrm
    rw [hkL, hkB]
    rcases hMHR st2 es2 hm with hold | ⟨rfl, hnew⟩
    · exact hcert.1 st2 es2 hold e' he' hrm
    · rcases hnew with rfl | ⟨es0, hm0, rfl⟩
      · rw [List.mem_singleton.mp he']
        exact hE
      · rcases List.mem_append.mp he' with h' | h'
        · exact hcert.1 st2 es0 hm0 e' h' hrm
        · rw [List.mem_singleton.mp h']
          exact hE
  · intro st2 es2 hm e' he' hrm
    rw [hkL, hkB]
    exact hcert.2 st2 es2 (hMBR st2 es2 hm) e' he' hrm
  · intro st2 es2 hm
    rcases hMHR st2 es2 hm with hold | ⟨rfl, hnew⟩
    · exact hne.1 st2 es2 hold
    · rcases hnew with rfl | ⟨es0, hm0, rfl⟩
      · simp
      · simp
  · intro st2 es2 hm
    exact hne.2 st2 es2 (hMBR st2 es2 hm)

/-- A successful `AddHasRoute` keeps the destination certified, free of empty
sub-TLVs, and key-stable, provided the appended entry is itself certified. -/
theorem addHasRoute_clean (net0 : List NetTlv) (r : Nat) (st : Bool)
    (es : List HREntry) (dst : PfxD) (others : Nat) (fl : ChangedFlags)
    (hok : (addHasRoute st es dst others fl).1 = .ok)
    (hcert : certP net0 r dst) (hne : neSubs dst)
    (hE : containsMatchingEntryHR
      (findPfx net0 dst.prefixLength dst.prefixBytes) st
      (es.headD ⟨0, 0⟩) = true) :
    certP net0 r (addHasRoute st es dst others fl).2.1 ∧
    neSubs (addHasRoute st es dst others fl).2.1 := by
  rcases hf : dst.subs.find? (SubTlv.isHRWith st) with _ | s
  · simp only [addHasRoute, hf] at hok ⊢
    by_cases hq1 : others + dst.size + (2 + 3) ≤ kMaxSize
    · rw [if_pos hq1] at hok ⊢
      by_cases hq2 : others + PfxD.size { dst with
          subs := dst.subs ++ [SubTlv.hasRoute st []] } + 3 ≤ kMaxSize
      · rw [if_pos hq2] at hok ⊢
        have hcr := appendHREntry_create st (es.headD ⟨0, 0⟩) dst.subs hf
        simp only [hcr]
        refine certP_of_coversHR net0 r st (es.headD ⟨0, 0⟩) dst
          rfl rfl ?_ ?_ hcert hne hE
        · intro st2 es2 hm
          rcases List.mem_append.mp hm with h' | h'
          · exact Or.inl h'
          · have := List.mem_singleton.mp h'
            injection this with h1 h2
            exact Or.inr ⟨h1, Or.inl h2⟩
        · intro st2 es2 hm
          rcases List.mem_append.mp hm with h' | h'
          · exact h'
          · exact absurd (List.mem_singleton.mp h') (by simp)
      · rw [if_neg hq2] at hok
        exact absurd hok (by simp)
    · rw [if_neg hq1] at hok
      exact absurd hok (by simp)
  · obtain ⟨des, rfl⟩ := find?_isHRWith_shape hf
    simp only [addHasRoute, hf] at hok ⊢
    by_cases hc : des.contains (es.headD ⟨0, 0⟩) = true
    · rw [if_pos hc] at hok ⊢
      exact ⟨hcert, hne⟩
    · rw [if_neg hc] at hok ⊢
      by_cases hq1 : others + dst.size + 3 ≤ kMaxSize
      · rw [if_pos hq1] at hok ⊢
        refine certP_of_coversHR net0 r st (es.headD ⟨0, 0⟩) dst
          rfl rfl ?_ ?_ hcert hne hE
        · intro st2 es2 hm
          rcases mem_appendHREntry st (es.headD ⟨0, 0⟩) hm with
            h' | ⟨es0, hm0, he0, hs0⟩
          · exact Or.inl h'
          · exact Or.inr ⟨hs0, Or.inr ⟨es0, by rw [← hs0]; exact hm0, he0⟩⟩
        · intro st2 es2 hm
          exact mem_br_appendHREntry st (es.headD ⟨0, 0⟩) hm
      · rw [if_neg hq1] at hok
        exact absurd hok (by simp)

theorem addHasRoute_key (st : Bool) (es : List HREntry) (dst : PfxD)
    (others : Nat) (fl : ChangedFlags) :
    (addHasRoute st es dst others fl).2.1.prefixLength = dst.prefixLength ∧
    (addHasRoute st es dst others fl).2.1.prefixBytes = dst.prefixBytes := by
  unfold addHasRoute
  simp only []
  repeat' split
  all_goals exact ⟨rfl, rfl⟩

theorem addBorderRouter_key (st : Bool) (es : List BREntry) (dst : PfxD)
    (others : Nat) (sl : Nat → Nat) (fl : ChangedFlags) (clone : Bool) :
    (addBorderRouter st es dst others sl fl clone).2.1.prefixLength =
      dst.prefixLength ∧
    (addBorderRouter st es dst others sl fl clone).2.1.prefixBytes =
      dst.prefixBytes := by
  unfold addBorderRouter
  simp only []
  repeat' split
  all_goals exact ⟨rfl, rfl⟩

/-- A successful `AddBorderRouter` keeps the destination certified and free
of empty sub-TLVs, provided the appended entry is itself certified. -/
theorem addBorderRouter_clean (net0 : List NetTlv) (r : Nat) (st : Bool)
    (es : List BREntry) (dst : PfxD) (others : Nat) (sl : Nat → Nat)
    (fl : ChangedFlags) (clone : Bool)
    (hok : (addBorderRouter st es dst others sl fl clone).1 = .ok)
    (hcert : certP net0 r dst) (hne : neSubs dst)
    (hE : containsMatchingEntryBR
      (findPfx net0 dst.prefixLength dst.prefixBytes) st
      (es.headD ⟨0, 0⟩) = true) :
    certP net0 r (addBorderRouter st es dst others sl fl clone).2.1 ∧
    neSubs (addBorderRouter st es dst others sl fl clone).2.1 := by
  by_cases hC : (dst.subs.find? SubTlv.isCtx).isSome = true
  · obtain ⟨c, hfc⟩ := Option.isSome_iff_exists.mp hC
    obtain ⟨cst0, cco0, ci0, cl0, rfl⟩ := find?_isCtx_shape hfc
    by_cases hB : (dst.subs.find? (SubTlv.isBRWith st)).isSome = true
    · -- a Context and a same-stable BorderRouter both exist
      obtain ⟨cb, hfb⟩ := Option.isSome_iff_exists.mp hB
      obtain ⟨desB0, rfl⟩ := find?_isBRWith_shape hfb
      simp only [addBorderRouter, hfc, hfb, Option.isSome_some, Bool.not_true,
        Bool.false_and, Bool.true_and, Bool.false_eq_true, if_false, if_true]
        at hok ⊢
      by_cases hst : st = true
      · rw [if_pos hst] at hok ⊢
        split at hok
        · rename_i h1
          rw [if_pos h1]
          refine certP_of_covers net0 r st (es.headD ⟨0, 0⟩) dst rfl rfl
            ?_ ?_ hcert hne hE
          · intro st2 es2 hm
            exact mem_hr_setFirstCtxStable (mem_hr_setFirstCtxCompress true hm)
          · intro st2 es2 hm
            exact Or.inl (mem_br_setFirstCtxStable
              (mem_br_setFirstCtxCompress true hm))
        · rename_i h1
          split at hok
          · rename_i h2
            rw [if_neg h1, if_pos h2]
            refine certP_of_covers net0 r st (es.headD ⟨0, 0⟩) dst rfl rfl
              ?_ ?_ hcert hne hE
            · intro st2 es2 hm
              exact mem_hr_setFirstCtxStable (mem_hr_setFirstCtxCompress true
                (mem_hr_appendBREntry st (es.headD ⟨0, 0⟩) hm))
            · intro st2 es2 hm
              rcases mem_appendBREntry st (es.headD ⟨0, 0⟩) hm with
                h' | ⟨es0, hm0, he0, hs0⟩
              · exact Or.inl (mem_br_setFirstCtxStable
                  (mem_br_setFirstCtxCompress true h'))
              · refine Or.inr ⟨hs0, Or.inr ⟨es0, ?_, he0⟩⟩
                rw [← hs0]
                exact mem_br_setFirstCtxStable
                  (mem_br_setFirstCtxCompress true hm0)
          · exact absurd hok (by simp)
      · rw [if_neg hst] at hok ⊢
        split at hok
        · rename_i h1
          rw [if_pos h1]
          refine certP_of_covers net0 r st (es.headD ⟨0, 0⟩) dst rfl rfl
            ?_ ?_ hcert hne hE
          · intro st2 es2 hm
            exact mem_hr_setFirstCtxCompress true hm
          · intro st2 es2 hm
            exact Or.inl (mem_br_setFirstCtxCompress true hm)
        · rename_i h1
          split at hok
          · rename_i h2
            rw [if_neg h1, if_pos h2]
            refine certP_of_covers net0 r st (es.headD ⟨0, 0⟩) dst rfl rfl
              ?_ ?_ hcert hne hE
            · intro st2 es2 hm
              exact mem_hr_setFirstCtxCompress true
                (mem_hr_appendBREntry st (es.headD ⟨0, 0⟩) hm)
            · intro st2 es2 hm
              rcases mem_appendBREntry st (es.headD ⟨0, 0⟩) hm with
                h' | ⟨es0, hm0, he0, hs0⟩
              · exact Or.inl (mem_br_setFirstCtxCompress true h')
              · refine Or.inr ⟨hs0, Or.inr ⟨es0, ?_, he0⟩⟩
                rw [← hs0]
                exact mem_br_setFirstCtxCompress true hm0
          · exact absurd hok (by simp)
    · -- a Context exists but no same-stable BorderRouter: one is created
      have hfbn : dst.subs.find? (SubTlv.isBRWith st) = none :=
        Option.not_isSome_iff_eq_none.mp hB
      simp only [addBorderRouter, hfc, hfbn, Option.isSome_some,
        Option.isSome_none, Bool.not_true, Bool.not_false, Bool.false_and,
        Bool.true_and, Bool.false_eq_true, if_false, if_true] at hok ⊢
      by_cases hq1 : others + dst.size + (2 + 4 + 0) ≤ kMaxSize
      · have hgb1 : (!decide (others + dst.size + (2 + 4 + 0) ≤ kMaxSize)) =
            false := by simp [hq1]
        simp only [hgb1, Bool.false_eq_true, if_false, if_true] at hok ⊢
        by_cases hst : st = true
        · rw [if_pos hst] at hok ⊢
          have hS : setFirstCtxStable (dst.subs ++ [SubTlv.borderRouter st []]) =
              setFirstCtxStable dst.subs ++ [SubTlv.borderRouter st []] :=
            setFirstCtxStable_append_nonctx
              (show SubTlv.isCtx (SubTlv.borderRouter st []) = false from rfl)
              dst.subs
          have hCpull : setFirstCtxCompress true
              (setFirstCtxStable dst.subs ++ [SubTlv.borderRouter st []]) =
              setFirstCtxCompress true (setFirstCtxStable dst.subs) ++
                [SubTlv.borderRouter st []] :=
            setFirstCtxCompress_append_nonctx true
              (show SubTlv.isCtx (SubTlv.borderRouter st []) = false from rfl) _
          have hfn2 : (setFirstCtxCompress true
              (setFirstCtxStable dst.subs)).find? (SubTlv.isBRWith st) = none := by
            rw [find?_br_setFirstCtxCompress, find?_br_setFirstCtxStable]
            exact hfbn
          have hA : appendBREntry st (es.headD ⟨0, 0⟩)
              (setFirstCtxCompress true (setFirstCtxStable dst.subs) ++
                [SubTlv.borderRouter st []]) =
              setFirstCtxCompress true (setFirstCtxStable dst.subs) ++
                [SubTlv.borderRouter st [es.headD ⟨0, 0⟩]] :=
            appendBREntry_create st _ _ hfn2
          simp only [hS, hCpull, hA] at hok ⊢
          have hfind2 : (setFirstCtxCompress true (setFirstCtxStable dst.subs) ++
              [SubTlv.borderRouter st []]).find? (SubTlv.isBRWith st) =
              some (SubTlv.borderRouter st []) :=
            find?_append_single_pos _ _ _ hfn2 (by simp [SubTlv.isBRWith])
          have hfbe : firstBREntries st (setFirstCtxCompress true
              (setFirstCtxStable dst.subs) ++ [SubTlv.borderRouter st []]) =
              [] := by
            unfold firstBREntries
            rw [hfind2]
          split at hok
          · rename_i h1
            rw [hfbe] at h1
            simp [List.contains, List.elem] at h1
          · rename_i h1
            split at hok
            · rename_i h2
              rw [if_neg h1, if_pos h2]
              refine certP_of_covers net0 r st (es.headD ⟨0, 0⟩) dst rfl rfl
                ?_ ?_ hcert hne hE
              · intro st2 es2 hm
                rcases List.mem_append.mp hm with h' | h'
                · exact mem_hr_setFirstCtxStable
                    (mem_hr_setFirstCtxCompress true h')
                · exact absurd (List.mem_singleton.mp h') (by simp)
              · intro st2 es2 hm
                rcases List.mem_append.mp hm with h' | h'
                · exact Or.inl (mem_br_setFirstCtxStable
                    (mem_br_setFirstCtxCompress true h'))
                · have hx := List.mem_singleton.mp h'
                  injection hx with h1' h2'
                  exact Or.inr ⟨h1', Or.inl h2'⟩
            · exact absurd hok (by simp)
        · rw [if_neg hst] at hok ⊢
          have hCpull : setFirstCtxCompress true
              (dst.subs ++ [SubTlv.borderRouter st []]) =
              setFirstCtxCompress true dst.subs ++
                [SubTlv.borderRouter st []] :=
            setFirstCtxCompress_append_nonctx true
              (show SubTlv.isCtx (SubTlv.borderRouter st []) = false from rfl) _
          have hfn2 : (setFirstCtxCompress true dst.subs).find?
              (SubTlv.isBRWith st) = none := by
            rw [find?_br_setFirstCtxCompress]
            exact hfbn
          have hA : appendBREntry st (es.headD ⟨0, 0⟩)
              (setFirstCtxCompress true dst.subs ++
                [SubTlv.borderRouter st []]) =
              setFirstCtxCompress true dst.subs ++
                [SubTlv.borderRouter st [es.headD ⟨0, 0⟩]] :=
            appendBREntry_create st _ _ hfn2
          simp only [hCpull, hA] at hok ⊢
          have hfind2 : (setFirstCtxCompress true dst.subs ++
              [SubTlv.borderRouter st []]).find? (SubTlv.isBRWith st) =
              some (SubTlv.borderRouter st []) :=
            find?_append_single_pos _ _ _ hfn2 (by simp [SubTlv.isBRWith])
          have hfbe : firstBREntries st (setFirstCtxCompress true dst.subs ++
              [SubTlv.borderRouter st []]) = [] := by
            unfold firstBREntries
            rw [hfind2]
          split at hok
          · rename_i h1
            rw [hfbe] at h1
            simp [List.contains, List.elem] at h1
          · rename_i h1
            split at hok
            · rename_i h2
              rw [if_neg h1, if_pos h2]
              refine certP_of_covers net0 r st (es.headD ⟨0, 0⟩) dst rfl rfl
                ?_ ?_ hcert hne hE
              · intro st2 es2 hm
                rcases List.mem_append.mp hm with h' | h'
                · exact mem_hr_setFirstCtxCompress true h'
                · exact absurd (List.mem_singleton.mp h') (by simp)
              · intro st2 es2 hm
                rcases List.mem_append.mp hm with h' | h'
                · exact Or.inl (mem_br_setFirstCtxCompress true h')
                · have hx := List.mem_singleton.mp h'
                  injection hx with h1' h2'
                  exact Or.inr ⟨h1', Or.inl h2'⟩
            · exact absurd hok (by simp)
      · have hgb1 : (!decide (others + dst.size + (2 + 4 + 0) ≤ kMaxSize)) =
            true := by simp [hq1]
        simp only [hgb1, Bool.false_eq_true, if_false, if_true] at hok
        exact absurd hok (by simp)
  · have hfcn : dst.subs.find? SubTlv.isCtx = none :=
      Option.not_isSome_iff_eq_none.mp hC
    rcases hg : getUnallocatedId sl clone with ⟨e1, cid⟩
    cases e1 with
    | ok =>
      by_cases hB : (dst.subs.find? (SubTlv.isBRWith st)).isSome = true
      · -- a same-stable BorderRouter exists but no Context: one is created
        obtain ⟨cb, hfb⟩ := Option.isSome_iff_exists.mp hB
        obtain ⟨desB0, rfl⟩ := find?_isBRWith_shape hfb
        simp only [addBorderRouter, hfcn, hfb, Option.isSome_some,
          Option.isSome_none, Bool.not_true, Bool.not_false, Bool.false_and,
          Bool.true_and, hg, Bool.false_eq_true, if_false, if_true] at hok ⊢
        by_cases hq2 : others + dst.size + (4 + 4) ≤ kMaxSize
        · have hgb2 : (!decide (others + dst.size + (4 + 4) ≤ kMaxSize)) =
              false := by simp [hq2]
          simp only [hgb2, Bool.false_eq_true, if_false, if_true] at hok ⊢
          by_cases hst : st = true
          · rw [if_pos hst] at hok ⊢
            have hS : setFirstCtxStable (dst.subs ++
                [SubTlv.context false false cid dst.prefixLength]) =
                dst.subs ++ [SubTlv.context true false cid dst.prefixLength] :=
              setFirstCtxStable_append_ctx false false cid dst.prefixLength
                dst.subs hfcn
            have hCpull : setFirstCtxCompress true (dst.subs ++
                [SubTlv.context true false cid dst.prefixLength]) =
                dst.subs ++ [SubTlv.context true true cid dst.prefixLength] :=
              setFirstCtxCompress_append_ctx true true false cid
                dst.prefixLength dst.subs hfcn
            simp only [hS, hCpull] at hok ⊢
            split at hok
            · rename_i h1
              rw [if_pos h1]
              refine certP_of_covers net0 r st (es.headD ⟨0, 0⟩) dst rfl rfl
                ?_ ?_ hcert hne hE
              · intro st2 es2 hm
                rcases List.mem_append.mp hm with h' | h'
                · exact h'
                · exact absurd (List.mem_singleton.mp h') (by simp)
              · intro st2 es2 hm
                rcases List.mem_append.mp hm with h' | h'
                · exact Or.inl h'
                · exact absurd (List.mem_singleton.mp h') (by simp)
            · rename_i h1
              split at hok
              · rename_i h2
                rw [if_neg h1, if_pos h2]
                refine certP_of_covers net0 r st (es.headD ⟨0, 0⟩) dst rfl rfl
                  ?_ ?_ hcert hne hE
                · intro st2 es2 hm
                  rcases List.mem_append.mp
                      (mem_hr_appendBREntry st (es.headD ⟨0, 0⟩) hm) with h' | h'
                  · exact h'
                  · exact absurd (List.mem_singleton.mp h') (by simp)
                · intro st2 es2 hm
                  rcases mem_appendBREntry st (es.headD ⟨0, 0⟩) hm with
                    h' | ⟨es0, hm0, he0, hs0⟩
                  · rcases List.mem_append.mp h' with h'' | h''
                    · exact Or.inl h''
                    · exact absurd (List.mem_singleton.mp h'') (by simp)
                  · rcases List.mem_append.mp hm0 with h'' | h''
                    · refine Or.inr ⟨hs0, Or.inr ⟨es0, ?_, he0⟩⟩
                      rw [← hs0]
                      exact h''
                    · exact absurd (List.mem_singleton.mp h'') (by simp)
              · exact absurd hok (by simp)
          · rw [if_neg hst] at hok ⊢
            have hCpull : setFirstCtxCompress true (dst.subs ++
                [SubTlv.context false false cid dst.prefixLength]) =
                dst.subs ++ [SubTlv.context false true cid dst.prefixLength] :=
              setFirstCtxCompress_append_ctx true false false cid
                dst.prefixLength dst.subs hfcn
            simp only [hCpull] at hok ⊢
            split at hok
            · rename_i h1
              rw [if_pos h1]
              refine certP_of_covers net0 r st (es.headD ⟨0, 0⟩) dst rfl rfl
                ?_ ?_ hcert hne hE
              · intro st2 es2 hm
                rcases List.mem_append.mp hm with h' | h'
                · exact h'
                · exact absurd (List.mem_singleton.mp h') (by simp)
              · intro st2 es2 hm
                rcases List.mem_append.mp hm with h' | h'
                · exact Or.inl h'
                · exact absurd (List.mem_singleton.mp h') (by simp)
            · rename_i h1
              split at hok
              · rename_i h2
                rw [if_neg h1, if_pos h2]
                refine certP_of_covers net0 r st (es.headD ⟨0, 0⟩) dst rfl rfl
                  ?_ ?_ hcert hne hE
                · intro st2 es2 hm
                  rcases List.mem_append.mp
                      (mem_hr_appendBREntry st (es.headD ⟨0, 0⟩) hm) with h' | h'
                  · exact h'
                  · exact absurd (List.mem_singleton.mp h') (by simp)
                · intro st2 es2 hm
                  rcases mem_appendBREntry st (es.headD ⟨0, 0⟩) hm with
                    h' | ⟨es0, hm0, he0, hs0⟩
                  · rcases List.mem_append.mp h' with h'' | h''
                    · exact Or.inl h''
                    · exact absurd (List.mem_singleton.mp h'') (by simp)
                  · rcases List.mem_append.mp hm0 with h'' | h''
                    · refine Or.inr ⟨hs0, Or.inr ⟨es0, ?_, he0⟩⟩
                      rw [← hs0]
                      exact h''
                    · exact absurd (List.mem_singleton.mp h'') (by simp)
              · exact absurd hok (by simp)
        · have hgb2 : (!decide (others + dst.size + (4 + 4) ≤ kMaxSize)) =
              true := by simp [hq2]
          simp only [hgb2, Bool.false_eq_true, if_false, if_true] at hok
          exact absurd hok (by simp)
      · -- neither exists: both are created
        have hfbn : dst.subs.find? (SubTlv.isBRWith st) = none :=
          Option.not_isSome_iff_eq_none.mp hB
        simp only [addBorderRouter, hfcn, hfbn, Option.isSome_some,
          Option.isSome_none, Bool.not_true, Bool.not_false, Bool.false_and,
          Bool.true_and, hg, Bool.false_eq_true, if_false, if_true] at hok ⊢
        by_cases hq1 : others + dst.size + (2 + 4 + 4) ≤ kMaxSize
        · have hgb1 : (!decide (others + dst.size + (2 + 4 + 4) ≤ kMaxSize)) =
              false := by simp [hq1]
          simp only [hgb1, Bool.false_eq_true, if_false, if_true,
            size_append_br] at hok ⊢
          have hq2 : others + (dst.size + 2) + (4 + 4) ≤ kMaxSize := by
            simp only [kMaxSize] at hq1 ⊢
            omega
          have hgb2 : (!decide (others + (dst.size + 2) + (4 + 4) ≤ kMaxSize)) =
              false := by simp [hq2]
          simp only [hgb2, Bool.false_eq_true, if_false, if_true] at hok ⊢
          have hctx0 : (dst.subs ++ [SubTlv.borderRouter st []]).find?
              SubTlv.isCtx = none := by
            rw [find?_append_single_neg _ _ _ (by simp [SubTlv.isCtx])]
            exact hfcn
          by_cases hst : st = true
          · rw [if_pos hst] at hok ⊢
            have hS : setFirstCtxStable ((dst.subs ++
                [SubTlv.borderRouter st []]) ++
                [SubTlv.context false false cid dst.prefixLength]) =
                (dst.subs ++ [SubTlv.borderRouter st []]) ++
                [SubTlv.context true false cid dst.prefixLength] :=
              setFirstCtxStable_append_ctx false false cid dst.prefixLength
                _ hctx0
            have hCpull : setFirstCtxCompress true ((dst.subs ++
                [SubTlv.borderRouter st []]) ++
                [SubTlv.context true false cid dst.prefixLength]) =
                (dst.subs ++ [SubTlv.borderRouter st []]) ++
                [SubTlv.context true true cid dst.prefixLength] :=
              setFirstCtxCompress_append_ctx true true false cid
                dst.prefixLength _ hctx0
            have hA : appendBREntry st (es.headD ⟨0, 0⟩)
                ((dst.subs ++ [SubTlv.borderRouter st []]) ++
                  [SubTlv.context true true cid dst.prefixLength]) =
                (dst.subs ++ [SubTlv.borderRouter st [es.headD ⟨0, 0⟩]]) ++
                  [SubTlv.context true true cid dst.prefixLength] :=
              appendBREntry_mid st (es.headD ⟨0, 0⟩)
                [SubTlv.context true true cid dst.prefixLength] dst.subs hfbn
            simp only [hS, hCpull, hA] at hok ⊢
            have hfind2 : ((dst.subs ++ [SubTlv.borderRouter st []]) ++
                [SubTlv.context true true cid dst.prefixLength]).find?
                (SubTlv.isBRWith st) = some (SubTlv.borderRouter st []) := by
              rw [find?_append_single_neg _ _ _ (by simp [SubTlv.isBRWith])]
              exact find?_append_single_pos _ _ _ hfbn
                (by simp [SubTlv.isBRWith])
            have hfbe : firstBREntries st ((dst.subs ++
                [SubTlv.borderRouter st []]) ++
                [SubTlv.context true true cid dst.prefixLength]) = [] := by
              unfold firstBREntries
              rw [hfind2]
            split at hok
            · rename_i h1
              rw [hfbe] at h1
              simp [List.contains, List.elem] at h1
            · rename_i h1
              split at hok
              · rename_i h2
                rw [if_neg h1, if_pos h2]
                refine certP_of_covers net0 r st (es.headD ⟨0, 0⟩) dst rfl rfl
                  ?_ ?_ hcert hne hE
                · intro st2 es2 hm
                  rcases List.mem_append.mp hm with h' | h'
                  · rcases List.mem_append.mp h' with h'' | h''
                    · exact h''
                    · exact absurd (List.mem_singleton.mp h'') (by simp)
                  · exact absurd (List.mem_singleton.mp h') (by simp)
                · intro st2 es2 hm
                  rcases List.mem_append.mp hm with h' | h'
                  · rcases List.mem_append.mp h' with h'' | h''
                    · exact Or.inl h''
                    · have hx := List.mem_singleton.mp h''
                      injection hx with h1' h2'
                      exact Or.inr ⟨h1', Or.inl h2'⟩
                  · exact absurd (List.mem_singleton.mp h') (by simp)
              · exact absurd hok (by simp)
          · rw [if_neg hst] at hok ⊢
            have hCpull : setFirstCtxCompress true ((dst.subs ++
                [SubTlv.borderRouter st []]) ++
                [SubTlv.context false false cid dst.prefixLength]) =
                (dst.subs ++ [SubTlv.borderRouter st []]) ++
                [SubTlv.context false true cid dst.prefixLength] :=
              setFirstCtxCompress_append_ctx true false false cid
                dst.prefixLength _ hctx0
            have hA : appendBREntry st (es.headD ⟨0, 0⟩)
                ((dst.subs ++ [SubTlv.borderRouter st []]) ++
                  [SubTlv.context false true cid dst.prefixLength]) =
                (dst.subs ++ [SubTlv.borderRouter st [es.headD ⟨0, 0⟩]]) ++
                  [SubTlv.context false true cid dst.prefixLength] :=
              appendBREntry_mid st (es.headD ⟨0, 0⟩)
                [SubTlv.context false true cid dst.prefixLength] dst.subs hfbn
            simp only [hCpull, hA] at hok ⊢
            have hfind2 : ((dst.subs ++ [SubTlv.borderRouter st []]) ++
                [SubTlv.context false true cid dst.prefixLength]).find?
                (SubTlv.isBRWith st) = some (SubTlv.borderRouter st []) := by
              rw [find?_append_single_neg _ _ _ (by simp [SubTlv.isBRWith])]
              exact find?_append_single_pos _ _ _ hfbn
                (by simp [SubTlv.isBRWith])
            have hfbe : firstBREntries st ((dst.subs ++
                [SubTlv.borderRouter st []]) ++
                [SubTlv.context false true cid dst.prefixLength]) = [] := by
              unfold firstBREntries
              rw [hfind2]
            split at hok
            · rename_i h1
              rw [hfbe] at h1
              simp [List.contains, List.elem] at h1
            · rename_i h1
              split at hok
              · rename_i h2
                rw [if_neg h1, if_pos h2]
                refine certP_of_covers net0 r st (es.headD ⟨0, 0⟩) dst rfl rfl
                  ?_ ?_ hcert hne hE
                · intro st2 es2 hm
                  rcases List.mem_append.mp hm with h' | h'
                  · rcases List.mem_append.mp h' with h'' | h''
                    · exact h''
                    · exact absurd (List.mem_singleton.mp h'') (by simp)
                  · exact absurd (List.mem_singleton.mp h') (by simp)
                · intro st2 es2 hm
                  rcases List.mem_append.mp hm with h' | h'
                  · rcases List.mem_append.mp h' with h'' | h''
                    · exact Or.inl h''
                    · have hx := List.mem_singleton.mp h''
                      injection hx with h1' h2'
                      exact Or.inr ⟨h1', Or.inl h2'⟩
                  · exact absurd (List.mem_singleton.mp h') (by simp)
              · exact absurd hok (by simp)
        · have hgb1 : (!decide (others + dst.size + (2 + 4 + 4) ≤ kMaxSize)) =
              true := by simp [hq1]
          simp only [hgb1, Bool.false_eq_true, if_false, if_true] at hok
          exact absurd hok (by simp)
    | parse => simp [addBorderRouter, hfcn, hg] at hok
    | noBufs => simp [addBorderRouter, hfcn, hg] at hok
    | noRoute => simp [addBorderRouter, hfcn, hg] at hok
    | notFound => simp [addBorderRouter, hfcn, hg] at hok
    | drop => simp [addBorderRouter, hfcn, hg] at hok

/-! ### Per-TLV postconditions of the first add pass -/

/-- Every sub-TLV of the source prefix is absorbed into the destination. -/
def absorbedPfx (dst src : PfxD) : Prop :=
  ∀ sub ∈ src.subs, absorbedSub dst sub

/-- The registry holds, at the source prefix's key, a prefix that absorbed
every source sub-TLV: a second `AddPrefix` run changes nothing. -/
def GoodAtP (tlvs : List NetTlv) (src : PfxD) : Prop :=
  ∃ dst, findPfx tlvs src.prefixLength src.prefixBytes = some dst ∧
    absorbedPfx dst src

/-- The registry holds, at the source service's key, a service already
containing the source's Server sub-TLV (trivial when the source has none). -/
def GoodAtS (tlvs : List NetTlv) (src : SrvD) : Prop :=
  match firstServer src.subs with
  | some (st, s16, sd) =>
    ∃ dst, findSrv tlvs src.enterprise src.serviceData = some dst ∧
      containsMatchingServer (some dst) st s16 sd = true
  | none => True

theorem absorbedSub_congr {q dstF : PfxD} (hsubs : q.subs = dstF.subs)
    {sub : SubTlv} (h : absorbedSub dstF sub) : absorbedSub q sub := by
  cases sub with
  | hasRoute st es =>
    obtain ⟨st0, des, hf, hm⟩ := h
    exact ⟨st0, des, by rw [hsubs]; exact hf, hm⟩
  | borderRouter st es =>
    obtain ⟨⟨st0, des, hf, hm⟩, cst, cco, ci, cl, hc, hcc, hcs⟩ := h
    exact ⟨⟨st0, des, by rw [hsubs]; exact hf, hm⟩,
      cst, cco, ci, cl, by rw [hsubs]; exact hc, hcc, hcs⟩
  | context a b c d => trivial
  | server a b c => trivial
  | otherSub a b c => trivial

theorem certP_congr {q dstF : PfxD} (hsubs : q.subs = dstF.subs)
    (hkL : q.prefixLength = dstF.prefixLength)
    (hkB : q.prefixBytes = dstF.prefixBytes)
    {net0 : List NetTlv} {r : Nat} (h : certP net0 r dstF) : certP net0 r q := by
  constructor
  · intro st es hm e he hrm
    rw [hkL, hkB]
    exact h.1 st es (by rw [← hsubs]; exact hm) e he hrm
  · intro st es hm e he hrm
    rw [hkL, hkB]
    exact h.2 st es (by rw [← hsubs]; exact hm) e he hrm

theorem neSubs_congr {q dstF : PfxD} (hsubs : q.subs = dstF.subs)
    (h : neSubs dstF) : neSubs q := by
  constructor
  · intro st es hm
    exact h.1 st es (by rw [← hsubs]; exact hm)
  · intro st es hm
    exact h.2 st es (by rw [← hsubs]; exact hm)

/-- A validated prefix has at least one HasRoute or BorderRouter sub-TLV. -/
theorem validatePfx_ok_exists_hrbr {p : PfxD} {r : Nat}
    (h : validatePfx p r = .ok) :
    (∃ st es, SubTlv.hasRoute st es ∈ p.subs) ∨
    (∃ st es, SubTlv.borderRouter st es ∈ p.subs) := by
  rcases hl : validatePfxLoop r p.subs ⟨false, false, false, false⟩ with _ | f
  · simp only [validatePfx, hl] at h
    exact absurd h (by simp)
  · simp only [validatePfx, hl] at h
    obtain ⟨g1, g2, g3, g4⟩ := validatePfxLoop_flags r p.subs _ f hl
    simp only [Bool.false_or] at g1 g2 g3 g4
    have hor : (f.stableBR || f.tempBR || f.stableHR || f.tempHR) = true := by
      cases hc : (f.stableBR || f.tempBR || f.stableHR || f.tempHR) with
      | true => rfl
      | false =>
        rw [hc] at h
        simp at h
    simp only [Bool.or_eq_true] at hor
    rcases hor with ((hx | hx) | hx) | hx
    · rw [g3] at hx
      obtain ⟨s, hm, hp⟩ := List.any_eq_true.mp hx
      cases s with
      | borderRouter st' es => exact Or.inr ⟨st', es, hm⟩
      | hasRoute st' es => exact absurd hp (by simp [SubTlv.isBRWith])
      | context a b c d => exact absurd hp (by simp [SubTlv.isBRWith])
      | server a b c => exact absurd hp (by simp [SubTlv.isBRWith])
      | otherSub a b c => exact absurd hp (by simp [SubTlv.isBRWith])
    · rw [g4] at hx
      obtain ⟨s, hm, hp⟩ := List.any_eq_true.mp hx
      cases s with
      | borderRouter st' es => exact Or.inr ⟨st', es, hm⟩
      | hasRoute st' es => exact absurd hp (by simp [SubTlv.isBRWith])
      | context a b c d => exact absurd hp (by simp [SubTlv.isBRWith])
      | server a b c => exact absurd hp (by simp [SubTlv.isBRWith])
      | otherSub a b c => exact absurd hp (by simp [SubTlv.isBRWith])
    · rw [g1] at hx
      obtain ⟨s, hm, hp⟩ := List.any_eq_true.mp hx
      cases s with
      | hasRoute st' es => exact Or.inl ⟨st', es, hm⟩
      | borderRouter st' es => exact absurd hp (by simp [SubTlv.isHRWith])
      | context a b c d => exact absurd hp (by simp [SubTlv.isHRWith])
      | server a b c => exact absurd hp (by simp [SubTlv.isHRWith])
      | otherSub a b c => exact absurd hp (by simp [SubTlv.isHRWith])
    · rw [g2] at hx
      obtain ⟨s, hm, hp⟩ := List.any_eq_true.mp hx
      cases s with
      | hasRoute st' es => exact Or.inl ⟨st', es, hm⟩
      | borderRouter st' es => exact absurd hp (by simp [SubTlv.isHRWith])
      | context a b c d => exact absurd hp (by simp [SubTlv.isHRWith])
      | server a b c => exact absurd hp (by simp [SubTlv.isHRWith])
      | otherSub a b c => exact absurd hp (by simp [SubTlv.isHRWith])

theorem findPfx_append_mid (l rr : List NetTlv) (q : PfxD) (len : Nat)
    (bytes : List Nat) (hl : ∀ t ∈ l, pfxKeyMatch len bytes t = false)
    (hq : pfxKeyMatch len bytes (.pfx q) = true) :
    findPfx (l ++ .pfx q :: rr) len bytes = some q := by
  unfold findPfx
  rw [find?_append_none _ _ _
    (List.find?_eq_none.mpr (fun t ht => by simp [hl t ht]))]
  rw [List.find?_cons_of_pos _ hq]

theorem findSrv_append_mid (l rr : List NetTlv) (w : SrvD) (ent : Nat)
    (sd : List Nat) (hl : ∀ t ∈ l, srvKeyMatch ent sd t = false)
    (hw : srvKeyMatch ent sd (.srv w) = true) :
    findSrv (l ++ .srv w :: rr) ent sd = some w := by
  unfold findSrv
  rw [find?_append_none _ _ _
    (List.find?_eq_none.mpr (fun t ht => by simp [hl t ht]))]
  rw [List.find?_cons_of_pos _ hw]

/-- The sub-TLV loop of `AddPrefix`, on success, absorbs every processed
sub-TLV, preserves prior absorptions, and keeps the destination certified,
nonempty-sub-TLV'd, and key-stable. -/
theorem addPfxSubs_post (net0 : List NetTlv) (r : Nat) (src : PfxD) :
    ∀ (subsrc : List SubTlv) (dst : PfxD) (others : Nat) (sl : Nat → Nat)
      (fl : ChangedFlags) (clone : Bool),
    (∀ sub ∈ subsrc, sub ∈ src.subs) →
    findPfx net0 dst.prefixLength dst.prefixBytes = some src →
    validatePfx src r = .ok →
    certP net0 r dst → neSubs dst →
    (addPfxSubs dst others sl fl clone subsrc).1 = .ok →
    ((∀ sub ∈ subsrc,
        absorbedSub (addPfxSubs dst others sl fl clone subsrc).2.1 sub) ∧
     (∀ sub0, absorbedSub dst sub0 →
        absorbedSub (addPfxSubs dst others sl fl clone subsrc).2.1 sub0) ∧
     certP net0 r (addPfxSubs dst others sl fl clone subsrc).2.1 ∧
     neSubs (addPfxSubs dst others sl fl clone subsrc).2.1 ∧
     (addPfxSubs dst others sl fl clone subsrc).2.1.prefixLength =
       dst.prefixLength ∧
     (addPfxSubs dst others sl fl clone subsrc).2.1.prefixBytes =
       dst.prefixBytes) := by
  intro subsrc
  induction subsrc with
  | nil =>
    intro dst others sl fl clone _ _ _ hcert hne _
    exact ⟨fun sub hs => absurd hs (by simp), fun sub0 h => h, hcert, hne,
      rfl, rfl⟩
  | cons sub rest ih =>
    intro dst others sl fl clone hsubset hfindK hval hcert hne hok
    cases sub with
    | hasRoute st es =>
      rcases hah : addHasRoute st es dst others fl with ⟨e1, dst1, fl1⟩
      cases e1 with
      | ok =>
        simp only [addPfxSubs, hah] at hok ⊢
        have hstep : (addHasRoute st es dst others fl).1 = .ok := by
          rw [hah]
        obtain ⟨hfirst, e0, hes, hrloc⟩ := validatePfx_first_hr hval
          (hsubset _ (List.mem_cons_self _ _))
        have hE : containsMatchingEntryHR
            (findPfx net0 dst.prefixLength dst.prefixBytes) st
            (es.headD ⟨0, 0⟩) = true := by
          rw [hfindK]
          rw [containsMatchingEntryHR_some]
          simp [hfirst, hes]
        obtain ⟨habs1, hmono1⟩ := addHasRoute_post st es dst others fl hstep
        obtain ⟨hcert1, hne1⟩ := addHasRoute_clean net0 r st es dst others fl
          hstep hcert hne hE
        obtain ⟨hkL1, hkB1⟩ := addHasRoute_key st es dst others fl
        rw [hah] at habs1 hmono1 hcert1 hne1 hkL1 hkB1
        simp only [] at habs1 hmono1 hcert1 hne1 hkL1 hkB1
        have hfindK1 : findPfx net0 dst1.prefixLength dst1.prefixBytes =
            some src := by
          rw [hkL1, hkB1]
          exact hfindK
        obtain ⟨ihAbs, ihMono, ihCert, ihNe, ihKL, ihKB⟩ := ih dst1 others sl
          fl1 clone (fun s hs => hsubset s (List.mem_cons_of_mem _ hs))
          hfindK1 hval hcert1 hne1 hok
        refine ⟨?_, ?_, ihCert, ihNe, by rw [ihKL, hkL1], by rw [ihKB, hkB1]⟩
        · intro s hs
          rcases List.mem_cons.mp hs with rfl | hs'
          · exact ihMono _ habs1
          · exact ihAbs s hs'
        · intro sub0 h0
          exact ihMono sub0 (hmono1 sub0 h0)
      | parse => simp only [addPfxSubs, hah] at hok; exact absurd hok (by simp)
      | noBufs => simp only [addPfxSubs, hah] at hok; exact absurd hok (by simp)
      | noRoute => simp only [addPfxSubs, hah] at hok; exact absurd hok (by simp)
      | notFound => simp only [addPfxSubs, hah] at hok; exact absurd hok (by simp)
      | drop => simp only [addPfxSubs, hah] at hok; exact absurd hok (by simp)
    | borderRouter st es =>
      rcases hab : addBorderRouter st es dst others sl fl clone with
        ⟨e1, dst1, sl1, fl1⟩
      cases e1 with
      | ok =>
        simp only [addPfxSubs, hab] at hok ⊢
        have hstep : (addBorderRouter st es dst others sl fl clone).1 = .ok := by
          rw [hab]
        obtain ⟨hfirst, e0, hes, hrloc⟩ := validatePfx_first_br hval
          (hsubset _ (List.mem_cons_self _ _))
        have hE : containsMatchingEntryBR
            (findPfx net0 dst.prefixLength dst.prefixBytes) st
            (es.headD ⟨0, 0⟩) = true := by
          rw [hfindK]
          rw [containsMatchingEntryBR_some]
          simp [hfirst, hes]
        obtain ⟨habs1, hmono1⟩ := addBorderRouter_post st es dst others sl fl
          clone hstep
        obtain ⟨hcert1, hne1⟩ := addBorderRouter_clean net0 r st es dst others
          sl fl clone hstep hcert hne hE
        obtain ⟨hkL1, hkB1⟩ := addBorderRouter_key st es dst others sl fl clone
        rw [hab] at habs1 hmono1 hcert1 hne1 hkL1 hkB1
        simp only [] at habs1 hmono1 hcert1 hne1 hkL1 hkB1
        have hfindK1 : findPfx net0 dst1.prefixLength dst1.prefixBytes =
            some src := by
          rw [hkL1, hkB1]
          exact hfindK
        obtain ⟨ihAbs, ihMono, ihCert, ihNe, ihKL, ihKB⟩ := ih dst1 others sl1
          fl1 clone (fun s hs => hsubset s (List.mem_cons_of_mem _ hs))
          hfindK1 hval hcert1 hne1 hok
        refine ⟨?_, ?_, ihCert, ihNe, by rw [ihKL, hkL1], by rw [ihKB, hkB1]⟩
        · intro s hs
          rcases List.mem_cons.mp hs with rfl | hs'
          · exact ihMono _ habs1
          · exact ihAbs s hs'
        · intro sub0 h0
          exact ihMono sub0 (hmono1 sub0 h0)
      | parse => simp only [addPfxSubs, hab] at hok; exact absurd hok (by simp)
      | noBufs => simp only [addPfxSubs, hab] at hok; exact absurd hok (by simp)
      | noRoute => simp only [addPfxSubs, hab] at hok; exact absurd hok (by simp)
      | notFound => simp only [addPfxSubs, hab] at hok; exact absurd hok (by simp)
      | drop => simp only [addPfxSubs, hab] at hok; exact absurd hok (by simp)
    | context a b c d =>
      simp only [addPfxSubs] at hok ⊢
      obtain ⟨ihAbs, ihMono, ihCert, ihNe, ihKL, ihKB⟩ := ih dst others sl
        fl clone (fun s hs => hsubset s (List.mem_cons_of_mem _ hs))
        hfindK hval hcert hne hok
      refine ⟨?_, ihMono, ihCert, ihNe, ihKL, ihKB⟩
      intro s hs
      rcases List.mem_cons.mp hs with rfl | hs'
      · trivial
      · exact ihAbs s hs'
    | server a b c =>
      simp only [addPfxSubs] at hok ⊢
      obtain ⟨ihAbs, ihMono, ihCert, ihNe, ihKL, ihKB⟩ := ih dst others sl
        fl clone (fun s hs => hsubset s (List.mem_cons_of_mem _ hs))
        hfindK hval hcert hne hok
      refine ⟨?_, ihMono, ihCert, ihNe, ihKL, ihKB⟩
      intro s hs
      rcases List.mem_cons.mp hs with rfl | hs'
      · trivial
      · exact ihAbs s hs'
    | otherSub a b c =>
      simp only [addPfxSubs] at hok ⊢
      obtain ⟨ihAbs, ihMono, ihCert, ihNe, ihKL, ihKB⟩ := ih dst others sl
        fl clone (fun s hs => hsubset s (List.mem_cons_of_mem _ hs))
        hfindK hval hcert hne hok
      refine ⟨?_, ihMono, ihCert, ihNe, ihKL, ihKB⟩
      intro s hs
      rcases List.mem_cons.mp hs with rfl | hs'
      · trivial
      · exact ihAbs s hs'

theorem certS_congr {q dstF : SrvD} (hsubs : q.subs = dstF.subs)
    (hkE : q.enterprise = dstF.enterprise)
    (hkD : q.serviceData = dstF.serviceData)
    {net0 : List NetTlv} {r : Nat} (h : certS net0 r dstF) : certS net0 r q := by
  intro st s16 sd hm hrm
  rw [hkE, hkD]
  exact h st s16 sd (by rw [← hsubs]; exact hm) hrm

theorem containsMatchingServer_congr {q w : SrvD} (hsubs : q.subs = w.subs)
    (st : Bool) (s16 : Nat) (sd : List Nat) :
    containsMatchingServer (some q) st s16 sd =
      containsMatchingServer (some w) st s16 sd := by
  simp only [containsMatchingServer]
  rw [hsubs]

theorem subs_ne_nil_of_contains {w : SrvD} {st : Bool} {s16 : Nat}
    {sd : List Nat} (h : containsMatchingServer (some w) st s16 sd = true) :
    w.subs ≠ [] := by
  simp only [containsMatchingServer] at h
  intro hnil
  rw [hnil] at h
  simp at h

theorem servicesOf_optListP (o : Option PfxD) : servicesOf (optListP o) = [] := by
  rcases o with _ | p <;> simp [optListP, servicesOf]

theorem servicesOf_optListS (o : Option SrvD) :
    servicesOf (optListS o) =
      (match o with | some w => [w] | none => []) := by
  rcases o with _ | w <;> simp [optListS, servicesOf]

theorem pfxKeyMatch_of_eq {len : Nat} {bytes : List Nat} {q : PfxD}
    (hL : q.prefixLength = len) (hB : q.prefixBytes = bytes) :
    pfxKeyMatch len bytes (.pfx q) = true := by
  simp [pfxKeyMatch, hL, hB]

theorem srvKeyMatch_of_eq {ent : Nat} {sd : List Nat} {w : SrvD}
    (hE : w.enterprise = ent) (hD : w.serviceData = sd) :
    srvKeyMatch ent sd (.srv w) = true := by
  simp [srvKeyMatch, hE, hD]

theorem pfxKeyMatch_false_of_eq {len : Nat} {bytes : List Nat} {q p : PfxD}
    (hL : q.prefixLength = p.prefixLength)
    (hB : q.prefixBytes = p.prefixBytes)
    (h : pfxKeyMatch len bytes (.pfx p) = false) :
    pfxKeyMatch len bytes (.pfx q) = false := by
  simp only [pfxKeyMatch, hL, hB] at h ⊢
  exact h

theorem srvKeyMatch_false_of_eq {ent : Nat} {sd : List Nat} {q w : SrvD}
    (hE : q.enterprise = w.enterprise)
    (hD : q.serviceData = w.serviceData)
    (h : srvKeyMatch ent sd (.srv w) = false) :
    srvKeyMatch ent sd (.srv q) = false := by
  simp only [srvKeyMatch, hE, hD] at h ⊢
  exact h

theorem srvKeyMatch_pfx (ent : Nat) (sd : List Nat) (p : PfxD) :
    srvKeyMatch ent sd (.pfx p) = false := rfl

theorem pfxKeyMatch_srv (len : Nat) (bytes : List Nat) (v : SrvD) :
    pfxKeyMatch len bytes (.srv v) = false := rfl

/-- `AddPrefix` on a clean registry, fed a validated prefix that the blob's
`FindPrefix` resolves to itself, keeps the registry clean and leaves at the
source's key a destination that absorbed every source sub-TLV. -/
theorem addPfx_post (net0 : List NetTlv) (r : Nat) (src : PfxD)
    (tlvs : List NetTlv) (sl : Nat → Nat) (fl : ChangedFlags) (clone : Bool)
    (hval : validatePfx src r = .ok)
    (hfindK : findPfx net0 src.prefixLength src.prefixBytes = some src)
    (hclean : Clean net0 r tlvs)
    (hok : (addPfx src tlvs sl fl clone).1 = .ok) :
    Clean net0 r (addPfx src tlvs sl fl clone).2.1 ∧
    GoodAtP (addPfx src tlvs sl fl clone).2.1 src := by
  rcases hsp : splitFirstPfx src.prefixLength src.prefixBytes tlvs with _ | x
  · -- the prefix is not yet in the registry: a fresh one is appended
    simp only [addPfx, hsp] at hok ⊢
    by_cases hsz : sizeAll tlvs + pfxBaseSize src.prefixLength ≤ kMaxSize
    · rw [if_pos hsz] at hok ⊢
      have hcert0 : certP net0 r
          (⟨false, src.domainId, src.prefixLength, src.prefixBytes, []⟩ : PfxD) :=
        ⟨fun st es hm => absurd hm (by simp), fun st es hm => absurd hm (by simp)⟩
      have hne0 : neSubs
          (⟨false, src.domainId, src.prefixLength, src.prefixBytes, []⟩ : PfxD) :=
        ⟨fun st es hm => absurd hm (by simp), fun st es hm => absurd hm (by simp)⟩
      obtain ⟨hAbs, hMono, hCert, hNe, hKL, hKB⟩ :=
        addPfxSubs_post net0 r src src.subs
          ⟨false, src.domainId, src.prefixLength, src.prefixBytes, []⟩
          (sizeAll tlvs) sl fl clone (fun s hs => hs) hfindK hval hcert0 hne0 hok
      have hFne : (addPfxSubs
          ⟨false, src.domainId, src.prefixLength, src.prefixBytes, []⟩
          (sizeAll tlvs) sl fl clone src.subs).2.1.subs ≠ [] := by
        rcases validatePfx_ok_exists_hrbr hval with ⟨st, es, hm⟩ | ⟨st, es, hm⟩
        · obtain ⟨st0, des, hf, -⟩ := hAbs _ hm
          intro hnil
          rw [hnil] at hf
          simp at hf
        · obtain ⟨⟨st0, des, hf, -⟩, -⟩ := hAbs _ hm
          intro hnil
          rw [hnil] at hf
          simp at hf
      rcases hu : updateTlvP (addPfxSubs
          ⟨false, src.domainId, src.prefixLength, src.prefixBytes, []⟩
          (sizeAll tlvs) sl fl clone src.subs).2.1 with _ | q
      · exfalso
        unfold updateTlvP at hu
        rw [if_neg (by simp [isEmpty_false_of_ne hFne])] at hu
        exact absurd hu (by simp)
      · obtain ⟨hqnorm, hqne, hqsubs, hqL, hqB⟩ := updateTlvP_norm hu
        simp only [optListP]
        constructor
        · constructor
          · intro p hp
            rw [prefixesOf_append] at hp
            rcases List.mem_append.mp hp with h1 | h2
            · exact hclean.1 p h1
            · simp [prefixesOf] at h2
              subst h2
              exact ⟨certP_congr hqsubs hqL hqB hCert,
                neSubs_congr hqsubs hNe, hqnorm, hqne⟩
          · intro v hv
            rw [servicesOf_append] at hv
            rcases List.mem_append.mp hv with h1 | h2
            · exact hclean.2 v h1
            · simp [servicesOf] at h2
        · refine ⟨q, ?_, fun sub hs => absorbedSub_congr hqsubs (hAbs sub hs)⟩
          exact findPfx_append_mid tlvs [] q src.prefixLength src.prefixBytes
            (splitFirstPfx_none _ _ _ hsp)
            (pfxKeyMatch_of_eq (by rw [hqL, hKL]) (by rw [hqB, hKB]))
    · rw [if_neg hsz] at hok
      simp at hok
  · -- the prefix is already in the registry: it is updated in place
    obtain ⟨l, dst, rr⟩ := x
    obtain ⟨htl, hkm, hlkeys⟩ :=
      splitFirstPfx_some src.prefixLength src.prefixBytes tlvs l dst rr hsp
    have hkdst : dst.prefixLength = src.prefixLength ∧
        dst.prefixBytes = src.prefixBytes := by
      simpa [pfxKeyMatch] using hkm
    simp only [addPfx, hsp] at hok ⊢
    have hdstmem : dst ∈ prefixesOf tlvs := by
      rw [htl, prefixesOf_append]
      refine List.mem_append.mpr (Or.inr ?_)
      simp [prefixesOf]
    obtain ⟨hcertD, hneD, hnormD, hsubsD⟩ := hclean.1 dst hdstmem
    have hfindKd : findPfx net0 dst.prefixLength dst.prefixBytes = some src := by
      rw [hkdst.1, hkdst.2]
      exact hfindK
    obtain ⟨hAbs, hMono, hCert, hNe, hKL, hKB⟩ :=
      addPfxSubs_post net0 r src src.subs dst (sizeAll l + sizeAll rr) sl fl
        clone (fun s hs => hs) hfindKd hval hcertD hneD hok
    have hFne : (addPfxSubs dst (sizeAll l + sizeAll rr) sl fl clone
        src.subs).2.1.subs ≠ [] := by
      rcases validatePfx_ok_exists_hrbr hval with ⟨st, es, hm⟩ | ⟨st, es, hm⟩
      · obtain ⟨st0, des, hf, -⟩ := hAbs _ hm
        intro hnil
        rw [hnil] at hf
        simp at hf
      · obtain ⟨⟨st0, des, hf, -⟩, -⟩ := hAbs _ hm
        intro hnil
        rw [hnil] at hf
        simp at hf
    rcases hu : updateTlvP (addPfxSubs dst (sizeAll l + sizeAll rr) sl fl clone
        src.subs).2.1 with _ | q
    · exfalso
      unfold updateTlvP at hu
      rw [if_neg (by simp [isEmpty_false_of_ne hFne])] at hu
      exact absurd hu (by simp)
    · obtain ⟨hqnorm, hqne, hqsubs, hqL, hqB⟩ := updateTlvP_norm hu
      simp only [optListP]
      constructor
      · constructor
        · intro p hp
          rw [prefixesOf_append, prefixesOf_append] at hp
          rcases List.mem_append.mp hp with h12 | h3
          · rcases List.mem_append.mp h12 with h1 | h2
            · refine hclean.1 p ?_
              rw [htl, prefixesOf_append]
              exact List.mem_append.mpr (Or.inl h1)
            · simp [prefixesOf] at h2
              subst h2
              exact ⟨certP_congr hqsubs hqL hqB hCert,
                neSubs_congr hqsubs hNe, hqnorm, hqne⟩
          · refine hclean.1 p ?_
            rw [htl, prefixesOf_append]
            refine List.mem_append.mpr (Or.inr ?_)
            simp [prefixesOf]
            exact Or.inr h3
        · intro v hv
          rw [servicesOf_append, servicesOf_append] at hv
          rcases List.mem_append.mp hv with h12 | h3
          · rcases List.mem_append.mp h12 with h1 | h2
            · refine hclean.2 v ?_
              rw [htl, servicesOf_append]
              exact List.mem_append.mpr (Or.inl h1)
            · simp [servicesOf] at h2
          · refine hclean.2 v ?_
            rw [htl, servicesOf_append]
            refine List.mem_append.mpr (Or.inr ?_)
            simp [servicesOf]
            exact h3
      · refine ⟨q, ?_, fun sub hs => absorbedSub_congr hqsubs (hAbs sub hs)⟩
        have hmid := findPfx_append_mid l rr q src.prefixLength src.prefixBytes
          hlkeys
          (pfxKeyMatch_of_eq (by rw [hqL, hKL, hkdst.1]) (by rw [hqB, hKB, hkdst.2]))
        simpa [List.append_assoc] using hmid

/-- A successful `AddServer` either leaves the destination unchanged or
appends the requested Server sub-TLV; either way the result contains a
byte-identical Server sub-TLV and keeps the service key. -/
theorem addServer_post (st : Bool) (s16 : Nat) (sd : List Nat) (dst : SrvD)
    (others : Nat) (fl : ChangedFlags)
    (hok : (addServer st s16 sd dst others fl).1 = .ok) :
    ((addServer st s16 sd dst others fl).2.1.subs = dst.subs ∨
     (addServer st s16 sd dst others fl).2.1.subs =
       dst.subs ++ [.server st s16 sd]) ∧
    containsMatchingServer (some (addServer st s16 sd dst others fl).2.1)
      st s16 sd = true ∧
    (addServer st s16 sd dst others fl).2.1.enterprise = dst.enterprise ∧
    (addServer st s16 sd dst others fl).2.1.serviceData = dst.serviceData := by
  unfold addServer at hok ⊢
  by_cases h1 : containsMatchingServer (some dst) st s16 sd = true
  · rw [if_pos h1]
    exact ⟨Or.inl rfl, h1, rfl, rfl⟩
  · rw [if_neg h1] at hok ⊢
    by_cases h2 : others + dst.size + (4 + sd.length) ≤ kMaxSize
    · rw [if_pos h2]
      refine ⟨Or.inr rfl, ?_, rfl, rfl⟩
      simp only [containsMatchingServer]
      rw [List.any_eq_true]
      exact ⟨.server st s16 sd, by simp, by simp⟩
    · rw [if_neg h2] at hok
      simp at hok

/-- `AddService` on a clean registry, fed a service that the blob's
`FindService` resolves to itself, keeps the registry clean and leaves at the
source's key a destination containing the source's Server sub-TLV. -/
theorem addService_post (net0 : List NetTlv) (r : Nat) (src : SrvD)
    (tlvs : List NetTlv) (fl : ChangedFlags) (clone : Bool)
    (hfindK : findSrv net0 src.enterprise src.serviceData = some src)
    (hclean : Clean net0 r tlvs)
    (hok : (addService src tlvs fl clone).1 = .ok) :
    Clean net0 r (addService src tlvs fl clone).2.1 ∧
    GoodAtS (addService src tlvs fl clone).2.1 src := by
  rcases hfs : firstServer src.subs with _ | ⟨st, s16, sd⟩ <;>
    rcases hsp : splitFirstSrv src.enterprise src.serviceData tlvs with _ | x
  · -- no Server sub-TLV, service not present: allocation, then nothing added
    rcases hal : allocateServiceId tlvs clone with ⟨e, sid⟩
    cases e with
    | ok =>
      simp only [addService, hsp, hal, hfs] at hok ⊢
      by_cases hsz : sizeAll tlvs + srvBaseSize src.serviceData.length ≤ kMaxSize
      · rw [if_pos hsz] at hok ⊢
        have hu0 : updateTlvS
            (⟨false, sid, src.enterprise, src.serviceData, []⟩ : SrvD) = none := by
          unfold updateTlvS
          rw [if_pos (by simp)]
        rw [hu0]
        simp only [optListS, List.append_nil]
        exact ⟨hclean, by simp only [GoodAtS, hfs]⟩
      · rw [if_neg hsz] at hok
        simp at hok
    | parse => simp [addService, hsp, hal] at hok
    | noBufs => simp [addService, hsp, hal] at hok
    | noRoute => simp [addService, hsp, hal] at hok
    | notFound => simp [addService, hsp, hal] at hok
    | drop => simp [addService, hsp, hal] at hok
  · -- no Server sub-TLV, service present: rewritten unchanged
    obtain ⟨l, dst, rr⟩ := x
    obtain ⟨htl, hkm, hlkeys⟩ :=
      splitFirstSrv_some src.enterprise src.serviceData tlvs l dst rr hsp
    have hdstmem : dst ∈ servicesOf tlvs := by
      rw [htl, servicesOf_append]
      refine List.mem_append.mpr (Or.inr ?_)
      simp [servicesOf]
    obtain ⟨hcertD, hnormD, hsubsD⟩ := hclean.2 dst hdstmem
    simp only [addService, hsp, hfs] at hok ⊢
    rw [updateTlvS_id hnormD hsubsD]
    simp only [optListS]
    have hout : l ++ [NetTlv.srv dst] ++ rr = tlvs := by
      rw [htl]
      simp
    rw [hout]
    exact ⟨hclean, by simp only [GoodAtS, hfs]⟩
  · -- Server sub-TLV present, service not in the registry: created fresh
    rcases hal : allocateServiceId tlvs clone with ⟨e, sid⟩
    cases e with
    | ok =>
      simp only [addService, hsp, hal, hfs] at hok ⊢
      by_cases hsz : sizeAll tlvs + srvBaseSize src.serviceData.length ≤ kMaxSize
      · rw [if_pos hsz] at hok ⊢
        obtain ⟨hsubs', hcontains, hkE, hkD⟩ :=
          addServer_post st s16 sd ⟨false, sid, src.enterprise, src.serviceData, []⟩
            (sizeAll tlvs) fl hok
        simp only [] at hkE hkD
        have hQne : (addServer st s16 sd
            (⟨false, sid, src.enterprise, src.serviceData, []⟩ : SrvD)
            (sizeAll tlvs) fl).2.1.subs ≠ [] :=
          subs_ne_nil_of_contains hcontains
        rcases hu : updateTlvS (addServer st s16 sd
            (⟨false, sid, src.enterprise, src.serviceData, []⟩ : SrvD)
            (sizeAll tlvs) fl).2.1 with _ | q
        · exfalso
          unfold updateTlvS at hu
          rw [if_neg (by simp [isEmpty_false_of_ne hQne])] at hu
          exact absurd hu (by simp)
        · obtain ⟨hqnorm, hqne, hqsubs, hqE, hqD⟩ := updateTlvS_norm hu
          simp only [optListS]
          have hfindQ : findSrv (tlvs ++ [NetTlv.srv q]) src.enterprise
              src.serviceData = some q :=
            findSrv_append_mid tlvs [] q src.enterprise src.serviceData
              (splitFirstSrv_none _ _ _ hsp)
              (srvKeyMatch_of_eq (by rw [hqE, hkE]) (by rw [hqD, hkD]))
          constructor
          · constructor
            · intro p hp
              rw [prefixesOf_append] at hp
              rcases List.mem_append.mp hp with h1 | h2
              · exact hclean.1 p h1
              · simp [prefixesOf] at h2
            · intro v hv
              rw [servicesOf_append] at hv
              rcases List.mem_append.mp hv with h1 | h2
              · exact hclean.2 v h1
              · simp [servicesOf] at h2
                subst h2
                refine ⟨?_, hqnorm, hqne⟩
                intro st2 s162 sd2 hm hrm
                rw [hqE, hkE, hqD, hkD, hfindK]
                rw [hqsubs] at hm
                rcases hsubs' with h | h
                · rw [h] at hm
                  simp at hm
                · rw [h] at hm
                  simp at hm
                  obtain ⟨rfl, rfl, rfl⟩ := hm
                  exact containsMatchingServer_of_mem (firstServer_mem hfs)
          · simp only [GoodAtS, hfs]
            refine ⟨q, hfindQ, ?_⟩
            rw [containsMatchingServer_congr hqsubs st s16 sd]
            exact hcontains
      · rw [if_neg hsz] at hok
        simp at hok
    | parse => simp [addService, hsp, hal] at hok
    | noBufs => simp [addService, hsp, hal] at hok
    | noRoute => simp [addService, hsp, hal] at hok
    | notFound => simp [addService, hsp, hal] at hok
    | drop => simp [addService, hsp, hal] at hok
  · -- Server sub-TLV present, service already in the registry
    obtain ⟨l, dst, rr⟩ := x
    obtain ⟨htl, hkm, hlkeys⟩ :=
      splitFirstSrv_some src.enterprise src.serviceData tlvs l dst rr hsp
    have hkdst : dst.enterprise = src.enterprise ∧
        dst.serviceData = src.serviceData := by
      simpa [srvKeyMatch] using hkm
    have hdstmem : dst ∈ servicesOf tlvs := by
      rw [htl, servicesOf_append]
      refine List.mem_append.mpr (Or.inr ?_)
      simp [servicesOf]
    obtain ⟨hcertD, hnormD, hsubsD⟩ := hclean.2 dst hdstmem
    simp only [addService, hsp, hfs] at hok ⊢
    obtain ⟨hsubs', hcontains, hkE, hkD⟩ :=
      addServer_post st s16 sd dst (sizeAll l + sizeAll rr) fl hok
    have hQne : (addServer st s16 sd dst (sizeAll l + sizeAll rr)
        fl).2.1.subs ≠ [] :=
      subs_ne_nil_of_contains hcontains
    rcases hu : updateTlvS (addServer st s16 sd dst (sizeAll l + sizeAll rr)
        fl).2.1 with _ | q
    · exfalso
      unfold updateTlvS at hu
      rw [if_neg (by simp [isEmpty_false_of_ne hQne])] at hu
      exact absurd hu (by simp)
    · obtain ⟨hqnorm, hqne, hqsubs, hqE, hqD⟩ := updateTlvS_norm hu
      simp only [optListS]
      have hfindQ : findSrv (l ++ [NetTlv.srv q] ++ rr) src.enterprise
          src.serviceData = some q := by
        have hmid := findSrv_append_mid l rr q src.enterprise src.serviceData
          hlkeys
          (srvKeyMatch_of_eq (by rw [hqE, hkE, hkdst.1]) (by rw [hqD, hkD, hkdst.2]))
        simpa [List.append_assoc] using hmid
      have hcq : certS net0 r q := by
        intro st2 s162 sd2 hm hrm
        rw [hqE, hkE, hqD, hkD]
        rw [hqsubs] at hm
        rcases hsubs' with h | h
        · rw [h] at hm
          exact hcertD st2 s162 sd2 hm hrm
        · rw [h] at hm
          rcases List.mem_append.mp hm with hm1 | hm2
          · exact hcertD st2 s162 sd2 hm1 hrm
          · simp at hm2
            obtain ⟨rfl, rfl, rfl⟩ := hm2
            rw [hkdst.1, hkdst.2, hfindK]
            exact containsMatchingServer_of_mem (firstServer_mem hfs)
      constructor
      · constructor
        · intro p hp
          rw [prefixesOf_append, prefixesOf_append] at hp
          rcases List.mem_append.mp hp with h12 | h3
          · rcases List.mem_append.mp h12 with h1 | h2
            · refine hclean.1 p ?_
              rw [htl, prefixesOf_append]
              exact List.mem_append.mpr (Or.inl h1)
            · simp [prefixesOf] at h2
          · refine hclean.1 p ?_
            rw [htl, prefixesOf_append]
            refine List.mem_append.mpr (Or.inr ?_)
            simp [prefixesOf]
            exact h3
        · intro v hv
          rw [servicesOf_append, servicesOf_append] at hv
          rcases List.mem_append.mp hv with h12 | h3
          · rcases List.mem_append.mp h12 with h1 | h2
            · refine hclean.2 v ?_
              rw [htl, servicesOf_append]
              exact List.mem_append.mpr (Or.inl h1)
            · simp [servicesOf] at h2
              subst h2
              exact ⟨hcq, hqnorm, hqne⟩
          · refine hclean.2 v ?_
            rw [htl, servicesOf_append]
            refine List.mem_append.mpr (Or.inr ?_)
            simp [servicesOf]
            exact Or.inr h3
      · simp only [GoodAtS, hfs]
        refine ⟨q, hfindQ, ?_⟩
        rw [containsMatchingServer_congr hqsubs st s16 sd]
        exact hcontains

/-! ### Frame lemmas: an add step leaves TLVs under other keys alone -/

theorem addPfxSubs_keyAll (others : Nat) (clone : Bool) :
    ∀ (subsrc : List SubTlv) (dst : PfxD) (sl : Nat → Nat) (fl : ChangedFlags),
    (addPfxSubs dst others sl fl clone subsrc).2.1.prefixLength =
      dst.prefixLength ∧
    (addPfxSubs dst others sl fl clone subsrc).2.1.prefixBytes =
      dst.prefixBytes := by
  intro subsrc
  induction subsrc with
  | nil => intro dst sl fl; exact ⟨rfl, rfl⟩
  | cons sub rest ih =>
    intro dst sl fl
    cases sub with
    | hasRoute st es =>
      rcases hah : addHasRoute st es dst others fl with ⟨e1, dst1, fl1⟩
      obtain ⟨hkL, hkB⟩ := addHasRoute_key st es dst others fl
      rw [hah] at hkL hkB
      simp only [] at hkL hkB
      cases e1 with
      | ok =>
        simp only [addPfxSubs, hah]
        obtain ⟨ihL, ihB⟩ := ih dst1 sl fl1
        exact ⟨ihL.trans hkL, ihB.trans hkB⟩
      | parse => simp only [addPfxSubs, hah]; exact ⟨hkL, hkB⟩
      | noBufs => simp only [addPfxSubs, hah]; exact ⟨hkL, hkB⟩
      | noRoute => simp only [addPfxSubs, hah]; exact ⟨hkL, hkB⟩
      | notFound => simp only [addPfxSubs, hah]; exact ⟨hkL, hkB⟩
      | drop => simp only [addPfxSubs, hah]; exact ⟨hkL, hkB⟩
    | borderRouter st es =>
      rcases hab : addBorderRouter st es dst others sl fl clone with
        ⟨e1, dst1, sl1, fl1⟩
      obtain ⟨hkL, hkB⟩ := addBorderRouter_key st es dst others sl fl clone
      rw [hab] at hkL hkB
      simp only [] at hkL hkB
      cases e1 with
      | ok =>
        simp only [addPfxSubs, hab]
        obtain ⟨ihL, ihB⟩ := ih dst1 sl1 fl1
        exact ⟨ihL.trans hkL, ihB.trans hkB⟩
      | parse => simp only [addPfxSubs, hab]; exact ⟨hkL, hkB⟩
      | noBufs => simp only [addPfxSubs, hab]; exact ⟨hkL, hkB⟩
      | noRoute => simp only [addPfxSubs, hab]; exact ⟨hkL, hkB⟩
      | notFound => simp only [addPfxSubs, hab]; exact ⟨hkL, hkB⟩
      | drop => simp only [addPfxSubs, hab]; exact ⟨hkL, hkB⟩
    | context a b c d => simp only [addPfxSubs]; exact ih dst sl fl
    | server a b c => simp only [addPfxSubs]; exact ih dst sl fl
    | otherSub a b c => simp only [addPfxSubs]; exact ih dst sl fl

theorem addServer_key (st : Bool) (s16 : Nat) (sd : List Nat) (dst : SrvD)
    (others : Nat) (fl : ChangedFlags) :
    (addServer st s16 sd dst others fl).2.1.enterprise = dst.enterprise ∧
    (addServer st s16 sd dst others fl).2.1.serviceData = dst.serviceData := by
  unfold addServer
  repeat' split
  all_goals exact ⟨rfl, rfl⟩

theorem findPfx_middle_congr (l rr : List NetTlv) (a b : NetTlv) (len : Nat)
    (bytes : List Nat) (ha : pfxKeyMatch len bytes a = false)
    (hb : pfxKeyMatch len bytes b = false) :
    findPfx (l ++ a :: rr) len bytes = findPfx (l ++ b :: rr) len bytes := by
  unfold findPfx
  rw [List.find?_append, List.find?_append, List.find?_cons_of_neg _ (by simp [ha]),
    List.find?_cons_of_neg _ (by simp [hb])]

theorem findSrv_middle_congr (l rr : List NetTlv) (a b : NetTlv) (ent : Nat)
    (sd : List Nat) (ha : srvKeyMatch ent sd a = false)
    (hb : srvKeyMatch ent sd b = false) :
    findSrv (l ++ a :: rr) ent sd = findSrv (l ++ b :: rr) ent sd := by
  unfold findSrv
  rw [List.find?_append, List.find?_append, List.find?_cons_of_neg _ (by simp [ha]),
    List.find?_cons_of_neg _ (by simp [hb])]

/-- `AddPrefix` leaves `FindPrefix` at any other prefix key unchanged. -/
theorem addPfx_findPfx_frame (src : PfxD) (tlvs : List NetTlv) (sl : Nat → Nat)
    (fl : ChangedFlags) (clone : Bool) (len : Nat) (bytes : List Nat)
    (hne : pfxKeyMatch len bytes (.pfx src) = false) :
    findPfx (addPfx src tlvs sl fl clone).2.1 len bytes =
      findPfx tlvs len bytes := by
  rcases hsp : splitFirstPfx src.prefixLength src.prefixBytes tlvs with _ | x
  · simp only [addPfx, hsp]
    by_cases hsz : sizeAll tlvs + pfxBaseSize src.prefixLength ≤ kMaxSize
    · rw [if_pos hsz]
      obtain ⟨hKL, hKB⟩ := addPfxSubs_keyAll (sizeAll tlvs) clone src.subs
        ⟨false, src.domainId, src.prefixLength, src.prefixBytes, []⟩ sl fl
      rcases hu : updateTlvP (addPfxSubs
          ⟨false, src.domainId, src.prefixLength, src.prefixBytes, []⟩
          (sizeAll tlvs) sl fl clone src.subs).2.1 with _ | q
      · simp [optListP]
      · obtain ⟨-, -, -, hqL, hqB⟩ := updateTlvP_norm hu
        have hqne : pfxKeyMatch len bytes (.pfx q) = false :=
          pfxKeyMatch_false_of_eq (p := src) (by rw [hqL, hKL]) (by rw [hqB, hKB])
            hne
        simp only [optListP]
        unfold findPfx
        rw [List.find?_append]
        have h1 : [NetTlv.pfx q].find? (pfxKeyMatch len bytes) = none := by
          rw [List.find?_cons_of_neg _ (by simp [hqne])]
          rfl
        rw [h1, Option.or_none]
    · rw [if_neg hsz]
  · obtain ⟨l, dst, rr⟩ := x
    obtain ⟨htl, hkm, -⟩ :=
      splitFirstPfx_some src.prefixLength src.prefixBytes tlvs l dst rr hsp
    have hkdst : dst.prefixLength = src.prefixLength ∧
        dst.prefixBytes = src.prefixBytes := by
      simpa [pfxKeyMatch] using hkm
    have hdstne : pfxKeyMatch len bytes (.pfx dst) = false :=
      pfxKeyMatch_false_of_eq hkdst.1 hkdst.2 hne
    simp only [addPfx, hsp]
    rw [htl]
    obtain ⟨hKL, hKB⟩ := addPfxSubs_keyAll (sizeAll l + sizeAll rr) clone
      src.subs dst sl fl
    rcases hu : updateTlvP (addPfxSubs dst (sizeAll l + sizeAll rr) sl fl
        clone src.subs).2.1 with _ | q
    · simp only [optListP, List.append_nil]
      unfold findPfx
      rw [List.find?_append, List.find?_append, List.find?_cons_of_neg _ (by simp [hdstne])]
    · obtain ⟨-, -, -, hqL, hqB⟩ := updateTlvP_norm hu
      have hqne : pfxKeyMatch len bytes (.pfx q) = false :=
        pfxKeyMatch_false_of_eq (p := src) (by rw [hqL, hKL, hkdst.1])
          (by rw [hqB, hKB, hkdst.2]) hne
      simp only [optListP]
      rw [List.append_assoc, List.singleton_append]
      exact findPfx_middle_congr l rr _ _ len bytes hqne hdstne

/-- `AddPrefix` never touches `FindService` results. -/
theorem addPfx_findSrv_frame (src : PfxD) (tlvs : List NetTlv) (sl : Nat → Nat)
    (fl : ChangedFlags) (clone : Bool) (ent : Nat) (sd : List Nat) :
    findSrv (addPfx src tlvs sl fl clone).2.1 ent sd = findSrv tlvs ent sd := by
  rcases hsp : splitFirstPfx src.prefixLength src.prefixBytes tlvs with _ | x
  · simp only [addPfx, hsp]
    by_cases hsz : sizeAll tlvs + pfxBaseSize src.prefixLength ≤ kMaxSize
    · rw [if_pos hsz]
      rcases hu : updateTlvP (addPfxSubs
          ⟨false, src.domainId, src.prefixLength, src.prefixBytes, []⟩
          (sizeAll tlvs) sl fl clone src.subs).2.1 with _ | q
      · simp [optListP]
      · simp only [optListP]
        unfold findSrv
        rw [List.find?_append]
        have h1 : [NetTlv.pfx q].find? (srvKeyMatch ent sd) = none := by
          rw [List.find?_cons_of_neg _ (by simp [(srvKeyMatch_pfx ent sd q)])]
          rfl
        rw [h1, Option.or_none]
    · rw [if_neg hsz]
  · obtain ⟨l, dst, rr⟩ := x
    obtain ⟨htl, -, -⟩ :=
      splitFirstPfx_some src.prefixLength src.prefixBytes tlvs l dst rr hsp
    simp only [addPfx, hsp]
    rw [htl]
    rcases hu : updateTlvP (addPfxSubs dst (sizeAll l + sizeAll rr) sl fl
        clone src.subs).2.1 with _ | q
    · simp only [optListP, List.append_nil]
      unfold findSrv
      rw [List.find?_append, List.find?_append,
        List.find?_cons_of_neg _ (by simp [(srvKeyMatch_pfx ent sd dst)])]
    · simp only [optListP]
      rw [List.append_assoc, List.singleton_append]
      exact findSrv_middle_congr l rr _ _ ent sd (srvKeyMatch_pfx ent sd q)
        (srvKeyMatch_pfx ent sd dst)

/-- `AddService` never touches `FindPrefix` results. -/
theorem addService_findPfx_frame (src : SrvD) (tlvs : List NetTlv)
    (fl : ChangedFlags) (clone : Bool) (len : Nat) (bytes : List Nat) :
    findPfx (addService src tlvs fl clone).2.1 len bytes =
      findPfx tlvs len bytes := by
  rcases hfs : firstServer src.subs with _ | ⟨st, s16, sd2⟩ <;>
    rcases hsp : splitFirstSrv src.enterprise src.serviceData tlvs with _ | x
  · rcases hal : allocateServiceId tlvs clone with ⟨e, sid⟩
    cases e with
    | ok =>
      simp only [addService, hsp, hal, hfs]
      by_cases hsz : sizeAll tlvs + srvBaseSize src.serviceData.length ≤ kMaxSize
      · rw [if_pos hsz]
        rcases hu : updateTlvS
            (⟨false, sid, src.enterprise, src.serviceData, []⟩ : SrvD) with _ | q
        · simp [optListS]
        · simp only [optListS]
          unfold findPfx
          rw [List.find?_append]
          have h1 : [NetTlv.srv q].find? (pfxKeyMatch len bytes) = none := by
            rw [List.find?_cons_of_neg _ (by simp [(pfxKeyMatch_srv len bytes q)])]
            rfl
          rw [h1, Option.or_none]
      · rw [if_neg hsz]
    | parse => simp [addService, hsp, hal]
    | noBufs => simp [addService, hsp, hal]
    | noRoute => simp [addService, hsp, hal]
    | notFound => simp [addService, hsp, hal]
    | drop => simp [addService, hsp, hal]
  · obtain ⟨l, dst, rr⟩ := x
    obtain ⟨htl, -, -⟩ :=
      splitFirstSrv_some src.enterprise src.serviceData tlvs l dst rr hsp
    simp only [addService, hsp, hfs]
    rw [htl]
    rcases hu : updateTlvS dst with _ | q
    · simp only [optListS, List.append_nil]
      unfold findPfx
      rw [List.find?_append, List.find?_append,
        List.find?_cons_of_neg _ (by simp [(pfxKeyMatch_srv len bytes dst)])]
    · simp only [optListS]
      rw [List.append_assoc, List.singleton_append]
      exact findPfx_middle_congr l rr _ _ len bytes
        (pfxKeyMatch_srv len bytes q) (pfxKeyMatch_srv len bytes dst)
  · rcases hal : allocateServiceId tlvs clone with ⟨e, sid⟩
    cases e with
    | ok =>
      simp only [addService, hsp, hal, hfs]
      by_cases hsz : sizeAll tlvs + srvBaseSize src.serviceData.length ≤ kMaxSize
      · rw [if_pos hsz]
        rcases hu : updateTlvS (addServer st s16 sd2
            (⟨false, sid, src.enterprise, src.serviceData, []⟩ : SrvD)
            (sizeAll tlvs) fl).2.1 with _ | q
        · simp [optListS]
        · simp only [optListS]
          unfold findPfx
          rw [List.find?_append]
          have h1 : [NetTlv.srv q].find? (pfxKeyMatch len bytes) = none := by
            rw [List.find?_cons_of_neg _ (by simp [(pfxKeyMatch_srv len bytes q)])]
            rfl
          rw [h1, Option.or_none]
      · rw [if_neg hsz]
    | parse => simp [addService, hsp, hal]
    | noBufs => simp [addService, hsp, hal]
    | noRoute => simp [addService, hsp, hal]
    | notFound => simp [addService, hsp, hal]
    | drop => simp [addService, hsp, hal]
  · obtain ⟨l, dst, rr⟩ := x
    obtain ⟨htl, -, -⟩ :=
      splitFirstSrv_some src.enterprise src.serviceData tlvs l dst rr hsp
    simp only [addService, hsp, hfs]
    rw [htl]
    rcases hu : updateTlvS (addServer st s16 sd2 dst (sizeAll l + sizeAll rr)
        fl).2.1 with _ | q
    · simp only [optListS, List.append_nil]
      unfold findPfx
      rw [List.find?_append, List.find?_append,
        List.find?_cons_of_neg _ (by simp [(pfxKeyMatch_srv len bytes dst)])]
    · simp only [optListS]
      rw [List.append_assoc, List.singleton_append]
      exact findPfx_middle_congr l rr _ _ len bytes
        (pfxKeyMatch_srv len bytes q) (pfxKeyMatch_srv len bytes dst)

/-- `AddService` leaves `FindService` at any other service key unchanged. -/
theorem addService_findSrv_frame (src : SrvD) (tlvs : List NetTlv)
    (fl : ChangedFlags) (clone : Bool) (ent : Nat) (sd : List Nat)
    (hne : srvKeyMatch ent sd (.srv src) = false) :
    findSrv (addService src tlvs fl clone).2.1 ent sd =
      findSrv tlvs ent sd := by
  rcases hfs : firstServer src.subs with _ | ⟨st, s16, sd2⟩ <;>
    rcases hsp : splitFirstSrv src.enterprise src.serviceData tlvs with _ | x
  · rcases hal : allocateServiceId tlvs clone with ⟨e, sid⟩
    cases e with
    | ok =>
      simp only [addService, hsp, hal, hfs]
      by_cases hsz : sizeAll tlvs + srvBaseSize src.serviceData.length ≤ kMaxSize
      · rw [if_pos hsz]
        rcases hu : updateTlvS
            (⟨false, sid, src.enterprise, src.serviceData, []⟩ : SrvD) with _ | q
        · simp [optListS]
        · obtain ⟨-, -, -, hqE, hqD⟩ := updateTlvS_norm hu
          have hqne : srvKeyMatch ent sd (.srv q) = false :=
            srvKeyMatch_false_of_eq (w := src) (by rw [hqE]) (by rw [hqD]) hne
          simp only [optListS]
          unfold findSrv
          rw [List.find?_append]
          have h1 : [NetTlv.srv q].find? (srvKeyMatch ent sd) = none := by
            rw [List.find?_cons_of_neg _ (by simp [hqne])]
            rfl
          rw [h1, Option.or_none]
      · rw [if_neg hsz]
    | parse => simp [addService, hsp, hal]
    | noBufs => simp [addService, hsp, hal]
    | noRoute => simp [addService, hsp, hal]
    | notFound => simp [addService, hsp, hal]
    | drop => simp [addService, hsp, hal]
  · obtain ⟨l, dst, rr⟩ := x
    obtain ⟨htl, hkm, -⟩ :=
      splitFirstSrv_some src.enterprise src.serviceData tlvs l dst rr hsp
    have hkdst : dst.enterprise = src.enterprise ∧
        dst.serviceData = src.serviceData := by
      simpa [srvKeyMatch] using hkm
    have hdstne : srvKeyMatch ent sd (.srv dst) = false :=
      srvKeyMatch_false_of_eq hkdst.1 hkdst.2 hne
    simp only [addService, hsp, hfs]
    rw [htl]
    rcases hu : updateTlvS dst with _ | q
    · simp only [optListS, List.append_nil]
      unfold findSrv
      rw [List.find?_append, List.find?_append, List.find?_cons_of_neg _ (by simp [hdstne])]
    · obtain ⟨-, -, -, hqE, hqD⟩ := updateTlvS_norm hu
      have hqne : srvKeyMatch ent sd (.srv q) = false :=
        srvKeyMatch_false_of_eq (w := dst) (by rw [hqE]) (by rw [hqD]) hdstne
      simp only [optListS]
      rw [List.append_assoc, List.singleton_append]
      exact findSrv_middle_congr l rr _ _ ent sd hqne hdstne
  · rcases hal : allocateServiceId tlvs clone with ⟨e, sid⟩
    cases e with
    | ok =>
      simp only [addService, hsp, hal, hfs]
      by_cases hsz : sizeAll tlvs + srvBaseSize src.serviceData.length ≤ kMaxSize
      · rw [if_pos hsz]
        obtain ⟨hkE, hkD⟩ := addServer_key st s16 sd2
          ⟨false, sid, src.enterprise, src.serviceData, []⟩ (sizeAll tlvs) fl
        simp only [] at hkE hkD
        rcases hu : updateTlvS (addServer st s16 sd2
            (⟨false, sid, src.enterprise, src.serviceData, []⟩ : SrvD)
            (sizeAll tlvs) fl).2.1 with _ | q
        · simp [optListS]
        · obtain ⟨-, -, -, hqE, hqD⟩ := updateTlvS_norm hu
          have hqne : srvKeyMatch ent sd (.srv q) = false :=
            srvKeyMatch_false_of_eq (w := src) (by rw [hqE, hkE])
              (by rw [hqD, hkD]) hne
          simp only [optListS]
          unfold findSrv
          rw [List.find?_append]
          have h1 : [NetTlv.srv q].find? (srvKeyMatch ent sd) = none := by
            rw [List.find?_cons_of_neg _ (by simp [hqne])]
            rfl
          rw [h1, Option.or_none]
      · rw [if_neg hsz]
    | parse => simp [addService, hsp, hal]
    | noBufs => simp [addService, hsp, hal]
    | noRoute => simp [addService, hsp, hal]
    | notFound => simp [addService, hsp, hal]
    | drop => simp [addService, hsp, hal]
  · obtain ⟨l, dst, rr⟩ := x
    obtain ⟨htl, hkm, -⟩ :=
      splitFirstSrv_some src.enterprise src.serviceData tlvs l dst rr hsp
    have hkdst : dst.enterprise = src.enterprise ∧
        dst.serviceData = src.serviceData := by
      simpa [srvKeyMatch] using hkm
    have hdstne : srvKeyMatch ent sd (.srv dst) = false :=
      srvKeyMatch_false_of_eq hkdst.1 hkdst.2 hne
    simp only [addService, hsp, hfs]
    rw [htl]
    obtain ⟨hkE, hkD⟩ := addServer_key st s16 sd2 dst (sizeAll l + sizeAll rr) fl
    rcases hu : updateTlvS (addServer st s16 sd2 dst (sizeAll l + sizeAll rr)
        fl).2.1 with _ | q
    · simp only [optListS, List.append_nil]
      unfold findSrv
      rw [List.find?_append, List.find?_append, List.find?_cons_of_neg _ (by simp [hdstne])]
    · obtain ⟨-, -, -, hqE, hqD⟩ := updateTlvS_norm hu
      have hqne : srvKeyMatch ent sd (.srv q) = false :=
        srvKeyMatch_false_of_eq (w := dst) (by rw [hqE, hkE]) (by rw [hqD, hkD])
          hdstne
      simp only [optListS]
      rw [List.append_assoc, List.singleton_append]
      exact findSrv_middle_congr l rr _ _ ent sd hqne hdstne

theorem addAll_frameP (len : Nat) (bytes : List Nat) :
    ∀ (src : List NetTlv) (s : Leader) (fl : ChangedFlags),
    (∀ t ∈ src, pfxKeyMatch len bytes t = false) →
    findPfx (addAll src s fl).2.1.tlvs len bytes = findPfx s.tlvs len bytes := by
  intro src
  induction src with
  | nil => intro s fl _; rfl
  | cons t rest ih =>
    intro s fl hall
    cases t with
    | pfx p =>
      rcases hpr : addPfx p s.tlvs s.slots fl s.isClone with ⟨e, tl1, sl1, fl1⟩
      have hfr := addPfx_findPfx_frame p s.tlvs s.slots fl s.isClone len bytes
        (hall _ (List.mem_cons_self _ _))
      rw [hpr] at hfr
      simp only [] at hfr
      cases e with
      | ok =>
        simp only [addAll, hpr]
        rw [ih { s with tlvs := tl1, slots := sl1 } fl1
          (fun t2 ht2 => hall t2 (List.mem_cons_of_mem _ ht2))]
        exact hfr
      | parse => simp only [addAll, hpr]; exact hfr
      | noBufs => simp only [addAll, hpr]; exact hfr
      | noRoute => simp only [addAll, hpr]; exact hfr
      | notFound => simp only [addAll, hpr]; exact hfr
      | drop => simp only [addAll, hpr]; exact hfr
    | srv v =>
      rcases hpr : addService v s.tlvs fl s.isClone with ⟨e, tl1, fl1⟩
      have hfr := addService_findPfx_frame v s.tlvs fl s.isClone len bytes
      rw [hpr] at hfr
      simp only [] at hfr
      cases e with
      | ok =>
        simp only [addAll, hpr]
        rw [ih { s with tlvs := tl1 } fl1
          (fun t2 ht2 => hall t2 (List.mem_cons_of_mem _ ht2))]
        exact hfr
      | parse => simp only [addAll, hpr]; exact hfr
      | noBufs => simp only [addAll, hpr]; exact hfr
      | noRoute => simp only [addAll, hpr]; exact hfr
      | notFound => simp only [addAll, hpr]; exact hfr
      | drop => simp only [addAll, hpr]; exact hfr
    | other a b c =>
      simp only [addAll]
      exact ih s fl (fun t2 ht2 => hall t2 (List.mem_cons_of_mem _ ht2))

theorem addAll_frameS (ent : Nat) (sd : List Nat) :
    ∀ (src : List NetTlv) (s : Leader) (fl : ChangedFlags),
    (∀ t ∈ src, srvKeyMatch ent sd t = false) →
    findSrv (addAll src s fl).2.1.tlvs ent sd = findSrv s.tlvs ent sd := by
  intro src
  induction src with
  | nil => intro s fl _; rfl
  | cons t rest ih =>
    intro s fl hall
    cases t with
    | pfx p =>
      rcases hpr : addPfx p s.tlvs s.slots fl s.isClone with ⟨e, tl1, sl1, fl1⟩
      have hfr := addPfx_findSrv_frame p s.tlvs s.slots fl s.isClone ent sd
      rw [hpr] at hfr
      simp only [] at hfr
      cases e with
      | ok =>
        simp only [addAll, hpr]
        rw [ih { s with tlvs := tl1, slots := sl1 } fl1
          (fun t2 ht2 => hall t2 (List.mem_cons_of_mem _ ht2))]
        exact hfr
      | parse => simp only [addAll, hpr]; exact hfr
      | noBufs => simp only [addAll, hpr]; exact hfr
      | noRoute => simp only [addAll, hpr]; exact hfr
      | notFound => simp only [addAll, hpr]; exact hfr
      | drop => simp only [addAll, hpr]; exact hfr
    | srv v =>
      rcases hpr : addService v s.tlvs fl s.isClone with ⟨e, tl1, fl1⟩
      have hfr := addService_findSrv_frame v s.tlvs fl s.isClone ent sd
        (hall _ (List.mem_cons_self _ _))
      rw [hpr] at hfr
      simp only [] at hfr
      cases e with
      | ok =>
        simp only [addAll, hpr]
        rw [ih { s with tlvs := tl1 } fl1
          (fun t2 ht2 => hall t2 (List.mem_cons_of_mem _ ht2))]
        exact hfr
      | parse => simp only [addAll, hpr]; exact hfr
      | noBufs => simp only [addAll, hpr]; exact hfr
      | noRoute => simp only [addAll, hpr]; exact hfr
      | notFound => simp only [addAll, hpr]; exact hfr
      | drop => simp only [addAll, hpr]; exact hfr
    | other a b c =>
      simp only [addAll]
      exact ih s fl (fun t2 ht2 => hall t2 (List.mem_cons_of_mem _ ht2))

/-- The add loop touches only the registry and the context-id slots. -/
theorem addAll_fields : ∀ (src : List NetTlv) (s : Leader) (fl : ChangedFlags),
    (addAll src s fl).2.1.isClone = s.isClone ∧
    (addAll src s fl).2.1.routerAllocated = s.routerAllocated ∧
    (addAll src s fl).2.1.version = s.version ∧
    (addAll src s fl).2.1.stableVersion = s.stableVersion := by
  intro src
  induction src with
  | nil => intro s fl; exact ⟨rfl, rfl, rfl, rfl⟩
  | cons t rest ih =>
    intro s fl
    cases t with
    | pfx p =>
      rcases hpr : addPfx p s.tlvs s.slots fl s.isClone with ⟨e, tl1, sl1, fl1⟩
      cases e with
      | ok => simp only [addAll, hpr]; exact ih _ fl1
      | parse => simp [addAll, hpr]
      | noBufs => simp [addAll, hpr]
      | noRoute => simp [addAll, hpr]
      | notFound => simp [addAll, hpr]
      | drop => simp [addAll, hpr]
    | srv v =>
      rcases hpr : addService v s.tlvs fl s.isClone with ⟨e, tl1, fl1⟩
      cases e with
      | ok => simp only [addAll, hpr]; exact ih _ fl1
      | parse => simp [addAll, hpr]
      | noBufs => simp [addAll, hpr]
      | noRoute => simp [addAll, hpr]
      | notFound => simp [addAll, hpr]
      | drop => simp [addAll, hpr]
    | other a b c =>
      simp only [addAll]
      exact ih s fl

/-- Running the add loop of a successful registration over a clean registry
keeps it clean and establishes, for every submitted Prefix/Service TLV, a
destination under its key that absorbed it. -/
theorem addAll_post (net0 : List NetTlv) (r : Nat) :
    ∀ (src : List NetTlv) (s : Leader) (fl : ChangedFlags),
    (∀ p, NetTlv.pfx p ∈ src →
      findPfx net0 p.prefixLength p.prefixBytes = some p ∧
      validatePfx p r = .ok) →
    (∀ v, NetTlv.srv v ∈ src →
      findSrv net0 v.enterprise v.serviceData = some v) →
    List.Pairwise keyDisj src →
    Clean net0 r s.tlvs →
    (addAll src s fl).1 = .ok →
    Clean net0 r (addAll src s fl).2.1.tlvs ∧
    (∀ p, NetTlv.pfx p ∈ src → GoodAtP (addAll src s fl).2.1.tlvs p) ∧
    (∀ v, NetTlv.srv v ∈ src → GoodAtS (addAll src s fl).2.1.tlvs v) := by
  intro src
  induction src with
  | nil =>
    intro s fl _ _ _ hclean _
    exact ⟨hclean, fun p hp => absurd hp (by simp),
      fun v hv => absurd hv (by simp)⟩
  | cons t rest ih =>
    intro s fl hP hS hpw hclean hok
    obtain ⟨hhead, hpw'⟩ := List.pairwise_cons.mp hpw
    cases t with
    | pfx p =>
      obtain ⟨hfind, hval⟩ := hP p (List.mem_cons_self _ _)
      rcases hpr : addPfx p s.tlvs s.slots fl s.isClone with ⟨e, tl1, sl1, fl1⟩
      cases e with
      | ok =>
        have hok1 : (addPfx p s.tlvs s.slots fl s.isClone).1 = .ok := by
          rw [hpr]
        obtain ⟨hclean1, hgood1⟩ :=
          addPfx_post net0 r p s.tlvs s.slots fl s.isClone hval hfind hclean hok1
        rw [hpr] at hclean1 hgood1
        simp only [] at hclean1 hgood1
        simp only [addAll, hpr] at hok ⊢
        have hclean1' :
            Clean net0 r ({ s with tlvs := tl1, slots := sl1 } : Leader).tlvs :=
          hclean1
        obtain ⟨ihClean, ihP, ihS⟩ := ih { s with tlvs := tl1, slots := sl1 } fl1
          (fun q hq => hP q (List.mem_cons_of_mem _ hq))
          (fun w hw => hS w (List.mem_cons_of_mem _ hw))
          hpw' hclean1' hok
        refine ⟨ihClean, ?_, ?_⟩
        · intro q hq
          rcases List.mem_cons.mp hq with heq | hq'
          · injection heq with heq
            subst heq
            obtain ⟨dstq, hfq, habs⟩ := hgood1
            refine ⟨dstq, ?_, habs⟩
            rw [addAll_frameP q.prefixLength q.prefixBytes rest _ fl1
              (fun t2 ht2 => hhead t2 ht2)]
            exact hfq
          · exact ihP q hq'
        · intro w hw
          rcases List.mem_cons.mp hw with heq | hw'
          · exact absurd heq (by simp)
          · exact ihS w hw'
      | parse => simp [addAll, hpr] at hok
      | noBufs => simp [addAll, hpr] at hok
      | noRoute => simp [addAll, hpr] at hok
      | notFound => simp [addAll, hpr] at hok
      | drop => simp [addAll, hpr] at hok
    | srv v =>
      have hfind := hS v (List.mem_cons_self _ _)
      rcases hpr : addService v s.tlvs fl s.isClone with ⟨e, tl1, fl1⟩
      cases e with
      | ok =>
        have hok1 : (addService v s.tlvs fl s.isClone).1 = .ok := by
          rw [hpr]
        obtain ⟨hclean1, hgood1⟩ :=
          addService_post net0 r v s.tlvs fl s.isClone hfind hclean hok1
        rw [hpr] at hclean1 hgood1
        simp only [] at hclean1 hgood1
        simp only [addAll, hpr] at hok ⊢
        have hclean1' : Clean net0 r ({ s with tlvs := tl1 } : Leader).tlvs :=
          hclean1
        obtain ⟨ihClean, ihP, ihS⟩ := ih { s with tlvs := tl1 } fl1
          (fun q hq => hP q (List.mem_cons_of_mem _ hq))
          (fun w hw => hS w (List.mem_cons_of_mem _ hw))
          hpw' hclean1' hok
        refine ⟨ihClean, ?_, ?_⟩
        · intro q hq
          rcases List.mem_cons.mp hq with heq | hq'
          · exact absurd heq (by simp)
          · exact ihP q hq'
        · intro w hw
          rcases List.mem_cons.mp hw with heq | hw'
          · injection heq with heq
            subst heq
            rcases hfsw : firstServer w.subs with _ | ⟨st, s16, sd⟩
            · simp only [GoodAtS, hfsw]
            · simp only [GoodAtS, hfsw] at hgood1 ⊢
              obtain ⟨dstw, hfw, hcw⟩ := hgood1
              refine ⟨dstw, ?_, hcw⟩
              rw [addAll_frameS w.enterprise w.serviceData rest _ fl1
                (fun t2 ht2 => hhead t2 ht2)]
              exact hfw
          · exact ihS w hw'
      | parse => simp [addAll, hpr] at hok
      | noBufs => simp [addAll, hpr] at hok
      | noRoute => simp [addAll, hpr] at hok
      | notFound => simp [addAll, hpr] at hok
      | drop => simp [addAll, hpr] at hok
    | other a b c =>
      simp only [addAll] at hok ⊢
      obtain ⟨ihClean, ihP, ihS⟩ := ih s fl
        (fun q hq => hP q (List.mem_cons_of_mem _ hq))
        (fun w hw => hS w (List.mem_cons_of_mem _ hw))
        hpw' hclean hok
      refine ⟨ihClean, ?_, ?_⟩
      · intro q hq
        rcases List.mem_cons.mp hq with heq | hq'
        · exact absurd heq (by simp)
        · exact ihP q hq'
      · intro w hw
        rcases List.mem_cons.mp hw with heq | hw'
        · exact absurd heq (by simp)
        · exact ihS w hw'

/-! ### Second-run identity of the add engine on an absorbed registry -/

theorem addHasRoute_id (st : Bool) (es : List HREntry) (dst : PfxD)
    (others : Nat) (fl : ChangedFlags)
    (habs : absorbedSub dst (.hasRoute st es)) :
    addHasRoute st es dst others fl = (.ok, dst, fl) := by
  obtain ⟨st0, des, hf, hm⟩ := habs
  have hc : des.contains (es.headD ⟨0, 0⟩) = true := List.elem_iff.mpr hm
  simp only [addHasRoute, hf]
  rw [if_pos hc]

theorem addBorderRouter_id (st : Bool) (es : List BREntry) (dst : PfxD)
    (others : Nat) (sl : Nat → Nat) (fl : ChangedFlags) (clone : Bool)
    (habs : absorbedSub dst (.borderRouter st es)) :
    ∃ sl', addBorderRouter st es dst others sl fl clone =
      (.ok, dst, sl', fl) := by
  obtain ⟨⟨st0, des, hfB, hm⟩, cst, cco, ci, cl, hfC, hcc, hcs⟩ := habs
  subst hcc
  simp only [addBorderRouter, hfB, hfC, Option.isSome_some, Bool.not_true,
    Bool.false_and, Bool.true_and, Bool.false_eq_true, if_false, if_true]
  have hfbe : firstBREntries st dst.subs = des := by
    unfold firstBREntries
    rw [hfB]
  have hcont : (firstBREntries st dst.subs).contains (es.headD ⟨0, 0⟩) = true := by
    rw [hfbe]
    exact List.elem_iff.mpr hm
  by_cases hst : st = true
  · have hcst : cst = true := hcs hst
    subst hcst
    rw [if_pos hst]
    have hstab : setFirstCtxStable dst.subs = dst.subs :=
      setFirstCtxStable_id dst.subs true ci cl hfC
    simp only [hstab]
    have hcomp : setFirstCtxCompress true dst.subs = dst.subs :=
      setFirstCtxCompress_id true dst.subs true ci cl hfC
    simp only [hcomp]
    rw [if_pos hcont]
    exact ⟨_, rfl⟩
  · rw [if_neg hst]
    have hcomp : setFirstCtxCompress true dst.subs = dst.subs :=
      setFirstCtxCompress_id true dst.subs cst ci cl hfC
    simp only [hcomp]
    rw [if_pos hcont]
    exact ⟨_, rfl⟩

theorem addServer_id (st : Bool) (s16 : Nat) (sd : List Nat) (dst : SrvD)
    (others : Nat) (fl : ChangedFlags)
    (h : containsMatchingServer (some dst) st s16 sd = true) :
    addServer st s16 sd dst others fl = (.ok, dst, fl) := by
  unfold addServer
  rw [if_pos h]

theorem addPfxSubs_id (dst : PfxD) (others : Nat) (clone : Bool) :
    ∀ (subsrc : List SubTlv) (sl : Nat → Nat) (fl : ChangedFlags),
    (∀ sub ∈ subsrc, absorbedSub dst sub) →
    ∃ sl', addPfxSubs dst others sl fl clone subsrc = (.ok, dst, sl', fl) := by
  intro subsrc
  induction subsrc with
  | nil => intro sl fl _; exact ⟨sl, rfl⟩
  | cons sub rest ih =>
    intro sl fl hall
    cases sub with
    | hasRoute st es =>
      have hid := addHasRoute_id st es dst others fl
        (hall _ (List.mem_cons_self _ _))
      simp only [addPfxSubs, hid]
      exact ih sl fl (fun s hs => hall s (List.mem_cons_of_mem _ hs))
    | borderRouter st es =>
      obtain ⟨sl1, hid⟩ := addBorderRouter_id st es dst others sl fl clone
        (hall _ (List.mem_cons_self _ _))
      simp only [addPfxSubs, hid]
      exact ih sl1 fl (fun s hs => hall s (List.mem_cons_of_mem _ hs))
    | context a b c d =>
      simp only [addPfxSubs]
      exact ih sl fl (fun s hs => hall s (List.mem_cons_of_mem _ hs))
    | server a b c =>
      simp only [addPfxSubs]
      exact ih sl fl (fun s hs => hall s (List.mem_cons_of_mem _ hs))
    | otherSub a b c =>
      simp only [addPfxSubs]
      exact ih sl fl (fun s hs => hall s (List.mem_cons_of_mem _ hs))

/-- Re-adding an already absorbed prefix leaves the registry and the flags
unchanged (only the context-id slot may be re-marked in use). -/
theorem addPfx_id (net0 : List NetTlv) (r : Nat) (src : PfxD)
    (tlvs : List NetTlv) (sl : Nat → Nat) (fl : ChangedFlags) (clone : Bool)
    (hgood : GoodAtP tlvs src) (hclean : Clean net0 r tlvs) :
    ∃ sl', addPfx src tlvs sl fl clone = (.ok, tlvs, sl', fl) := by
  obtain ⟨dst, hfind, habs⟩ := hgood
  obtain ⟨l, rr, hsp⟩ := findPfx_splitFirstPfx hfind
  obtain ⟨htl, -, -⟩ :=
    splitFirstPfx_some src.prefixLength src.prefixBytes tlvs l dst rr hsp
  have hdstmem : dst ∈ prefixesOf tlvs := by
    rw [htl, prefixesOf_append]
    refine List.mem_append.mpr (Or.inr ?_)
    simp [prefixesOf]
  obtain ⟨-, -, hnormD, hsubsD⟩ := hclean.1 dst hdstmem
  simp only [addPfx, hsp]
  obtain ⟨sl1, hsub⟩ :=
    addPfxSubs_id dst (sizeAll l + sizeAll rr) clone src.subs sl fl habs
  simp only [hsub]
  rw [updateTlvP_id hnormD hsubsD]
  simp only [optListP]
  refine ⟨sl1, ?_⟩
  rw [htl]
  simp

/-- Re-adding an already absorbed service leaves the registry and the flags
unchanged, whatever error the step returns. -/
theorem addService_id (net0 : List NetTlv) (r : Nat) (src : SrvD)
    (tlvs : List NetTlv) (fl : ChangedFlags) (clone : Bool)
    (hgood : GoodAtS tlvs src) (hclean : Clean net0 r tlvs) :
    (addService src tlvs fl clone).2.1 = tlvs ∧
    (addService src tlvs fl clone).2.2 = fl := by
  rcases hfs : firstServer src.subs with _ | ⟨st, s16, sd⟩
  · rcases hsp : splitFirstSrv src.enterprise src.serviceData tlvs with _ | x
    · rcases hal : allocateServiceId tlvs clone with ⟨e, sid⟩
      cases e with
      | ok =>
        simp only [addService, hsp, hal, hfs]
        by_cases hsz :
            sizeAll tlvs + srvBaseSize src.serviceData.length ≤ kMaxSize
        · rw [if_pos hsz]
          have hu0 : updateTlvS
              (⟨false, sid, src.enterprise, src.serviceData, []⟩ : SrvD) =
              none := by
            unfold updateTlvS
            rw [if_pos (by simp)]
          rw [hu0]
          simp [optListS]
        · rw [if_neg hsz]
          exact ⟨rfl, rfl⟩
      | parse => simp [addService, hsp, hal]
      | noBufs => simp [addService, hsp, hal]
      | noRoute => simp [addService, hsp, hal]
      | notFound => simp [addService, hsp, hal]
      | drop => simp [addService, hsp, hal]
    · obtain ⟨l, dst, rr⟩ := x
      obtain ⟨htl, -, -⟩ :=
        splitFirstSrv_some src.enterprise src.serviceData tlvs l dst rr hsp
      have hdstmem : dst ∈ servicesOf tlvs := by
        rw [htl, servicesOf_append]
        refine List.mem_append.mpr (Or.inr ?_)
        simp [servicesOf]
      obtain ⟨-, hnormD, hsubsD⟩ := hclean.2 dst hdstmem
      simp only [addService, hsp, hfs]
      rw [updateTlvS_id hnormD hsubsD]
      simp only [optListS]
      constructor
      · rw [htl]
        simp
      · trivial
  · simp only [GoodAtS, hfs] at hgood
    obtain ⟨dst, hfind, hcont⟩ := hgood
    obtain ⟨l, rr, hsp⟩ := findSrv_splitFirstSrv hfind
    obtain ⟨htl, -, -⟩ :=
      splitFirstSrv_some src.enterprise src.serviceData tlvs l dst rr hsp
    have hdstmem : dst ∈ servicesOf tlvs := by
      rw [htl, servicesOf_append]
      refine List.mem_append.mpr (Or.inr ?_)
      simp [servicesOf]
    obtain ⟨-, hnormD, hsubsD⟩ := hclean.2 dst hdstmem
    simp only [addService, hsp, hfs]
    rw [addServer_id st s16 sd dst (sizeAll l + sizeAll rr) fl hcont]
    simp only []
    rw [updateTlvS_id hnormD hsubsD]
    simp only [optListS]
    constructor
    · rw [htl]
      simp
    · trivial

/-- Re-running the add loop over a registry that already absorbed every
submitted TLV leaves the registry, the flags, and both version counters
unchanged, even if the loop stops early with an error. -/
theorem addAll_id (net0 : List NetTlv) (r : Nat) :
    ∀ (src : List NetTlv) (s : Leader) (fl : ChangedFlags),
    (∀ p, NetTlv.pfx p ∈ src → GoodAtP s.tlvs p) →
    (∀ v, NetTlv.srv v ∈ src → GoodAtS s.tlvs v) →
    Clean net0 r s.tlvs →
    (addAll src s fl).2.1.tlvs = s.tlvs ∧
    (addAll src s fl).2.2 = fl ∧
    (addAll src s fl).2.1.version = s.version ∧
    (addAll src s fl).2.1.stableVersion = s.stableVersion := by
  intro src
  induction src with
  | nil => intro s fl _ _ _; exact ⟨rfl, rfl, rfl, rfl⟩
  | cons t rest ih =>
    intro s fl hP hS hclean
    cases t with
    | pfx p =>
      obtain ⟨sl1, hid⟩ := addPfx_id net0 r p s.tlvs s.slots fl s.isClone
        (hP p (List.mem_cons_self _ _)) hclean
      simp only [addAll, hid]
      exact ih _ fl (fun q hq => hP q (List.mem_cons_of_mem _ hq))
        (fun w hw => hS w (List.mem_cons_of_mem _ hw)) hclean
    | srv v =>
      have hid := addService_id net0 r v s.tlvs fl s.isClone
        (hS v (List.mem_cons_self _ _)) hclean
      rcases hpr : addService v s.tlvs fl s.isClone with ⟨e, tl1, fl1⟩
      rw [hpr] at hid
      simp only [] at hid
      obtain ⟨hid1, hid2⟩ := hid
      cases e with
      | ok =>
        simp only [addAll, hpr]
        obtain ⟨ih1, ih2, ih3, ih4⟩ := ih { s with tlvs := tl1 } fl1
          (fun q hq => by rw [hid1]; exact hP q (List.mem_cons_of_mem _ hq))
          (fun w hw => by rw [hid1]; exact hS w (List.mem_cons_of_mem _ hw))
          (by rw [hid1]; exact hclean)
        exact ⟨ih1.trans hid1, ih2.trans hid2, ih3, ih4⟩
      | parse => simp only [addAll, hpr]; exact ⟨hid1, hid2, trivial, trivial⟩
      | noBufs => simp only [addAll, hpr]; exact ⟨hid1, hid2, trivial, trivial⟩
      | noRoute => simp only [addAll, hpr]; exact ⟨hid1, hid2, trivial, trivial⟩
      | notFound => simp only [addAll, hpr]; exact ⟨hid1, hid2, trivial, trivial⟩
      | drop => simp only [addAll, hpr]; exact ⟨hid1, hid2, trivial, trivial⟩
    | other a b c =>
      simp only [addAll]
      exact ih s fl (fun q hq => hP q (List.mem_cons_of_mem _ hq))
        (fun w hw => hS w (List.mem_cons_of_mem _ hw)) hclean

theorem incrementVersionsF_routerAllocated (fl : ChangedFlags) (s : Leader) :
    (incrementVersionsF fl s).routerAllocated = s.routerAllocated := by
  unfold incrementVersionsF incrementVersionsB
  repeat' split
  all_goals rfl

/-- The shape of `RegisterNetworkData` on the success path of its two
guards. -/
theorem register_ok_form (r : Nat) (net : List NetTlv) (w : Leader)
    (hra : w.routerAllocated (routerIdFromRloc16 r) = true)
    (hval : validate net r = .ok) :
    registerNetworkData r net w =
      ((addAll net (removeRlocEx r .rloc16 net w flags0).1
          (removeRlocEx r .rloc16 net w flags0).2).1,
        incrementVersionsF
          (addAll net (removeRlocEx r .rloc16 net w flags0).1
            (removeRlocEx r .rloc16 net w flags0).2).2.2
          (addAll net (removeRlocEx r .rloc16 net w flags0).1
            (removeRlocEx r .rloc16 net w flags0).2).2.1) := by
  unfold registerNetworkData
  rw [if_neg (by simp [hra])]
  simp only [hval]

/-- C2. On a non-clone Leader satisfying the context invariant, a
`RegisterNetworkData` call that succeeds is idempotent: repeating the same
call on the resulting state leaves the registry byte-for-byte identical and
both the version and stable-version counters unchanged. -/
theorem C2_register_idempotent (r : Nat) (net : List NetTlv) (s : Leader)
    (hc : s.isClone = false) (hinv : Inv s)
    (hok : (registerNetworkData r net s).1 = .ok) :
    (registerNetworkData r net (registerNetworkData r net s).2).2.tlvs =
      (registerNetworkData r net s).2.tlvs ∧
    (registerNetworkData r net (registerNetworkData r net s).2).2.version =
      (registerNetworkData r net s).2.version ∧
    (registerNetworkData r net
        (registerNetworkData r net s).2).2.stableVersion =
      (registerNetworkData r net s).2.stableVersion := by
  -- the first run passed both guards
  have hra : s.routerAllocated (routerIdFromRloc16 r) = true := by
    by_contra hq
    simp only [Bool.not_eq_true] at hq
    unfold registerNetworkData at hok
    rw [if_pos (by simp [hq])] at hok
    exact absurd hok (by simp)
  have hval : validate net r = .ok := by
    rcases hv : validate net r with _ | _ | _ | _ | _ | _
    case ok => rfl
    all_goals
      unfold registerNetworkData at hok
      rw [if_neg (by simp [hra])] at hok
      simp only [hv] at hok
      exact absurd hok (by simp)
  have hreg1 := register_ok_form r net s hra hval
  have hokA : (addAll net (removeRlocEx r .rloc16 net s flags0).1
      (removeRlocEx r .rloc16 net s flags0).2).1 = .ok := by
    rw [hreg1] at hok
    exact hok
  -- validator facts about the blob
  obtain ⟨hPfacts, hSfacts, hPW⟩ := validateLoop_ok_facts r net [] hval
  -- the sweep leaves a clean registry; the add pass keeps it clean and
  -- absorbs every submitted TLV
  have hclean0 : Clean net r (removeRlocEx r .rloc16 net s flags0).1.tlvs :=
    sweepTlvs_clean r net s.now s.reuseDelay s.isClone s.tlvs s.slots flags0
  obtain ⟨hclean1, hgoodP, hgoodS⟩ := addAll_post net r net
    (removeRlocEx r .rloc16 net s flags0).1
    (removeRlocEx r .rloc16 net s flags0).2
    (fun p hp => ⟨(hPfacts p hp).2.1, (hPfacts p hp).2.2.1⟩)
    (fun v hv => (hSfacts v hv).2.1)
    hPW hclean0 hokA
  -- transport to the state returned by the first run
  have hs1tlvs : (registerNetworkData r net s).2.tlvs =
      (addAll net (removeRlocEx r .rloc16 net s flags0).1
        (removeRlocEx r .rloc16 net s flags0).2).2.1.tlvs := by
    rw [hreg1]
    simp only []
    rw [incrementVersionsF_tlvs]
  have hclean1' : Clean net r (registerNetworkData r net s).2.tlvs := by
    rw [hs1tlvs]
    exact hclean1
  have hgoodP' : ∀ p, NetTlv.pfx p ∈ net →
      GoodAtP (registerNetworkData r net s).2.tlvs p := by
    intro p hp
    rw [hs1tlvs]
    exact hgoodP p hp
  have hgoodS' : ∀ v, NetTlv.srv v ∈ net →
      GoodAtS (registerNetworkData r net s).2.tlvs v := by
    intro v hv
    rw [hs1tlvs]
    exact hgoodS v hv
  -- the context invariant survives the first run
  obtain ⟨hinv1all, hinv1nd⟩ := register_inv r net s hc hinv.1 hinv.2
  -- the second run passes both guards as well
  have hra1 : (registerNetworkData r net s).2.routerAllocated
      (routerIdFromRloc16 r) = true := by
    rw [hreg1]
    simp only []
    rw [incrementVersionsF_routerAllocated, (addAll_fields net _ _).2.1]
    exact hra
  -- the second sweep is the identity on the certified registry
  have hsw := sweepTlvs_id r net (registerNetworkData r net s).2.now
    (registerNetworkData r net s).2.reuseDelay
    (registerNetworkData r net s).2.isClone
    (registerNetworkData r net s).2.tlvs (registerNetworkData r net s).2.slots
    flags0
    (fun p hp => ⟨(hclean1'.1 p hp).1, (hclean1'.1 p hp).2.1,
      localInv_ctxOk (hinv1all p hp),
      (hclean1'.1 p hp).2.2.1, (hclean1'.1 p hp).2.2.2⟩)
    (fun v hv => hclean1'.2 v hv)
  -- facts on the second run's post-sweep state
  have hswt : (removeRlocEx r .rloc16 net (registerNetworkData r net s).2
      flags0).1.tlvs = (registerNetworkData r net s).2.tlvs := hsw.1
  have hclean2 : Clean net r (removeRlocEx r .rloc16 net
      (registerNetworkData r net s).2 flags0).1.tlvs := by
    rw [hswt]
    exact hclean1'
  have hgoodP2 : ∀ p, NetTlv.pfx p ∈ net →
      GoodAtP (removeRlocEx r .rloc16 net (registerNetworkData r net s).2
        flags0).1.tlvs p := by
    intro p hp
    rw [hswt]
    exact hgoodP' p hp
  have hgoodS2 : ∀ v, NetTlv.srv v ∈ net →
      GoodAtS (removeRlocEx r .rloc16 net (registerNetworkData r net s).2
        flags0).1.tlvs v := by
    intro v hv
    rw [hswt]
    exact hgoodS' v hv
  obtain ⟨hid1, hid2, hid3, hid4⟩ := addAll_id net r net
    (removeRlocEx r .rloc16 net (registerNetworkData r net s).2 flags0).1
    (removeRlocEx r .rloc16 net (registerNetworkData r net s).2 flags0).2
    hgoodP2 hgoodS2 hclean2
  have hfl2 : (addAll net
      (removeRlocEx r .rloc16 net (registerNetworkData r net s).2 flags0).1
      (removeRlocEx r .rloc16 net (registerNetworkData r net s).2
        flags0).2).2.2 = flags0 :=
    hid2.trans hsw.2
  refine ⟨?_, ?_, ?_⟩
  · rw [register_ok_form r net (registerNetworkData r net s).2 hra1 hval]
    simp only []
    rw [incrementVersionsF_tlvs]
    exact hid1.trans hswt
  · rw [register_ok_form r net (registerNetworkData r net s).2 hra1 hval]
    simp only []
    rw [hfl2, incrementVersionsF_flags0]
    exact hid3
  · rw [register_ok_form r net (registerNetworkData r net s).2 hra1 hval]
    simp only []
    rw [hfl2, incrementVersionsF_flags0]
    exact hid4

theorem C2_register_idempotent_witness :
    (registerNetworkData 1024
      [.pfx ⟨true, 0, 8, [32], [.hasRoute true [⟨1024, 0⟩]]⟩]
      ⟨[], 0, 0, fun _ => 0, 300, false, false, true, fun _ => true,
        none, 0⟩).1 = .ok ∧
    ((registerNetworkData 1024
        [.pfx ⟨true, 0, 8, [32], [.hasRoute true [⟨1024, 0⟩]]⟩]
        (registerNetworkData 1024
          [.pfx ⟨true, 0, 8, [32], [.hasRoute true [⟨1024, 0⟩]]⟩]
          ⟨[], 0, 0, fun _ => 0, 300, false, false, true, fun _ => true,
            none, 0⟩).2).2.tlvs =
      (registerNetworkData 1024
        [.pfx ⟨true, 0, 8, [32], [.hasRoute true [⟨1024, 0⟩]]⟩]
        ⟨[], 0, 0, fun _ => 0, 300, false, false, true, fun _ => true,
          none, 0⟩).2.tlvs ∧
     (registerNetworkData 1024
        [.pfx ⟨true, 0, 8, [32], [.hasRoute true [⟨1024, 0⟩]]⟩]
        (registerNetworkData 1024
          [.pfx ⟨true, 0, 8, [32], [.hasRoute true [⟨1024, 0⟩]]⟩]
          ⟨[], 0, 0, fun _ => 0, 300, false, false, true, fun _ => true,
            none, 0⟩).2).2.version =
      (registerNetworkData 1024
        [.pfx ⟨true, 0, 8, [32], [.hasRoute true [⟨1024, 0⟩]]⟩]
        ⟨[], 0, 0, fun _ => 0, 300, false, false, true, fun _ => true,
          none, 0⟩).2.version ∧
     (registerNetworkData 1024
        [.pfx ⟨true, 0, 8, [32], [.hasRoute true [⟨1024, 0⟩]]⟩]
        (registerNetworkData 1024
          [.pfx ⟨true, 0, 8, [32], [.hasRoute true [⟨1024, 0⟩]]⟩]
          ⟨[], 0, 0, fun _ => 0, 300, false, false, true, fun _ => true,
            none, 0⟩).2).2.stableVersion =
      (registerNetworkData 1024
        [.pfx ⟨true, 0, 8, [32], [.hasRoute true [⟨1024, 0⟩]]⟩]
        ⟨[], 0, 0, fun _ => 0, 300, false, false, true, fun _ => true,
          none, 0⟩).2.stableVersion) :=
  ⟨rfl,
    C2_register_idempotent 1024
      [.pfx ⟨true, 0, 8, [32], [.hasRoute true [⟨1024, 0⟩]]⟩]
      ⟨[], 0, 0, fun _ => 0, 300, false, false, true, fun _ => true, none, 0⟩
      rfl
      ⟨fun p hp => absurd hp (by simp [prefixesOf]), by simp [allCtxIds]⟩
      rfl⟩

end ThreadLeader
